import Mathlib

/-!
# libjson: tokenizer, parser, path resolver, typed extraction, schema validation, dump

A shallow embedding of `src/json_token.c`, `src/json_parse.c`, `src/json.c`,
`include/json_conv.h`, `src/json_validate.c` and `src/json_debug.c`.

Conventions of the embedding.

* Every C integer value (`int`, `char`, a byte of the input) is an `Int`.
  `char` is the signed 8-bit type of the x86-64 ABI that the GNU C of the
  source is written for: storing the `int` returned by `getc` in a `char`
  maps 128..255 to -128..-1 (`char_of_int`), so the byte 255 and `EOF` are
  the same `char`.
* A text (`char const *`) is the list of its characters before the
  terminating NUL.
* A `FILE` is the list of bytes still to be read plus the end-of-file and
  error indicators; `fail` says whether the source ends in a read error
  instead of a clean end-of-file.
* A function `int f(..., T *out)` that mutates the document handle returns
  the triple (status, out, handle).
* `malloc` is taken to succeed; the arena (`jdoc_head`) only matters for
  releasing memory and is left out.
* The recursive-descent functions recurse on a fuel argument; `json_parse`
  supplies fuel from the input length and is proved never to exhaust it.
* The C library functions `strtoll` and `strtoull` are defined as ISO C
  specifies them for base 10 in the C locale; `strtod` is a parameter of
  every function that reaches it.
-/

namespace Json

/-! ## libc -/

def EOF : Int := -1

def ENOENT : Nat := 2
def EIO : Nat := 5
def ENOMEM : Nat := 12
def EINVAL : Nat := 22
def ERANGE : Nat := 34
def ENOTSUP : Nat := 95

/-- Conversion of an `int` in -128..255 to (signed, 8-bit) `char`. -/
def char_of_int (i : Int) : Int := if 128 ≤ i then i - 256 else i

/-- The ctype predicates in the C locale. -/
def isascii (c : Int) : Bool := decide (0 ≤ c) && decide (c ≤ 127)

def isdigit (c : Int) : Bool := decide (48 ≤ c) && decide (c ≤ 57)

def isalpha (c : Int) : Bool :=
  (decide (65 ≤ c) && decide (c ≤ 90)) || (decide (97 ≤ c) && decide (c ≤ 122))

def isspace (c : Int) : Bool := c == 32 || (decide (9 ≤ c) && decide (c ≤ 13))

def isprint (c : Int) : Bool := decide (32 ≤ c) && decide (c ≤ 126)

def ispunct (c : Int) : Bool := isprint c && !(c == 32) && !(isalpha c) && !(isdigit c)

def tolower (c : Int) : Int := if 65 ≤ c ∧ c ≤ 90 then c + 32 else c

def toupper (c : Int) : Int := if 97 ≤ c ∧ c ≤ 122 then c - 32 else c

/-- An input stream. -/
structure FILE where
  /-- bytes not yet read -/
  data : List Int
  /-- the source ends in a read error, not in end-of-file -/
  fail : Bool
  /-- end-of-file indicator -/
  eof : Bool
  /-- error indicator -/
  err : Bool
deriving DecidableEq, Repr

/-- The stream `f` positioned before the bytes `data`. -/
def FILE.at (f : FILE) (data : List Int) : FILE := { f with data := data }

/-- The stream after a read attempt at the end of the data. -/
def FILE.atEnd (f : FILE) : FILE :=
  if f.fail then { f with data := [], err := true } else { f with data := [], eof := true }

/-- Read one byte as `unsigned char` converted to `int`, or `EOF`. -/
def getc (f : FILE) : Int × FILE :=
  match f.data with
  | b :: rest => (b % 256, f.at rest)
  | [] => (EOF, f.atEnd)

def feof (f : FILE) : Bool := f.eof

def ferror (f : FILE) : Bool := f.err

/-- A stream over a memory buffer (`fmemopen`): it ends in end-of-file. -/
def fmemopen (buf : List Int) : FILE := ⟨buf, false, false, false⟩

/-! ## Data model (`json.h`, `json_private.h`) -/

inductive json_value where
  | JSON_VAL_LITERAL (jval_lit : List Int)
  | JSON_VAL_OBJECT (jval_object : List (List Int × json_value))
  | JSON_VAL_ARRAY (jval_array : List json_value)
deriving Repr

open json_value

/-- A key/value pair: `jtup_key`, `jtup_val`. -/
abbrev json_tuple := List Int × json_value

/-- An object: `jobj_length` is the length of the list `jobj_tuples`. -/
abbrev json_object := List json_tuple

/-- An array: `jarr_length` is the length of the list `jarr_values`. -/
abbrev json_array := List json_value

instance : Inhabited json_value := ⟨JSON_VAL_LITERAL []⟩

inductive json_token_id where
  | JSON_TOK_ERR
  | JSON_TOK_EOF
  | JSON_TOK_LIT
  | JSON_TOK_COLON
  | JSON_TOK_COMMA
  | JSON_TOK_OBJECT_BEGIN
  | JSON_TOK_OBJECT_END
  | JSON_TOK_ARRAY_BEGIN
  | JSON_TOK_ARRAY_END
deriving DecidableEq, Repr

open json_token_id

structure json_token where
  tok_id : json_token_id
  tok_s : Option (List Int)
deriving DecidableEq, Repr

/-- The parser handle. -/
structure json_doc where
  jdoc_f : FILE
  jdoc_lineno : Nat
  jdoc_nextc_avail : Bool
  jdoc_nextc : Int
  jdoc_lookahead_avail : Bool
  jdoc_lookahead : json_token
  jdoc_obj : Option json_object

/-! ## Tokenizer (`json_token.c`) -/

/-- The result of `RETURN_TOKEN_ERROR(tok, err)`. -/
def RETURN_TOKEN_ERROR (doc : json_doc) (err : Nat) : Nat × json_token × json_doc :=
  (err, ⟨JSON_TOK_ERR, none⟩, doc)

/-- The result of `RETURN_TOKEN(tok, id)`. -/
def RETURN_TOKEN (doc : json_doc) (id : json_token_id) : Nat × json_token × json_doc :=
  (0, ⟨id, none⟩, doc)

/-- The result of `RETURN_TOKEN_LIT(tok, lit)`. -/
def RETURN_TOKEN_LIT (doc : json_doc) (lit : List Int) : Nat × json_token × json_doc :=
  (0, ⟨JSON_TOK_LIT, some lit⟩, doc)

/-- The size of the local buffers `char buf[64]`. -/
def BUFSIZE : Nat := 64

/-- `WRITECHAR(s, e, c)`: there is room when fewer than 64 characters are stored. -/
def WRITECHAR (buf : List Int) (c : Int) : Bool × List Int :=
  if buf.length < BUFSIZE then (true, buf ++ [c]) else (false, buf)

def _is_literal_char (c : Int) : Bool :=
  isascii c && (isalpha c || isdigit c || c == 95)

def _is_literal_string_char (c : Int) : Bool :=
  isascii c && isprint c

/-- The `while` loop of `_consume_literal`, run on the unread bytes of `f`:
the character that ended the loop, the stream, the buffer. -/
def _consume_literal_loop (f : FILE) : List Int → List Int → Int × FILE × List Int
  | [], buf => (char_of_int EOF, f.atEnd, buf)
  | b :: rest, buf =>
    let c := char_of_int (b % 256)
    if c != EOF && _is_literal_char c then
      if (WRITECHAR buf c).1 then _consume_literal_loop f rest (WRITECHAR buf c).2
      else (c, f.at rest, buf)
    else (c, f.at rest, buf)

def _consume_literal (doc : json_doc) (c : Int) : Nat × json_token × json_doc :=
  let f := doc.jdoc_f
  let buf := (WRITECHAR [] c).2
  let r := _consume_literal_loop f f.data buf
  let doc := { doc with jdoc_f := r.2.1 }
  if !(WRITECHAR r.2.2 0).1 then RETURN_TOKEN_ERROR doc EINVAL
  else RETURN_TOKEN_LIT { doc with jdoc_nextc := r.1, jdoc_nextc_avail := true } r.2.2

/-- How the `while` loop of `_consume_literal_string` is left. -/
inductive string_exit where
  /-- a `RETURN_TOKEN_ERROR` inside the loop -/
  | ret (err : Nat) (f : FILE)
  /-- the loop condition failed or `break`: last character read, stream, buffer -/
  | out (c : Int) (f : FILE) (buf : List Int)

/-- The `while` loop of `_consume_literal_string`, run on the unread bytes of `f`. -/
def _consume_literal_string_loop (f : FILE) : List Int → List Int → string_exit
  | [], buf => .out (char_of_int EOF) f.atEnd buf
  | b :: rest, buf =>
    let c := char_of_int (b % 256)
    if c != EOF && c != 34 then
      if c == 92 then
        match rest with
        | [] => .out (char_of_int EOF) f.atEnd buf
        | b2 :: rest2 =>
          let c2 := char_of_int (b2 % 256)
          if c2 == EOF then .out c2 (f.at rest2) buf
          else if !_is_literal_string_char c2 then .ret EINVAL (f.at rest2)
          else if !(WRITECHAR buf c2).1 then .ret EINVAL (f.at rest2)
          else _consume_literal_string_loop f rest2 (WRITECHAR buf c2).2
      else if !_is_literal_string_char c then .ret EINVAL (f.at rest)
      else if !(WRITECHAR buf c).1 then .ret EINVAL (f.at rest)
      else _consume_literal_string_loop f rest (WRITECHAR buf c).2
    else .out c (f.at rest) buf

def _consume_literal_string (doc : json_doc) (_c : Int) : Nat × json_token × json_doc :=
  let f := doc.jdoc_f
  match _consume_literal_string_loop f f.data [] with
  | .ret err f => RETURN_TOKEN_ERROR { doc with jdoc_f := f } err
  | .out c f buf =>
    let doc := { doc with jdoc_f := f }
    if c == EOF then RETURN_TOKEN_ERROR doc (if feof f then EINVAL else EIO)
    else if !(WRITECHAR buf 0).1 then RETURN_TOKEN_ERROR doc EINVAL
    else RETURN_TOKEN_LIT doc buf

/-- The states of the number automaton: `enum { ST, IN, ZR, DO, FR, XX }`. -/
def ST : Nat := 0
def IN : Nat := 1
def ZR : Nat := 2
def DO : Nat := 3
def FR : Nat := 4
def XX : Nat := 5

/-- The transition table `st[5][11]`, one line per row: column 10 is the
dot, columns 0..9 are the digits (only the row of `ST` tells 0 from 1..9). -/
def st (y : Nat) (col : Nat) : Nat :=
  match y with
  | 0 => if col = 10 then XX else if col = 0 then ZR else IN
  | 1 => if col = 10 then DO else IN
  | 2 => if col = 10 then DO else XX
  | 3 => if col = 10 then XX else FR
  | 4 => if col = 10 then XX else FR
  | _ => XX

/-- How the `do ... while` loop of `_consume_literal_number` is left. -/
inductive number_exit where
  /-- a `RETURN_TOKEN_ERROR` inside the loop -/
  | ret (err : Nat) (f : FILE)
  /-- `break` or the loop condition failed: state, last character, stream, buffer -/
  | out (y : Nat) (c : Int) (f : FILE) (buf : List Int)

/-- The `do ... while` loop of `_consume_literal_number`: the body is run on
`c` in state `y`, `data` are the unread bytes of `f`. -/
def _consume_literal_number_loop (f : FILE) :
    List Int → Nat → Int → List Int → number_exit
  | data, y, c, buf =>
    if isascii c && isdigit c then
      let y := st y (c - 48).toNat
      if y == XX then .ret EINVAL (f.at data)
      else if !(WRITECHAR buf c).1 then .ret EINVAL (f.at data)
      else
        match data with
        | [] => .out y (char_of_int EOF) f.atEnd (WRITECHAR buf c).2
        | b :: rest =>
          if char_of_int (b % 256) != EOF then
            _consume_literal_number_loop f rest y (char_of_int (b % 256)) (WRITECHAR buf c).2
          else .out y (char_of_int (b % 256)) (f.at rest) (WRITECHAR buf c).2
    else if c == 46 then
      let y := st y 10
      if y == XX then .ret EINVAL (f.at data)
      else if !(WRITECHAR buf c).1 then .ret EINVAL (f.at data)
      else
        match data with
        | [] => .out y (char_of_int EOF) f.atEnd (WRITECHAR buf c).2
        | b :: rest =>
          if char_of_int (b % 256) != EOF then
            _consume_literal_number_loop f rest y (char_of_int (b % 256)) (WRITECHAR buf c).2
          else .out y (char_of_int (b % 256)) (f.at rest) (WRITECHAR buf c).2
    else .out y c (f.at data) buf

def _consume_literal_number (doc : json_doc) (c : Int) : Nat × json_token × json_doc :=
  let f := doc.jdoc_f
  match _consume_literal_number_loop f f.data ST c [] with
  | .ret err f => RETURN_TOKEN_ERROR { doc with jdoc_f := f } err
  | .out y c f buf =>
    let doc := { doc with jdoc_f := f }
    if y != IN && y != ZR && y != FR then RETURN_TOKEN_ERROR doc EINVAL
    else if !(c == EOF || (isascii c && (isspace c || ispunct c))) then
      RETURN_TOKEN_ERROR doc EINVAL
    else if !(WRITECHAR buf 0).1 then RETURN_TOKEN_ERROR doc EINVAL
    else RETURN_TOKEN_LIT { doc with jdoc_nextc := c, jdoc_nextc_avail := true } buf

/-- The whitespace loop of `json_consume_token`: `c` is the current character
(an `int`), `data` the unread bytes of `f`; the result is the first character
that is not whitespace, the stream and the line counter. -/
def skip_space (f : FILE) : List Int → Int → Nat → Int × FILE × Nat
  | data, c, lineno =>
    if isascii c && isspace c then
      let lineno := if c == 10 then (lineno + 1) % 2 ^ 32 else lineno
      match data with
      | [] => (EOF, f.atEnd, lineno)
      | b :: rest => skip_space f rest (b % 256) lineno
    else (c, f.at data, lineno)

/-- The part of `json_consume_token` after the whitespace loop: the
end-of-file and error tests and the `switch` on the character `c`. -/
def token_switch (doc : json_doc) (c : Int) : Nat × json_token × json_doc :=
  let f := doc.jdoc_f
  if c == EOF && feof f then RETURN_TOKEN doc JSON_TOK_EOF
  else if c == EOF && ferror f then RETURN_TOKEN_ERROR doc EIO
  else if !isascii c then RETURN_TOKEN_ERROR doc EINVAL
  else if c == 123 then RETURN_TOKEN doc JSON_TOK_OBJECT_BEGIN
  else if c == 125 then RETURN_TOKEN doc JSON_TOK_OBJECT_END
  else if c == 58 then RETURN_TOKEN doc JSON_TOK_COLON
  else if c == 91 then RETURN_TOKEN doc JSON_TOK_ARRAY_BEGIN
  else if c == 93 then RETURN_TOKEN doc JSON_TOK_ARRAY_END
  else if c == 44 then RETURN_TOKEN doc JSON_TOK_COMMA
  else if (decide (97 ≤ c) && decide (c ≤ 122)) || (decide (65 ≤ c) && decide (c ≤ 90))
      || c == 95 then _consume_literal doc c
  else if c == 34 then _consume_literal_string doc c
  else if decide (48 ≤ c) && decide (c ≤ 57) then _consume_literal_number doc c
  else RETURN_TOKEN_ERROR doc EINVAL

def json_consume_token (doc : json_doc) : Nat × json_token × json_doc :=
  if doc.jdoc_lookahead_avail then
    (0, doc.jdoc_lookahead, { doc with jdoc_lookahead_avail := false })
  else
    let r0 := if doc.jdoc_nextc_avail then (doc.jdoc_nextc, doc.jdoc_f) else getc doc.jdoc_f
    let r := skip_space r0.2 r0.2.data r0.1 doc.jdoc_lineno
    token_switch
      { doc with jdoc_nextc_avail := false, jdoc_f := r.2.1, jdoc_lineno := r.2.2 } r.1

def json_peek_token (doc : json_doc) : Nat × json_token × json_doc :=
  let r := json_consume_token doc
  if r.1 != 0 then r
  else (0, r.2.1, { r.2.2 with jdoc_lookahead_avail := true, jdoc_lookahead := r.2.1 })

/-! ## Parser (`json_parse.c`) -/

/-- What a parsing function returns: status 0 with the value stored through
the out-parameter and the handle, a non-zero status (the out-parameter is
then not read by any caller), or `nofuel` when the recursion budget of the
embedding is used up. -/
inductive outcome (α : Type) where
  | ok (a : α) (doc : json_doc)
  | error (err : Nat)
  | nofuel

/-- Sequencing: `if ((err = f(...))) return err;` followed by the rest. -/
def outcome.bind {α β : Type} (r : outcome α) (k : α → json_doc → outcome β) : outcome β :=
  match r with
  | .ok a doc => k a doc
  | .error err => .error err
  | .nofuel => .nofuel

/-- A tokenizer call followed by `if (err) return err;`. -/
def token_outcome (r : Nat × json_token × json_doc) : outcome json_token :=
  if r.1 != 0 then .error r.1 else .ok r.2.1 r.2.2

def _match (doc : json_doc) (id : json_token_id) : outcome json_token :=
  (token_outcome (json_consume_token doc)).bind fun tok doc =>
    if tok.tok_id != id then .error EINVAL else .ok tok doc

/-- Memory as `malloc` returns it, for one array slot. -/
def uninit_value : json_value := JSON_VAL_LITERAL []

/-- Memory as `malloc` returns it, for one tuple slot. -/
def uninit_tuple : json_tuple := ([], uninit_value)

mutual

def _Value : Nat → json_doc → outcome json_value
  | 0, _ => .nofuel
  | fuel + 1, doc =>
    (token_outcome (json_consume_token doc)).bind fun tok doc =>
      match tok.tok_id with
      | JSON_TOK_LIT => .ok (JSON_VAL_LITERAL (tok.tok_s.getD [])) doc
      | JSON_TOK_OBJECT_BEGIN =>
        (_Object fuel doc).bind fun obj doc => .ok (JSON_VAL_OBJECT obj) doc
      | JSON_TOK_ARRAY_BEGIN =>
        (_Array fuel doc).bind fun arr doc => .ok (JSON_VAL_ARRAY arr) doc
      | _ => .error EINVAL

def _Array_r : Nat → json_doc → Nat → outcome json_array
  | 0, _, _ => .nofuel
  | fuel + 1, doc, ix =>
    (_Value fuel doc).bind fun val doc =>
      (token_outcome (json_consume_token doc)).bind fun tok doc =>
        match tok.tok_id with
        | JSON_TOK_COMMA =>
          (_Array_r fuel doc (ix + 1)).bind fun array doc => .ok (array.set ix val) doc
        | JSON_TOK_ARRAY_END =>
          .ok ((List.replicate (ix + 1) uninit_value).set ix val) doc
        | _ => .error EINVAL

def _Array : Nat → json_doc → outcome json_array
  | 0, _ => .nofuel
  | fuel + 1, doc =>
    (token_outcome (json_peek_token doc)).bind fun tok doc =>
      if tok.tok_id == JSON_TOK_ARRAY_END then
        .ok [] (json_consume_token doc).2.2
      else _Array_r fuel doc 0

def _Object_r : Nat → json_doc → Nat → outcome json_object
  | 0, _, _ => .nofuel
  | fuel + 1, doc, ix =>
    (_match doc JSON_TOK_LIT).bind fun tok doc =>
      let key := tok.tok_s.getD []
      (_match doc JSON_TOK_COLON).bind fun _ doc =>
        (_Value fuel doc).bind fun val doc =>
          (token_outcome (json_consume_token doc)).bind fun tok doc =>
            match tok.tok_id with
            | JSON_TOK_COMMA =>
              (_Object_r fuel doc (ix + 1)).bind fun obj doc => .ok (obj.set ix (key, val)) doc
            | JSON_TOK_OBJECT_END =>
              .ok ((List.replicate (ix + 1) uninit_tuple).set ix (key, val)) doc
            | _ => .error EINVAL

def _Object : Nat → json_doc → outcome json_object
  | 0, _ => .nofuel
  | fuel + 1, doc =>
    (token_outcome (json_peek_token doc)).bind fun tok doc =>
      if tok.tok_id == JSON_TOK_OBJECT_END then
        .ok [] (json_consume_token doc).2.2
      else _Object_r fuel doc 0

end

def _Start (fuel : Nat) (doc : json_doc) : outcome json_object :=
  (_match doc JSON_TOK_OBJECT_BEGIN).bind fun _ doc => _Object fuel doc

/-- The handle `json_parse` starts from: `{ .jdoc_f = f, .jdoc_lineno = 1 }`,
every other field zero (the look-ahead token is not read while
`jdoc_lookahead_avail` is false). -/
def json_doc.init (f : FILE) : json_doc :=
  { jdoc_f := f, jdoc_lineno := 1, jdoc_nextc_avail := false, jdoc_nextc := 0,
    jdoc_lookahead_avail := false, jdoc_lookahead := ⟨JSON_TOK_ERR, none⟩, jdoc_obj := none }

/-- The function `json_parse` run with a given recursion budget: the returned
status and `*newdoc`, or `none` when the budget is used up. -/
def json_parse_fuel (fuel : Nat) (f : FILE) : Option (Nat × Option json_doc) :=
  match _Start fuel (json_doc.init f) with
  | .ok obj doc => some (0, some { doc with jdoc_obj := some obj })
  | .error err => some (err, none)
  | .nofuel => none

/-- A recursion budget that `json_parse` cannot exhaust on `f`. -/
def parse_fuel (f : FILE) : Nat := 9 * f.data.length + 3

def json_parse (f : FILE) : Option (Nat × Option json_doc) :=
  json_parse_fuel (parse_fuel f) f

/-- The function `json_parse_string` on the text `str`: the stream is opened
over `strlen(str)` bytes of a copy. -/
def json_parse_string (str : List Int) : Option (Nat × Option json_doc) :=
  json_parse (fmemopen str)

/-- The function `json_parse_data` on a buffer of `size` bytes. -/
def json_parse_data (buf : List Int) (size : Nat) : Option (Nat × Option json_doc) :=
  json_parse (fmemopen (buf.take size))

def json_doc_object (doc : json_doc) : Option json_object := doc.jdoc_obj

/-! ## Path resolution (`json.c`) -/

/-- The function `strlen`. -/
def strlen (s : List Int) : Nat := s.length

/-- The offset of the first `/` of `path`, or of its end:
`(strchr(path, 47) ?: path + strlen(path)) - path`. -/
def segment_length (path : List Int) : Nat := (path.takeWhile fun c => c != 47).length

/-- The function `strncasecmp`: the difference of the first pair of
characters that differ after `tolower` among the first `n`, or 0; a text
that has ended counts as the character 0. -/
def strncasecmp : List Int → List Int → Nat → Int
  | _, _, 0 => 0
  | [], [], _ + 1 => 0
  | [], c2 :: _, _ + 1 => 0 - tolower c2
  | c1 :: _, [], _ + 1 => tolower c1 - 0
  | c1 :: s1, c2 :: s2, n + 1 =>
    if tolower c1 != tolower c2 then tolower c1 - tolower c2
    else strncasecmp s1 s2 n

/-- The `for` loop of `json_get_value` over the tuples from index `i` on;
`rest` is the path from `e` on and `recurse` the recursive call. -/
def json_get_value_loop (recurse : json_object → List Int → Option (Option json_value))
    (path : List Int) (len : Nat) (rest : List Int) :
    List json_tuple → Option (Option json_value)
  | [] => some none
  | (key, val) :: tuples =>
    if strlen key != len || strncasecmp key path len != 0 then
      json_get_value_loop recurse path len rest tuples
    else
      match rest, val with
      | _ :: after, JSON_VAL_OBJECT obj => recurse obj after
      | [], val => some (some val)
      | _, _ => some none

/-- The function `json_get_value` with a recursion budget: `none` when the
budget is used up, `some none` for `NULL`. -/
def json_get_value_fuel : Nat → json_object → List Int → Option (Option json_value)
  | 0, _, _ => none
  | fuel + 1, obj, path =>
    let len := segment_length path
    if len == 0 then some none
    else
      json_get_value_loop (fun o p => json_get_value_fuel fuel o p)
        path len (path.drop len) obj

/-- The function `json_get_value`; `none` is `NULL`. The budget is enough,
see `json_get_value_fuel_eq`. -/
def json_get_value (obj : json_object) (path : List Int) : Option json_value :=
  (json_get_value_fuel (path.length + 1) obj path).getD none

/-- The characters of a string constant. -/
def text (s : String) : List Int := s.toList.map fun c => (c.toNat : Int)

/-! ## Path resolution as the specification words it -/

/-- The segments of a path: the pieces between its `/` characters. -/
def split_path : List Int → List (List Int)
  | [] => [[]]
  | c :: cs =>
    if c == 47 then [] :: split_path cs
    else
      match split_path cs with
      | seg :: segs => (c :: seg) :: segs
      | [] => [[c]]

/-- A key matches a segment when it has the same length and the same
characters ignoring ASCII case. -/
def key_matches (key seg : List Int) : Bool :=
  key.length == seg.length && key.map tolower == seg.map tolower

/-- Resolution of a list of segments as the specification words it: at each
step the first tuple whose key matches the segment is taken; the last
segment returns its value, any other segment continues in its value, which
must be an object. -/
def get_value_spec : json_object → List (List Int) → Option json_value
  | _, [] => none
  | obj, seg :: segs =>
    match obj.find? fun t => key_matches t.1 seg with
    | none => none
    | some t =>
      if segs = [] then some t.2
      else
        match t.2 with
        | JSON_VAL_OBJECT o => get_value_spec o segs
        | _ => none

/-- The same resolution in which an empty segment is never matched. -/
def get_value_spec_nonempty : json_object → List (List Int) → Option json_value
  | _, [] => none
  | obj, seg :: segs =>
    if seg = [] then none
    else
      match obj.find? fun t => key_matches t.1 seg with
      | none => none
      | some t =>
        if segs = [] then some t.2
        else
          match t.2 with
          | JSON_VAL_OBJECT o => get_value_spec_nonempty o segs
          | _ => none

/-! ## Lexemes, token sequences and sentences -/

/-- The literal token with a given text. -/
def lit_tok (s : List Int) : json_token := ⟨JSON_TOK_LIT, some s⟩

/-- The token of a punctuation character. -/
def punct_tok (id : json_token_id) : json_token := ⟨id, none⟩

/-- The byte that spells a punctuation token. -/
def punct_char : json_token_id → Option Int
  | JSON_TOK_OBJECT_BEGIN => some 123
  | JSON_TOK_OBJECT_END => some 125
  | JSON_TOK_ARRAY_BEGIN => some 91
  | JSON_TOK_ARRAY_END => some 93
  | JSON_TOK_COLON => some 58
  | JSON_TOK_COMMA => some 44
  | _ => none

/-- A byte that can follow a literal in a sentence: whitespace or one of
the six punctuation characters. -/
def is_delim (t : Int) : Bool :=
  isspace t || t == 123 || t == 125 || t == 91 || t == 93 || t == 58 || t == 44

/-- The language `0 | [1-9][0-9]*`. -/
def is_int_part : List Int → Bool
  | [] => false
  | d :: ds => (d == 48 && ds.isEmpty) || (decide (49 ≤ d) && decide (d ≤ 57) && ds.all isdigit)

/-- The language `(\.[0-9]+)?`. -/
def is_frac_part : List Int → Bool
  | [] => true
  | d :: ds => d == 46 && !ds.isEmpty && ds.all isdigit

/-- The language `(0 | [1-9][0-9]*)(\.[0-9]+)?`: the leading digits are an
integer part and what follows them is a fraction part. -/
def is_number (s : List Int) : Bool :=
  is_int_part (s.takeWhile isdigit) && is_frac_part (s.dropWhile isdigit)

/-- The column of the transition table that a digit or a dot selects. -/
def number_column (c : Int) : Nat := if c == 46 then 10 else (c - 48).toNat

/-- The state of the number automaton after the characters `s` from state `y`. -/
def number_state (y : Nat) (s : List Int) : Nat :=
  s.foldl (fun y c => st y (number_column c)) y

/-- The source bytes of the body of a quoted literal: each item is a kept
character and whether it is written after a backslash. -/
def quoted_body : List (Bool × Int) → List Int
  | [] => []
  | (true, c) :: items => 92 :: c :: quoted_body items
  | (false, c) :: items => c :: quoted_body items

/-- A kept character is printable ASCII, and is written after a backslash
when it is a double quote or a backslash. -/
def quoted_item_ok (it : Bool × Int) : Bool :=
  _is_literal_string_char it.2 && (it.1 || (it.2 != 34 && it.2 != 92))

/-- `Lexeme s lx`: the bytes `lx` are a way to write the literal text `s`,
as an unquoted, a quoted or a numeric literal of at most 63 characters. -/
inductive Lexeme : List Int → List Int → Prop
  | unquoted (c : Int) (cs : List Int) :
      (isalpha c || c == 95) = true → cs.all _is_literal_char = true →
      (c :: cs).length ≤ 63 → Lexeme (c :: cs) (c :: cs)
  | quoted (items : List (Bool × Int)) :
      items.all quoted_item_ok = true → items.length ≤ 63 →
      Lexeme (items.map Prod.snd) (34 :: (quoted_body items ++ [34]))
  | number (s : List Int) :
      is_number s = true → s.length ≤ 63 → Lexeme s s

/-- `Spelled ts bs`: the bytes `bs` spell the token sequence `ts`, every
token after optional whitespace; a literal is followed by a punctuation
token, as it is everywhere in the grammar. -/
inductive Spelled : List json_token → List Int → Prop
  | nil : Spelled [] []
  | punct (ws : List Int) (id : json_token_id) (c : Int) (ts : List json_token)
      (bs : List Int) :
      ws.all isspace = true → punct_char id = some c → Spelled ts bs →
      Spelled (punct_tok id :: ts) (ws ++ c :: bs)
  | lit (ws s lx : List Int) (id : json_token_id) (ts : List json_token) (bs : List Int) :
      ws.all isspace = true → Lexeme s lx → (punct_char id).isSome = true →
      Spelled (punct_tok id :: ts) bs →
      Spelled (lit_tok s :: punct_tok id :: ts) (ws ++ lx ++ bs)

mutual

/-- The tokens of `Value = Literal | Object | Array`; an object or array
is its opening token followed by `object_tokens` or `array_tokens`. -/
def value_tokens : json_value → List json_token
  | JSON_VAL_LITERAL s => [lit_tok s]
  | JSON_VAL_OBJECT o => punct_tok JSON_TOK_OBJECT_BEGIN :: object_tokens o
  | JSON_VAL_ARRAY a => punct_tok JSON_TOK_ARRAY_BEGIN :: array_tokens a

/-- The tokens of `( Tuple (',' Tuple)* )? '}'`. -/
def object_tokens : List (List Int × json_value) → List json_token
  | [] => [punct_tok JSON_TOK_OBJECT_END]
  | (k, v) :: more =>
    lit_tok k :: punct_tok JSON_TOK_COLON :: (value_tokens v ++ object_tail_tokens more)

/-- The tokens of `(',' Tuple)* '}'`. -/
def object_tail_tokens : List (List Int × json_value) → List json_token
  | [] => [punct_tok JSON_TOK_OBJECT_END]
  | (k, v) :: more =>
    punct_tok JSON_TOK_COMMA :: lit_tok k :: punct_tok JSON_TOK_COLON ::
      (value_tokens v ++ object_tail_tokens more)

/-- The tokens of `( Value (',' Value)* )? ']'`. -/
def array_tokens : List json_value → List json_token
  | [] => [punct_tok JSON_TOK_ARRAY_END]
  | v :: more => value_tokens v ++ array_tail_tokens more

/-- The tokens of `(',' Value)* ']'`. -/
def array_tail_tokens : List json_value → List json_token
  | [] => [punct_tok JSON_TOK_ARRAY_END]
  | v :: more => punct_tok JSON_TOK_COMMA :: (value_tokens v ++ array_tail_tokens more)

end

/-- `Sentence obj input`: the bytes `input` are a sentence of
`Document = Object` whose tuples, in order, are those of `obj`. -/
def Sentence (obj : json_object) (input : List Int) : Prop :=
  Spelled (value_tokens (JSON_VAL_OBJECT obj)) input

/-- The handle has no look-ahead token and the bytes it will read next,
the pushed-back character first, are `input`. -/
def Pending (d : json_doc) (input : List Int) : Prop :=
  d.jdoc_lookahead_avail = false ∧
  ((d.jdoc_nextc_avail = false ∧ d.jdoc_f.data = input) ∨
   (d.jdoc_nextc_avail = true ∧ input = d.jdoc_nextc :: d.jdoc_f.data))

/-- `Toks d ts`: successive calls of `json_consume_token` from `d` succeed
and return the tokens `ts` in order. -/
def Toks : json_doc → List json_token → Prop
  | _, [] => True
  | d, t :: ts =>
    (json_consume_token d).1 = 0 ∧ (json_consume_token d).2.1 = t ∧
      Toks (json_consume_token d).2.2 ts

/-- The results (status and token) of the next `n` calls of `json_consume_token`. -/
def token_stream : Nat → json_doc → List (Nat × json_token)
  | 0, _ => []
  | n + 1, d =>
    ((json_consume_token d).1, (json_consume_token d).2.1) ::
      token_stream n (json_consume_token d).2.2

/-- The weight of a pushed-back character in `doc_measure`. -/
def char_weight (c : Int) : Nat := if isascii c then 2 else 1

/-- The measure that every successful token other than end-of-input
decreases: three per unread byte, two for a pushed-back ASCII character, one
for a pushed-back character that is not ASCII, one for a look-ahead token. -/
def doc_measure (d : json_doc) : Nat :=
  3 * d.jdoc_f.data.length
    + (if d.jdoc_nextc_avail then char_weight d.jdoc_nextc else 0)
    + (if d.jdoc_lookahead_avail then 1 else 0)

/-- The character and the stream that the next `c = getc(f)` on the unread
bytes `data` gives, `c` being a `char`. -/
def next_char (f : FILE) : List Int → Int × FILE
  | [] => (char_of_int EOF, f.atEnd)
  | b :: rest => (char_of_int (b % 256), f.at rest)

/-- The handle and the character with which `json_consume_token` enters its
`switch` when there is no look-ahead token: the pushed-back or next
character is taken and whitespace is skipped. -/
def after_space (d : json_doc) : json_doc × Int :=
  let r0 := if d.jdoc_nextc_avail then (d.jdoc_nextc, d.jdoc_f) else getc d.jdoc_f
  let r := skip_space r0.2 r0.2.data r0.1 d.jdoc_lineno
  ({ d with jdoc_nextc_avail := false, jdoc_f := r.2.1, jdoc_lineno := r.2.2 }, r.1)

/-- `r1.below r2`: the outcome `r1` is `r2`, or the budget was used up. -/
def outcome.below {α : Type} (r1 r2 : outcome α) : Prop := r1 = .nofuel ∨ r1 = r2

/-- An error outcome carries a non-zero status. -/
def outcome.error_nonzero {α : Type} (r : outcome α) : Prop := ∀ e, r = .error e → e ≠ 0

/-- The outcome is not `nofuel`, and a success leaves a handle of measure below `m`. -/
def outcome.within {α : Type} (r : outcome α) (m : Nat) : Prop :=
  r ≠ .nofuel ∧ ∀ a d, r = .ok a d → doc_measure d < m

/-- The next call of `json_consume_token` succeeds with the end-of-input token. -/
def next_is_eof (d : json_doc) : Prop :=
  (json_consume_token d).1 = 0 ∧ (json_consume_token d).2.1.tok_id = JSON_TOK_EOF

/-- The bytes `tail` do not continue an unquoted literal: they are empty or
start with a byte that, read as a `char`, is not a literal character. -/
def ends_literal : List Int → Bool
  | [] => true
  | b :: _ => !_is_literal_char (char_of_int (b % 256))

/-- The bytes `tail` do not continue a run of digits and dots. -/
def ends_number_run : List Int → Bool
  | [] => true
  | b :: _ =>
    !(isascii (char_of_int (b % 256)) && isdigit (char_of_int (b % 256))) &&
      !(char_of_int (b % 256) == 46)

/-- The bytes `tail` terminate a numeric literal: they are empty or start
with an ASCII whitespace or punctuation character other than the dot. -/
def terminates_number : List Int → Bool
  | [] => true
  | b :: _ => isascii b && (isspace b || ispunct b) && !(b == 46)

/-! ## Conversions (`json_conv.h`) -/

def INT_MAX : Int := 2147483647
def INT_MIN : Int := -2147483648
def UINT_MAX : Int := 4294967295
def UINT32_MAX : Int := 4294967295
def LLONG_MAX : Int := 9223372036854775807
def LLONG_MIN : Int := -9223372036854775808
def ULLONG_MAX : Int := 18446744073709551615

/-- What a call `strtoX(lit, &endptr, 10)` made with `errno` 0 leaves: the
returned value, the offset of `endptr` from `lit`, and `errno`. -/
structure conversion (α : Type) where
  value : α
  endptr : Nat
  errno : Nat
deriving DecidableEq, Repr

/-- The number that a run of decimal digits denotes, after the digits
that gave `acc`. -/
def digits_value (acc : Nat) : List Int → Nat
  | [] => acc
  | d :: ds => digits_value (10 * acc + (d - 48).toNat) ds

/-- The subject sequence of an integer conversion in base 10. -/
structure subject where
  /-- the number of characters before the digits: white space and a sign -/
  start : Nat
  /-- a minus sign was read -/
  minus : Bool
  /-- the longest run of digits after them -/
  digits : List Int
deriving DecidableEq, Repr

/-- The text after an optional sign: whether it is a minus sign, the
number of characters taken, the rest. -/
def take_sign : List Int → Bool × Nat × List Int
  | 45 :: rest => (true, 1, rest)
  | 43 :: rest => (false, 1, rest)
  | rest => (false, 0, rest)

/-- The subject sequence of `strtoll` and `strtoull` in base 10 (C locale):
white space is skipped, then an optional sign, then the digits. -/
def subject_of (s : List Int) : subject :=
  let sign := take_sign (s.dropWhile isspace)
  ⟨(s.takeWhile isspace).length + sign.2.1, sign.1, sign.2.2.takeWhile isdigit⟩

/-- The C library function `strtoll` in base 10, as ISO C 7.22.1.4 defines
it: with no digits nothing is converted and `endptr` is the text itself;
a value outside `long long` gives the nearest bound and `ERANGE`. -/
def strtoll (s : List Int) : conversion Int :=
  let sub := subject_of s
  if sub.digits.isEmpty then ⟨0, 0, 0⟩
  else
    let n : Int := digits_value 0 sub.digits
    let v := if sub.minus then -n else n
    let e := sub.start + sub.digits.length
    if v > LLONG_MAX then ⟨LLONG_MAX, e, ERANGE⟩
    else if v < LLONG_MIN then ⟨LLONG_MIN, e, ERANGE⟩
    else ⟨v, e, 0⟩

/-- The C library function `strtoull` in base 10: a magnitude above
`ULLONG_MAX` gives `ULLONG_MAX` and `ERANGE`; after a minus sign the value
is negated in the unsigned type. -/
def strtoull (s : List Int) : conversion Int :=
  let sub := subject_of s
  if sub.digits.isEmpty then ⟨0, 0, 0⟩
  else
    let n : Int := digits_value 0 sub.digits
    let e := sub.start + sub.digits.length
    if n > ULLONG_MAX then ⟨ULLONG_MAX, e, ERANGE⟩
    else ⟨if sub.minus then (ULLONG_MAX + 1 - n) % (ULLONG_MAX + 1) else n, e, 0⟩

/-- A `double`, by the 64 bits of its representation. -/
structure double where
  bits : Nat
deriving DecidableEq, Repr

/-- The function `str2int64`: the status and `*val` after the call. -/
def str2int64 (lit : List Int) : Nat × Int :=
  if lit.isEmpty then (EINVAL, 0)
  else
    let r := strtoll lit
    if decide (r.endptr < lit.length) || r.errno != 0 then (EINVAL, 0)
    else (0, r.value)

/-- The function `str2uint64`: the status and the value stored through
`val`, `none` when nothing is stored. -/
def str2uint64 (lit : List Int) : Nat × Option Int :=
  if lit.isEmpty then (EINVAL, none)
  else
    let r := strtoull lit
    if decide (r.endptr < lit.length) || r.errno != 0 then (EINVAL, none)
    else (0, some r.value)

def str2uint32 (s : List Int) : Nat × Option Int :=
  match str2uint64 s with
  | (0, some u) => if u > UINT32_MAX then (EINVAL, none) else (0, some u)
  | (err, _) => (err, none)

def str2int (lit : List Int) : Nat × Option Int :=
  let r := str2int64 lit
  if r.1 != 0 then (r.1, none)
  else if r.2 < INT_MIN || r.2 > INT_MAX then (ERANGE, none)
  else (0, some r.2)

def str2uint (lit : List Int) : Nat × Option Int :=
  let r := str2int64 lit
  if r.1 != 0 then (r.1, none)
  else if r.2 < 0 || r.2 > UINT_MAX then (ERANGE, none)
  else (0, some r.2)

/-- The function `str2double`; the C library function `strtod` is a
parameter of the embedding. -/
def str2double (strtod : List Int → conversion double) (lit : List Int) :
    Nat × Option double :=
  if lit.isEmpty then (EINVAL, none)
  else
    let r := strtod lit
    if decide (r.endptr < lit.length) || r.errno != 0 then (EINVAL, none)
    else (0, some r.value)

/-! ## Typed extraction (`json.c`) -/

def json_get_literal (obj : json_object) (path : List Int) : Option (List Int) :=
  match json_get_value obj path with
  | some (JSON_VAL_LITERAL lit) => some lit
  | _ => none

def json_get_object (obj : json_object) (path : List Int) : Option json_object :=
  match json_get_value obj path with
  | some (JSON_VAL_OBJECT o) => some o
  | _ => none

def json_get_array (obj : json_object) (path : List Int) : Option json_array :=
  match json_get_value obj path with
  | some (JSON_VAL_ARRAY a) => some a
  | _ => none

def json_get_double (strtod : List Int → conversion double) (obj : json_object)
    (path : List Int) : Nat × Option double :=
  match json_get_literal obj path with
  | some lit => str2double strtod lit
  | none => (ENOENT, none)

def json_get_int (obj : json_object) (path : List Int) : Nat × Option Int :=
  match json_get_literal obj path with
  | some lit => str2int lit
  | none => (ENOENT, none)

def json_get_uint (obj : json_object) (path : List Int) : Nat × Option Int :=
  match json_get_literal obj path with
  | some lit => str2uint lit
  | none => (ENOENT, none)

/-- The content of `*val` after a call that stored `w` through `val`, or
nothing when `w` is `none`. -/
def stored {α : Type} (old : α) (w : Option α) : α := w.getD old

/-- The `for` loop of `json_get_array_of_uint32` over the values from index
`i` on: the vector at the end of the loop, or `none` for `goto fail_1`. -/
def json_get_array_of_uint32_loop : List json_value → Nat → List Int → Option (List Int)
  | [], _, vec => some vec
  | jval :: rest, i, vec =>
    match jval with
    | JSON_VAL_LITERAL lit =>
      if (str2uint32 lit).1 != 0 then none
      else json_get_array_of_uint32_loop rest (i + 1)
        (vec.set i (stored (vec.getD i 0) (str2uint32 lit).2))
    | _ => none

/-- The function `json_get_array_of_uint32`: the status, `*outvec` (`none`
is `NULL`) and `*outlen`. The vector starts as `malloc` returns it. -/
def json_get_array_of_uint32 (jarr : json_array) : Nat × Option (List Int) × Nat :=
  let len := jarr.length
  match json_get_array_of_uint32_loop jarr 0 (List.replicate len 0) with
  | some vec => (0, some vec, len)
  | none => (EINVAL, none, 0)

def json_get_array_of_uint64_loop : List json_value → Nat → List Int → Option (List Int)
  | [], _, vec => some vec
  | jval :: rest, i, vec =>
    match jval with
    | JSON_VAL_LITERAL lit =>
      if (str2uint64 lit).1 != 0 then none
      else json_get_array_of_uint64_loop rest (i + 1)
        (vec.set i (stored (vec.getD i 0) (str2uint64 lit).2))
    | _ => none

def json_get_array_of_uint64 (jarr : json_array) : Nat × Option (List Int) × Nat :=
  let len := jarr.length
  match json_get_array_of_uint64_loop jarr 0 (List.replicate len 0) with
  | some vec => (0, some vec, len)
  | none => (EINVAL, none, 0)

def json_get_array_of_text_loop :
    List json_value → Nat → List (List Int) → Option (List (List Int))
  | [], _, vec => some vec
  | jval :: rest, i, vec =>
    match jval with
    | JSON_VAL_LITERAL lit => json_get_array_of_text_loop rest (i + 1) (vec.set i lit)
    | _ => none

def json_get_array_of_text (jarr : json_array) : Nat × Option (List (List Int)) × Nat :=
  let len := jarr.length
  match json_get_array_of_text_loop jarr 0 (List.replicate len []) with
  | some vec => (0, some vec, len)
  | none => (EINVAL, none, 0)

/-! ## Schema validation (`json_schema.h`, `json_validate.c`)

* The diagnostic buffer `buf` is the list of the characters in memory from
  the address `buf` on; a function that writes to it returns the list
  after the call, and `buf + len` is `buf.drop len`.
* An output pointer (`jdef_valptr`, `jdef_lenptr`) is an address in a
  memory of cells, `none` being `NULL`; a pointer to a vector that `malloc`
  returned is the vector.
* A schema given as a pointer and a count (`schema` and `n`, `jrec_schema`
  and `jrec_n`, `jequ_schema` and `jequ_n`) is the list of its rules, `none`
  being `NULL`.
-/

def JSON_SCHEMA_TYPE_DOUBLE : Nat := 0
def JSON_SCHEMA_TYPE_INT : Nat := 1
def JSON_SCHEMA_TYPE_OBJ : Nat := 2
def JSON_SCHEMA_TYPE_TEXT : Nat := 3
def JSON_SCHEMA_TYPE_TEXTV : Nat := 4
def JSON_SCHEMA_TYPE_UINT : Nat := 5
def JSON_SCHEMA_TYPE_UINT32V : Nat := 6
def JSON_SCHEMA_TYPE_UINT64V : Nat := 7

/-- A rule, `struct json_schema`: the operation code `jscm_op` selects the
constructor and the member of the union; `other` is a rule whose operation
code is none of the three. -/
inductive json_schema where
  | JSON_SCHEMA_OP_IFEQ (jequ_key jequ_exp : List Int)
      (jequ_schema : Option (List json_schema))
  | JSON_SCHEMA_OP_RECURSIVE (jrec_key : List Int)
      (jrec_schema : Option (List json_schema))
  | JSON_SCHEMA_OP_DEFINE (jdef_key : List Int) (jdef_type : Nat) (jdef_required : Bool)
      (jdef_valptr jdef_lenptr : Option Nat)
  | other (jscm_op : Nat)

open json_schema

/-- What an output pointer points to. -/
inductive cell where
  /-- a null pointer -/
  | null
  /-- a `struct json_object const *` -/
  | object (p : json_object)
  /-- a `char const *` -/
  | text (p : List Int)
  /-- a `char const **` -/
  | textv (p : List (List Int))
  /-- a `uint32_t *` -/
  | uint32v (p : List Int)
  /-- a `uint64_t *` -/
  | uint64v (p : List Int)
  | int (v : Int)
  | uint (v : Int)
  | double (v : double)
  /-- an `unsigned`, the length of a vector -/
  | length (v : Nat)

/-- The memory after `*p = v`. -/
def store (mem : Nat → cell) (p : Nat) (v : cell) : Nat → cell :=
  fun q => if q = p then v else mem q

/-- The memory after a call that stored `w` through `p`, or nothing. -/
def store_opt (mem : Nat → cell) (p : Nat) (w : Option cell) : Nat → cell :=
  match w with
  | some v => store mem p v
  | none => mem

/-- The characters `xs` written over the start of `buf`. -/
def poke : List Int → List Int → List Int
  | buf, [] => buf
  | [], _ :: _ => []
  | _ :: buf, x :: xs => x :: poke buf xs

/-- The function `snprintf(buf, size, ...)` for a formatted text `msg`: at
most `size - 1` characters of it and a NUL are written, nothing when `size`
is 0; the result is the buffer and the returned length of `msg`. -/
def snprintf (buf : List Int) (size : Nat) (msg : List Int) : List Int × Nat :=
  (if size = 0 then buf else poke buf (msg.take (size - 1) ++ [0]), msg.length)

/-- The function `strcasecmp`: the difference of the first pair of
characters that differ after `tolower`, or 0; a text that has ended counts
as the character 0. -/
def strcasecmp : List Int → List Int → Int
  | [], [] => 0
  | [], c2 :: _ => 0 - tolower c2
  | c1 :: _, [] => tolower c1 - 0
  | c1 :: s1, c2 :: s2 =>
    if tolower c1 != tolower c2 then tolower c1 - tolower c2
    else strcasecmp s1 s2

/-- What a validation function leaves: the returned status, the
diagnostic buffer and the memory of the output pointers. -/
structure validation where
  err : Nat
  buf : List Int
  mem : Nat → cell

/-- A label `fail_...:` that formats `msg` into the buffer and returns `err`. -/
def fail_with (err : Nat) (msg : List Int) (buf : List Int) (size : Nat)
    (mem : Nat → cell) : validation :=
  ⟨err, (snprintf buf size msg).1, mem⟩

/-- The format with one conversion `%s`: the text before it, the argument, the text after it. -/
def format_key (before : String) (key : List Int) (after : String) : List Int :=
  text before ++ key ++ text after

def invalid_schema_definition : List Int := text "invalid schema definition"

/-- The ways out of `_define`: `return 0` or the `goto` to one of its labels. -/
inductive define_exit where
  | return_0
  | fail_not_text_array
  | fail_not_uint64_array
  | fail_not_uint32_array
  | fail_not_double
  | fail_not_int
  | fail_not_uint
  | fail_not_string
  | fail_not_object
  | fail_memory
  | fail_missing
  | fail_schema
deriving DecidableEq, Repr

open define_exit

/-- The code at a label of `_define`: the status it returns and the text
that its `snprintf` formats for the key. -/
def define_label (key : List Int) : define_exit → Nat × List Int
  | return_0 => (0, [])
  | fail_not_text_array =>
    (EINVAL, format_key "expected TEXT array value for key \x60" key "\x27")
  | fail_not_uint64_array =>
    (EINVAL, format_key "expected UINT64 array value for key \x60" key "\x27")
  | fail_not_uint32_array =>
    (EINVAL, format_key "expected UINT32 array value for key \x60" key "\x27")
  | fail_not_double => (EINVAL, format_key "expected DOUBLE value for key \x60" key "\x27")
  | fail_not_int => (EINVAL, format_key "expected INT integer value for key \x60" key "\x27")
  | fail_not_uint => (EINVAL, format_key "expected UINT integer value for key \x60" key "\x27")
  | fail_not_string => (EINVAL, format_key "expected TEXT value for key \x60" key "\x27")
  | fail_not_object => (EINVAL, format_key "expected OBJECT value for key \x60" key "\x27")
  | fail_memory => (ENOMEM, format_key "cannot allocate memory for key \x60" key "\x27")
  | fail_missing => (EINVAL, format_key "missing required key \x60" key "\x27")
  | fail_schema => (ENOTSUP, invalid_schema_definition)

/-- The body of `_define` before the labels, the fields of
`it->jscm_define` being its arguments: the way out that is taken and the
memory of the output pointers then. -/
def _define_body (strtod : List Int → conversion double) (obj : json_object)
    (key : List Int) (jdef_type : Nat) (jdef_required : Bool)
    (valptr lenptr : Option Nat) (mem : Nat → cell) : define_exit × (Nat → cell) :=
  match json_get_value obj key with
  | none => if jdef_required then (fail_missing, mem) else (return_0, mem)
  | some jval =>
    if jdef_type = JSON_SCHEMA_TYPE_OBJ then
      match jval, valptr, lenptr with
      | JSON_VAL_OBJECT o, some p, none => (return_0, store mem p (cell.object o))
      | JSON_VAL_OBJECT _, _, _ => (fail_schema, mem)
      | _, _, _ => (fail_not_object, mem)
    else if jdef_type = JSON_SCHEMA_TYPE_TEXT then
      match jval, valptr, lenptr with
      | JSON_VAL_LITERAL lit, some p, none => (return_0, store mem p (cell.text lit))
      | JSON_VAL_LITERAL _, _, _ => (fail_schema, mem)
      | _, _, _ => (fail_not_string, mem)
    else if jdef_type = JSON_SCHEMA_TYPE_TEXTV then
      match jval, valptr, lenptr with
      | JSON_VAL_ARRAY jarr, some p, some q =>
        let r := json_get_array_of_text jarr
        let mem := store (store mem p ((r.2.1.map cell.textv).getD cell.null)) q
          (cell.length r.2.2)
        if r.1 = 0 then (return_0, mem)
        else if r.1 = ENOMEM then (fail_memory, mem)
        else (fail_not_text_array, mem)
      | JSON_VAL_ARRAY _, _, _ => (fail_schema, mem)
      | _, _, _ => (fail_not_text_array, mem)
    else if jdef_type = JSON_SCHEMA_TYPE_INT then
      match jval, valptr, lenptr with
      | JSON_VAL_LITERAL lit, some p, none =>
        let r := str2int lit
        let mem := store_opt mem p (r.2.map cell.int)
        if r.1 != 0 then (fail_not_int, mem) else (return_0, mem)
      | JSON_VAL_LITERAL _, _, _ => (fail_schema, mem)
      | _, _, _ => (fail_not_int, mem)
    else if jdef_type = JSON_SCHEMA_TYPE_UINT then
      match jval, valptr, lenptr with
      | JSON_VAL_LITERAL lit, some p, none =>
        let r := str2uint lit
        let mem := store_opt mem p (r.2.map cell.uint)
        if r.1 != 0 then (fail_not_uint, mem) else (return_0, mem)
      | JSON_VAL_LITERAL _, _, _ => (fail_schema, mem)
      | _, _, _ => (fail_not_uint, mem)
    else if jdef_type = JSON_SCHEMA_TYPE_DOUBLE then
      match jval, valptr, lenptr with
      | JSON_VAL_LITERAL lit, some p, none =>
        let r := str2double strtod lit
        let mem := store_opt mem p (r.2.map cell.double)
        if r.1 != 0 then (fail_not_double, mem) else (return_0, mem)
      | JSON_VAL_LITERAL _, _, _ => (fail_schema, mem)
      | _, _, _ => (fail_not_double, mem)
    else if jdef_type = JSON_SCHEMA_TYPE_UINT32V then
      match jval, valptr, lenptr with
      | JSON_VAL_ARRAY jarr, some p, some q =>
        let r := json_get_array_of_uint32 jarr
        let mem := store (store mem p ((r.2.1.map cell.uint32v).getD cell.null)) q
          (cell.length r.2.2)
        if r.1 = 0 then (return_0, mem)
        else if r.1 = ENOMEM then (fail_memory, mem)
        else (fail_not_uint32_array, mem)
      | JSON_VAL_ARRAY _, _, _ => (fail_schema, mem)
      | _, _, _ => (fail_not_uint32_array, mem)
    else if jdef_type = JSON_SCHEMA_TYPE_UINT64V then
      match jval, valptr, lenptr with
      | JSON_VAL_ARRAY jarr, some p, some q =>
        let r := json_get_array_of_uint64 jarr
        let mem := store (store mem p ((r.2.1.map cell.uint64v).getD cell.null)) q
          (cell.length r.2.2)
        if r.1 = 0 then (return_0, mem)
        else if r.1 = ENOMEM then (fail_memory, mem)
        else (fail_not_uint64_array, mem)
      | JSON_VAL_ARRAY _, _, _ => (fail_schema, mem)
      | _, _, _ => (fail_not_uint64_array, mem)
    else (fail_schema, mem)

/-- The function `_define`: its body, then `return 0` or the code at the
label that was reached. -/
def _define (strtod : List Int → conversion double) (obj : json_object)
    (key : List Int) (jdef_type : Nat) (jdef_required : Bool)
    (valptr lenptr : Option Nat) (buf : List Int) (size : Nat) (mem : Nat → cell) :
    validation :=
  let r := _define_body strtod obj key jdef_type jdef_required valptr lenptr mem
  if r.1 = return_0 then ⟨0, buf, r.2⟩
  else fail_with (define_label key r.1).1 (define_label key r.1).2 buf size r.2

mutual

/-- The function `_recursive`, the fields of `it->jscm_recursive` being
its arguments. -/
def _recursive (strtod : List Int → conversion double) (obj : json_object)
    (key : List Int) :
    Option (List json_schema) → List Int → Nat → (Nat → cell) → validation
  | none, buf, size, mem => fail_with ENOTSUP invalid_schema_definition buf size mem
  | some subschema, buf, size, mem =>
    match json_get_value obj key with
    | none =>
      fail_with EINVAL (format_key "missing required object \x60" key "\x27") buf size mem
    | some (JSON_VAL_OBJECT subobj) =>
      let r := snprintf buf size (format_key "in \x60" key "\x27: ")
      let len := r.2
      let subsize := if len < size then size - len else 0
      let sub := json_validate strtod subobj subschema (r.1.drop len) subsize mem
      ⟨sub.err, r.1.take len ++ sub.buf, sub.mem⟩
    | some _ =>
      fail_with EINVAL (format_key "expected OBJECT value for key \x60" key "\x27") buf size mem
termination_by structural x => x

/-- The function `_ifeq`, the fields of `it->jscm_ifeq` being its arguments. -/
def _ifeq (strtod : List Int → conversion double) (obj : json_object)
    (key exp : List Int) :
    Option (List json_schema) → List Int → Nat → (Nat → cell) → validation
  | none, buf, size, mem => fail_with ENOTSUP invalid_schema_definition buf size mem
  | some schema, buf, size, mem =>
    match json_get_literal obj key with
    | some jval =>
      if strcasecmp jval exp == 0 then json_validate strtod obj schema buf size mem
      else ⟨0, buf, mem⟩
    | none => ⟨0, buf, mem⟩
termination_by structural x => x

/-- The `switch (it->jscm_op)` in the loop of `json_validate`. -/
def json_validate_switch (strtod : List Int → conversion double) (obj : json_object) :
    json_schema → List Int → Nat → (Nat → cell) → validation
  | JSON_SCHEMA_OP_RECURSIVE key sub, buf, size, mem =>
    _recursive strtod obj key sub buf size mem
  | JSON_SCHEMA_OP_DEFINE key type required valptr lenptr, buf, size, mem =>
    _define strtod obj key type required valptr lenptr buf size mem
  | JSON_SCHEMA_OP_IFEQ key exp sub, buf, size, mem =>
    _ifeq strtod obj key exp sub buf size mem
  | other _, buf, size, mem => fail_with ENOTSUP invalid_schema_definition buf size mem
termination_by structural x => x

/-- The function `json_validate`: the loop runs while `i < n && !err`. -/
def json_validate (strtod : List Int → conversion double) (obj : json_object) :
    List json_schema → List Int → Nat → (Nat → cell) → validation
  | [], buf, _, mem => ⟨0, buf, mem⟩
  | it :: schema, buf, size, mem =>
    let r := json_validate_switch strtod obj it buf size mem
    if r.err != 0 then r else json_validate strtod obj schema r.buf size r.mem
termination_by structural x => x

end

/-- The text in a buffer: the characters before the first NUL. -/
def c_string (buf : List Int) : List Int := buf.takeWhile fun c => c != 0

/-- The number of binary digits of `n`, up to `fuel` of them. -/
def bit_length : Nat → Nat → Nat
  | 0, _ => 0
  | fuel + 1, n => if n = 0 then 0 else bit_length fuel (n / 2) + 1

/-- A reference instance of the parameter `strtod` for the examples: a
run of at most 15 digits, which is below 2^53 and so is converted exactly,
is converted to the `double` of that value; any other text is left
unconverted. -/
def strtod_digits (s : List Int) : conversion double :=
  if s.isEmpty || !s.all isdigit || decide (15 < s.length) then ⟨⟨0⟩, 0, 0⟩
  else
    let n := digits_value 0 s
    let e := bit_length 64 n - 1
    if n = 0 then ⟨⟨0⟩, s.length, 0⟩
    else ⟨⟨(e + 1023) * 2 ^ 52 + (n * 2 ^ (52 - e) - 2 ^ 52)⟩, s.length, 0⟩

/-! ## Decimal texts, diagnostics -/

/-- The items of the body of a quoted literal that is written without
backslashes. -/
def plain (s : String) : List (Bool × Int) := (text s).map fun c => (false, c)

/-- The text of a decimal integer: a minus sign or none, then the digits. -/
def decimal_text (minus : Bool) (ds : List Int) : List Int :=
  if minus then 45 :: ds else ds

/-- The integer that `decimal_text minus ds` denotes. -/
def decimal_value (minus : Bool) (ds : List Int) : Int :=
  if minus then -(digits_value 0 ds : Int) else (digits_value 0 ds : Int)

/-- The characters `tail` do not continue a run of digits. -/
def ends_digits : List Int → Bool
  | [] => true
  | c :: _ => !isdigit c

/-- The conversion of one array element by `json_get_array_of_uint32`: the
value when the element is a Literal on whose text `str2uint32` succeeds,
`none` otherwise. -/
def uint32_of : json_value → Option Int
  | JSON_VAL_LITERAL lit => if (str2uint32 lit).1 = 0 then (str2uint32 lit).2 else none
  | _ => none

/-- The name of a schema type in a diagnostic. -/
def expected_type (ty : Nat) : List Int :=
  if ty = JSON_SCHEMA_TYPE_DOUBLE then text "DOUBLE"
  else if ty = JSON_SCHEMA_TYPE_INT then text "INT integer"
  else if ty = JSON_SCHEMA_TYPE_UINT then text "UINT integer"
  else if ty = JSON_SCHEMA_TYPE_OBJ then text "OBJECT"
  else if ty = JSON_SCHEMA_TYPE_TEXT then text "TEXT"
  else if ty = JSON_SCHEMA_TYPE_TEXTV then text "TEXT array"
  else if ty = JSON_SCHEMA_TYPE_UINT32V then text "UINT32 array"
  else text "UINT64 array"

/-- The diagnostic of a value that does not match the type of a rule. -/
def type_diagnostic (ty : Nat) (key : List Int) : List Int :=
  text "expected " ++ expected_type ty ++ text " value for key \x60" ++ key ++ text "\x27"

/-- The type of a rule is one of the three vector types. -/
def is_vector_type (ty : Nat) : Bool :=
  ty == JSON_SCHEMA_TYPE_TEXTV || ty == JSON_SCHEMA_TYPE_UINT32V ||
    ty == JSON_SCHEMA_TYPE_UINT64V

/-- The value has the tag that the type of a rule asks for: Object for
an object, Array for a vector type, Literal for the others. -/
def tag_matches (ty : Nat) : json_value → Bool
  | JSON_VAL_LITERAL _ => !is_vector_type ty && ty != JSON_SCHEMA_TYPE_OBJ
  | JSON_VAL_OBJECT _ => ty == JSON_SCHEMA_TYPE_OBJ
  | JSON_VAL_ARRAY _ => is_vector_type ty

/-- The rule has the output pointers that its type needs: a value pointer,
and a length pointer exactly for a vector type. -/
def slots_ok (ty : Nat) (valptr lenptr : Option Nat) : Bool :=
  valptr.isSome && (lenptr.isSome == is_vector_type ty)

/-- The conversion that the type of a rule asks for succeeds on a value
with the matching tag. -/
def converts (strtod : List Int → conversion double) (ty : Nat) : json_value → Bool
  | JSON_VAL_LITERAL lit =>
    if ty = JSON_SCHEMA_TYPE_INT then (str2int lit).1 == 0
    else if ty = JSON_SCHEMA_TYPE_UINT then (str2uint lit).1 == 0
    else if ty = JSON_SCHEMA_TYPE_DOUBLE then (str2double strtod lit).1 == 0
    else true
  | JSON_VAL_OBJECT _ => true
  | JSON_VAL_ARRAY jarr =>
    if ty = JSON_SCHEMA_TYPE_TEXTV then (json_get_array_of_text jarr).1 == 0
    else if ty = JSON_SCHEMA_TYPE_UINT32V then (json_get_array_of_uint32 jarr).1 == 0
    else if ty = JSON_SCHEMA_TYPE_UINT64V then (json_get_array_of_uint64 jarr).1 == 0
    else true

/-! ## Diagnostics and output slots of a validation -/

/-- The text in a buffer after two writers: that of the later one when
it wrote, that of the earlier one otherwise. -/
def later_text (later earlier : Option (List Int)) : Option (List Int) :=
  match later with
  | some m => some m
  | none => earlier

mutual

/-- The text that `_recursive` leaves at the start of a buffer without
bound, `none` when it writes nothing. -/
def recursive_text (strtod : List Int → conversion double) (obj : json_object)
    (key : List Int) : Option (List json_schema) → (Nat → cell) → Option (List Int)
  | none, _ => some invalid_schema_definition
  | some schema, mem =>
    match json_get_value obj key with
    | none => some (format_key "missing required object \x60" key "\x27")
    | some (JSON_VAL_OBJECT subobj) =>
      some (format_key "in \x60" key "\x27: " ++ (validate_text strtod subobj schema mem).getD [])
    | some _ => some (format_key "expected OBJECT value for key \x60" key "\x27")
termination_by structural x => x

/-- The text that `_ifeq` leaves at the start of a buffer without bound. -/
def ifeq_text (strtod : List Int → conversion double) (obj : json_object)
    (key exp : List Int) : Option (List json_schema) → (Nat → cell) → Option (List Int)
  | none, _ => some invalid_schema_definition
  | some schema, mem =>
    match json_get_literal obj key with
    | some jval => if strcasecmp jval exp == 0 then validate_text strtod obj schema mem else none
    | none => none
termination_by structural x => x

/-- The text that one rule leaves at the start of a buffer without bound. -/
def switch_text (strtod : List Int → conversion double) (obj : json_object) :
    json_schema → (Nat → cell) → Option (List Int)
  | JSON_SCHEMA_OP_RECURSIVE key sub, mem => recursive_text strtod obj key sub mem
  | JSON_SCHEMA_OP_DEFINE key type required valptr lenptr, mem =>
    if (_define_body strtod obj key type required valptr lenptr mem).1 = return_0 then none
    else some (define_label key (_define_body strtod obj key type required valptr lenptr mem).1).2
  | JSON_SCHEMA_OP_IFEQ key exp sub, mem => ifeq_text strtod obj key exp sub mem
  | other _, _ => some invalid_schema_definition
termination_by structural x => x

/-- The text that `json_validate` leaves at the start of a buffer without
bound: that of the rule that fails, or of the last rule that wrote one;
`none` when nothing is written. The status and the memory after a rule do
not depend on the buffer and are taken with the empty one. -/
def validate_text (strtod : List Int → conversion double) (obj : json_object) :
    List json_schema → (Nat → cell) → Option (List Int)
  | [], _ => none
  | it :: schema, mem =>
    if (json_validate_switch strtod obj it [] 0 mem).err != 0 then switch_text strtod obj it mem
    else
      later_text
        (validate_text strtod obj schema (json_validate_switch strtod obj it [] 0 mem).mem)
        (switch_text strtod obj it mem)
termination_by structural x => x

end

mutual

/-- The output pointers of a rule and of the rules below it. -/
def rule_slots : json_schema → List Nat
  | JSON_SCHEMA_OP_RECURSIVE _ sub => sub_slots sub
  | JSON_SCHEMA_OP_DEFINE _ _ _ valptr lenptr => valptr.toList ++ lenptr.toList
  | JSON_SCHEMA_OP_IFEQ _ _ sub => sub_slots sub
  | other _ => []

def sub_slots : Option (List json_schema) → List Nat
  | none => []
  | some schema => schema_slots schema

/-- The output pointers of the Define rules of a schema, at every depth. -/
def schema_slots : List json_schema → List Nat
  | [] => []
  | it :: schema => rule_slots it ++ schema_slots schema

end

mutual

/-- The keys of a rule and of the rules below it are texts without NUL. -/
def rule_keys_ok : json_schema → Bool
  | JSON_SCHEMA_OP_RECURSIVE key sub => key.all (fun c => c != 0) && sub_keys_ok sub
  | JSON_SCHEMA_OP_DEFINE key _ _ _ _ => key.all (fun c => c != 0)
  | JSON_SCHEMA_OP_IFEQ key _ sub => key.all (fun c => c != 0) && sub_keys_ok sub
  | other _ => true

def sub_keys_ok : Option (List json_schema) → Bool
  | none => true
  | some schema => schema_keys_ok schema

/-- The keys of a schema, at every depth, are texts without NUL. -/
def schema_keys_ok : List json_schema → Bool
  | [] => true
  | it :: schema => rule_keys_ok it && schema_keys_ok schema

end

/-- What a validation function with the result `r` did to the buffer
`buf` of at least `size` characters, `t` being its text for a buffer
without bound: nothing is written from index `size` on; when there is no
text, or `size` is 0, nothing is written; otherwise the buffer holds the
first `size - 1` characters of the text and a NUL; a failure has a text, a
text is not empty, and the status is 0 or one of three error codes. -/
def writes_text (r : validation) (buf : List Int) (size : Nat) (t : Option (List Int)) :
    Prop :=
  r.buf.length = buf.length ∧ r.buf.drop size = buf.drop size ∧
  (t = none ∨ size = 0 → r.buf = buf) ∧
  (∀ m, t = some m → 0 < size → c_string r.buf = m.take (size - 1)) ∧
  (∀ m, t = some m → m ≠ []) ∧
  (r.err ≠ 0 → t ≠ none) ∧
  (r.err = 0 ∨ r.err = EINVAL ∨ r.err = ENOTSUP ∨ r.err = ENOMEM)

/-! ## Bytes, runs of tokens -/

/-- Every element is a byte, as a stream holds them. -/
def is_bytes (data : List Int) : Bool := data.all fun b => decide (0 ≤ b) && decide (b ≤ 255)

/-- The `char` that `c = getc(f)` stores for the byte `b`. -/
def char_of_byte (b : Int) : Int := char_of_int (b % 256)

/-- `Run d ts D`: successive calls of `json_consume_token` from `d` succeed,
return the tokens `ts` in order and leave the handle `D`. -/
def Run : json_doc → List json_token → json_doc → Prop
  | d, [], D => D = d
  | d, t :: ts, D =>
    (json_consume_token d).1 = 0 ∧ (json_consume_token d).2.1 = t ∧
      Run (json_consume_token d).2.2 ts D

/-- The texts of digits and dots that take the number automaton from `ST`
to the state `y`: none for `ST`, `0` for `ZR`, a digit from 1 to 9 and
digits for `IN`, an integer part and a dot for `DO`, an integer part, a dot
and one digit or more for `FR`. -/
def state_lang (y : Nat) (s : List Int) : Prop :=
  (y = ST → s = []) ∧
  (y = ZR → s = [48]) ∧
  (y = IN → ∃ d ds, s = d :: ds ∧ 49 ≤ d ∧ d ≤ 57 ∧ ds.all isdigit = true) ∧
  (y = DO → ∃ ip, s = ip ++ [46] ∧ is_int_part ip = true ∧ ip.all isdigit = true) ∧
  (y = FR → ∃ ip fr, s = ip ++ 46 :: fr ∧ is_int_part ip = true ∧ ip.all isdigit = true ∧
    fr ≠ [] ∧ fr.all isdigit = true)

/-- A token as the tokenizer returns them: a literal token carries a text
of at most 63 printable ASCII characters, any other token carries none. -/
def token_ok (t : json_token) : Bool :=
  match t.tok_id, t.tok_s with
  | JSON_TOK_LIT, some s => s.all _is_literal_string_char && decide (s.length ≤ 63)
  | JSON_TOK_LIT, none => false
  | _, some _ => false
  | _, none => true

/-- The look-ahead token of the handle, when there is one, is a token as
the tokenizer returns them. -/
def lookahead_ok (d : json_doc) : Prop :=
  d.jdoc_lookahead_avail = true → token_ok d.jdoc_lookahead = true

/-- `Reach d ts d'`: the calls of `json_consume_token` that return `ts`
lead from `d` to `d'`, up to the look-ahead token that `d'` keeps without
having one available. -/
def Reach (d : json_doc) (ts : List json_token) (d' : json_doc) : Prop :=
  ∃ D x, Run d ts D ∧ D.jdoc_lookahead_avail = false ∧ d' = { D with jdoc_lookahead := x }

/-- After the tokens `ts` read from `d`, the next call of
`json_consume_token` fails with the status `e`. -/
def TokenError (d : json_doc) (e : Nat) : Prop :=
  ∃ ts D, Run d ts D ∧ (json_consume_token D).1 = e ∧ e ≠ 0

/-- A sequence of punctuation and literal tokens in which every literal
is followed by a punctuation token. -/
inductive Shaped : List json_token → Prop
  | nil : Shaped []
  | punct (id : json_token_id) (ts : List json_token) :
      (punct_char id).isSome = true → Shaped ts → Shaped (punct_tok id :: ts)
  | lit (s : List Int) (id : json_token_id) (ts : List json_token) :
      (punct_char id).isSome = true → Shaped (punct_tok id :: ts) →
      Shaped (lit_tok s :: punct_tok id :: ts)

/-- What is asked of the outcome of a parsing function called on `d`: a
result with its handle satisfies `P`, and an error status is `EINVAL` or
the status with which the tokenizer failed after the tokens read from `d`. -/
def sound {α : Type} (d : json_doc) (P : α → json_doc → Prop) : outcome α → Prop
  | .ok a d' => P a d'
  | .error e => e = EINVAL ∨ TokenError d e
  | .nofuel => True

/-- `Respaced ts bs bs'`: the bytes `bs` spell the tokens `ts`, and `bs'`
is `bs` with whitespace inserted before tokens: before each token the
whitespace of `bs` is a sublist of the whitespace of `bs'`. -/
inductive Respaced : List json_token → List Int → List Int → Prop
  | nil : Respaced [] [] []
  | punct (ws ws' : List Int) (id : json_token_id) (c : Int) (ts : List json_token)
      (bs bs' : List Int) :
      ws.all isspace = true → ws'.all isspace = true → ws.Sublist ws' →
      punct_char id = some c → Respaced ts bs bs' →
      Respaced (punct_tok id :: ts) (ws ++ c :: bs) (ws' ++ c :: bs')
  | lit (ws ws' s lx : List Int) (id : json_token_id) (ts : List json_token)
      (bs bs' : List Int) :
      ws.all isspace = true → ws'.all isspace = true → ws.Sublist ws' →
      Lexeme s lx → (punct_char id).isSome = true →
      Respaced (punct_tok id :: ts) bs bs' →
      Respaced (lit_tok s :: punct_tok id :: ts) (ws ++ lx ++ bs) (ws' ++ lx ++ bs')

/-! ## Dump (`json_debug.c`)

The output stream is the list of the bytes written. A text written with
`%s` is written as it is; `lev` is an `unsigned`. -/

/-- The function `_indent`: four spaces, `n` times. -/
def _indent : Nat → List Int
  | 0 => []
  | n + 1 => text "    " ++ _indent n

mutual

/-- The function `_dump_value`; the cases of an object and of an array are
the bodies of `_dump_object` and `_dump_array`. A value has one of the
three types, the `default` case of the `switch` is not reached. -/
def _dump_value (lev : Nat) : json_value → List Int
  | JSON_VAL_LITERAL lit => text "\x22" ++ lit ++ text "\x22"
  | JSON_VAL_OBJECT obj =>
    text "\x7b\n" ++ _dump_object_loop lev obj ++ _indent lev ++ text "\x7d"
  | JSON_VAL_ARRAY arr =>
    text "[\n" ++ _dump_array_loop lev arr ++ _indent lev ++ text "]"

/-- The `for` loop of `_dump_array` over the values from index `i` on;
`i + 1 < len` holds when a value follows. -/
def _dump_array_loop (lev : Nat) : List json_value → List Int
  | [] => []
  | v :: more =>
    _indent ((lev + 1) % 2 ^ 32) ++ _dump_value ((lev + 1) % 2 ^ 32) v ++
      (if more.isEmpty then text "\n" else text ",\n") ++ _dump_array_loop lev more

/-- The `for` loop of `_dump_object` over the tuples from index `i` on. -/
def _dump_object_loop (lev : Nat) : List (List Int × json_value) → List Int
  | [] => []
  | (key, val) :: more =>
    _indent ((lev + 1) % 2 ^ 32) ++ (text "\x22" ++ key ++ text "\x22: ") ++
      _dump_value ((lev + 1) % 2 ^ 32) val ++
      (if more.isEmpty then text "\n" else text ",\n") ++ _dump_object_loop lev more

end

def _dump_array (lev : Nat) (array : json_array) : List Int :=
  text "[\n" ++ _dump_array_loop lev array ++ _indent lev ++ text "]"

def _dump_object (lev : Nat) (obj : json_object) : List Int :=
  text "\x7b\n" ++ _dump_object_loop lev obj ++ _indent lev ++ text "\x7d"

/-- The function `json_dump`: the bytes written to the stream; `none` when
`doc->jdoc_obj` is `NULL`. -/
def json_dump (doc : json_doc) : Option (List Int) :=
  doc.jdoc_obj.map fun obj => _dump_object 0 obj ++ [10]

/-- A text of at most 63 printable ASCII characters, as the tokenizer
returns them. -/
def text_ok (s : List Int) : Bool :=
  s.all _is_literal_string_char && decide (s.length ≤ 63)

/-- A text without double quote and without backslash. -/
def text_plain (s : List Int) : Bool := s.all fun c => c != 34 && c != 92

mutual

/-- Every key and literal of the value satisfies `p`. -/
def value_texts (p : List Int → Bool) : json_value → Bool
  | JSON_VAL_LITERAL lit => p lit
  | JSON_VAL_OBJECT obj => object_texts p obj
  | JSON_VAL_ARRAY arr => array_texts p arr

def object_texts (p : List Int → Bool) : List (List Int × json_value) → Bool
  | [] => true
  | (key, val) :: more => p key && value_texts p val && object_texts p more

def array_texts (p : List Int → Bool) : List json_value → Bool
  | [] => true
  | v :: more => value_texts p v && array_texts p more

end

/-! ## The getter that corresponds to a schema type -/

/-- The getter that the specification pairs with a schema type, called on
`(obj, k)`: `json_get_literal` for text, `json_get_object` for object,
`json_get_int`, `json_get_uint`, `json_get_double` for the scalars,
`json_get_array` followed by `json_get_array_of_text`, `_uint32`, `_uint64`
for the vectors. The result is `none` when the getter fails (a `NULL`
result or a status other than 0), else the value that it returns, as the
content of a cell, and the length that it returns, for a vector. -/
def getter_result (strtod : List Int → conversion double) (ty : Nat) (obj : json_object)
    (k : List Int) : Option (cell × Option Nat) :=
  if ty = JSON_SCHEMA_TYPE_TEXT then
    (json_get_literal obj k).map fun lit => (cell.text lit, none)
  else if ty = JSON_SCHEMA_TYPE_OBJ then
    (json_get_object obj k).map fun o => (cell.object o, none)
  else if ty = JSON_SCHEMA_TYPE_INT then
    if (json_get_int obj k).1 = 0 then
      (json_get_int obj k).2.map fun v => (cell.int v, none)
    else none
  else if ty = JSON_SCHEMA_TYPE_UINT then
    if (json_get_uint obj k).1 = 0 then
      (json_get_uint obj k).2.map fun v => (cell.uint v, none)
    else none
  else if ty = JSON_SCHEMA_TYPE_DOUBLE then
    if (json_get_double strtod obj k).1 = 0 then
      (json_get_double strtod obj k).2.map fun v => (cell.double v, none)
    else none
  else if ty = JSON_SCHEMA_TYPE_TEXTV then
    match json_get_array obj k with
    | some jarr =>
      if (json_get_array_of_text jarr).1 = 0 then
        (json_get_array_of_text jarr).2.1.map fun vec =>
          (cell.textv vec, some (json_get_array_of_text jarr).2.2)
      else none
    | none => none
  else if ty = JSON_SCHEMA_TYPE_UINT32V then
    match json_get_array obj k with
    | some jarr =>
      if (json_get_array_of_uint32 jarr).1 = 0 then
        (json_get_array_of_uint32 jarr).2.1.map fun vec =>
          (cell.uint32v vec, some (json_get_array_of_uint32 jarr).2.2)
      else none
    | none => none
  else if ty = JSON_SCHEMA_TYPE_UINT64V then
    match json_get_array obj k with
    | some jarr =>
      if (json_get_array_of_uint64 jarr).1 = 0 then
        (json_get_array_of_uint64 jarr).2.1.map fun vec =>
          (cell.uint64v vec, some (json_get_array_of_uint64 jarr).2.2)
      else none
    | none => none
  else none

/-- The memory after the value `r.1` was stored through the value pointer
`p` and, for a vector, the length `r.2` through the length pointer. -/
def write_slots (mem : Nat → cell) (p : Nat) (lenptr : Option Nat) (r : cell × Option Nat) :
    Nat → cell :=
  match lenptr, r.2 with
  | some q, some n => store (store mem p r.1) q (cell.length n)
  | _, _ => store mem p r.1

/-! ## The tuple that `json_get_value` returns -/

/-- The `for` loop of `json_get_value`, the result being the tuple
`obj->jobj_tuples[i]` whose member `jtup_val` the returned pointer `val`
addresses; `rest` is the path from `e` on and `recurse` the recursive
call. -/
def json_get_value_tuple_loop (recurse : json_object → List Int → Option (Option json_tuple))
    (path : List Int) (len : Nat) (rest : List Int) :
    List json_tuple → Option (Option json_tuple)
  | [] => some none
  | (key, val) :: tuples =>
    if strlen key != len || strncasecmp key path len != 0 then
      json_get_value_tuple_loop recurse path len rest tuples
    else
      match rest, val with
      | _ :: after, JSON_VAL_OBJECT obj => recurse obj after
      | [], val => some (some (key, val))
      | _, _ => some none

/-- The function `json_get_value` with a recursion budget, the result being
the tuple whose value is returned: `none` when the budget is used up,
`some none` for `NULL`. -/
def json_get_value_tuple_fuel : Nat → json_object → List Int → Option (Option json_tuple)
  | 0, _, _ => none
  | fuel + 1, obj, path =>
    let len := segment_length path
    if len == 0 then some none
    else
      json_get_value_tuple_loop (fun o p => json_get_value_tuple_fuel fuel o p)
        path len (path.drop len) obj

/-- The tuple whose value `json_get_value obj path` returns; `none` is
`NULL`. The budget is enough, see `json_get_value_tuple_fuel_eq`. -/
def json_get_value_tuple (obj : json_object) (path : List Int) : Option json_tuple :=
  (json_get_value_tuple_fuel (path.length + 1) obj path).getD none

/-! ## Schemas without a Descend rule -/

mutual

/-- The rule is not a Descend rule and has none below it. -/
def rule_no_descend : json_schema → Bool
  | JSON_SCHEMA_OP_RECURSIVE _ _ => false
  | JSON_SCHEMA_OP_DEFINE _ _ _ _ _ => true
  | JSON_SCHEMA_OP_IFEQ _ _ sub => sub_no_descend sub
  | other _ => true

def sub_no_descend : Option (List json_schema) → Bool
  | none => true
  | some schema => schema_no_descend schema

/-- The schema has no Descend rule, at any depth. -/
def schema_no_descend : List json_schema → Bool
  | [] => true
  | it :: schema => rule_no_descend it && schema_no_descend schema

end

/-! ## Path resolution: lemmas -/

theorem tolower_toupper (c : Int) : tolower (toupper c) = tolower c := by
  unfold tolower toupper; split_ifs <;> omega

theorem tolower_tolower (c : Int) : tolower (tolower c) = tolower c := by
  unfold tolower; split_ifs <;> omega

theorem toupper_eq_slash (c : Int) : (toupper c == 47) = (c == 47) := by
  unfold toupper; split_ifs with h
  · apply Bool.eq_iff_iff.2; simp; omega
  · rfl

theorem tolower_eq_slash (c : Int) : (tolower c == 47) = (c == 47) := by
  unfold tolower; split_ifs with h
  · apply Bool.eq_iff_iff.2; simp; omega
  · rfl

theorem split_path_cons (c : Int) (cs : List Int) :
    split_path (c :: cs) =
      if c == 47 then [] :: split_path cs
      else
        match split_path cs with
        | seg :: segs => (c :: seg) :: segs
        | [] => [[c]] := rfl

theorem split_path_ne_nil (path : List Int) : split_path path ≠ [] := by
  cases path with
  | nil => simp [split_path]
  | cons c cs =>
    rw [split_path_cons]
    split_ifs
    · simp
    · split <;> simp

/-- The first segment is the run before the first `/`, the other segments
are those of what follows that `/`. -/
theorem split_path_eq (path : List Int) :
    split_path path = path.takeWhile (fun c => c != 47) ::
      (match path.dropWhile (fun c => c != 47) with
       | [] => []
       | _ :: after => split_path after) := by
  induction path with
  | nil => simp [split_path]
  | cons c cs ih =>
    rw [split_path_cons]
    by_cases h : c = 47
    · subst h; simp [List.takeWhile, List.dropWhile]
    · have h1 : (c == 47) = false := by simpa using h
      have h2 : (c != 47) = true := by simpa using h
      simp only [h1, List.takeWhile, List.dropWhile, h2]
      rw [ih]
      simp

theorem drop_segment_length (path : List Int) :
    path.drop (segment_length path) = path.dropWhile (fun c => c != 47) := by
  unfold segment_length
  induction path with
  | nil => simp
  | cons c cs ih =>
    by_cases h : (c != 47) = true
    · simp only [List.takeWhile, h, List.dropWhile, List.length_cons, List.drop_succ_cons]; exact ih
    · simp only [Bool.not_eq_true] at h
      simp [List.takeWhile, h, List.dropWhile]

theorem take_segment_length (path : List Int) :
    path.take (segment_length path) = path.takeWhile (fun c => c != 47) := by
  unfold segment_length
  induction path with
  | nil => simp
  | cons c cs ih =>
    by_cases h : (c != 47) = true
    · simp only [List.takeWhile, h, List.length_cons, List.take_succ_cons]; rw [ih]
    · simp only [Bool.not_eq_true] at h
      simp [List.takeWhile, h]

theorem strncasecmp_eq_zero (key path : List Int) :
    strncasecmp key path key.length = 0 → key.length ≤ path.length →
      key.map tolower = (path.take key.length).map tolower := by
  induction key generalizing path with
  | nil => intro _ _; simp
  | cons k ks ih =>
    intro h hl
    cases path with
    | nil => simp at hl
    | cons p ps =>
      simp only [List.length_cons, strncasecmp] at h
      split_ifs at h with hne
      · simp at hne; omega
      · simp only [bne_iff_ne, ne_eq, Decidable.not_not] at hne
        simp only [List.length_cons, List.take_succ_cons, List.map_cons, hne]
        rw [ih ps h (by simpa using hl)]

theorem strncasecmp_of_eq (key path : List Int) :
    key.length ≤ path.length →
      key.map tolower = (path.take key.length).map tolower →
      strncasecmp key path key.length = 0 := by
  induction key generalizing path with
  | nil => intro _ _; simp [strncasecmp]
  | cons k ks ih =>
    intro hl h
    cases path with
    | nil => simp at hl
    | cons p ps =>
      simp only [List.length_cons, List.take_succ_cons, List.map_cons, List.cons.injEq] at h
      simp only [List.length_cons, strncasecmp, h.1, bne_self_eq_false, Bool.false_eq_true,
        if_false]
      exact ih ps (by simpa using hl) h.2

/-- The test of the `for` loop is the negation of `key_matches` on the first segment. -/
theorem loop_test_eq (key path : List Int) :
    (strlen key != segment_length path || strncasecmp key path (segment_length path) != 0)
      = !key_matches key (path.takeWhile fun c => c != 47) := by
  have hlen : segment_length path ≤ path.length := by
    unfold segment_length; exact (List.takeWhile_sublist _).length_le
  have hseg : (path.takeWhile fun c => c != 47).length = segment_length path := rfl
  by_cases hk : key.length = segment_length path
  · have h1 : (strlen key != segment_length path) = false := by simp [strlen, hk]
    rw [h1, Bool.false_or]
    unfold key_matches
    rw [hseg, ← take_segment_length, ← hk]
    simp only [beq_self_eq_true, Bool.true_and]
    by_cases hz : strncasecmp key path key.length = 0
    · have := strncasecmp_eq_zero key path hz (by omega)
      simp [hz, this]
    · have hne : ¬ (key.map tolower = (path.take key.length).map tolower) := fun h =>
        hz (strncasecmp_of_eq key path (by omega) h)
      have h3 : (key.map tolower == (path.take key.length).map tolower) = false := by
        simpa using hne
      rw [h3]; simpa using hz
  · have h1 : (strlen key != segment_length path) = true := by simpa [strlen] using hk
    rw [h1, Bool.true_or]
    unfold key_matches
    rw [hseg]
    have : (key.length == segment_length path) = false := by simpa using hk
    simp [this]

theorem json_get_value_fuel_spec (n : Nat) :
    ∀ (obj : json_object) (path : List Int), path.length < n →
      json_get_value_fuel n obj path = some (get_value_spec_nonempty obj (split_path path)) := by
  induction n with
  | zero => intro _ _ h; omega
  | succ n ih =>
    intro obj path hlt
    unfold json_get_value_fuel
    rw [split_path_eq]
    simp only [drop_segment_length]
    by_cases hz : segment_length path = 0
    · have : (path.takeWhile fun c => c != 47) = [] := List.length_eq_zero.1 hz
      simp [hz, this, get_value_spec_nonempty]
    · have hz2 : (segment_length path == 0) = false := by simpa using hz
      have hne : (path.takeWhile fun c => c != 47) ≠ [] := fun h => hz (by
        unfold segment_length; rw [h]; rfl)
      simp only [hz2, Bool.false_eq_true, if_false]
      unfold get_value_spec_nonempty
      simp only [hne, if_false]
      have hdrop : (path.dropWhile fun c => c != 47).length < n + 1 := by
        have := (@List.dropWhile_sublist _ path (fun c => c != 47)).length_le
        omega
      induction obj with
      | nil => simp [json_get_value_loop]
      | cons t tuples iht =>
        obtain ⟨key, val⟩ := t
        unfold json_get_value_loop
        rw [loop_test_eq]
        by_cases hm : key_matches key (path.takeWhile fun c => c != 47) = true
        · simp only [hm, Bool.not_true, Bool.false_eq_true, if_false, List.find?_cons_of_pos]
          cases hrest : path.dropWhile fun c => c != 47 with
          | nil => simp
          | cons s after =>
            have hafter : after.length < n := by rw [hrest] at hdrop; simpa using hdrop
            have hsp : split_path after ≠ [] := split_path_ne_nil after
            cases val with
            | JSON_VAL_OBJECT o => simp [hsp, ih o after hafter]
            | JSON_VAL_LITERAL s => simp [hsp]
            | JSON_VAL_ARRAY a => simp [hsp]
        · simp only [Bool.not_eq_true] at hm
          simp only [hm, Bool.not_false, if_true]
          rw [iht]
          simp [List.find?, hm]

theorem json_get_value_fuel_eq (n : Nat) (obj : json_object) (path : List Int)
    (h : path.length < n) :
    json_get_value_fuel n obj path = some (json_get_value obj path) := by
  unfold json_get_value
  rw [json_get_value_fuel_spec n obj path h,
    json_get_value_fuel_spec (path.length + 1) obj path (by omega)]
  rfl

theorem json_get_value_eq_spec (obj : json_object) (path : List Int) :
    json_get_value obj path = get_value_spec_nonempty obj (split_path path) := by
  unfold json_get_value
  rw [json_get_value_fuel_spec (path.length + 1) obj path (by omega)]
  rfl

theorem get_value_spec_of_nonempty (obj : json_object) (segs : List (List Int))
    (h : ∀ seg ∈ segs, seg ≠ []) :
    get_value_spec_nonempty obj segs = get_value_spec obj segs := by
  induction segs generalizing obj with
  | nil => simp [get_value_spec_nonempty, get_value_spec]
  | cons seg segs ih =>
    unfold get_value_spec_nonempty get_value_spec
    have h1 : seg ≠ [] := h seg (by simp)
    simp only [h1, if_false]
    cases obj.find? fun t => key_matches t.1 seg with
    | none => rfl
    | some t =>
      simp only
      by_cases h2 : segs = []
      · simp [h2]
      · simp only [h2, if_false]
        cases t.2 with
        | JSON_VAL_OBJECT o => exact ih o fun seg hs => h seg (by simp [hs])
        | JSON_VAL_LITERAL s => rfl
        | JSON_VAL_ARRAY a => rfl

theorem split_path_map (g : Int → Int) (hg : ∀ c, (g c == 47) = (c == 47)) (path : List Int) :
    split_path (path.map g) = (split_path path).map (List.map g) := by
  induction path with
  | nil => simp [split_path]
  | cons c cs ih =>
    rw [List.map_cons, split_path_cons, split_path_cons, hg, ih]
    split_ifs
    · simp
    · cases split_path cs <;> simp

theorem key_matches_map (g : Int → Int) (hg : ∀ c, tolower (g c) = tolower c)
    (key seg : List Int) : key_matches key (seg.map g) = key_matches key seg := by
  unfold key_matches
  have : (seg.map g).map tolower = seg.map tolower := by
    rw [List.map_map]; congr 1; funext c; exact hg c
  rw [this, List.length_map]

theorem get_value_spec_nonempty_map (g : Int → Int) (hg : ∀ c, tolower (g c) = tolower c)
    (segs : List (List Int)) (obj : json_object) :
    get_value_spec_nonempty obj (segs.map (List.map g)) = get_value_spec_nonempty obj segs := by
  induction segs generalizing obj with
  | nil => simp [get_value_spec_nonempty]
  | cons seg segs ih =>
    rw [List.map_cons]
    unfold get_value_spec_nonempty
    simp only [List.map_eq_nil_iff, key_matches_map g hg]
    by_cases h1 : seg = []
    · simp [h1]
    · simp only [h1, if_false]
      cases obj.find? fun t => key_matches t.1 seg with
      | none => rfl
      | some t =>
        simp only
        by_cases h2 : segs = []
        · simp [h2]
        · simp only [h2, if_false]
          cases t.2 with
          | JSON_VAL_OBJECT o => exact ih o
          | JSON_VAL_LITERAL s => rfl
          | JSON_VAL_ARRAY a => rfl

theorem json_get_value_map (g : Int → Int) (hg : ∀ c, tolower (g c) = tolower c)
    (hs : ∀ c, (g c == 47) = (c == 47)) (obj : json_object) (path : List Int) :
    json_get_value obj (path.map g) = json_get_value obj path := by
  rw [json_get_value_eq_spec, json_get_value_eq_spec, split_path_map g hs,
    get_value_spec_nonempty_map g hg]

theorem takeWhile_of_not_mem (seg rest : List Int) (h : (47 : Int) ∉ seg) :
    (seg ++ 47 :: rest).takeWhile (fun c => c != 47) = seg ∧
      (seg ++ 47 :: rest).dropWhile (fun c => c != 47) = 47 :: rest ∧
      seg.takeWhile (fun c => c != 47) = seg ∧ seg.dropWhile (fun c => c != 47) = [] := by
  induction seg with
  | nil => simp [List.takeWhile, List.dropWhile]
  | cons c cs ih =>
    have hc : (c != 47) = true := by
      simp only [List.mem_cons, not_or] at h
      simpa using fun e => h.1 e.symm
    have := ih (fun hm => h (List.mem_cons_of_mem _ hm))
    simp [List.takeWhile, List.dropWhile, hc, this]

theorem split_path_segment (seg : List Int) (h : (47 : Int) ∉ seg) :
    split_path seg = [seg] := by
  rw [split_path_eq, (takeWhile_of_not_mem seg [] h).2.2.1, (takeWhile_of_not_mem seg [] h).2.2.2]

theorem split_path_append (seg rest : List Int) (h : (47 : Int) ∉ seg) :
    split_path (seg ++ 47 :: rest) = seg :: split_path rest := by
  rw [split_path_eq, (takeWhile_of_not_mem seg rest h).1, (takeWhile_of_not_mem seg rest h).2.1]

theorem find_first_match (pre post : json_object) (k : List Int) (v : json_value)
    (seg : List Int) (hpre : ∀ t ∈ pre, key_matches t.1 seg = false)
    (hk : key_matches k seg = true) :
    (pre ++ (k, v) :: post).find? (fun t => key_matches t.1 seg) = some (k, v) := by
  induction pre with
  | nil => simp [hk]
  | cons t pre ih =>
    have h1 := hpre t (by simp)
    simp only [List.cons_append, List.find?, h1]
    exact ih fun t ht => hpre t (by simp [ht])

theorem json_get_value_no_length (obj : json_object) (path : List Int)
    (h : ∀ t ∈ obj, strlen t.1 ≠ segment_length path) : json_get_value obj path = none := by
  rw [json_get_value_eq_spec, split_path_eq]
  unfold get_value_spec_nonempty
  by_cases h1 : (path.takeWhile fun c => c != 47) = []
  · simp [h1]
  · have : obj.find? (fun t => key_matches t.1 (path.takeWhile fun c => c != 47)) = none := by
      rw [List.find?_eq_none]
      intro t ht
      have := h t ht
      unfold key_matches
      unfold strlen segment_length at this
      simp [this]
    simp only [h1, if_false, this]


/-! ## Tokenizer: lemmas -/

theorem FILE.at_data (f : FILE) : f.at f.data = f := by cases f; rfl

theorem FILE.at_at (f : FILE) (a b : List Int) : (f.at a).at b = f.at b := rfl

theorem FILE.data_at (f : FILE) (a : List Int) : (f.at a).data = a := rfl

theorem FILE.atEnd_at (f : FILE) (a : List Int) : (f.at a).atEnd = f.atEnd := by
  unfold FILE.atEnd FILE.at; simp

theorem FILE.data_atEnd (f : FILE) : f.atEnd.data = [] := by
  unfold FILE.atEnd; split <;> rfl

theorem isspace_ascii {c : Int} (h : isspace c = true) : 0 ≤ c ∧ c ≤ 127 := by
  simp only [isspace, Bool.or_eq_true, beq_iff_eq, Bool.and_eq_true, decide_eq_true_eq] at h
  omega

theorem ascii_mod {c : Int} (h0 : 0 ≤ c) (h1 : c ≤ 127) : c % 256 = c := by omega

theorem ascii_char {c : Int} (h0 : 0 ≤ c) (h1 : c ≤ 127) : char_of_int (c % 256) = c := by
  unfold char_of_int; rw [ascii_mod h0 h1]; split_ifs <;> omega

theorem isascii_iff {c : Int} : isascii c = true ↔ 0 ≤ c ∧ c ≤ 127 := by
  simp [isascii]

theorem is_delim_facts {t : Int} (h : is_delim t = true) :
    0 ≤ t ∧ t ≤ 127 ∧ _is_literal_char t = false ∧ isdigit t = false ∧ t ≠ 46 ∧
      (isspace t || ispunct t) = true ∧ t ≠ -1 := by
  simp only [is_delim, isspace, Bool.or_eq_true, beq_iff_eq, Bool.and_eq_true,
    decide_eq_true_eq] at h
  have hr : t = 32 ∨ t = 9 ∨ t = 10 ∨ t = 11 ∨ t = 12 ∨ t = 13 ∨ t = 123 ∨ t = 125 ∨ t = 91 ∨
      t = 93 ∨ t = 58 ∨ t = 44 := by omega
  rcases hr with h | h | h | h | h | h | h | h | h | h | h | h <;> subst h <;> decide

theorem skip_space_stop (f : FILE) (data : List Int) (c : Int) (line : Nat)
    (h : (isascii c && isspace c) = false) :
    skip_space f data c line = (c, f.at data, line) := by
  unfold skip_space; simp [h]

theorem skip_space_ws (f : FILE) (ws : List Int) (c : Int) (rest : List Int) :
    ∀ (cur : Int) (line : Nat), isspace cur = true → ws.all isspace = true →
      0 ≤ c → c ≤ 127 → isspace c = false →
      ∃ line', skip_space f (ws ++ c :: rest) cur line = (c, f.at rest, line') := by
  induction ws with
  | nil =>
    intro cur line hcur _ h0 h1 hns
    have ha : (isascii cur && isspace cur) = true := by
      simp [hcur, isascii_iff.2 (isspace_ascii hcur)]
    unfold skip_space
    simp only [ha, if_true, List.nil_append, ascii_mod h0 h1]
    exact ⟨_, skip_space_stop f rest c _ (by simp [hns])⟩
  | cons w ws ih =>
    intro cur line hcur hws h0 h1 hns
    have ha : (isascii cur && isspace cur) = true := by
      simp [hcur, isascii_iff.2 (isspace_ascii hcur)]
    simp only [List.all_cons, Bool.and_eq_true] at hws
    unfold skip_space
    simp only [ha, if_true, List.cons_append, ascii_mod (isspace_ascii hws.1).1 (isspace_ascii hws.1).2]
    exact ih w _ hws.1 hws.2 h0 h1 hns

/-- From a pending input that is whitespace followed by the ASCII character
`c`, the tokenizer reaches its `switch` on `c` with the rest unread. -/
theorem consume_pending (d : json_doc) (ws : List Int) (c : Int) (rest : List Int)
    (hp : Pending d (ws ++ c :: rest)) (hws : ws.all isspace = true)
    (h0 : 0 ≤ c) (h1 : c ≤ 127) (hns : isspace c = false) :
    ∃ line, json_consume_token d =
      token_switch { d with jdoc_nextc_avail := false, jdoc_f := d.jdoc_f.at rest,
                            jdoc_lineno := line } c := by
  obtain ⟨hla, hp⟩ := hp
  unfold json_consume_token
  simp only [hla, Bool.false_eq_true, if_false]
  -- the first character and the stream after it
  have hr0 : ∀ x xs, ws ++ c :: rest = x :: xs → 0 ≤ x → x ≤ 127 →
      (if d.jdoc_nextc_avail = true then (d.jdoc_nextc, d.jdoc_f) else getc d.jdoc_f)
        = (x, d.jdoc_f.at xs) := by
    intro x xs hx hx0 hx1
    rcases hp with ⟨hn, hd⟩ | ⟨hn, hd⟩
    · simp only [hn, Bool.false_eq_true, if_false, getc]
      rw [hd, hx]
      simp only [ascii_mod hx0 hx1]
    · simp only [hn, if_true]
      rw [hx] at hd
      simp only [List.cons.injEq] at hd
      rw [← hd.1, hd.2, FILE.at_data]
  cases ws with
  | nil =>
    rw [hr0 c rest rfl h0 h1]
    simp only [FILE.data_at]
    rw [skip_space_stop _ _ _ _ (by simp [hns])]
    exact ⟨_, rfl⟩
  | cons w ws =>
    simp only [List.all_cons, Bool.and_eq_true] at hws
    rw [hr0 w (ws ++ c :: rest) rfl (isspace_ascii hws.1).1 (isspace_ascii hws.1).2]
    simp only [FILE.data_at]
    obtain ⟨line', hl⟩ := skip_space_ws (d.jdoc_f.at (ws ++ c :: rest)) ws c rest w
      d.jdoc_lineno hws.1 hws.2 h0 h1 hns
    rw [hl]
    exact ⟨line', rfl⟩

theorem token_switch_punct (doc : json_doc) (id : json_token_id) (c : Int)
    (h : punct_char id = some c) : token_switch doc c = (0, punct_tok id, doc) := by
  cases id <;> simp only [punct_char, Option.some.injEq] at h <;> first
    | exact absurd h (by simp)
    | (subst h; simp [token_switch, EOF, isascii, RETURN_TOKEN, punct_tok])

theorem punct_char_facts {id : json_token_id} {c : Int} (h : punct_char id = some c) :
    0 ≤ c ∧ c ≤ 127 ∧ isspace c = false ∧ is_delim c = true := by
  cases id <;> simp only [punct_char, Option.some.injEq] at h <;> first
    | exact absurd h (by simp)
    | (subst h; decide)

theorem pending_rest (d : json_doc) (rest : List Int) (line : Nat)
    (hla : d.jdoc_lookahead_avail = false) :
    Pending { d with jdoc_nextc_avail := false, jdoc_f := d.jdoc_f.at rest, jdoc_lineno := line }
      rest :=
  ⟨hla, Or.inl ⟨rfl, rfl⟩⟩

/-- A punctuation token is read from whitespace followed by its character. -/
theorem consume_punct (d : json_doc) (ws : List Int) (id : json_token_id) (c : Int)
    (rest : List Int) (hp : Pending d (ws ++ c :: rest)) (hws : ws.all isspace = true)
    (hc : punct_char id = some c) :
    ∃ d', json_consume_token d = (0, punct_tok id, d') ∧ Pending d' rest := by
  obtain ⟨h0, h1, hns, _⟩ := punct_char_facts hc
  obtain ⟨line, hl⟩ := consume_pending d ws c rest hp hws h0 h1 hns
  rw [hl, token_switch_punct _ id c hc]
  exact ⟨_, rfl, pending_rest d rest line hp.1⟩

/-! ## Tokenizer: the three kinds of literal -/

theorem literal_char_ascii {x : Int} (h : _is_literal_char x = true) : 0 ≤ x ∧ x ≤ 127 := by
  simp only [_is_literal_char, Bool.and_eq_true] at h
  exact isascii_iff.1 h.1

theorem WRITECHAR_ok {buf : List Int} (c : Int) (h : buf.length < 64) :
    WRITECHAR buf c = (true, buf ++ [c]) := by
  simp [WRITECHAR, BUFSIZE, h]

theorem WRITECHAR_full {buf : List Int} (c : Int) (h : 64 ≤ buf.length) :
    WRITECHAR buf c = (false, buf) := by
  have : ¬ buf.length < 64 := by omega
  simp [WRITECHAR, BUFSIZE, this]

/-- The loop of `_consume_literal` stops at the first character that is not
a literal character, when the buffer does not overflow before. -/
theorem literal_loop_ok (f : FILE) (cs tail : List Int) :
    ∀ buf : List Int, cs.all _is_literal_char = true → buf.length + cs.length ≤ 64 →
      ((next_char f tail).1 != EOF && _is_literal_char (next_char f tail).1) = false →
      _consume_literal_loop f (cs ++ tail) buf =
        ((next_char f tail).1, (next_char f tail).2, buf ++ cs) := by
  induction cs with
  | nil =>
    intro buf _ _ ht
    cases tail with
    | nil => simp [_consume_literal_loop, next_char]
    | cons b rest =>
      simp only [next_char] at ht
      simp [_consume_literal_loop, next_char, ht]
  | cons x cs ih =>
    intro buf hcs hlen ht
    simp only [List.all_cons, Bool.and_eq_true] at hcs
    have hx := literal_char_ascii hcs.1
    simp only [List.length_cons] at hlen
    have hne : (x != EOF) = true := by simp [EOF]; omega
    simp only [List.cons_append, _consume_literal_loop, ascii_char hx.1 hx.2, hne, hcs.1,
      Bool.and_self, if_true, WRITECHAR_ok x (show buf.length < 64 by omega)]
    rw [show cs.append tail = cs ++ tail from rfl, ih (buf ++ [x]) hcs.2 (by simp; omega) ht]
    simp

theorem literal_loop_buf_full (f : FILE) (data : List Int) (buf : List Int)
    (h : 64 ≤ buf.length) : (_consume_literal_loop f data buf).2.2 = buf := by
  cases data with
  | nil => simp [_consume_literal_loop]
  | cons b rest =>
    simp only [_consume_literal_loop, WRITECHAR_full _ h]
    split <;> simp

/-- With 64 or more literal characters the buffer is full when the loop ends. -/
theorem literal_loop_long (f : FILE) (cs tail : List Int) :
    ∀ buf : List Int, cs.all _is_literal_char = true → buf.length ≤ 64 →
      64 ≤ buf.length + cs.length →
      (_consume_literal_loop f (cs ++ tail) buf).2.2.length = 64 := by
  induction cs with
  | nil =>
    intro buf _ h1 h2
    simp only [List.length_nil, Nat.add_zero] at h2
    rw [List.nil_append, literal_loop_buf_full f tail buf h2]; omega
  | cons x cs ih =>
    intro buf hcs h1 h2
    by_cases hfull : 64 ≤ buf.length
    · rw [literal_loop_buf_full f _ buf hfull]; omega
    · simp only [List.all_cons, Bool.and_eq_true] at hcs
      have hx := literal_char_ascii hcs.1
      simp only [List.length_cons] at h2
      have hne : (x != EOF) = true := by simp [EOF]; omega
      simp only [List.cons_append, _consume_literal_loop, ascii_char hx.1 hx.2, hne, hcs.1,
        Bool.and_self, if_true, WRITECHAR_ok x (show buf.length < 64 by omega)]
      rw [show cs.append tail = cs ++ tail from rfl]
      exact ih (buf ++ [x]) hcs.2 (by simp; omega) (by simp; omega)

theorem token_switch_literal (doc : json_doc) (c : Int) (h : (isalpha c || c == 95) = true) :
    token_switch doc c = _consume_literal doc c := by
  simp only [isalpha, Bool.or_eq_true, Bool.and_eq_true, decide_eq_true_eq, beq_iff_eq] at h
  have h1 : (c == EOF && feof doc.jdoc_f) = false := by
    have : (c == EOF) = false := by simp [EOF]; omega
    simp [this]
  have h2 : (c == EOF && ferror doc.jdoc_f) = false := by
    have : (c == EOF) = false := by simp [EOF]; omega
    simp [this]
  have h3 : isascii c = true := isascii_iff.2 (by omega)
  have n1 : (c == 123) = false := by simp; omega
  have n2 : (c == 125) = false := by simp; omega
  have n3 : (c == 58) = false := by simp; omega
  have n4 : (c == 91) = false := by simp; omega
  have n5 : (c == 93) = false := by simp; omega
  have n6 : (c == 44) = false := by simp; omega
  have h4 : ((decide (97 ≤ c) && decide (c ≤ 122)) || (decide (65 ≤ c) && decide (c ≤ 90))
      || c == 95) = true := by
    simp only [Bool.or_eq_true, Bool.and_eq_true, decide_eq_true_eq, beq_iff_eq]; omega
  simp only [token_switch, h1, h2, h3, n1, n2, n3, n4, n5, n6, h4, Bool.not_true,
    Bool.false_eq_true, if_false, if_true]

/-- An unquoted literal of at most 63 characters is returned, and the
character that ended it is pushed back. -/
theorem consume_literal_ok (doc : json_doc) (c : Int) (cs tail : List Int)
    (hd : doc.jdoc_f.data = cs ++ tail) (hcs : cs.all _is_literal_char = true)
    (hlen : (c :: cs).length ≤ 63)
    (ht : ((next_char doc.jdoc_f tail).1 != EOF &&
      _is_literal_char (next_char doc.jdoc_f tail).1) = false) :
    _consume_literal doc c =
      (0, lit_tok (c :: cs),
        { doc with jdoc_f := (next_char doc.jdoc_f tail).2,
                   jdoc_nextc := (next_char doc.jdoc_f tail).1, jdoc_nextc_avail := true }) := by
  simp only [List.length_cons] at hlen
  unfold _consume_literal
  simp only [WRITECHAR_ok c (show ([] : List Int).length < 64 by simp), List.nil_append, hd]
  rw [literal_loop_ok doc.jdoc_f cs tail [c] hcs (by simp; omega) ht]
  simp only [List.singleton_append,
    WRITECHAR_ok 0 (show (c :: cs).length < 64 by simp; omega), Bool.not_true,
    Bool.false_eq_true, if_false, RETURN_TOKEN_LIT, lit_tok]

/-- An unquoted literal of 64 or more characters is a lexical error. -/
theorem consume_literal_long (doc : json_doc) (c : Int) (cs tail : List Int)
    (hd : doc.jdoc_f.data = cs ++ tail) (hcs : cs.all _is_literal_char = true)
    (hlen : 64 ≤ (c :: cs).length) :
    (_consume_literal doc c).1 = EINVAL ∧
      (_consume_literal doc c).2.1 = ⟨JSON_TOK_ERR, none⟩ := by
  simp only [List.length_cons] at hlen
  unfold _consume_literal
  simp only [WRITECHAR_ok c (show ([] : List Int).length < 64 by simp), List.nil_append, hd]
  have := literal_loop_long doc.jdoc_f cs tail [c] hcs (by simp) (by simp; omega)
  simp only [WRITECHAR_full 0 (show 64 ≤ _ from le_of_eq this.symm), Bool.not_false, if_true,
    RETURN_TOKEN_ERROR, and_self]

/-! ### Quoted literals -/

theorem quoted_item_facts {it : Bool × Int} (h : quoted_item_ok it = true) :
    32 ≤ it.2 ∧ it.2 ≤ 126 ∧ _is_literal_string_char it.2 = true ∧
      (it.1 = false → it.2 ≠ 34 ∧ it.2 ≠ 92) := by
  simp only [quoted_item_ok, Bool.and_eq_true, Bool.or_eq_true, bne_iff_ne, ne_eq] at h
  have h1 := h.1
  simp only [_is_literal_string_char, isascii, isprint, Bool.and_eq_true,
    decide_eq_true_eq] at h1
  refine ⟨h1.2.1, h1.2.2, h.1, fun hf => ?_⟩
  rcases h.2 with h2 | h2
  · rw [hf] at h2; exact absurd h2 (by simp)
  · exact h2

theorem string_loop_close (f : FILE) (rest buf : List Int) :
    _consume_literal_string_loop f (34 :: rest) buf = .out 34 (f.at rest) buf := by
  cases rest <;> simp [_consume_literal_string_loop, char_of_int, EOF]

theorem string_loop_plain (f : FILE) (x : Int) (data buf : List Int)
    (h32 : 32 ≤ x) (h126 : x ≤ 126) (n34 : x ≠ 34) (n92 : x ≠ 92) :
    _consume_literal_string_loop f (x :: data) buf =
      if buf.length < 64 then _consume_literal_string_loop f data (buf ++ [x])
      else .ret EINVAL (f.at data) := by
  have hx : char_of_int (x % 256) = x := ascii_char (by omega) (by omega)
  have e1 : (x != EOF && x != 34) = true := by
    simp only [Bool.and_eq_true, bne_iff_ne, ne_eq, EOF]; constructor <;> omega
  have e2 : (x == 92) = false := by simpa using n92
  have hpr : _is_literal_string_char x = true := by
    simp only [_is_literal_string_char, isascii, isprint, Bool.and_eq_true, decide_eq_true_eq]
    omega
  by_cases hb : buf.length < 64
  · cases data <;>
      simp [_consume_literal_string_loop, hx, e1, e2, hpr, WRITECHAR_ok x hb, hb]
  · cases data <;>
      simp [_consume_literal_string_loop, hx, e1, e2, hpr,
        WRITECHAR_full x (show 64 ≤ buf.length by omega), hb]

theorem string_loop_escape (f : FILE) (x : Int) (data buf : List Int)
    (h32 : 32 ≤ x) (h126 : x ≤ 126) :
    _consume_literal_string_loop f (92 :: x :: data) buf =
      if buf.length < 64 then _consume_literal_string_loop f data (buf ++ [x])
      else .ret EINVAL (f.at data) := by
  have hx : char_of_int (x % 256) = x := ascii_char (by omega) (by omega)
  have hxe : (x == EOF) = false := by simp [EOF]; omega
  have h92 : char_of_int 92 = 92 := by decide
  have e1 : ¬ ((92 : Int) = EOF) := by decide
  have hpr : _is_literal_string_char x = true := by
    simp only [_is_literal_string_char, isascii, isprint, Bool.and_eq_true, decide_eq_true_eq]
    omega
  by_cases hb : buf.length < 64
  · simp [_consume_literal_string_loop, hx, h92, e1, hxe, hpr, WRITECHAR_ok x hb, hb]
  · simp [_consume_literal_string_loop, hx, h92, e1, hxe, hpr,
      WRITECHAR_full x (show 64 ≤ buf.length by omega), hb]

/-- One item of the body of a quoted literal is one round of the loop. -/
theorem string_loop_item (f : FILE) (it : Bool × Int) (items : List (Bool × Int))
    (tail buf : List Int) (hok : quoted_item_ok it = true) :
    _consume_literal_string_loop f (quoted_body (it :: items) ++ tail) buf =
      if buf.length < 64 then
        _consume_literal_string_loop f (quoted_body items ++ tail) (buf ++ [it.2])
      else .ret EINVAL (f.at (quoted_body items ++ tail)) := by
  obtain ⟨h32, h126, _, hq⟩ := quoted_item_facts hok
  obtain ⟨esc, x⟩ := it
  cases esc with
  | true => exact string_loop_escape f x _ buf h32 h126
  | false => exact string_loop_plain f x _ buf h32 h126 (hq rfl).1 (hq rfl).2

/-- The loop of `_consume_literal_string` keeps the characters of the body
and stops at the closing quote, when the buffer does not overflow before. -/
theorem string_loop_ok (f : FILE) (items : List (Bool × Int)) (rest : List Int) :
    ∀ buf : List Int, items.all quoted_item_ok = true → buf.length + items.length ≤ 64 →
      _consume_literal_string_loop f (quoted_body items ++ 34 :: rest) buf =
        .out 34 (f.at rest) (buf ++ items.map Prod.snd) := by
  induction items with
  | nil =>
    intro buf _ _
    simp [quoted_body, string_loop_close]
  | cons it items ih =>
    intro buf hok hlen
    simp only [List.all_cons, Bool.and_eq_true] at hok
    simp only [List.length_cons] at hlen
    rw [string_loop_item f it items _ buf hok.1, if_pos (by omega),
      ih (buf ++ [it.2]) hok.2 (by simp; omega)]
    simp

/-- When more characters are kept than the buffer holds, the loop returns
the lexical error. -/
theorem string_loop_long (f : FILE) (items : List (Bool × Int)) (tail : List Int) :
    ∀ buf : List Int, items.all quoted_item_ok = true → buf.length ≤ 64 →
      65 ≤ buf.length + items.length →
      ∃ f', _consume_literal_string_loop f (quoted_body items ++ tail) buf =
        .ret EINVAL f' := by
  induction items with
  | nil => intro buf _ h1 h2; simp at h2; omega
  | cons it items ih =>
    intro buf hok h1 h2
    simp only [List.all_cons, Bool.and_eq_true] at hok
    simp only [List.length_cons] at h2
    rw [string_loop_item f it items _ buf hok.1]
    by_cases hfull : buf.length < 64
    · rw [if_pos hfull]
      exact ih (buf ++ [it.2]) hok.2 (by simp; omega) (by simp; omega)
    · rw [if_neg hfull]
      exact ⟨_, rfl⟩

theorem token_switch_quote (doc : json_doc) :
    token_switch doc 34 = _consume_literal_string doc 34 := by
  simp [token_switch, EOF, isascii]

/-- A quoted literal that keeps at most 63 characters is returned; nothing
is pushed back. -/
theorem consume_literal_string_ok (doc : json_doc) (c : Int) (items : List (Bool × Int))
    (rest : List Int) (hd : doc.jdoc_f.data = quoted_body items ++ 34 :: rest)
    (hok : items.all quoted_item_ok = true) (hlen : items.length ≤ 63) :
    _consume_literal_string doc c =
      (0, lit_tok (items.map Prod.snd), { doc with jdoc_f := doc.jdoc_f.at rest }) := by
  unfold _consume_literal_string
  simp only [hd]
  rw [string_loop_ok doc.jdoc_f items rest [] hok (by simp; omega)]
  simp only [List.nil_append]
  have hw := @WRITECHAR_ok (items.map Prod.snd) 0 (by simp; omega)
  simp [hw, EOF, RETURN_TOKEN_LIT, lit_tok]

/-- A quoted literal that keeps 64 or more characters is a lexical error. -/
theorem consume_literal_string_long (doc : json_doc) (c : Int) (items : List (Bool × Int))
    (rest : List Int) (hd : doc.jdoc_f.data = quoted_body items ++ 34 :: rest)
    (hok : items.all quoted_item_ok = true) (hlen : 64 ≤ items.length) :
    (_consume_literal_string doc c).1 = EINVAL ∧
      (_consume_literal_string doc c).2.1 = ⟨JSON_TOK_ERR, none⟩ := by
  unfold _consume_literal_string
  simp only [hd]
  by_cases h64 : items.length = 64
  · rw [string_loop_ok doc.jdoc_f items rest [] hok (by simp; omega)]
    simp only [List.nil_append]
    have hw := @WRITECHAR_full (items.map Prod.snd) 0 (by simp; omega)
    simp [hw, EOF, RETURN_TOKEN_ERROR]
  · obtain ⟨f', hf⟩ := string_loop_long doc.jdoc_f items (34 :: rest) [] hok (by simp)
      (by simp; omega)
    rw [hf]
    simp [RETURN_TOKEN_ERROR]

/-! ### Numeric literals -/

theorem st_XX (col : Nat) : st XX col = XX := rfl

theorem digit_cases {d : Int} (h : isdigit d = true) :
    d = 48 ∨ d = 49 ∨ d = 50 ∨ d = 51 ∨ d = 52 ∨ d = 53 ∨ d = 54 ∨ d = 55 ∨ d = 56 ∨ d = 57 := by
  simp only [isdigit, Bool.and_eq_true, decide_eq_true_eq] at h; omega

theorem st_digit {d : Int} (h : isdigit d = true) :
    st IN (number_column d) = IN ∧ st FR (number_column d) = FR ∧
      st DO (number_column d) = FR ∧ st ZR (number_column d) = XX ∧
      st ST (number_column d) = (if d = 48 then ZR else IN) := by
  rcases digit_cases h with h | h | h | h | h | h | h | h | h | h <;> subst h <;> decide

theorem number_state_XX (s : List Int) : number_state XX s = XX := by
  induction s with
  | nil => rfl
  | cons c s ih => simp only [number_state, List.foldl_cons, st_XX] at *; exact ih

theorem number_state_cons (y : Nat) (c : Int) (s : List Int) :
    number_state y (c :: s) = number_state (st y (number_column c)) s := rfl

theorem number_state_append (y : Nat) (a b : List Int) :
    number_state y (a ++ b) = number_state (number_state y a) b := by
  simp [number_state, List.foldl_append]

theorem number_state_digits (s : List Int) (h : s.all isdigit = true) :
    number_state IN s = IN ∧ number_state FR s = FR := by
  induction s with
  | nil => exact ⟨rfl, rfl⟩
  | cons d s ih =>
    simp only [List.all_cons, Bool.and_eq_true] at h
    rw [number_state_cons, number_state_cons, (st_digit h.1).1, (st_digit h.1).2.1]
    exact ih h.2

theorem int_part_state {ip : List Int} (h : is_int_part ip = true) :
    ip ≠ [] ∧ ip.all isdigit = true ∧ (number_state ST ip = IN ∨ number_state ST ip = ZR) := by
  cases ip with
  | nil => simp [is_int_part] at h
  | cons d ds =>
    simp only [is_int_part, Bool.or_eq_true, Bool.and_eq_true, beq_iff_eq, List.isEmpty_iff,
      decide_eq_true_eq] at h
    rcases h with ⟨h48, hds⟩ | ⟨⟨h49, h57⟩, hds⟩
    · subst h48 hds
      exact ⟨by simp, by decide, Or.inr (by decide)⟩
    · have hd : isdigit d = true := by
        simp only [isdigit, Bool.and_eq_true, decide_eq_true_eq]; omega
      refine ⟨by simp, by simp [hd, hds], Or.inl ?_⟩
      rw [number_state_cons, (st_digit hd).2.2.2.2, if_neg (by omega)]
      exact (number_state_digits ds hds).1

theorem frac_part_state {fp : List Int} (h : is_frac_part fp = true) (y : Nat)
    (hy : y = IN ∨ y = ZR) :
    (∀ x ∈ fp, isdigit x = true ∨ x = 46) ∧
      (number_state y fp = IN ∨ number_state y fp = ZR ∨ number_state y fp = FR) := by
  cases fp with
  | nil => rcases hy with h | h <;> simp [number_state, h]
  | cons d ds =>
    simp only [is_frac_part, Bool.and_eq_true, beq_iff_eq, Bool.not_eq_true',
      List.isEmpty_eq_false] at h
    obtain ⟨⟨hd, hne⟩, hds⟩ := h
    subst hd
    cases ds with
    | nil => exact absurd rfl hne
    | cons e es =>
      simp only [List.all_cons, Bool.and_eq_true] at hds
      constructor
      · intro x hx
        simp only [List.mem_cons] at hx
        rcases hx with hx | hx | hx
        · exact Or.inr hx
        · exact Or.inl (hx ▸ hds.1)
        · exact Or.inl (List.all_eq_true.1 hds.2 x hx)
      · have hdot : st y (number_column 46) = DO := by rcases hy with h | h <;> subst h <;> decide
        rw [number_state_cons, hdot, number_state_cons, (st_digit hds.1).2.2.1]
        exact Or.inr (Or.inr (number_state_digits es hds.2).2)

/-- A text of the number language consists of digits and dots and leaves
the automaton in one of its three end states. -/
theorem is_number_state {s : List Int} (h : is_number s = true) :
    s ≠ [] ∧ (∀ x ∈ s, isdigit x = true ∨ x = 46) ∧ isdigit (s.headD 0) = true ∧
      (number_state ST s = IN ∨ number_state ST s = ZR ∨ number_state ST s = FR) := by
  simp only [is_number, Bool.and_eq_true] at h
  obtain ⟨hne, hall, hst⟩ := int_part_state h.1
  have hs : s = s.takeWhile isdigit ++ s.dropWhile isdigit :=
    (List.takeWhile_append_dropWhile isdigit s).symm
  have hfr := frac_part_state h.2 (number_state ST (s.takeWhile isdigit)) hst
  refine ⟨fun h0 => hne (by rw [h0]; rfl), ?_, ?_, ?_⟩
  · intro x hx
    rw [hs, List.mem_append] at hx
    rcases hx with hx | hx
    · exact Or.inl (List.all_eq_true.1 hall x hx)
    · exact hfr.1 x hx
  · cases s with
    | nil => exact absurd rfl hne
    | cons d ds =>
      by_cases hd : isdigit d = true
      · exact hd
      · simp only [List.takeWhile, Bool.not_eq_true] at hne hd
        simp [hd] at hne
  · rw [hs, number_state_append]; exact hfr.2

theorem number_loop_stop (f : FILE) (data : List Int) (y : Nat) (c : Int) (buf : List Int)
    (h1 : (isascii c && isdigit c) = false) (h2 : c ≠ 46) :
    _consume_literal_number_loop f data y c buf = .out y c (f.at data) buf := by
  have h3 : (c == 46) = false := by simpa using h2
  rw [_consume_literal_number_loop]
  simp [h1, h3]

theorem number_loop_step (f : FILE) (data : List Int) (y : Nat) (c : Int) (buf : List Int)
    (hc : isdigit c = true ∨ c = 46) (hy : st y (number_column c) ≠ XX) :
    _consume_literal_number_loop f data y c buf =
      if buf.length < 64 then
        match data with
        | [] => .out (st y (number_column c)) (char_of_int EOF) f.atEnd (buf ++ [c])
        | b :: rest =>
          if char_of_int (b % 256) != EOF then
            _consume_literal_number_loop f rest (st y (number_column c))
              (char_of_int (b % 256)) (buf ++ [c])
          else .out (st y (number_column c)) (char_of_int (b % 256)) (f.at rest) (buf ++ [c])
      else .ret EINVAL (f.at data) := by
  have hyb : (st y (number_column c) == XX) = false := by simpa using hy
  rw [_consume_literal_number_loop]
  rcases hc with hc | hc
  · have hd := hc
    simp only [isdigit, Bool.and_eq_true, decide_eq_true_eq] at hd
    have ha : (isascii c && isdigit c) = true := by
      simp [hc, isascii_iff.2 (show 0 ≤ c ∧ c ≤ 127 by omega)]
    have hcol : number_column c = (c - 48).toNat := by
      have : (c == 46) = false := by simp; omega
      simp [number_column, this]
    rw [hcol] at hyb
    by_cases hb : buf.length < 64
    · simp only [ha, if_true, hyb, Bool.false_eq_true, if_false, WRITECHAR_ok c hb,
        Bool.not_true, hb, hcol]
    · simp only [ha, if_true, hyb, Bool.false_eq_true, if_false,
        WRITECHAR_full c (show 64 ≤ buf.length by omega), Bool.not_false, hb]
  · subst hc
    have ha : (isascii (46 : Int) && isdigit 46) = false := by decide
    have hcol : number_column 46 = 10 := by decide
    rw [hcol] at hyb
    by_cases hb : buf.length < 64
    · simp only [ha, Bool.false_eq_true, if_false, beq_self_eq_true, if_true, hyb,
        WRITECHAR_ok 46 hb, Bool.not_true, hb, hcol]
    · simp only [ha, Bool.false_eq_true, if_false, beq_self_eq_true, if_true, hyb,
        WRITECHAR_full 46 (show 64 ≤ buf.length by omega), Bool.not_false, hb]

theorem digit_or_dot_char {x : Int} (h : isdigit x = true ∨ x = 46) :
    char_of_int (x % 256) = x ∧ (x != EOF) = true := by
  have : 46 ≤ x ∧ x ≤ 57 := by
    rcases h with h | h
    · simp only [isdigit, Bool.and_eq_true, decide_eq_true_eq] at h; omega
    · omega
  exact ⟨ascii_char (by omega) (by omega), by simp [EOF]; omega⟩

/-- The loop of `_consume_literal_number` follows the automaton over a run
of digits and dots and stops at the first other character, when the error
state is not met and the buffer does not overflow. -/
theorem number_loop_ok (f : FILE) (tail : List Int)
    (ht : (isascii (next_char f tail).1 && isdigit (next_char f tail).1) = false)
    (ht2 : (next_char f tail).1 ≠ 46) :
    ∀ (s : List Int) (c : Int) (y : Nat) (buf : List Int),
      (∀ x ∈ c :: s, isdigit x = true ∨ x = 46) → number_state y (c :: s) ≠ XX →
      buf.length + (c :: s).length ≤ 64 →
      _consume_literal_number_loop f (s ++ tail) y c buf =
        .out (number_state y (c :: s)) (next_char f tail).1 (next_char f tail).2
          (buf ++ c :: s) := by
  intro s
  induction s with
  | nil =>
    intro c y buf hall hst hlen
    simp only [List.length_cons, List.length_nil] at hlen
    have hy : st y (number_column c) ≠ XX := hst
    rw [List.nil_append, number_loop_step f tail y c buf (hall c (by simp)) hy,
      if_pos (by omega)]
    cases tail with
    | nil => rfl
    | cons b rest =>
      simp only [next_char] at ht ht2 ⊢
      by_cases he : (char_of_int (b % 256) != EOF) = true
      · simp only [he, if_true]
        rw [number_loop_stop f rest _ _ _ ht ht2]; rfl
      · simp only [he, Bool.false_eq_true, if_false]; rfl
  | cons x s ih =>
    intro c y buf hall hst hlen
    simp only [List.length_cons] at hlen
    have hy : st y (number_column c) ≠ XX := by
      intro h
      rw [number_state_cons, h, number_state_XX] at hst
      exact hst rfl
    have hx := digit_or_dot_char (hall x (by simp))
    rw [List.cons_append, number_loop_step f _ y c buf (hall c (by simp)) hy,
      if_pos (by omega)]
    simp only [hx.1, hx.2, if_true]
    rw [ih x _ (buf ++ [c]) (fun z hz => hall z (List.mem_cons_of_mem _ hz))
      (by rw [← number_state_cons]; exact hst) (by simp; omega)]
    simp [number_state_cons]

/-- A run of digits and dots that overflows the buffer is a lexical error. -/
theorem number_loop_long (f : FILE) (tail : List Int) :
    ∀ (s : List Int) (c : Int) (y : Nat) (buf : List Int),
      (∀ x ∈ c :: s, isdigit x = true ∨ x = 46) → number_state y (c :: s) ≠ XX →
      buf.length ≤ 64 → 65 ≤ buf.length + (c :: s).length →
      ∃ f', _consume_literal_number_loop f (s ++ tail) y c buf = .ret EINVAL f' := by
  intro s
  induction s with
  | nil =>
    intro c y buf hall hst h1 h2
    simp only [List.length_cons, List.length_nil] at h2
    have hy : st y (number_column c) ≠ XX := hst
    rw [List.nil_append, number_loop_step f tail y c buf (hall c (by simp)) hy,
      if_neg (by omega)]
    exact ⟨_, rfl⟩
  | cons x s ih =>
    intro c y buf hall hst h1 h2
    simp only [List.length_cons] at h2
    have hy : st y (number_column c) ≠ XX := by
      intro h
      rw [number_state_cons, h, number_state_XX] at hst
      exact hst rfl
    have hx := digit_or_dot_char (hall x (by simp))
    rw [List.cons_append, number_loop_step f _ y c buf (hall c (by simp)) hy]
    by_cases hb : buf.length < 64
    · rw [if_pos hb]
      simp only [hx.1, hx.2, if_true]
      exact ih x _ (buf ++ [c]) (fun z hz => hall z (List.mem_cons_of_mem _ hz))
        (by rw [← number_state_cons]; exact hst) (by simp; omega)
        (by simp only [List.length_append, List.length_cons, List.length_nil]; omega)
    · rw [if_neg hb]
      exact ⟨_, rfl⟩

theorem token_switch_digit (doc : json_doc) (c : Int) (h : isdigit c = true) :
    token_switch doc c = _consume_literal_number doc c := by
  simp only [isdigit, Bool.and_eq_true, decide_eq_true_eq] at h
  have e : (c == EOF) = false := by simp [EOF]; omega
  have h3 : isascii c = true := isascii_iff.2 (by omega)
  have n1 : (c == 123) = false := by simp; omega
  have n2 : (c == 125) = false := by simp; omega
  have n3 : (c == 58) = false := by simp; omega
  have n4 : (c == 91) = false := by simp; omega
  have n5 : (c == 93) = false := by simp; omega
  have n6 : (c == 44) = false := by simp; omega
  have n7 : (c == 34) = false := by simp; omega
  have h4 : ((decide (97 ≤ c) && decide (c ≤ 122)) || (decide (65 ≤ c) && decide (c ≤ 90))
      || c == 95) = false := by
    simp only [Bool.or_eq_false_iff, Bool.and_eq_false_iff, decide_eq_false_iff_not,
      beq_eq_false_iff_ne]
    omega
  have h5 : (decide (48 ≤ c) && decide (c ≤ 57)) = true := by
    simp only [Bool.and_eq_true, decide_eq_true_eq]; omega
  simp only [token_switch, e, Bool.false_and, h3, n1, n2, n3, n4, n5, n6, n7, h4, h5,
    Bool.not_true, Bool.false_eq_true, if_false, if_true]

/-! ### Lexemes and token sequences -/

/-- What `_consume_literal_number` does after its loop, for a text of the
number language of at most 64 characters followed by a character that is
neither a digit nor a dot. -/
theorem consume_literal_number_eq (doc : json_doc) (c : Int) (s tail : List Int)
    (hd : doc.jdoc_f.data = s ++ tail) (hnum : is_number (c :: s) = true)
    (ht : (isascii (next_char doc.jdoc_f tail).1 && isdigit (next_char doc.jdoc_f tail).1) = false)
    (ht2 : (next_char doc.jdoc_f tail).1 ≠ 46) (hlen : (c :: s).length ≤ 64) :
    _consume_literal_number doc c =
      if !((next_char doc.jdoc_f tail).1 == EOF || (isascii (next_char doc.jdoc_f tail).1 &&
          (isspace (next_char doc.jdoc_f tail).1 || ispunct (next_char doc.jdoc_f tail).1))) then
        RETURN_TOKEN_ERROR { doc with jdoc_f := (next_char doc.jdoc_f tail).2 } EINVAL
      else if !(WRITECHAR (c :: s) 0).1 then
        RETURN_TOKEN_ERROR { doc with jdoc_f := (next_char doc.jdoc_f tail).2 } EINVAL
      else
        RETURN_TOKEN_LIT { doc with jdoc_f := (next_char doc.jdoc_f tail).2,
                                    jdoc_nextc := (next_char doc.jdoc_f tail).1,
                                    jdoc_nextc_avail := true } (c :: s) := by
  obtain ⟨_, hall, _, hst⟩ := is_number_state hnum
  have hxx : number_state ST (c :: s) ≠ XX := by
    rcases hst with h | h | h <;> rw [h] <;> decide
  have hend : (number_state ST (c :: s) != IN && number_state ST (c :: s) != ZR &&
      number_state ST (c :: s) != FR) = false := by
    rcases hst with h | h | h <;> rw [h] <;> decide
  unfold _consume_literal_number
  simp only [hd]
  rw [number_loop_ok doc.jdoc_f tail ht ht2 s c ST [] hall hxx (by simpa using hlen)]
  simp only [hend, Bool.false_eq_true, if_false, List.nil_append]

/-- A text of the number language of more than 64 characters is a lexical error. -/
theorem consume_literal_number_long (doc : json_doc) (c : Int) (s tail : List Int)
    (hd : doc.jdoc_f.data = s ++ tail) (hnum : is_number (c :: s) = true)
    (hlen : 65 ≤ (c :: s).length) :
    ∃ f', _consume_literal_number doc c = RETURN_TOKEN_ERROR { doc with jdoc_f := f' } EINVAL := by
  obtain ⟨_, hall, _, hst⟩ := is_number_state hnum
  have hxx : number_state ST (c :: s) ≠ XX := by
    rcases hst with h | h | h <;> rw [h] <;> decide
  obtain ⟨f', hf⟩ := number_loop_long doc.jdoc_f tail s c ST [] hall hxx (by simp)
    (by simpa using hlen)
  unfold _consume_literal_number
  simp only [hd, hf]
  exact ⟨f', rfl⟩

theorem next_char_delim (f : FILE) (t : Int) (rest : List Int) (h : is_delim t = true) :
    next_char f (t :: rest) = (t, f.at rest) := by
  obtain ⟨h0, h1, _⟩ := is_delim_facts h
  simp [next_char, ascii_char h0 h1]

/-- A lexeme followed by a delimiter is read as the literal token of its
text; the delimiter, when it was read, is pushed back. -/
theorem consume_lexeme (d : json_doc) (ws s lx : List Int) (t : Int) (rest : List Int)
    (hlx : Lexeme s lx) (hp : Pending d (ws ++ lx ++ t :: rest))
    (hws : ws.all isspace = true) (ht : is_delim t = true) :
    ∃ d', json_consume_token d = (0, lit_tok s, d') ∧ Pending d' (t :: rest) := by
  obtain ⟨t0, t1, tlit, tdig, tdot, tsp, teof⟩ := is_delim_facts ht
  cases hlx with
  | unquoted c cs hc hcs hlen =>
    have hc' := hc
    simp only [isalpha, Bool.or_eq_true, Bool.and_eq_true, decide_eq_true_eq, beq_iff_eq] at hc'
    have hns : isspace c = false := by
      simp only [isspace, Bool.or_eq_false_iff, beq_eq_false_iff_ne, Bool.and_eq_false_iff,
        decide_eq_false_iff_not]
      omega
    rw [List.append_assoc, List.cons_append] at hp
    obtain ⟨line, hl⟩ := consume_pending d ws c (cs ++ t :: rest) hp hws (by omega) (by omega) hns
    rw [hl, token_switch_literal _ c hc,
      consume_literal_ok _ c cs (t :: rest) rfl hcs hlen
        (by rw [next_char_delim _ t rest ht]; simp [tlit])]
    simp only [next_char_delim _ t rest ht]
    exact ⟨_, rfl, hp.1, Or.inr ⟨rfl, rfl⟩⟩
  | quoted items hok hlen =>
    have hp' : Pending d (ws ++ 34 :: (quoted_body items ++ 34 :: (t :: rest))) := by
      simpa using hp
    obtain ⟨line, hl⟩ := consume_pending d ws 34 _ hp' hws (by omega) (by omega) (by decide)
    rw [hl, token_switch_quote, consume_literal_string_ok _ 34 items (t :: rest) rfl hok hlen]
    exact ⟨_, rfl, hp.1, Or.inl ⟨rfl, rfl⟩⟩
  | number s hnum hlen =>
    obtain ⟨hne, _, hdig, _⟩ := is_number_state hnum
    cases s with
    | nil => exact absurd rfl hne
    | cons c s =>
      simp only [List.headD_cons] at hdig
      have hc' := hdig
      simp only [isdigit, Bool.and_eq_true, decide_eq_true_eq] at hc'
      have hns : isspace c = false := by
        simp only [isspace, Bool.or_eq_false_iff, beq_eq_false_iff_ne, Bool.and_eq_false_iff,
          decide_eq_false_iff_not]
        omega
      rw [List.append_assoc, List.cons_append] at hp
      obtain ⟨line, hl⟩ := consume_pending d ws c (s ++ t :: rest) hp hws (by omega) (by omega) hns
      rw [hl, token_switch_digit _ c hdig,
        consume_literal_number_eq _ c s (t :: rest) rfl hnum
          (by rw [next_char_delim _ t rest ht]; simp [tdig])
          (by rw [next_char_delim _ t rest ht]; exact tdot) (by omega)]
      simp only [next_char_delim _ t rest ht]
      have hw := @WRITECHAR_ok (c :: s) 0 (by omega)
      have hterm : (t == EOF || (isascii t && (isspace t || ispunct t))) = true := by
        simp [tsp, isascii_iff.2 ⟨t0, t1⟩]
      simp only [hterm, hw, Bool.not_true, Bool.false_eq_true, if_false, RETURN_TOKEN_LIT]
      exact ⟨_, rfl, hp.1, Or.inr ⟨rfl, rfl⟩⟩

/-- The bytes that spell a punctuation token start with a delimiter. -/
theorem spelled_punct_head (id : json_token_id) (ts : List json_token) (bs : List Int)
    (h : Spelled (punct_tok id :: ts) bs) :
    ∃ t tl, bs = t :: tl ∧ is_delim t = true := by
  cases h with
  | punct ws _ c _ bs' hws hc hs =>
    cases ws with
    | nil => exact ⟨c, bs', rfl, (punct_char_facts hc).2.2.2⟩
    | cons w ws =>
      simp only [List.all_cons, Bool.and_eq_true] at hws
      exact ⟨w, ws ++ c :: bs', rfl, by simp [is_delim, hws.1]⟩

/-- The tokenizer returns the tokens that the input spells. -/
theorem toks_of_spelled (ts : List json_token) (bs : List Int) (h : Spelled ts bs) :
    ∀ (d : json_doc) (rest : List Int), Pending d (bs ++ rest) → Toks d ts := by
  induction h with
  | nil => intro d rest _; trivial
  | punct ws id c ts bs hws hc _ ih =>
    intro d rest hp
    rw [List.append_assoc, List.cons_append] at hp
    obtain ⟨d', hd', hp'⟩ := consume_punct d ws id c (bs ++ rest) hp hws hc
    simp only [Toks, hd']
    exact ⟨trivial, trivial, ih d' rest hp'⟩
  | lit ws s lx id ts bs hws hlx hid hs ih =>
    intro d rest hp
    obtain ⟨t, tl, hbs, ht⟩ := spelled_punct_head id ts bs hs
    have hp2 : Pending d (ws ++ lx ++ t :: (tl ++ rest)) := by
      rw [hbs] at hp; simpa using hp
    obtain ⟨d', hd', hp'⟩ := consume_lexeme d ws s lx t (tl ++ rest) hlx hp2 hws ht
    simp only [Toks, hd']
    refine ⟨trivial, trivial, ?_⟩
    have := ih d' rest (by rw [hbs]; simpa using hp')
    simpa [Toks] using this

/-! ### The look-ahead token -/

theorem consume_literal_frame (doc : json_doc) (c : Int) (x : json_token) :
    _consume_literal { doc with jdoc_lookahead := x } c =
      ((_consume_literal doc c).1, (_consume_literal doc c).2.1,
        { (_consume_literal doc c).2.2 with jdoc_lookahead := x }) ∧
    (_consume_literal doc c).2.2.jdoc_lookahead_avail = doc.jdoc_lookahead_avail := by
  unfold _consume_literal RETURN_TOKEN_ERROR RETURN_TOKEN_LIT
  simp only
  split <;> exact ⟨rfl, rfl⟩

theorem consume_literal_string_frame (doc : json_doc) (c : Int) (x : json_token) :
    _consume_literal_string { doc with jdoc_lookahead := x } c =
      ((_consume_literal_string doc c).1, (_consume_literal_string doc c).2.1,
        { (_consume_literal_string doc c).2.2 with jdoc_lookahead := x }) ∧
    (_consume_literal_string doc c).2.2.jdoc_lookahead_avail = doc.jdoc_lookahead_avail := by
  unfold _consume_literal_string RETURN_TOKEN_ERROR RETURN_TOKEN_LIT
  simp only
  cases _consume_literal_string_loop doc.jdoc_f doc.jdoc_f.data [] with
  | ret err f => exact ⟨rfl, rfl⟩
  | out c f buf =>
    simp only
    split
    · exact ⟨rfl, rfl⟩
    · split <;> exact ⟨rfl, rfl⟩

theorem consume_literal_number_frame (doc : json_doc) (c : Int) (x : json_token) :
    _consume_literal_number { doc with jdoc_lookahead := x } c =
      ((_consume_literal_number doc c).1, (_consume_literal_number doc c).2.1,
        { (_consume_literal_number doc c).2.2 with jdoc_lookahead := x }) ∧
    (_consume_literal_number doc c).2.2.jdoc_lookahead_avail = doc.jdoc_lookahead_avail := by
  unfold _consume_literal_number RETURN_TOKEN_ERROR RETURN_TOKEN_LIT
  simp only
  cases _consume_literal_number_loop doc.jdoc_f doc.jdoc_f.data ST c [] with
  | ret err f => exact ⟨rfl, rfl⟩
  | out y c f buf =>
    simp only
    split
    · exact ⟨rfl, rfl⟩
    · split
      · exact ⟨rfl, rfl⟩
      · split <;> exact ⟨rfl, rfl⟩

theorem token_switch_frame (doc : json_doc) (c : Int) (x : json_token) :
    token_switch { doc with jdoc_lookahead := x } c =
      ((token_switch doc c).1, (token_switch doc c).2.1,
        { (token_switch doc c).2.2 with jdoc_lookahead := x }) ∧
    (token_switch doc c).2.2.jdoc_lookahead_avail = doc.jdoc_lookahead_avail := by
  unfold token_switch RETURN_TOKEN_ERROR RETURN_TOKEN
  simp only
  by_cases h0 : (c == EOF && feof doc.jdoc_f) = true
  · simp only [if_pos h0]; first | exact ⟨rfl, rfl⟩ | exact ⟨trivial, rfl⟩ | rfl | trivial
  simp only [if_neg h0]
  by_cases h1 : (c == EOF && ferror doc.jdoc_f) = true
  · simp only [if_pos h1]; first | exact ⟨rfl, rfl⟩ | exact ⟨trivial, rfl⟩ | rfl | trivial
  simp only [if_neg h1]
  by_cases h2 : (!isascii c) = true
  · simp only [if_pos h2]; first | exact ⟨rfl, rfl⟩ | exact ⟨trivial, rfl⟩ | rfl | trivial
  simp only [if_neg h2]
  by_cases h3 : (c == 123) = true
  · simp only [if_pos h3]; first | exact ⟨rfl, rfl⟩ | exact ⟨trivial, rfl⟩ | rfl | trivial
  simp only [if_neg h3]
  by_cases h4 : (c == 125) = true
  · simp only [if_pos h4]; first | exact ⟨rfl, rfl⟩ | exact ⟨trivial, rfl⟩ | rfl | trivial
  simp only [if_neg h4]
  by_cases h5 : (c == 58) = true
  · simp only [if_pos h5]; first | exact ⟨rfl, rfl⟩ | exact ⟨trivial, rfl⟩ | rfl | trivial
  simp only [if_neg h5]
  by_cases h6 : (c == 91) = true
  · simp only [if_pos h6]; first | exact ⟨rfl, rfl⟩ | exact ⟨trivial, rfl⟩ | rfl | trivial
  simp only [if_neg h6]
  by_cases h7 : (c == 93) = true
  · simp only [if_pos h7]; first | exact ⟨rfl, rfl⟩ | exact ⟨trivial, rfl⟩ | rfl | trivial
  simp only [if_neg h7]
  by_cases h8 : (c == 44) = true
  · simp only [if_pos h8]; first | exact ⟨rfl, rfl⟩ | exact ⟨trivial, rfl⟩ | rfl | trivial
  simp only [if_neg h8]
  by_cases h9 : ((decide (97 ≤ c) && decide (c ≤ 122)) || (decide (65 ≤ c) && decide (c ≤ 90)) || c == 95) = true
  · simp only [if_pos h9]; exact consume_literal_frame doc c x
  simp only [if_neg h9]
  by_cases h10 : (c == 34) = true
  · simp only [if_pos h10]; exact consume_literal_string_frame doc c x
  simp only [if_neg h10]
  by_cases h11 : (decide (48 ≤ c) && decide (c ≤ 57)) = true
  · simp only [if_pos h11]; exact consume_literal_number_frame doc c x
  simp only [if_neg h11]; first | exact ⟨rfl, rfl⟩ | exact ⟨trivial, rfl⟩ | rfl | trivial

/-- Without a look-ahead token, `json_consume_token` is the `switch` on the
first character after the whitespace. -/
theorem consume_eq_switch (d : json_doc) (h : d.jdoc_lookahead_avail = false) :
    json_consume_token d = token_switch (after_space d).1 (after_space d).2 := by
  unfold json_consume_token
  rw [if_neg (by simp [h])]
  rfl

theorem after_space_frame (d : json_doc) (x : json_token) :
    after_space { d with jdoc_lookahead := x } =
      ({ (after_space d).1 with jdoc_lookahead := x }, (after_space d).2) := rfl

theorem after_space_lookahead_avail (d : json_doc) :
    (after_space d).1.jdoc_lookahead_avail = d.jdoc_lookahead_avail := rfl

/-- After `json_consume_token` no look-ahead token is available. -/
theorem consume_lookahead_avail (d : json_doc) :
    (json_consume_token d).2.2.jdoc_lookahead_avail = false := by
  by_cases h : d.jdoc_lookahead_avail = true
  · unfold json_consume_token
    rw [if_pos h]
  · simp only [Bool.not_eq_true] at h
    rw [consume_eq_switch d h, (token_switch_frame _ _ d.jdoc_lookahead).2,
      after_space_lookahead_avail]
    exact h

/-- A look-ahead token that is not available has no influence on the tokenizer. -/
theorem consume_stale (d : json_doc) (x : json_token) (h : d.jdoc_lookahead_avail = false) :
    json_consume_token { d with jdoc_lookahead := x } =
      ((json_consume_token d).1, (json_consume_token d).2.1,
        { (json_consume_token d).2.2 with jdoc_lookahead := x }) := by
  rw [consume_eq_switch d h, consume_eq_switch { d with jdoc_lookahead := x } h,
    after_space_frame]
  exact (token_switch_frame (after_space d).1 (after_space d).2 x).1

theorem toks_stale (ts : List json_token) :
    ∀ (d : json_doc) (x : json_token), d.jdoc_lookahead_avail = false → Toks d ts →
      Toks { d with jdoc_lookahead := x } ts := by
  induction ts with
  | nil => intro _ _ _ _; trivial
  | cons t ts ih =>
    intro d x h ht
    simp only [Toks] at ht ⊢
    rw [consume_stale d x h]
    exact ⟨ht.1, ht.2.1, ih _ x (consume_lookahead_avail d) ht.2.2⟩

theorem peek_eq (d : json_doc) (h : (json_consume_token d).1 = 0) :
    json_peek_token d =
      (0, (json_consume_token d).2.1,
        { (json_consume_token d).2.2 with
          jdoc_lookahead_avail := true, jdoc_lookahead := (json_consume_token d).2.1 }) := by
  unfold json_peek_token
  simp [h]

theorem consume_after_peek (D : json_doc) (t : json_token)
    (h : D.jdoc_lookahead_avail = false) :
    json_consume_token { D with jdoc_lookahead_avail := true, jdoc_lookahead := t } =
      (0, t, { D with jdoc_lookahead := t }) := by
  cases D
  simp only at h
  subst h
  rfl

/-- When the next token is `t`, a peek returns `t` and the consume after it
returns `t` again and leaves the tokens that follow `t`. -/
theorem peek_toks (d : json_doc) (t : json_token) (ts : List json_token)
    (h : Toks d (t :: ts)) :
    token_outcome (json_peek_token d) = .ok t (json_peek_token d).2.2 ∧
      Toks (json_peek_token d).2.2 (t :: ts) := by
  simp only [Toks] at h
  obtain ⟨h1, h2, h3⟩ := h
  rw [peek_eq d h1, h2]
  refine ⟨by simp [token_outcome], ?_⟩
  simp only [Toks]
  rw [consume_after_peek _ t (consume_lookahead_avail d)]
  exact ⟨rfl, rfl, toks_stale ts _ t (consume_lookahead_avail d) h3⟩

/-! ## Parser: a sentence is parsed to its tree -/

theorem set_replicate_append {α : Type} (u x : α) (l : List α) :
    ∀ ix : Nat, (List.replicate (ix + 1) u ++ l).set ix x = List.replicate ix u ++ x :: l := by
  intro ix
  induction ix with
  | zero => simp [List.replicate]
  | succ n ih =>
    rw [List.replicate_succ, List.cons_append, List.set_cons_succ, ih, List.replicate_succ,
      List.cons_append]

theorem set_replicate {α : Type} (u x : α) (ix : Nat) :
    (List.replicate (ix + 1) u).set ix x = List.replicate ix u ++ [x] := by
  have := set_replicate_append u x [] ix
  simpa using this

theorem set_replicate_then_append {α : Type} (u x : α) (l : List α) (ix : Nat) :
    (List.replicate (ix + 1) u).set ix x ++ l = List.replicate ix u ++ x :: l := by
  rw [set_replicate]; simp

theorem toks_cons {d : json_doc} {t : json_token} {ts : List json_token}
    (h : Toks d (t :: ts)) :
    token_outcome (json_consume_token d) = .ok t (json_consume_token d).2.2 ∧
      Toks (json_consume_token d).2.2 ts := by
  simp only [Toks] at h
  refine ⟨?_, h.2.2⟩
  simp [token_outcome, h.1, h.2.1]

theorem match_toks {d : json_doc} {t : json_token} {ts : List json_token}
    (id : json_token_id) (h : Toks d (t :: ts)) (hid : t.tok_id = id) :
    _match d id = .ok t (json_consume_token d).2.2 ∧ Toks (json_consume_token d).2.2 ts := by
  refine ⟨?_, (toks_cons h).2⟩
  unfold _match
  rw [(toks_cons h).1]
  simp [outcome.bind, hid]

/-- On the tokens of a value, array or object followed by any tokens, each
parsing function returns that value and leaves the tokens that follow,
when its budget is at least twice the size of the value. -/
theorem parse_tokens (fuel : Nat) :
    (∀ (v : json_value) (d : json_doc) (rest : List json_token),
      2 * sizeOf v ≤ fuel → Toks d (value_tokens v ++ rest) →
      ∃ d', _Value fuel d = .ok v d' ∧ Toks d' rest) ∧
    (∀ (a : json_array) (d : json_doc) (rest : List json_token),
      2 * sizeOf a + 1 ≤ fuel → Toks d (array_tokens a ++ rest) →
      ∃ d', _Array fuel d = .ok a d' ∧ Toks d' rest) ∧
    (∀ (v : json_value) (more : json_array) (d : json_doc) (rest : List json_token) (ix : Nat),
      2 * sizeOf (v :: more) ≤ fuel → Toks d (array_tokens (v :: more) ++ rest) →
      ∃ d', _Array_r fuel d ix = .ok (List.replicate ix uninit_value ++ v :: more) d' ∧
        Toks d' rest) ∧
    (∀ (o : json_object) (d : json_doc) (rest : List json_token),
      2 * sizeOf o + 1 ≤ fuel → Toks d (object_tokens o ++ rest) →
      ∃ d', _Object fuel d = .ok o d' ∧ Toks d' rest) ∧
    (∀ (t : json_tuple) (more : json_object) (d : json_doc) (rest : List json_token) (ix : Nat),
      2 * sizeOf (t :: more) ≤ fuel → Toks d (object_tokens (t :: more) ++ rest) →
      ∃ d', _Object_r fuel d ix = .ok (List.replicate ix uninit_tuple ++ t :: more) d' ∧
        Toks d' rest) := by
  induction fuel with
  | zero =>
    refine ⟨?_, ?_, ?_, ?_, ?_⟩
    · intro v d rest h _; cases v <;> simp at h
    · intro a d rest h _; omega
    · intro v more d rest ix h _; simp at h
    · intro o d rest h _; omega
    · intro t more d rest ix h _; simp at h
  | succ n ih =>
    obtain ⟨ihV, ihA, ihAr, ihO, ihOr⟩ := ih
    refine ⟨?_, ?_, ?_, ?_, ?_⟩
    · -- _Value
      intro v d rest hsz ht
      cases v with
      | JSON_VAL_LITERAL s =>
        simp only [value_tokens, List.cons_append, List.nil_append] at ht
        obtain ⟨h1, h2⟩ := toks_cons ht
        exact ⟨_, by simp [_Value, h1, outcome.bind, lit_tok], h2⟩
      | JSON_VAL_OBJECT o =>
        simp only [value_tokens, List.cons_append] at ht
        obtain ⟨h1, h2⟩ := toks_cons ht
        simp only [json_value.JSON_VAL_OBJECT.sizeOf_spec] at hsz
        obtain ⟨d', hd', ht'⟩ := ihO o _ rest (by omega) h2
        exact ⟨d', by simp [_Value, h1, outcome.bind, punct_tok, hd'], ht'⟩
      | JSON_VAL_ARRAY a =>
        simp only [value_tokens, List.cons_append] at ht
        obtain ⟨h1, h2⟩ := toks_cons ht
        simp only [json_value.JSON_VAL_ARRAY.sizeOf_spec] at hsz
        obtain ⟨d', hd', ht'⟩ := ihA a _ rest (by omega) h2
        exact ⟨d', by simp [_Value, h1, outcome.bind, punct_tok, hd'], ht'⟩
    · -- _Array
      intro a d rest hsz ht
      cases a with
      | nil =>
        simp only [array_tokens, List.cons_append, List.nil_append] at ht
        obtain ⟨h1, h2⟩ := peek_toks d _ _ ht
        exact ⟨_, by simp [_Array, h1, outcome.bind, punct_tok], (toks_cons h2).2⟩
      | cons v more =>
        have ht0 := ht
        simp only [array_tokens] at ht
        cases hv : value_tokens v ++ array_tail_tokens more ++ rest with
        | nil => cases v <;> simp [value_tokens] at hv
        | cons t ts =>
          rw [hv] at ht
          obtain ⟨h1, h2⟩ := peek_toks d _ _ ht
          have hne : (t.tok_id == JSON_TOK_ARRAY_END) = false := by
            cases v <;> simp [value_tokens, lit_tok, punct_tok] at hv <;> rw [← hv.1] <;> rfl
          rw [← hv] at h2
          obtain ⟨d', hd', ht'⟩ := ihAr v more _ rest 0 (by omega)
            (by simpa only [array_tokens] using h2)
          exact ⟨d', by simpa [_Array, h1, outcome.bind, hne] using hd', ht'⟩
    · -- _Array_r
      intro v more d rest ix hsz ht
      simp only [array_tokens, List.append_assoc] at ht
      simp only [List.cons.sizeOf_spec] at hsz
      obtain ⟨d1, hd1, ht1⟩ := ihV v d _ (by omega) ht
      cases more with
      | nil =>
        simp only [array_tail_tokens, List.cons_append, List.nil_append] at ht1
        obtain ⟨h1, h2⟩ := toks_cons ht1
        exact ⟨_, by simp [_Array_r, hd1, h1, outcome.bind, punct_tok, set_replicate], h2⟩
      | cons v2 more2 =>
        simp only [array_tail_tokens, List.cons_append] at ht1
        obtain ⟨h1, h2⟩ := toks_cons ht1
        obtain ⟨d', hd', ht'⟩ := ihAr v2 more2 _ rest (ix + 1) (by omega)
          (by simpa only [array_tokens] using h2)
        exact ⟨d', by simp [_Array_r, hd1, h1, outcome.bind, punct_tok, hd',
          set_replicate_then_append], ht'⟩
    · -- _Object
      intro o d rest hsz ht
      cases o with
      | nil =>
        simp only [object_tokens, List.cons_append, List.nil_append] at ht
        obtain ⟨h1, h2⟩ := peek_toks d _ _ ht
        exact ⟨_, by simp [_Object, h1, outcome.bind, punct_tok], (toks_cons h2).2⟩
      | cons t more =>
        obtain ⟨k, v⟩ := t
        have ht0 := ht
        simp only [object_tokens, List.cons_append] at ht
        obtain ⟨h1, h2⟩ := peek_toks d _ _ ht
        obtain ⟨d', hd', ht'⟩ := ihOr (k, v) more _ rest 0 (by omega)
          (by simpa only [object_tokens, List.cons_append] using h2)
        exact ⟨d', by simpa [_Object, h1, outcome.bind, lit_tok] using hd', ht'⟩
    · -- _Object_r
      intro t more d rest ix hsz ht
      obtain ⟨k, v⟩ := t
      simp only [object_tokens, List.cons_append, List.append_assoc] at ht
      simp only [List.cons.sizeOf_spec, Prod.mk.sizeOf_spec] at hsz
      obtain ⟨hm1, hk1⟩ := match_toks JSON_TOK_LIT ht rfl
      obtain ⟨hm2, hk2⟩ := match_toks JSON_TOK_COLON hk1 rfl
      obtain ⟨d1, hd1, ht1⟩ := ihV v _ _ (by omega) hk2
      cases more with
      | nil =>
        simp only [object_tail_tokens, List.cons_append, List.nil_append] at ht1
        obtain ⟨h1, h2⟩ := toks_cons ht1
        exact ⟨_, by simp [_Object_r, hm1, hm2, hd1, h1, outcome.bind, punct_tok, lit_tok,
          set_replicate], h2⟩
      | cons t2 more2 =>
        obtain ⟨k2, v2⟩ := t2
        simp only [object_tail_tokens, List.cons_append] at ht1
        obtain ⟨h1, h2⟩ := toks_cons ht1
        obtain ⟨d', hd', ht'⟩ := ihOr (k2, v2) more2 _ rest (ix + 1) (by omega)
          (by simpa only [object_tokens, List.cons_append, List.append_assoc] using h2)
        exact ⟨d', by simp [_Object_r, hm1, hm2, hd1, h1, outcome.bind, punct_tok, lit_tok,
          hd', set_replicate_then_append], ht'⟩

/-! ## Termination measure -/

theorem char_weight_le (c : Int) : 1 ≤ char_weight c ∧ char_weight c ≤ 2 := by
  unfold char_weight; split <;> omega

theorem char_weight_eof : char_weight (char_of_int EOF) = 1 := by decide

theorem FILE.atEnd_length (f : FILE) : f.atEnd.data.length = 0 := by
  rw [FILE.data_atEnd]; rfl

theorem skip_space_nil (f : FILE) (c : Int) (line : Nat)
    (h : (isascii c && isspace c) = true) :
    skip_space f [] c line =
      (EOF, f.atEnd, if (c == 10) = true then (line + 1) % 2 ^ 32 else line) := by
  rw [skip_space]; simp [h]

theorem skip_space_cons (f : FILE) (b : Int) (rest : List Int) (c : Int) (line : Nat)
    (h : (isascii c && isspace c) = true) :
    skip_space f (b :: rest) c line =
      skip_space f rest (b % 256) (if (c == 10) = true then (line + 1) % 2 ^ 32 else line) := by
  rw [skip_space]; simp [h]

theorem skip_space_measure (f : FILE) :
    ∀ (data : List Int) (c : Int) (line : Nat),
      ((skip_space f data c line).1 = c ∧ (skip_space f data c line).2.1.data = data) ∨
      (skip_space f data c line).2.1.data.length < data.length ∨
      isascii (skip_space f data c line).1 = false := by
  intro data
  induction data with
  | nil =>
    intro c line
    by_cases h : (isascii c && isspace c) = true
    · rw [skip_space_nil f c line h]
      right; right; rfl
    · simp only [Bool.not_eq_true] at h
      rw [skip_space_stop f _ c line h]
      left; exact ⟨rfl, rfl⟩
  | cons b rest ih =>
    intro c line
    by_cases h : (isascii c && isspace c) = true
    · rw [skip_space_cons f b rest c line h]
      rcases ih (b % 256) (if (c == 10) = true then (line + 1) % 2 ^ 32 else line) with h | h | h
      · right; left; rw [h.2]; simp
      · right; left; simp only [List.length_cons]; omega
      · right; right; exact h
    · simp only [Bool.not_eq_true] at h
      rw [skip_space_stop f _ c line h]
      left; exact ⟨rfl, rfl⟩

theorem after_space_measure_avail (d : json_doc) :
    (after_space d).1.jdoc_nextc_avail = false := rfl

/-- Reaching the `switch` with an ASCII character costs at least two units. -/
theorem after_space_measure (d : json_doc) (h : isascii (after_space d).2 = true) :
    doc_measure (after_space d).1 + 2 ≤ doc_measure d ∧
      (after_space d).1.jdoc_nextc_avail = false := by
  refine ⟨?_, rfl⟩
  unfold after_space doc_measure at *
  simp only at h ⊢
  by_cases hn : d.jdoc_nextc_avail = true
  · simp only [hn, if_true] at h ⊢
    rcases skip_space_measure d.jdoc_f d.jdoc_f.data d.jdoc_nextc d.jdoc_lineno with h1 | h1 | h1
    · rw [h1.1] at h
      rw [h1.2]
      simp only [char_weight, h, if_true, Bool.false_eq_true, if_false]
      omega
    · have := char_weight_le d.jdoc_nextc
      simp only [Bool.false_eq_true, if_false]
      omega
    · rw [h1] at h; exact absurd h (by simp)
  · simp only [Bool.not_eq_true] at hn
    simp only [hn, Bool.false_eq_true, if_false] at h ⊢
    cases hd : d.jdoc_f.data with
    | nil =>
      simp only [getc, hd] at h
      have : skip_space d.jdoc_f.atEnd d.jdoc_f.atEnd.data EOF d.jdoc_lineno =
          (EOF, d.jdoc_f.atEnd.at d.jdoc_f.atEnd.data, d.jdoc_lineno) :=
        skip_space_stop _ _ _ _ (by decide)
      rw [this] at h
      simp [EOF, isascii] at h
    | cons b rest =>
      simp only [getc, hd, FILE.data_at] at h ⊢
      rcases skip_space_measure (d.jdoc_f.at rest) rest (b % 256) d.jdoc_lineno with h1 | h1 | h1
      · rw [h1.2]; simp only [List.length_cons]; omega
      · simp only [List.length_cons]; omega
      · rw [h1] at h; exact absurd h (by simp)

theorem literal_loop_measure (f : FILE) :
    ∀ (data buf : List Int),
      3 * (_consume_literal_loop f data buf).2.1.data.length
        + char_weight (_consume_literal_loop f data buf).1 ≤ 3 * data.length + 1 := by
  intro data
  induction data with
  | nil =>
    intro buf
    simp only [_consume_literal_loop, char_weight_eof, FILE.atEnd_length]
    omega
  | cons b rest ih =>
    intro buf
    simp only [_consume_literal_loop]
    have hw := char_weight_le (char_of_int (b % 256))
    split
    · split
      · have := ih (WRITECHAR buf (char_of_int (b % 256))).2
        simp only [List.length_cons]; omega
      · simp only [FILE.data_at, List.length_cons]; omega
    · simp only [FILE.data_at, List.length_cons]; omega

theorem string_loop_measure (f : FILE) (n : Nat) :
    ∀ (data buf : List Int), data.length ≤ n →
      match _consume_literal_string_loop f data buf with
      | .ret _ f' => f'.data.length ≤ data.length
      | .out _ f' _ => f'.data.length ≤ data.length := by
  induction n with
  | zero =>
    intro data buf h
    have : data = [] := List.length_eq_zero.1 (by omega)
    subst this
    simp [_consume_literal_string_loop, FILE.atEnd_length]
  | succ n ih =>
    intro data buf h
    cases data with
    | nil => simp [_consume_literal_string_loop, FILE.atEnd_length]
    | cons b rest =>
      simp only [List.length_cons] at h
      cases rest with
      | nil =>
        simp only [_consume_literal_string_loop]
        split_ifs <;> simp [FILE.data_at, FILE.atEnd_length, _consume_literal_string_loop]
      | cons b2 rest2 =>
        simp only [List.length_cons] at h
        simp only [_consume_literal_string_loop]
        split_ifs
        all_goals first
          | (simp only [FILE.data_at, List.length_cons]; omega)
          | (have hh := ih rest2 (WRITECHAR buf (char_of_int (b2 % 256))).2 (by omega)
             revert hh
             cases _consume_literal_string_loop f rest2 (WRITECHAR buf (char_of_int (b2 % 256))).2 <;>
               simp only [List.length_cons] <;> intro this <;> omega)
          | (have hh := ih (b2 :: rest2) (WRITECHAR buf (char_of_int (b % 256))).2
               (by simp only [List.length_cons]; omega)
             revert hh
             cases _consume_literal_string_loop f (b2 :: rest2)
               (WRITECHAR buf (char_of_int (b % 256))).2 <;>
               simp only [List.length_cons] <;> intro this <;> omega)

/-- One round of the loop of `_consume_literal_number`: an error return, a
`break` on a character that is neither digit nor dot, or the next read. -/
theorem number_loop_cases (f : FILE) (data : List Int) (y : Nat) (c : Int) (buf : List Int) :
    _consume_literal_number_loop f data y c buf = .ret EINVAL (f.at data) ∨
    (_consume_literal_number_loop f data y c buf = .out y c (f.at data) buf ∧
      (isascii c && isdigit c) = false ∧ c ≠ 46) ∨
    (∃ y' buf', data = [] ∧
      _consume_literal_number_loop f data y c buf = .out y' (char_of_int EOF) f.atEnd buf') ∨
    (∃ y' buf' b rest, data = b :: rest ∧
      (_consume_literal_number_loop f data y c buf =
          _consume_literal_number_loop f rest y' (char_of_int (b % 256)) buf' ∨
        _consume_literal_number_loop f data y c buf =
          .out y' (char_of_int (b % 256)) (f.at rest) buf')) := by
  rw [_consume_literal_number_loop]
  by_cases h1 : (isascii c && isdigit c) = true
  · by_cases h2 : (st y (c - 48).toNat == XX) = true
    · exact Or.inl (by simp only [h1, h2, if_true, if_false, Bool.false_eq_true])
    · by_cases h3 : (!(WRITECHAR buf c).1) = true
      · exact Or.inl (by simp only [h1, h2, h3, if_true, if_false, Bool.false_eq_true])
      · cases data with
        | nil =>
          exact Or.inr (Or.inr (Or.inl ⟨st y (c - 48).toNat, (WRITECHAR buf c).2, rfl,
            by simp only [h1, h2, h3, if_true, if_false, Bool.false_eq_true]⟩))
        | cons b rest =>
          refine Or.inr (Or.inr (Or.inr
            ⟨st y (c - 48).toNat, (WRITECHAR buf c).2, b, rest, rfl, ?_⟩))
          by_cases h4 : (char_of_int (b % 256) != EOF) = true
          · exact Or.inl (by simp only [h1, h2, h3, h4, if_true, if_false, Bool.false_eq_true])
          · exact Or.inr (by simp only [h1, h2, h3, h4, if_true, if_false, Bool.false_eq_true])
  · by_cases h5 : (c == 46) = true
    · by_cases h2 : (st y 10 == XX) = true
      · exact Or.inl (by simp only [h1, h5, h2, if_true, if_false, Bool.false_eq_true])
      · by_cases h3 : (!(WRITECHAR buf c).1) = true
        · exact Or.inl (by simp only [h1, h5, h2, h3, if_true, if_false, Bool.false_eq_true])
        · cases data with
          | nil =>
            exact Or.inr (Or.inr (Or.inl ⟨st y 10, (WRITECHAR buf c).2, rfl,
              by simp only [h1, h5, h2, h3, if_true, if_false, Bool.false_eq_true]⟩))
          | cons b rest =>
            refine Or.inr (Or.inr (Or.inr ⟨st y 10, (WRITECHAR buf c).2, b, rest, rfl, ?_⟩))
            by_cases h4 : (char_of_int (b % 256) != EOF) = true
            · exact Or.inl (by simp only [h1, h5, h2, h3, h4, if_true, if_false, Bool.false_eq_true])
            · exact Or.inr (by simp only [h1, h5, h2, h3, h4, if_true, if_false, Bool.false_eq_true])
    · exact Or.inr (Or.inl ⟨by simp only [h1, h5, if_false, Bool.false_eq_true], by simpa using h1,
        by simpa using h5⟩)

theorem number_loop_measure (f : FILE) :
    ∀ (data : List Int) (y : Nat) (c : Int) (buf : List Int),
      match _consume_literal_number_loop f data y c buf with
      | .ret _ _ => True
      | .out _ c' f' _ => 3 * f'.data.length + char_weight c' ≤ 3 * data.length + char_weight c := by
  intro data
  induction data with
  | nil =>
    intro y c buf
    have hw := char_weight_le c
    rcases number_loop_cases f [] y c buf with h | ⟨h, _⟩ | ⟨y', buf', _, h⟩ | ⟨_, _, _, _, h, _⟩
    · rw [h]; trivial
    · rw [h]; simp only [FILE.data_at]; omega
    · rw [h]; simp only [char_weight_eof, FILE.atEnd_length, List.length_nil]; omega
    · cases h
  | cons b rest ih =>
    intro y c buf
    have hw := char_weight_le c
    have hb := char_weight_le (char_of_int (b % 256))
    rcases number_loop_cases f (b :: rest) y c buf with
      h | ⟨h, _⟩ | ⟨y', buf', h, _⟩ | ⟨y', buf', b', rest', hd, h | h⟩
    · rw [h]; trivial
    · rw [h]; simp only [FILE.data_at]; omega
    · cases h
    · simp only [List.cons.injEq] at hd
      obtain ⟨hb', hr⟩ := hd
      subst hb' hr
      rw [h]
      have := ih y' (char_of_int (b % 256)) buf'
      revert this
      cases _consume_literal_number_loop f rest y' (char_of_int (b % 256)) buf' with
      | ret e f' => intro _; trivial
      | out y2 c2 f2 buf2 => simp only [List.length_cons]; intro this; omega
    · simp only [List.cons.injEq] at hd
      obtain ⟨hb', hr⟩ := hd
      subst hb' hr
      rw [h]
      simp only [FILE.data_at, List.length_cons]; omega

theorem consume_literal_measure (doc : json_doc) (c : Int)
    (hna : doc.jdoc_nextc_avail = false) :
    doc_measure (_consume_literal doc c).2.2 ≤ doc_measure doc + 1 := by
  have := literal_loop_measure doc.jdoc_f doc.jdoc_f.data (WRITECHAR [] c).2
  have hw := char_weight_le (_consume_literal_loop doc.jdoc_f doc.jdoc_f.data (WRITECHAR [] c).2).1
  unfold _consume_literal doc_measure RETURN_TOKEN_ERROR RETURN_TOKEN_LIT
  simp only [hna, Bool.false_eq_true, if_false]
  split
  · simp only [hna, Bool.false_eq_true, if_false]; omega
  · simp only [if_true]; omega

theorem consume_literal_string_measure (doc : json_doc) (c : Int) :
    doc_measure (_consume_literal_string doc c).2.2 ≤ doc_measure doc := by
  have key := string_loop_measure doc.jdoc_f doc.jdoc_f.data.length doc.jdoc_f.data []
    (le_refl _)
  cases hl : _consume_literal_string_loop doc.jdoc_f doc.jdoc_f.data [] with
  | ret e f' =>
    rw [hl] at key
    simp only at key
    simp only [_consume_literal_string, hl, RETURN_TOKEN_ERROR, doc_measure]
    omega
  | out c' f' buf =>
    rw [hl] at key
    simp only at key
    simp only [_consume_literal_string, hl, RETURN_TOKEN_ERROR, RETURN_TOKEN_LIT]
    split
    · simp only [doc_measure]; omega
    · split <;> simp only [doc_measure] <;> omega

theorem consume_literal_number_measure (doc : json_doc) (c : Int) (hc : isdigit c = true)
    (hna : doc.jdoc_nextc_avail = false) :
    doc_measure (_consume_literal_number doc c).2.2 ≤ doc_measure doc + 1 := by
  have hd := hc
  simp only [isdigit, Bool.and_eq_true, decide_eq_true_eq] at hd
  have hdig : (isascii c && isdigit c) = true := by
    simp [hc, isascii_iff.2 (show 0 ≤ c ∧ c ≤ 127 by omega)]
  have key : match _consume_literal_number_loop doc.jdoc_f doc.jdoc_f.data ST c [] with
      | .ret _ f' => f'.data.length ≤ doc.jdoc_f.data.length
      | .out _ c' f' _ => 3 * f'.data.length + char_weight c' ≤ 3 * doc.jdoc_f.data.length + 1 := by
    rcases number_loop_cases doc.jdoc_f doc.jdoc_f.data ST c [] with
      h | ⟨_, h, _⟩ | ⟨y', buf', hnil, h⟩ | ⟨y', buf', b, rest, hdat, h | h⟩
    · rw [h]; simp only [FILE.data_at]; exact le_refl _
    · rw [hdig] at h; exact absurd h (by simp)
    · rw [h]; simp only [char_weight_eof, FILE.atEnd_length]; omega
    · rw [h, hdat]
      have := number_loop_measure doc.jdoc_f rest y' (char_of_int (b % 256)) buf'
      have hb := char_weight_le (char_of_int (b % 256))
      revert this
      cases hl : _consume_literal_number_loop doc.jdoc_f rest y' (char_of_int (b % 256)) buf' with
      | ret e f' =>
        intro _
        have hle : ∀ (data : List Int) (y : Nat) (c : Int) (buf : List Int) (e : Nat) (f' : FILE),
            _consume_literal_number_loop doc.jdoc_f data y c buf = .ret e f' →
            f'.data.length ≤ data.length := by
          intro data
          induction data with
          | nil =>
            intro y c buf e f' h
            rcases number_loop_cases doc.jdoc_f [] y c buf with
              h1 | ⟨h1, _⟩ | ⟨_, _, _, h1⟩ | ⟨_, _, _, _, h1, _⟩
            · rw [h1] at h; injection h with _ h2; rw [← h2]; exact le_refl _
            · rw [h1] at h; cases h
            · rw [h1] at h; cases h
            · cases h1
          | cons b rest ih =>
            intro y c buf e f' h
            rcases number_loop_cases doc.jdoc_f (b :: rest) y c buf with
              h1 | ⟨h1, _⟩ | ⟨_, _, h1, _⟩ | ⟨y2, buf2, b2, rest2, hd2, h1 | h1⟩
            · rw [h1] at h; injection h with _ h2; rw [← h2]; exact le_refl _
            · rw [h1] at h; cases h
            · cases h1
            · simp only [List.cons.injEq] at hd2
              obtain ⟨hb2, hr2⟩ := hd2
              subst hb2 hr2
              rw [h1] at h
              have := ih _ _ _ _ _ h
              simp only [List.length_cons]; omega
            · rw [h1] at h; cases h
        have := hle rest y' (char_of_int (b % 256)) buf' e f' hl
        simp only [List.length_cons]; omega
      | out y2 c2 f2 buf2 =>
        simp only [List.length_cons]; intro this; omega
    · rw [h, hdat]
      have hb := char_weight_le (char_of_int (b % 256))
      simp only [FILE.data_at, List.length_cons]; omega
  cases hl : _consume_literal_number_loop doc.jdoc_f doc.jdoc_f.data ST c [] with
  | ret e f' =>
    rw [hl] at key
    simp only at key
    simp only [_consume_literal_number, hl, RETURN_TOKEN_ERROR, doc_measure, hna,
      Bool.false_eq_true, if_false]
    omega
  | out y' c' f' buf =>
    have hw := char_weight_le c'
    rw [hl] at key
    simp only at key
    simp only [_consume_literal_number, hl, RETURN_TOKEN_ERROR, RETURN_TOKEN_LIT]
    split
    · simp only [doc_measure, hna, Bool.false_eq_true, if_false]; omega
    · split
      · simp only [doc_measure, hna, Bool.false_eq_true, if_false]; omega
      · split
        · simp only [doc_measure, hna, Bool.false_eq_true, if_false]; omega
        · simp only [doc_measure, if_true]; omega

/-- A successful `switch` that does not return the end-of-input token was
entered with an ASCII character and costs at most one unit. -/
theorem token_switch_measure (doc : json_doc) (c : Int) (hna : doc.jdoc_nextc_avail = false) :
    (token_switch doc c).1 = 0 → (token_switch doc c).2.1.tok_id ≠ JSON_TOK_EOF →
      isascii c = true ∧ doc_measure (token_switch doc c).2.2 ≤ doc_measure doc + 1 := by
  unfold token_switch RETURN_TOKEN_ERROR RETURN_TOKEN
  simp only
  by_cases h0 : (c == EOF && feof doc.jdoc_f) = true
  · simp only [if_pos h0]; intro _ hne; exact absurd rfl hne
  simp only [if_neg h0]
  by_cases h1 : (c == EOF && ferror doc.jdoc_f) = true
  · simp only [if_pos h1]; intro he _; exact absurd he (by decide)
  simp only [if_neg h1]
  by_cases h2 : (!isascii c) = true
  · simp only [if_pos h2]; intro he _; exact absurd he (by decide)
  simp only [if_neg h2]
  have hasc : isascii c = true := by simpa using h2
  by_cases h3 : (c == 123) = true
  · simp only [if_pos h3]; intro _ _; exact ⟨hasc, Nat.le_succ _⟩
  simp only [if_neg h3]
  by_cases h4 : (c == 125) = true
  · simp only [if_pos h4]; intro _ _; exact ⟨hasc, Nat.le_succ _⟩
  simp only [if_neg h4]
  by_cases h5 : (c == 58) = true
  · simp only [if_pos h5]; intro _ _; exact ⟨hasc, Nat.le_succ _⟩
  simp only [if_neg h5]
  by_cases h6 : (c == 91) = true
  · simp only [if_pos h6]; intro _ _; exact ⟨hasc, Nat.le_succ _⟩
  simp only [if_neg h6]
  by_cases h7 : (c == 93) = true
  · simp only [if_pos h7]; intro _ _; exact ⟨hasc, Nat.le_succ _⟩
  simp only [if_neg h7]
  by_cases h8 : (c == 44) = true
  · simp only [if_pos h8]; intro _ _; exact ⟨hasc, Nat.le_succ _⟩
  simp only [if_neg h8]
  by_cases h9 : ((decide (97 ≤ c) && decide (c ≤ 122)) || (decide (65 ≤ c) && decide (c ≤ 90)) || c == 95) = true
  · simp only [if_pos h9]; intro _ _; exact ⟨hasc, consume_literal_measure doc c hna⟩
  simp only [if_neg h9]
  by_cases h10 : (c == 34) = true
  · simp only [if_pos h10]; intro _ _
    exact ⟨hasc, Nat.le_succ_of_le (consume_literal_string_measure doc c)⟩
  simp only [if_neg h10]
  by_cases h11 : (decide (48 ≤ c) && decide (c ≤ 57)) = true
  · simp only [if_pos h11]; intro _ _
    exact ⟨hasc, consume_literal_number_measure doc c (by simpa [isdigit] using h11) hna⟩
  simp only [if_neg h11]
  intro he _; exact absurd he (by decide)

/-- Every successful token other than end-of-input decreases the measure. -/
theorem consume_measure (d : json_doc) (h0 : (json_consume_token d).1 = 0)
    (hne : (json_consume_token d).2.1.tok_id ≠ JSON_TOK_EOF) :
    doc_measure (json_consume_token d).2.2 < doc_measure d := by
  by_cases hla : d.jdoc_lookahead_avail = true
  · unfold json_consume_token doc_measure
    simp only [hla, if_true, Bool.false_eq_true, if_false]
    omega
  · simp only [Bool.not_eq_true] at hla
    rw [consume_eq_switch d hla] at h0 hne ⊢
    obtain ⟨hasc, hle⟩ := token_switch_measure _ _ (after_space_measure_avail d) h0 hne
    have := (after_space_measure d hasc).1
    omega

/-! ## Parser: budget -/

@[simp] theorem outcome.bind_ok {α β : Type} (a : α) (d : json_doc)
    (k : α → json_doc → outcome β) : (outcome.ok a d).bind k = k a d := rfl

@[simp] theorem outcome.bind_error {α β : Type} (e : Nat) (k : α → json_doc → outcome β) :
    (outcome.error e : outcome α).bind k = .error e := rfl

@[simp] theorem outcome.bind_nofuel {α β : Type} (k : α → json_doc → outcome β) :
    (outcome.nofuel : outcome α).bind k = .nofuel := rfl

theorem outcome.below_refl {α : Type} (r : outcome α) : r.below r := Or.inr rfl

theorem outcome.below_bind {α β : Type} {r1 r2 : outcome α} {k1 k2 : α → json_doc → outcome β}
    (h : r1.below r2) (hk : ∀ a d, (k1 a d).below (k2 a d)) : (r1.bind k1).below (r2.bind k2) := by
  rcases h with h | h
  · left; rw [h]; rfl
  · subst h
    cases r1 with
    | ok a d => exact hk a d
    | error e => exact Or.inr rfl
    | nofuel => exact Or.inl rfl

/-- More budget does not change an outcome other than `nofuel`. -/
theorem parse_below (fuel : Nat) :
    (∀ d, (_Value fuel d).below (_Value (fuel + 1) d)) ∧
    (∀ d ix, (_Array_r fuel d ix).below (_Array_r (fuel + 1) d ix)) ∧
    (∀ d, (_Array fuel d).below (_Array (fuel + 1) d)) ∧
    (∀ d ix, (_Object_r fuel d ix).below (_Object_r (fuel + 1) d ix)) ∧
    (∀ d, (_Object fuel d).below (_Object (fuel + 1) d)) := by
  induction fuel with
  | zero =>
    refine ⟨fun d => ?_, fun d ix => ?_, fun d => ?_, fun d ix => ?_, fun d => ?_⟩ <;>
      exact Or.inl (by simp [_Value, _Array_r, _Array, _Object_r, _Object])
  | succ n ih =>
    obtain ⟨ihV, ihAr, ihA, ihOr, ihO⟩ := ih
    refine ⟨fun d => ?_, fun d ix => ?_, fun d => ?_, fun d ix => ?_, fun d => ?_⟩
    · rw [_Value, _Value]
      refine outcome.below_bind (outcome.below_refl _) fun tok doc => ?_
      cases tok.tok_id <;> first
        | exact outcome.below_refl _
        | exact outcome.below_bind (ihO doc) fun _ _ => outcome.below_refl _
        | exact outcome.below_bind (ihA doc) fun _ _ => outcome.below_refl _
    · rw [_Array_r, _Array_r]
      refine outcome.below_bind (ihV d) fun val doc => ?_
      refine outcome.below_bind (outcome.below_refl _) fun tok doc => ?_
      cases tok.tok_id <;> first
        | exact outcome.below_refl _
        | exact outcome.below_bind (ihAr doc _) fun _ _ => outcome.below_refl _
    · rw [_Array, _Array]
      refine outcome.below_bind (outcome.below_refl _) fun tok doc => ?_
      split
      · exact outcome.below_refl _
      · exact ihAr doc 0
    · rw [_Object_r, _Object_r]
      refine outcome.below_bind (outcome.below_refl _) fun tok doc => ?_
      refine outcome.below_bind (outcome.below_refl _) fun _ doc => ?_
      refine outcome.below_bind (ihV doc) fun val doc => ?_
      refine outcome.below_bind (outcome.below_refl _) fun tok2 doc => ?_
      cases tok2.tok_id <;> first
        | exact outcome.below_refl _
        | exact outcome.below_bind (ihOr doc _) fun _ _ => outcome.below_refl _
    · rw [_Object, _Object]
      refine outcome.below_bind (outcome.below_refl _) fun tok doc => ?_
      split
      · exact outcome.below_refl _
      · exact ihOr doc 0

theorem object_fuel_mono (fuel : Nat) (d : json_doc) (h : _Object fuel d ≠ .nofuel) :
    ∀ k, _Object (fuel + k) d = _Object fuel d := by
  intro k
  induction k with
  | zero => rfl
  | succ k ih =>
    rcases (parse_below (fuel + k)).2.2.2.2 d with h1 | h1
    · rw [ih] at h1; exact absurd h1 h
    · rw [← Nat.add_assoc, ← h1, ih]

theorem token_outcome_error_nonzero (r : Nat × json_token × json_doc) :
    (token_outcome r).error_nonzero := by
  intro e h
  unfold token_outcome at h
  split at h
  · rename_i hne
    injection h with h
    subst h
    simpa using hne
  · cases h

theorem outcome.error_nonzero_bind {α β : Type} {r : outcome α}
    {k : α → json_doc → outcome β}
    (h : r.error_nonzero) (hk : ∀ a d, (k a d).error_nonzero) : (r.bind k).error_nonzero := by
  cases r with
  | ok a d => exact hk a d
  | error e => intro e' h'; injection h' with h'; subst h'; exact h e rfl
  | nofuel => intro e' h'; cases h'

theorem outcome.error_nonzero_ok {α : Type} (a : α) (d : json_doc) :
    (outcome.ok a d).error_nonzero := by
  intro e h; cases h

theorem outcome.error_nonzero_EINVAL {α : Type} :
    (outcome.error EINVAL : outcome α).error_nonzero := by
  intro e h; injection h with h; subst h; decide

theorem match_error_nonzero (d : json_doc) (id : json_token_id) :
    (_match d id).error_nonzero := by
  unfold _match
  refine outcome.error_nonzero_bind (token_outcome_error_nonzero _) fun tok doc => ?_
  split
  · exact outcome.error_nonzero_EINVAL
  · exact outcome.error_nonzero_ok _ _

/-- Every status that a parsing function returns as an error is non-zero. -/
theorem parse_error_nonzero (fuel : Nat) :
    (∀ d, (_Value fuel d).error_nonzero) ∧
    (∀ d ix, (_Array_r fuel d ix).error_nonzero) ∧
    (∀ d, (_Array fuel d).error_nonzero) ∧
    (∀ d ix, (_Object_r fuel d ix).error_nonzero) ∧
    (∀ d, (_Object fuel d).error_nonzero) := by
  induction fuel with
  | zero =>
    refine ⟨fun d => ?_, fun d ix => ?_, fun d => ?_, fun d ix => ?_, fun d => ?_⟩ <;>
      (intro e h; simp [_Value, _Array_r, _Array, _Object_r, _Object] at h)
  | succ n ih =>
    obtain ⟨ihV, ihAr, ihA, ihOr, ihO⟩ := ih
    refine ⟨fun d => ?_, fun d ix => ?_, fun d => ?_, fun d ix => ?_, fun d => ?_⟩
    · rw [_Value]
      refine outcome.error_nonzero_bind (token_outcome_error_nonzero _) fun tok doc => ?_
      cases tok.tok_id <;> first
        | exact outcome.error_nonzero_EINVAL
        | exact outcome.error_nonzero_ok _ _
        | exact outcome.error_nonzero_bind (ihO doc) fun _ _ => outcome.error_nonzero_ok _ _
        | exact outcome.error_nonzero_bind (ihA doc) fun _ _ => outcome.error_nonzero_ok _ _
    · rw [_Array_r]
      refine outcome.error_nonzero_bind (ihV d) fun val doc => ?_
      refine outcome.error_nonzero_bind (token_outcome_error_nonzero _) fun tok doc => ?_
      cases tok.tok_id <;> first
        | exact outcome.error_nonzero_EINVAL
        | exact outcome.error_nonzero_ok _ _
        | exact outcome.error_nonzero_bind (ihAr doc _) fun _ _ => outcome.error_nonzero_ok _ _
    · rw [_Array]
      refine outcome.error_nonzero_bind (token_outcome_error_nonzero _) fun tok doc => ?_
      split
      · exact outcome.error_nonzero_ok _ _
      · exact ihAr doc 0
    · rw [_Object_r]
      refine outcome.error_nonzero_bind (match_error_nonzero _ _) fun tok doc => ?_
      refine outcome.error_nonzero_bind (match_error_nonzero _ _) fun _ doc => ?_
      refine outcome.error_nonzero_bind (ihV doc) fun val doc => ?_
      refine outcome.error_nonzero_bind (token_outcome_error_nonzero _) fun tok2 doc => ?_
      cases tok2.tok_id <;> first
        | exact outcome.error_nonzero_EINVAL
        | exact outcome.error_nonzero_ok _ _
        | exact outcome.error_nonzero_bind (ihOr doc _) fun _ _ => outcome.error_nonzero_ok _ _
    · rw [_Object]
      refine outcome.error_nonzero_bind (token_outcome_error_nonzero _) fun tok doc => ?_
      split
      · exact outcome.error_nonzero_ok _ _
      · exact ihOr doc 0

/-! ### The budget of `json_parse` is enough -/

theorem outcome.within_error {α : Type} (e m : Nat) : (outcome.error e : outcome α).within m :=
  ⟨fun h => (by cases h), fun a d h => (by cases h)⟩

theorem outcome.within_ok {α : Type} (a : α) (d : json_doc) (m : Nat) (h : doc_measure d < m) :
    (outcome.ok a d).within m :=
  ⟨fun h' => (by cases h'), fun a' d' h' => (by injection h' with _ h2; rw [← h2]; exact h)⟩

theorem outcome.within_mono {α : Type} {r : outcome α} {m m' : Nat} (h : r.within m)
    (hm : m ≤ m') : r.within m' :=
  ⟨h.1, fun a d hr => Nat.lt_of_lt_of_le (h.2 a d hr) hm⟩

theorem outcome.within_bind {α β : Type} {r : outcome α} {k : α → json_doc → outcome β}
    {m : Nat} (h : r ≠ .nofuel) (hk : ∀ a d, r = .ok a d → (k a d).within m) :
    (r.bind k).within m := by
  cases r with
  | ok a d => exact hk a d rfl
  | error e => exact outcome.within_error e m
  | nofuel => exact absurd rfl h

theorem outcome.within_map {α β : Type} {r : outcome α} {g : α → β} {m : Nat}
    (h : r.within m) : (r.bind fun a d => .ok (g a) d).within m := by
  refine outcome.within_bind h.1 fun a d hr => outcome.within_ok _ _ _ (h.2 a d hr)

theorem token_outcome_ne_nofuel (r : Nat × json_token × json_doc) :
    token_outcome r ≠ .nofuel := by
  unfold token_outcome; split <;> intro h <;> cases h

theorem token_outcome_ok {r : Nat × json_token × json_doc} {t : json_token} {d : json_doc}
    (h : token_outcome r = .ok t d) : r.1 = 0 ∧ t = r.2.1 ∧ d = r.2.2 := by
  unfold token_outcome at h
  split at h
  · cases h
  · rename_i hne
    injection h with h1 h2
    exact ⟨by simpa using hne, h1.symm, h2.symm⟩

theorem token_outcome_of_zero {r : Nat × json_token × json_doc} (h : r.1 = 0) :
    token_outcome r = .ok r.2.1 r.2.2 := by
  simp [token_outcome, h]

theorem match_ne_nofuel (d : json_doc) (id : json_token_id) : _match d id ≠ .nofuel := by
  unfold _match
  cases h : token_outcome (json_consume_token d) with
  | ok t d1 => simp only [outcome.bind_ok]; split <;> intro h' <;> cases h'
  | error e => intro h'; cases h'
  | nofuel => exact absurd h (token_outcome_ne_nofuel _)

theorem match_ok {d d1 : json_doc} {id : json_token_id} {t : json_token}
    (h : _match d id = .ok t d1) :
    (json_consume_token d).1 = 0 ∧ t = (json_consume_token d).2.1 ∧
      d1 = (json_consume_token d).2.2 ∧ t.tok_id = id := by
  unfold _match at h
  cases h0 : token_outcome (json_consume_token d) with
  | ok t' d' =>
    rw [h0] at h
    simp only [outcome.bind_ok] at h
    obtain ⟨h1, h2, h3⟩ := token_outcome_ok h0
    split at h
    · cases h
    · rename_i hid
      injection h with h4 h5
      subst h4 h5
      exact ⟨h1, h2, h3, by simpa using hid⟩
  | error e => rw [h0] at h; cases h
  | nofuel => rw [h0] at h; cases h

/-- A successful `_match` of a token other than end-of-input decreases the measure. -/
theorem match_within (d : json_doc) (id : json_token_id) (hid : id ≠ JSON_TOK_EOF) :
    (_match d id).within (doc_measure d) := by
  refine ⟨match_ne_nofuel d id, fun t d1 h => ?_⟩
  obtain ⟨h1, h2, h3, h4⟩ := match_ok h
  rw [h3]
  exact consume_measure d h1 (by rw [← h2, h4]; exact hid)

/-- The end-of-input token matches no token that the parser expects. -/
theorem match_eof (d : json_doc) (id : json_token_id) (hid : id ≠ JSON_TOK_EOF)
    (h0 : (json_consume_token d).1 = 0)
    (h1 : (json_consume_token d).2.1.tok_id = JSON_TOK_EOF) :
    _match d id = .error EINVAL := by
  unfold _match
  rw [token_outcome_of_zero h0]
  simp only [outcome.bind_ok, h1]
  have : (JSON_TOK_EOF != id) = true := by
    simp only [bne_iff_ne, ne_eq]; exact fun h => hid h.symm
  simp [this]

theorem value_eof (n : Nat) (d : json_doc) (h0 : (json_consume_token d).1 = 0)
    (h1 : (json_consume_token d).2.1.tok_id = JSON_TOK_EOF) :
    _Value (n + 1) d = .error EINVAL := by
  rw [_Value, token_outcome_of_zero h0]
  simp only [outcome.bind_ok, h1]

theorem array_r_eof (n : Nat) (d : json_doc) (ix : Nat) (h0 : (json_consume_token d).1 = 0)
    (h1 : (json_consume_token d).2.1.tok_id = JSON_TOK_EOF) :
    _Array_r (n + 2) d ix = .error EINVAL := by
  rw [_Array_r, value_eof n d h0 h1]; rfl

theorem object_r_eof (n : Nat) (d : json_doc) (ix : Nat) (h0 : (json_consume_token d).1 = 0)
    (h1 : (json_consume_token d).2.1.tok_id = JSON_TOK_EOF) :
    _Object_r (n + 1) d ix = .error EINVAL := by
  rw [_Object_r, match_eof d JSON_TOK_LIT (by decide) h0 h1]; rfl

/-- What a successful peek returns and leaves. -/
theorem peek_ok {d dp : json_doc} {t : json_token}
    (h : token_outcome (json_peek_token d) = .ok t dp) :
    (json_consume_token d).1 = 0 ∧ t = (json_consume_token d).2.1 ∧
      dp = { (json_consume_token d).2.2 with
        jdoc_lookahead_avail := true, jdoc_lookahead := (json_consume_token d).2.1 } := by
  by_cases h0 : (json_consume_token d).1 = 0
  · rw [peek_eq d h0] at h
    obtain ⟨_, h2, h3⟩ := token_outcome_ok h
    exact ⟨h0, h2, h3⟩
  · have : json_peek_token d = json_consume_token d := by
      unfold json_peek_token
      simp [h0]
    rw [this] at h
    exact absurd (token_outcome_ok h).1 h0

theorem measure_after_peek (D : json_doc) (t : json_token)
    (h : D.jdoc_lookahead_avail = false) :
    doc_measure { D with jdoc_lookahead_avail := true, jdoc_lookahead := t } =
      doc_measure D + 1 := by
  unfold doc_measure
  simp [h]

theorem measure_stale (D : json_doc) (t : json_token) :
    doc_measure { D with jdoc_lookahead := t } = doc_measure D := rfl

/-- With a budget of three times the measure (plus 1, 2 or 3) no parsing
function runs out of budget, and a success decreases the measure. -/
theorem parse_total (fuel : Nat) :
    (∀ d, 3 * doc_measure d + 1 ≤ fuel → (_Value fuel d).within (doc_measure d)) ∧
    (∀ d ix, 3 * doc_measure d + 2 ≤ fuel → (_Array_r fuel d ix).within (doc_measure d)) ∧
    (∀ d, 3 * doc_measure d + 3 ≤ fuel → (_Array fuel d).within (doc_measure d)) ∧
    (∀ d ix, 3 * doc_measure d + 2 ≤ fuel → (_Object_r fuel d ix).within (doc_measure d)) ∧
    (∀ d, 3 * doc_measure d + 3 ≤ fuel → (_Object fuel d).within (doc_measure d)) := by
  induction fuel with
  | zero =>
    refine ⟨fun d h => ?_, fun d ix h => ?_, fun d h => ?_, fun d ix h => ?_, fun d h => ?_⟩ <;>
      omega
  | succ n ih =>
    obtain ⟨ihV, ihAr, ihA, ihOr, ihO⟩ := ih
    refine ⟨fun d h => ?_, fun d ix h => ?_, fun d h => ?_, fun d ix h => ?_, fun d h => ?_⟩
    · -- _Value
      rw [_Value]
      refine outcome.within_bind (token_outcome_ne_nofuel _) fun tok d1 htok => ?_
      obtain ⟨h0, h1, h2⟩ := token_outcome_ok htok
      cases hid : tok.tok_id <;> simp only
      case JSON_TOK_LIT =>
        exact outcome.within_ok _ _ _ (by
          rw [h2]; exact consume_measure d h0 (by rw [← h1, hid]; decide))
      case JSON_TOK_OBJECT_BEGIN =>
        have hm : doc_measure d1 < doc_measure d := by
          rw [h2]; exact consume_measure d h0 (by rw [← h1, hid]; decide)
        exact outcome.within_map (outcome.within_mono (ihO d1 (by omega)) (by omega))
      case JSON_TOK_ARRAY_BEGIN =>
        have hm : doc_measure d1 < doc_measure d := by
          rw [h2]; exact consume_measure d h0 (by rw [← h1, hid]; decide)
        exact outcome.within_map (outcome.within_mono (ihA d1 (by omega)) (by omega))
      all_goals exact outcome.within_error _ _
    · -- _Array_r
      rw [_Array_r]
      have hV := ihV d (by omega)
      refine outcome.within_bind hV.1 fun val d1 hval => ?_
      have hm1 := hV.2 val d1 hval
      refine outcome.within_bind (token_outcome_ne_nofuel _) fun tok d2 htok => ?_
      obtain ⟨h0, h1, h2⟩ := token_outcome_ok htok
      cases hid : tok.tok_id <;> simp only
      case JSON_TOK_COMMA =>
        have hm : doc_measure d2 < doc_measure d1 := by
          rw [h2]; exact consume_measure d1 h0 (by rw [← h1, hid]; decide)
        exact outcome.within_map (outcome.within_mono (ihAr d2 _ (by omega)) (by omega))
      case JSON_TOK_ARRAY_END =>
        exact outcome.within_ok _ _ _ (by
          have : doc_measure d2 < doc_measure d1 := by
            rw [h2]; exact consume_measure d1 h0 (by rw [← h1, hid]; decide)
          omega)
      all_goals exact outcome.within_error _ _
    · -- _Array
      rw [_Array]
      refine outcome.within_bind (token_outcome_ne_nofuel _) fun tok dp htok => ?_
      obtain ⟨h0, h1, h2⟩ := peek_ok htok
      have hla := consume_lookahead_avail d
      have hc := consume_after_peek (json_consume_token d).2.2 (json_consume_token d).2.1 hla
      rw [← h2] at hc
      by_cases hend : (tok.tok_id == JSON_TOK_ARRAY_END) = true
      · simp only [hend, if_true, hc]
        refine outcome.within_ok _ _ _ ?_
        rw [measure_stale]
        exact consume_measure d h0 (by
          rw [← h1]; simp only [beq_iff_eq] at hend; rw [hend]; decide)
      · simp only [hend, if_false]
        by_cases heof : tok.tok_id = JSON_TOK_EOF
        · obtain ⟨m, hm⟩ : ∃ m, n = m + 2 := ⟨n - 2, by omega⟩
          rw [hm, array_r_eof m dp 0 (by rw [hc]) (by rw [hc, ← h1]; exact heof)]
          exact outcome.within_error _ _
        · have hmp : doc_measure dp ≤ doc_measure d := by
            rw [h2, measure_after_peek _ _ hla]
            exact consume_measure d h0 (by rw [← h1]; exact heof)
          exact outcome.within_mono (ihAr dp 0 (by omega)) hmp
    · -- _Object_r
      rw [_Object_r]
      have hM1 := match_within d JSON_TOK_LIT (by decide)
      refine outcome.within_bind hM1.1 fun tok d1 h1 => ?_
      have hm1 := hM1.2 tok d1 h1
      have hM2 := match_within d1 JSON_TOK_COLON (by decide)
      refine outcome.within_bind hM2.1 fun tok2 d2 h2 => ?_
      have hm2 := hM2.2 tok2 d2 h2
      have hV := ihV d2 (by omega)
      refine outcome.within_bind hV.1 fun val d3 hval => ?_
      have hm3 := hV.2 val d3 hval
      refine outcome.within_bind (token_outcome_ne_nofuel _) fun tok3 d4 htok => ?_
      obtain ⟨h0, h3, h4⟩ := token_outcome_ok htok
      cases hid : tok3.tok_id <;> simp only
      case JSON_TOK_COMMA =>
        have hm : doc_measure d4 < doc_measure d3 := by
          rw [h4]; exact consume_measure d3 h0 (by rw [← h3, hid]; decide)
        exact outcome.within_map (outcome.within_mono (ihOr d4 _ (by omega)) (by omega))
      case JSON_TOK_OBJECT_END =>
        exact outcome.within_ok _ _ _ (by
          have : doc_measure d4 < doc_measure d3 := by
            rw [h4]; exact consume_measure d3 h0 (by rw [← h3, hid]; decide)
          omega)
      all_goals exact outcome.within_error _ _
    · -- _Object
      rw [_Object]
      refine outcome.within_bind (token_outcome_ne_nofuel _) fun tok dp htok => ?_
      obtain ⟨h0, h1, h2⟩ := peek_ok htok
      have hla := consume_lookahead_avail d
      have hc := consume_after_peek (json_consume_token d).2.2 (json_consume_token d).2.1 hla
      rw [← h2] at hc
      by_cases hend : (tok.tok_id == JSON_TOK_OBJECT_END) = true
      · simp only [hend, if_true, hc]
        refine outcome.within_ok _ _ _ ?_
        rw [measure_stale]
        exact consume_measure d h0 (by
          rw [← h1]; simp only [beq_iff_eq] at hend; rw [hend]; decide)
      · simp only [hend, if_false]
        by_cases heof : tok.tok_id = JSON_TOK_EOF
        · obtain ⟨m, hm⟩ : ∃ m, n = m + 1 := ⟨n - 1, by omega⟩
          rw [hm, object_r_eof m dp 0 (by rw [hc]) (by rw [hc, ← h1]; exact heof)]
          exact outcome.within_error _ _
        · have hmp : doc_measure dp ≤ doc_measure d := by
            rw [h2, measure_after_peek _ _ hla]
            exact consume_measure d h0 (by rw [← h1]; exact heof)
          exact outcome.within_mono (ihOr dp 0 (by omega)) hmp

/-! ## `json_parse` -/

theorem measure_init (f : FILE) : doc_measure (json_doc.init f) = 3 * f.data.length := by
  simp [doc_measure, json_doc.init]

theorem pending_init (f : FILE) : Pending (json_doc.init f) f.data :=
  ⟨rfl, Or.inl ⟨rfl, rfl⟩⟩

/-- The budget of `json_parse` is never used up. -/
theorem start_ne_nofuel (f : FILE) : _Start (parse_fuel f) (json_doc.init f) ≠ .nofuel := by
  unfold _Start
  have hM := match_within (json_doc.init f) JSON_TOK_OBJECT_BEGIN (by decide)
  refine (@outcome.within_bind _ _ _ _ (doc_measure (json_doc.init f)) hM.1 fun tok d1 h1 => ?_).1
  have hm := hM.2 tok d1 h1
  rw [measure_init] at hm
  refine outcome.within_mono ((parse_total (parse_fuel f)).2.2.2.2 d1 ?_) ?_
  · unfold parse_fuel; omega
  · rw [measure_init]; omega

/-- When `_Object` succeeds with some budget, it succeeds with every budget
that it does not use up. -/
theorem object_fuel_irrelevant {n m : Nat} {d d' : json_doc} {obj : json_object}
    (h : _Object n d = .ok obj d') (hm : _Object m d ≠ .nofuel) :
    _Object m d = .ok obj d' := by
  have h1 := object_fuel_mono n d (by rw [h]; intro h'; cases h') m
  have h2 := object_fuel_mono m d hm n
  rw [← h2, Nat.add_comm, h1, h]

/-- A sentence, followed by any bytes, is parsed to its tree. -/
theorem parse_sentence (obj : json_object) (input rest : List Int) (f : FILE)
    (hf : f.data = input ++ rest) (h : Sentence obj input) :
    ∃ doc, json_parse f = some (0, some doc) ∧ doc.jdoc_obj = some obj := by
  have hp : Pending (json_doc.init f) (input ++ rest) := hf ▸ pending_init f
  have ht := toks_of_spelled _ _ h (json_doc.init f) rest hp
  simp only [value_tokens] at ht
  obtain ⟨hm, ht1⟩ := match_toks JSON_TOK_OBJECT_BEGIN ht rfl
  obtain ⟨d', hd', _⟩ := (parse_tokens (2 * sizeOf obj + 1)).2.2.2.1 obj _ [] (le_refl _)
    (by simpa using ht1)
  have hne := start_ne_nofuel f
  unfold _Start at hne
  rw [hm] at hne
  simp only [outcome.bind_ok] at hne
  have hobj := object_fuel_irrelevant hd' hne
  refine ⟨{ d' with jdoc_obj := some obj }, ?_, rfl⟩
  unfold json_parse json_parse_fuel _Start
  rw [hm]
  simp only [outcome.bind_ok, hobj]

/-- The two possible results of `json_parse`. -/
theorem json_parse_cases (f : FILE) :
    (∃ doc, json_parse f = some (0, some doc)) ∨
    (∃ err, err ≠ 0 ∧ json_parse f = some (err, none)) := by
  unfold json_parse json_parse_fuel
  have hne := start_ne_nofuel f
  cases h : _Start (parse_fuel f) (json_doc.init f) with
  | ok obj doc => exact Or.inl ⟨_, rfl⟩
  | nofuel => exact absurd h hne
  | error err =>
    refine Or.inr ⟨err, ?_, rfl⟩
    unfold _Start at h
    exact outcome.error_nonzero_bind (match_error_nonzero _ _)
      (fun _ d => (parse_error_nonzero (parse_fuel f)).2.2.2.2 d) err h

/-! ### End of input -/

theorem array_eof (n : Nat) (d : json_doc) (h : next_is_eof d) :
    _Array (n + 3) d = .error EINVAL := by
  have hla := consume_lookahead_avail d
  have hc := consume_after_peek (json_consume_token d).2.2 (json_consume_token d).2.1 hla
  rw [_Array, peek_eq d h.1]
  simp only [token_outcome, bne_self_eq_false, Bool.false_eq_true, if_false, outcome.bind_ok,
    h.2]
  exact array_r_eof n _ 0 (by rw [hc]) (by rw [hc]; exact h.2)

theorem object_eof (n : Nat) (d : json_doc) (h : next_is_eof d) :
    _Object (n + 2) d = .error EINVAL := by
  have hla := consume_lookahead_avail d
  have hc := consume_after_peek (json_consume_token d).2.2 (json_consume_token d).2.1 hla
  rw [_Object, peek_eq d h.1]
  simp only [token_outcome, bne_self_eq_false, Bool.false_eq_true, if_false, outcome.bind_ok,
    h.2]
  exact object_r_eof n _ 0 (by rw [hc]) (by rw [hc]; exact h.2)

theorem start_eof (n : Nat) (d : json_doc) (h : next_is_eof d) :
    _Start n d = .error EINVAL := by
  unfold _Start
  rw [match_eof d _ (by decide) h.1 h.2]; rfl

theorem switch_error_of_eof (d : json_doc) (tok : json_token) (h : next_is_eof d)
    (h1 : token_outcome (json_consume_token d) = .ok tok (json_consume_token d).2.2) :
    tok.tok_id = JSON_TOK_EOF := by
  obtain ⟨_, h2, _⟩ := token_outcome_ok h1
  rw [h2]; exact h.2

/-! ### Literals before any continuation -/

theorem next_char_ends_literal (f : FILE) (tail : List Int) (h : ends_literal tail = true) :
    ((next_char f tail).1 != EOF && _is_literal_char (next_char f tail).1) = false := by
  cases tail with
  | nil => simp [next_char, char_of_int, EOF]
  | cons b rest =>
    simp only [ends_literal, Bool.not_eq_true'] at h
    simp [next_char, h]

theorem next_char_ends_number (f : FILE) (tail : List Int) (h : ends_number_run tail = true) :
    (isascii (next_char f tail).1 && isdigit (next_char f tail).1) = false ∧
      (next_char f tail).1 ≠ 46 := by
  cases tail with
  | nil =>
    have h1 : char_of_int EOF = -1 := by decide
    simp only [next_char, h1]
    exact ⟨by decide, by decide⟩
  | cons b rest =>
    simp only [ends_number_run, Bool.and_eq_true, Bool.not_eq_true', beq_eq_false_iff_ne] at h
    exact ⟨h.1, h.2⟩

theorem terminates_number_facts (f : FILE) (tail : List Int)
    (h : terminates_number tail = true) :
    ends_number_run tail = true ∧
      ((next_char f tail).1 == EOF || (isascii (next_char f tail).1 &&
        (isspace (next_char f tail).1 || ispunct (next_char f tail).1))) = true := by
  cases tail with
  | nil => exact ⟨rfl, by simp [next_char, char_of_int, EOF]⟩
  | cons b rest =>
    simp only [terminates_number, Bool.and_eq_true, Bool.not_eq_true', beq_eq_false_iff_ne]
      at h
    obtain ⟨⟨hasc, hsp⟩, hdot⟩ := h
    have hb := isascii_iff.1 hasc
    have hch : char_of_int (b % 256) = b := ascii_char hb.1 hb.2
    have hnd : isdigit b = false := by
      rcases (Bool.or_eq_true_iff).1 hsp with h1 | h1
      · simp only [isspace, Bool.or_eq_true, beq_iff_eq, Bool.and_eq_true, decide_eq_true_eq]
          at h1
        simp only [isdigit, Bool.and_eq_false_iff, decide_eq_false_iff_not]; omega
      · simp only [ispunct, Bool.and_eq_true, Bool.not_eq_true'] at h1
        exact h1.2
    refine ⟨?_, ?_⟩
    · simp [ends_number_run, hch, hnd, hdot]
    · simp [next_char, hch, hasc, hsp]

/-- C9 for unquoted literals, from any pending input. -/
theorem consume_unquoted (d : json_doc) (ws : List Int) (c : Int) (cs tail : List Int)
    (hp : Pending d (ws ++ (c :: cs) ++ tail)) (hws : ws.all isspace = true)
    (hc : (isalpha c || c == 95) = true) (hcs : cs.all _is_literal_char = true) :
    ((c :: cs).length ≤ 63 → ends_literal tail = true →
      (json_consume_token d).1 = 0 ∧ (json_consume_token d).2.1 = lit_tok (c :: cs)) ∧
    (64 ≤ (c :: cs).length →
      (json_consume_token d).1 = EINVAL ∧ (json_consume_token d).2.1 = ⟨JSON_TOK_ERR, none⟩) := by
  have hc' := hc
  simp only [isalpha, Bool.or_eq_true, Bool.and_eq_true, decide_eq_true_eq, beq_iff_eq] at hc'
  have hns : isspace c = false := by
    simp only [isspace, Bool.or_eq_false_iff, beq_eq_false_iff_ne, Bool.and_eq_false_iff,
      decide_eq_false_iff_not]
    omega
  rw [List.append_assoc, List.cons_append] at hp
  obtain ⟨line, hl⟩ := consume_pending d ws c (cs ++ tail) hp hws (by omega) (by omega) hns
  rw [hl, token_switch_literal _ c hc]
  constructor
  · intro hlen ht
    rw [consume_literal_ok _ c cs tail rfl hcs hlen (next_char_ends_literal _ tail ht)]
    exact ⟨rfl, rfl⟩
  · intro hlen
    exact consume_literal_long _ c cs tail rfl hcs hlen

/-- C9 for quoted literals, from any pending input. -/
theorem consume_quoted (d : json_doc) (ws : List Int) (items : List (Bool × Int))
    (rest : List Int) (hp : Pending d (ws ++ 34 :: (quoted_body items ++ 34 :: rest)))
    (hws : ws.all isspace = true) (hok : items.all quoted_item_ok = true) :
    (items.length ≤ 63 →
      (json_consume_token d).1 = 0 ∧
        (json_consume_token d).2.1 = lit_tok (items.map Prod.snd)) ∧
    (64 ≤ items.length →
      (json_consume_token d).1 = EINVAL ∧ (json_consume_token d).2.1 = ⟨JSON_TOK_ERR, none⟩) := by
  obtain ⟨line, hl⟩ := consume_pending d ws 34 _ hp hws (by omega) (by omega) (by decide)
  rw [hl, token_switch_quote]
  constructor
  · intro hlen
    rw [consume_literal_string_ok _ 34 items rest rfl hok hlen]
    exact ⟨rfl, rfl⟩
  · intro hlen
    exact consume_literal_string_long _ 34 items rest rfl hok hlen

/-- What the tokenizer does with a text of the number language that is the
whole run of digits and dots. -/
theorem consume_number (d : json_doc) (ws s tail : List Int)
    (hp : Pending d (ws ++ s ++ tail)) (hws : ws.all isspace = true)
    (hnum : is_number s = true) (hrun : ends_number_run tail = true) :
    (s.length ≤ 63 → terminates_number tail = true →
      (json_consume_token d).1 = 0 ∧ (json_consume_token d).2.1 = lit_tok s) ∧
    (64 ≤ s.length →
      (json_consume_token d).1 = EINVAL ∧ (json_consume_token d).2.1 = ⟨JSON_TOK_ERR, none⟩) ∧
    ((∀ f, ((next_char f tail).1 == EOF || (isascii (next_char f tail).1 &&
        (isspace (next_char f tail).1 || ispunct (next_char f tail).1))) = false) →
      (json_consume_token d).1 = EINVAL ∧ (json_consume_token d).2.1 = ⟨JSON_TOK_ERR, none⟩) := by
  obtain ⟨hne, _, hdig, _⟩ := is_number_state hnum
  cases s with
  | nil => exact absurd rfl hne
  | cons c s =>
    simp only [List.headD_cons] at hdig
    have hc' := hdig
    simp only [isdigit, Bool.and_eq_true, decide_eq_true_eq] at hc'
    have hns : isspace c = false := by
      simp only [isspace, Bool.or_eq_false_iff, beq_eq_false_iff_ne, Bool.and_eq_false_iff,
        decide_eq_false_iff_not]
      omega
    rw [List.append_assoc, List.cons_append] at hp
    obtain ⟨line, hl⟩ := consume_pending d ws c (s ++ tail) hp hws (by omega) (by omega) hns
    rw [hl, token_switch_digit _ c hdig]
    have hshort := consume_literal_number_eq
      { d with jdoc_nextc_avail := false, jdoc_f := d.jdoc_f.at (s ++ tail),
               jdoc_lineno := line } c s tail rfl hnum
      (next_char_ends_number _ tail hrun).1 (next_char_ends_number _ tail hrun).2
    have hlong := consume_literal_number_long
      { d with jdoc_nextc_avail := false, jdoc_f := d.jdoc_f.at (s ++ tail),
               jdoc_lineno := line } c s tail rfl hnum
    refine ⟨?_, ?_, ?_⟩
    · intro hlen hterm
      rw [hshort (by omega)]
      have hw := @WRITECHAR_ok (c :: s) 0 (by omega)
      simp only [(terminates_number_facts _ tail hterm).2, hw, Bool.not_true,
        Bool.false_eq_true, if_false, RETURN_TOKEN_LIT, lit_tok, and_self]
    · intro hlen
      by_cases h64 : (c :: s).length ≤ 64
      · rw [hshort h64]
        have hw := @WRITECHAR_full (c :: s) 0 hlen
        simp only [hw, Bool.not_false, if_true, RETURN_TOKEN_ERROR]
        split <;> exact ⟨rfl, rfl⟩
      · obtain ⟨f', hf⟩ := hlong (by omega)
        rw [hf]
        exact ⟨rfl, rfl⟩
    · intro hbad
      by_cases h64 : (c :: s).length ≤ 64
      · rw [hshort h64]
        simp only [hbad, Bool.not_false, if_true, RETURN_TOKEN_ERROR, and_self]
      · obtain ⟨f', hf⟩ := hlong (by omega)
        rw [hf]
        exact ⟨rfl, rfl⟩

theorem token_stream_stale (n : Nat) :
    ∀ (d : json_doc) (x : json_token), d.jdoc_lookahead_avail = false →
      token_stream n { d with jdoc_lookahead := x } = token_stream n d := by
  induction n with
  | zero => intro _ _ _; rfl
  | succ n ih =>
    intro d x h
    simp only [token_stream]
    rw [consume_stale d x h]
    simp only [ih _ x (consume_lookahead_avail d)]

/-! ## Claims on the parser -/

/-- C1: every input that is a sentence of `Document = Object`, its tokens
optionally separated by whitespace, is parsed successfully to the root
object whose tuples are, in order, the source tuples (so lengths, keys,
values and the literal texts are those of the source, in objects and in
arrays). `{x:1}` gives one tuple `x` with the Literal `1`;
`{foo:a,bar:[1,2,3,4]}` gives two tuples, the second the Array of the
Literals `1`, `2`, `3`, `4`. -/
theorem json_parse_sentence :
    (∀ (obj : json_object) (f : FILE), Sentence obj f.data →
      ∃ doc, json_parse f = some (0, some doc) ∧ json_doc_object doc = some obj) ∧
    (json_parse_string (text "\x7bx:1\x7d")).map
        (fun r => (r.1, r.2.map json_doc_object)) =
      some (0, some (some [(text "x", JSON_VAL_LITERAL (text "1"))])) ∧
    (json_parse_string (text "\x7bfoo:a,bar:[1,2,3,4]\x7d")).map
        (fun r => (r.1, r.2.map json_doc_object)) =
      some (0, some (some [(text "foo", JSON_VAL_LITERAL (text "a")),
        (text "bar", JSON_VAL_ARRAY [JSON_VAL_LITERAL (text "1"), JSON_VAL_LITERAL (text "2"),
          JSON_VAL_LITERAL (text "3"), JSON_VAL_LITERAL (text "4")])])) :=
  ⟨fun obj f h => parse_sentence obj f.data [] f (by simp) h, rfl, rfl⟩

/-- Witness for C1: `{ x: [1, "a b"] }` is a sentence for the object with
the one tuple `x` holding the Array of the Literals `1` and `a b`. -/
theorem json_parse_sentence_witness :
    Sentence [(text "x", JSON_VAL_ARRAY [JSON_VAL_LITERAL (text "1"),
        JSON_VAL_LITERAL (text "a b")])]
      (fmemopen (text "\x7b x: [1, \"a b\"] \x7d")).data ∧
    ∃ doc, json_parse (fmemopen (text "\x7b x: [1, \"a b\"] \x7d")) = some (0, some doc) ∧
      json_doc_object doc = some [(text "x", JSON_VAL_ARRAY [JSON_VAL_LITERAL (text "1"),
        JSON_VAL_LITERAL (text "a b")])] :=
  have hs : Sentence [(text "x", JSON_VAL_ARRAY [JSON_VAL_LITERAL (text "1"),
      JSON_VAL_LITERAL (text "a b")])]
      (fmemopen (text "\x7b x: [1, \"a b\"] \x7d")).data :=
    Spelled.punct [] JSON_TOK_OBJECT_BEGIN 123 _ _ rfl rfl
      (Spelled.lit [32] (text "x") (text "x") JSON_TOK_COLON _ _ rfl
        (Lexeme.unquoted 120 [] rfl rfl (by decide)) rfl
        (Spelled.punct [] JSON_TOK_COLON 58 _ _ rfl rfl
          (Spelled.punct [32] JSON_TOK_ARRAY_BEGIN 91 _ _ rfl rfl
            (Spelled.lit [] (text "1") (text "1") JSON_TOK_COMMA _ _ rfl
              (Lexeme.number (text "1") rfl (by decide)) rfl
              (Spelled.punct [] JSON_TOK_COMMA 44 _ _ rfl rfl
                (Spelled.lit [32] (text "a b") (text "\"a b\"") JSON_TOK_ARRAY_END _ _ rfl
                  (Lexeme.quoted [(false, 97), (false, 32), (false, 98)] rfl (by decide)) rfl
                  (Spelled.punct [] JSON_TOK_ARRAY_END 93 _ _ rfl rfl
                    (Spelled.punct [32] JSON_TOK_OBJECT_END 125 _ _ rfl rfl
                      Spelled.nil))))))))
  ⟨hs, json_parse_sentence.1 _ _ hs⟩

/-- C2: each of the inputs `""`, `{`, `}`, `{x}`, `{x:}`, `{x:1` makes
`json_parse_string` return the status `EINVAL` and no document. -/
theorem json_parse_string_rejects :
    json_parse_string (text "") = some (EINVAL, none) ∧
    json_parse_string (text "\x7b") = some (EINVAL, none) ∧
    json_parse_string (text "\x7d") = some (EINVAL, none) ∧
    json_parse_string (text "\x7bx\x7d") = some (EINVAL, none) ∧
    json_parse_string (text "\x7bx:\x7d") = some (EINVAL, none) ∧
    json_parse_string (text "\x7bx:1") = some (EINVAL, none) :=
  ⟨rfl, rfl, rfl, rfl, rfl, rfl⟩

/-- C3: for every input, `json_parse` (and so `json_parse_string` and
`json_parse_data`) returns either status 0 with a document or a non-zero
status with no document. An end-of-input token is a failure at every place
where the parser takes a token: at the start of `_Start`, `_Value`,
`_Array`, `_Array_r`, `_Object`, `_Object_r` and `_match`, after an array
element, and after the key, the colon and the value of a tuple. -/
theorem json_parse_status :
    (∀ f : FILE, (∃ doc, json_parse f = some (0, some doc)) ∨
      (∃ err, err ≠ 0 ∧ json_parse f = some (err, none))) ∧
    (∀ str : List Int, (∃ doc, json_parse_string str = some (0, some doc)) ∨
      (∃ err, err ≠ 0 ∧ json_parse_string str = some (err, none))) ∧
    (∀ (buf : List Int) (size : Nat), (∃ doc, json_parse_data buf size = some (0, some doc)) ∨
      (∃ err, err ≠ 0 ∧ json_parse_data buf size = some (err, none))) ∧
    (∀ (d : json_doc) (n ix : Nat) (id : json_token_id), next_is_eof d →
      _Start n d = .error EINVAL ∧ _Value (n + 1) d = .error EINVAL ∧
      _Array (n + 3) d = .error EINVAL ∧ _Array_r (n + 2) d ix = .error EINVAL ∧
      _Object (n + 2) d = .error EINVAL ∧ _Object_r (n + 1) d ix = .error EINVAL ∧
      (id ≠ JSON_TOK_EOF → _match d id = .error EINVAL)) ∧
    (∀ (d d1 : json_doc) (n ix : Nat) (v : json_value), _Value n d = .ok v d1 →
      next_is_eof d1 → _Array_r (n + 1) d ix = .error EINVAL) ∧
    (∀ (d d1 : json_doc) (n ix : Nat) (k : json_token), _match d JSON_TOK_LIT = .ok k d1 →
      next_is_eof d1 → _Object_r (n + 1) d ix = .error EINVAL) ∧
    (∀ (d d1 d2 : json_doc) (n ix : Nat) (k c : json_token),
      _match d JSON_TOK_LIT = .ok k d1 → _match d1 JSON_TOK_COLON = .ok c d2 →
      next_is_eof d2 → _Object_r (n + 2) d ix = .error EINVAL) ∧
    (∀ (d d1 d2 d3 : json_doc) (n ix : Nat) (k c : json_token) (v : json_value),
      _match d JSON_TOK_LIT = .ok k d1 → _match d1 JSON_TOK_COLON = .ok c d2 →
      _Value n d2 = .ok v d3 → next_is_eof d3 → _Object_r (n + 1) d ix = .error EINVAL) := by
  refine ⟨json_parse_cases, fun str => json_parse_cases _, fun buf size => json_parse_cases _,
    ?_, ?_, ?_, ?_, ?_⟩
  · intro d n ix id h
    exact ⟨start_eof n d h, value_eof n d h.1 h.2, array_eof n d h, array_r_eof n d ix h.1 h.2,
      object_eof n d h, object_r_eof n d ix h.1 h.2, fun hid => match_eof d id hid h.1 h.2⟩
  · intro d d1 n ix v hv h
    rw [_Array_r, hv]
    simp only [outcome.bind_ok, token_outcome_of_zero h.1, h.2]
  · intro d d1 n ix k hk h
    rw [_Object_r, hk]
    simp only [outcome.bind_ok, match_eof d1 JSON_TOK_COLON (by decide) h.1 h.2,
      outcome.bind_error]
  · intro d d1 d2 n ix k c hk hc h
    rw [_Object_r, hk]
    simp only [outcome.bind_ok, hc, value_eof n d2 h.1 h.2, outcome.bind_error]
  · intro d d1 d2 d3 n ix k c v hk hc hv h
    rw [_Object_r, hk]
    simp only [outcome.bind_ok, hc, hv, token_outcome_of_zero h.1, h.2]

/-- Witness for C3: on the empty input, and after `[1`, after `{x`, after
`{x:` and after `{x:1`, the next token is the end-of-input token. -/
theorem json_parse_status_witness :
    next_is_eof (json_doc.init (fmemopen [])) ∧
    (_Start 7 (json_doc.init (fmemopen [])) = .error EINVAL ∧
      _Value (7 + 1) (json_doc.init (fmemopen [])) = .error EINVAL ∧
      _Array (7 + 3) (json_doc.init (fmemopen [])) = .error EINVAL ∧
      _Array_r (7 + 2) (json_doc.init (fmemopen [])) 0 = .error EINVAL ∧
      _Object (7 + 2) (json_doc.init (fmemopen [])) = .error EINVAL ∧
      _Object_r (7 + 1) (json_doc.init (fmemopen [])) 0 = .error EINVAL ∧
      (JSON_TOK_COLON ≠ JSON_TOK_EOF →
        _match (json_doc.init (fmemopen [])) JSON_TOK_COLON = .error EINVAL)) ∧
    _Array_r (1 + 1) (json_doc.init (fmemopen (text "1"))) 0 = .error EINVAL ∧
    _Object_r (0 + 1) (json_doc.init (fmemopen (text "x"))) 0 = .error EINVAL ∧
    _Object_r (0 + 2) (json_doc.init (fmemopen (text "x:"))) 0 = .error EINVAL ∧
    _Object_r (1 + 1) (json_doc.init (fmemopen (text "x:1"))) 0 = .error EINVAL :=
  ⟨⟨rfl, rfl⟩,
    json_parse_status.2.2.2.1 (json_doc.init (fmemopen [])) 7 0 JSON_TOK_COLON ⟨rfl, rfl⟩,
    json_parse_status.2.2.2.2.1 (json_doc.init (fmemopen (text "1"))) _ 1 0 _
      (show _Value 1 (json_doc.init (fmemopen (text "1"))) = .ok _ _ from rfl) ⟨rfl, rfl⟩,
    json_parse_status.2.2.2.2.2.1 (json_doc.init (fmemopen (text "x"))) _ 0 0 _
      (show _match (json_doc.init (fmemopen (text "x"))) JSON_TOK_LIT = .ok _ _ from rfl)
      ⟨rfl, rfl⟩,
    json_parse_status.2.2.2.2.2.2.1 (json_doc.init (fmemopen (text "x:"))) _ _ 0 0 _ _
      (show _match (json_doc.init (fmemopen (text "x:"))) JSON_TOK_LIT = .ok _ _ from rfl)
      (show _match _ JSON_TOK_COLON = .ok _ _ from rfl) ⟨rfl, rfl⟩,
    json_parse_status.2.2.2.2.2.2.2 (json_doc.init (fmemopen (text "x:1"))) _ _ _ 1 0 _ _ _
      (show _match (json_doc.init (fmemopen (text "x:1"))) JSON_TOK_LIT = .ok _ _ from rfl)
      (show _match _ JSON_TOK_COLON = .ok _ _ from rfl)
      (show _Value 1 _ = .ok _ _ from rfl) ⟨rfl, rfl⟩⟩

/-- C4 (as stated, refuted): in the object parsed from `{a:{"":{b:1}}}` the
path `a//b` has an empty second segment; the resolution worded in the claim
matches it with the empty key and reaches the Literal `1`, `json_get_value`
returns NULL. -/
theorem json_get_value_spec_counterexample :
    json_get_value
        [(text "a", JSON_VAL_OBJECT [([], JSON_VAL_OBJECT [(text "b", JSON_VAL_LITERAL (text "1"))])])]
        (text "a//b") = none ∧
      get_value_spec
        [(text "a", JSON_VAL_OBJECT [([], JSON_VAL_OBJECT [(text "b", JSON_VAL_LITERAL (text "1"))])])]
        (split_path (text "a//b")) = some (JSON_VAL_LITERAL (text "1")) ∧
      (json_parse_string (text "\x7ba:\x7b\"\":\x7bb:1\x7d\x7d\x7d")).map
        (fun r => (r.1, r.2.map fun d => d.jdoc_obj)) =
        some (0, some (some
          [(text "a", JSON_VAL_OBJECT [([], JSON_VAL_OBJECT [(text "b", JSON_VAL_LITERAL (text "1"))])])])) :=
  ⟨rfl, rfl, rfl⟩

/-- C4 (amended): for every object and every path, `json_get_value` equals
the reference resolution over the segments of the path in which an empty
segment is never matched (the result is not-found); when the path has no
empty segment this is the resolution worded in the claim. In
`{a:{b:{c:1}}}`, `a/b/c` and `A/B/C` give the Literal `1`, `a/x/c` gives
not-found. -/
theorem json_get_value_refines_spec (obj : json_object) (path : List Int) :
    json_get_value obj path = get_value_spec_nonempty obj (split_path path) ∧
      ((∀ seg ∈ split_path path, seg ≠ []) →
        json_get_value obj path = get_value_spec obj (split_path path)) ∧
      json_get_value
        [(text "a", JSON_VAL_OBJECT [(text "b", JSON_VAL_OBJECT [(text "c", JSON_VAL_LITERAL (text "1"))])])]
        (text "a/b/c") = some (JSON_VAL_LITERAL (text "1")) ∧
      json_get_value
        [(text "a", JSON_VAL_OBJECT [(text "b", JSON_VAL_OBJECT [(text "c", JSON_VAL_LITERAL (text "1"))])])]
        (text "a/x/c") = none ∧
      json_get_value
        [(text "a", JSON_VAL_OBJECT [(text "b", JSON_VAL_OBJECT [(text "c", JSON_VAL_LITERAL (text "1"))])])]
        (text "A/B/C") = some (JSON_VAL_LITERAL (text "1")) :=
  ⟨json_get_value_eq_spec obj path,
    fun h => by rw [json_get_value_eq_spec, get_value_spec_of_nonempty _ _ h], rfl, rfl, rfl⟩

/-- Witness for C4: the path `a/b` has no empty segment. -/
theorem json_get_value_refines_spec_witness :
    (∀ seg ∈ split_path (text "a/b"), seg ≠ []) ∧
      json_get_value [(text "a", JSON_VAL_OBJECT [(text "b", JSON_VAL_LITERAL (text "1"))])]
        (text "a/b") =
      get_value_spec [(text "a", JSON_VAL_OBJECT [(text "b", JSON_VAL_LITERAL (text "1"))])]
        (split_path (text "a/b")) :=
  ⟨by decide, (json_get_value_refines_spec _ (text "a/b")).2.1 (by decide)⟩

/-- C5: among several tuples whose keys match a segment the first one in
document order decides. For a last segment its value is returned; for
another segment resolution continues in it when it is an Object and fails
when it is not, whatever tuples follow. `{a:1,a:{b:2}}` is accepted by the
parser, `a` resolves to the Literal `1` and `a/b` is not-found. -/
theorem json_get_value_first_match :
    (∀ (pre post : json_object) (k : List Int) (v : json_value) (seg : List Int),
      seg ≠ [] → (47 : Int) ∉ seg → (∀ t ∈ pre, key_matches t.1 seg = false) →
      key_matches k seg = true →
      json_get_value (pre ++ (k, v) :: post) seg = some v) ∧
    (∀ (pre post : json_object) (k : List Int) (v : json_value) (seg more : List Int),
      seg ≠ [] → (47 : Int) ∉ seg → (∀ t ∈ pre, key_matches t.1 seg = false) →
      key_matches k seg = true → (∀ o, v ≠ JSON_VAL_OBJECT o) →
      json_get_value (pre ++ (k, v) :: post) (seg ++ 47 :: more) = none) ∧
    (∀ (pre post o : json_object) (k : List Int) (seg more : List Int),
      seg ≠ [] → (47 : Int) ∉ seg → (∀ t ∈ pre, key_matches t.1 seg = false) →
      key_matches k seg = true →
      json_get_value (pre ++ (k, JSON_VAL_OBJECT o) :: post) (seg ++ 47 :: more) =
        json_get_value o more) ∧
    (json_parse_string (text "\x7ba:1,a:\x7bb:2\x7d\x7d")).map
        (fun r => (r.1, r.2.map fun d => d.jdoc_obj)) =
      some (0, some (some [(text "a", JSON_VAL_LITERAL (text "1")),
        (text "a", JSON_VAL_OBJECT [(text "b", JSON_VAL_LITERAL (text "2"))])])) ∧
    json_get_value [(text "a", JSON_VAL_LITERAL (text "1")),
        (text "a", JSON_VAL_OBJECT [(text "b", JSON_VAL_LITERAL (text "2"))])] (text "a/b") = none ∧
    json_get_value [(text "a", JSON_VAL_LITERAL (text "1")),
        (text "a", JSON_VAL_OBJECT [(text "b", JSON_VAL_LITERAL (text "2"))])] (text "a") =
      some (JSON_VAL_LITERAL (text "1")) := by
  refine ⟨?_, ?_, ?_, rfl, rfl, rfl⟩
  · intro pre post k v seg hne hs hpre hk
    rw [json_get_value_eq_spec, split_path_segment seg hs]
    unfold get_value_spec_nonempty
    simp [hne, find_first_match pre post k v seg hpre hk]
  · intro pre post k v seg more hne hs hpre hk hv
    rw [json_get_value_eq_spec, split_path_append seg more hs]
    unfold get_value_spec_nonempty
    cases v with
    | JSON_VAL_OBJECT o => exact absurd rfl (hv o)
    | JSON_VAL_LITERAL s =>
      simp only [hne, if_false, find_first_match pre post k _ seg hpre hk,
        split_path_ne_nil more]
    | JSON_VAL_ARRAY a =>
      simp only [hne, if_false, find_first_match pre post k _ seg hpre hk,
        split_path_ne_nil more]
  · intro pre post o k seg more hne hs hpre hk
    rw [json_get_value_eq_spec, split_path_append seg more hs]
    unfold get_value_spec_nonempty
    simp only [hne, if_false, find_first_match pre post k _ seg hpre hk,
      split_path_ne_nil more]
    exact (json_get_value_eq_spec o more).symm

/-- Witness for C5: the three general statements at `{a:1,a:{b:2}}`,
`{a:1,a:{b:2}}` and `{x:0,a:{b:2},a:3}`. -/
theorem json_get_value_first_match_witness :
    json_get_value ([] ++ (text "a", JSON_VAL_LITERAL (text "1")) ::
        [(text "a", JSON_VAL_OBJECT [(text "b", JSON_VAL_LITERAL (text "2"))])]) (text "A") =
      some (JSON_VAL_LITERAL (text "1")) ∧
    json_get_value ([] ++ (text "a", JSON_VAL_LITERAL (text "1")) ::
        [(text "a", JSON_VAL_OBJECT [(text "b", JSON_VAL_LITERAL (text "2"))])])
        (text "a" ++ 47 :: text "b") = none ∧
    json_get_value ([(text "x", JSON_VAL_LITERAL (text "0"))] ++
        (text "a", JSON_VAL_OBJECT [(text "b", JSON_VAL_LITERAL (text "2"))]) ::
        [(text "a", JSON_VAL_LITERAL (text "3"))]) (text "a" ++ 47 :: text "b") =
      json_get_value [(text "b", JSON_VAL_LITERAL (text "2"))] (text "b") :=
  ⟨json_get_value_first_match.1 [] _ (text "a") _ (text "A") (by decide) (by decide)
      (by decide) (by decide),
    json_get_value_first_match.2.1 [] _ (text "a") _ (text "a") (text "b") (by decide)
      (by decide) (by decide) (by decide) (by intro o h; cases h),
    json_get_value_first_match.2.2.1 [(text "x", JSON_VAL_LITERAL (text "0"))] _ _ (text "a")
      (text "a") (text "b") (by decide) (by decide) (by decide) (by decide)⟩

/-- C6: path lookup ignores ASCII case and needs the exact length. For
every object and path, the path, its upper-cased form and its lower-cased
form resolve to the same result; a lookup in an object none of whose keys
has the length of the first segment is not-found, so a key that is a proper
initial part of the segment, or of which the segment is a proper initial
part, does not match (key `ab` against `a`, key `a` against `ab`). -/
theorem json_get_value_case_and_length :
    (∀ (obj : json_object) (path : List Int),
      json_get_value obj (path.map toupper) = json_get_value obj path ∧
      json_get_value obj (path.map tolower) = json_get_value obj path) ∧
    (∀ (obj : json_object) (path : List Int),
      (∀ t ∈ obj, strlen t.1 ≠ segment_length path) → json_get_value obj path = none) ∧
    (∀ (key ext : List Int) (v : json_value), ext ≠ [] → (47 : Int) ∉ key ++ ext →
      json_get_value [(key, v)] (key ++ ext) = none ∧
      json_get_value [(key ++ ext, v)] key = none) ∧
    (∀ v : json_value, json_get_value [(text "ab", v)] (text "a") = none ∧
      json_get_value [(text "a", v)] (text "ab") = none) := by
  have hlen := json_get_value_no_length
  have hext : ∀ (key ext : List Int) (v : json_value), ext ≠ [] → (47 : Int) ∉ key ++ ext →
      json_get_value [(key, v)] (key ++ ext) = none ∧
      json_get_value [(key ++ ext, v)] key = none := by
    intro key ext v he hs
    have hpos : 0 < ext.length := List.length_pos.2 he
    have hk : (47 : Int) ∉ key := fun h => hs (List.mem_append_left _ h)
    constructor
    · apply hlen
      intro t ht
      simp only [List.mem_singleton] at ht
      subst ht
      unfold segment_length strlen
      rw [(takeWhile_of_not_mem (key ++ ext) [] hs).2.2.1, List.length_append]
      show key.length ≠ key.length + ext.length
      omega
    · apply hlen
      intro t ht
      simp only [List.mem_singleton] at ht
      subst ht
      unfold segment_length strlen
      rw [(takeWhile_of_not_mem key [] hk).2.2.1]
      show (key ++ ext).length ≠ key.length
      rw [List.length_append]
      omega
  refine ⟨fun obj path => ⟨?_, ?_⟩, hlen, hext, fun v => ?_⟩
  · exact json_get_value_map toupper tolower_toupper toupper_eq_slash obj path
  · exact json_get_value_map tolower tolower_tolower tolower_eq_slash obj path
  · exact hext (text "a") (text "b") v (by decide) (by decide)

/-- Witness for C6: no key of `{abc:1}` has the length of the segment `ab`,
and `ab` extends the key `a` of `{a:1}`. -/
theorem json_get_value_case_and_length_witness :
    json_get_value [(text "abc", JSON_VAL_LITERAL (text "1"))] (text "ab") = none ∧
    (json_get_value [(text "a", JSON_VAL_LITERAL (text "1"))] (text "a" ++ text "b") = none ∧
      json_get_value [(text "a" ++ text "b", JSON_VAL_LITERAL (text "1"))] (text "a") = none) :=
  ⟨json_get_value_case_and_length.2.1 _ (text "ab") (by decide),
    json_get_value_case_and_length.2.2.1 (text "a") (text "b") _ (by decide) (by decide)⟩


/-! ## Claims on the tokenizer -/

/-- C7 (the code departs from the claim): the numeric literal `1` followed
by the byte 255, which is neither end-of-input nor whitespace nor
punctuation, is returned as a literal token with status 0, because the
byte is stored in a `char` and compares equal to `EOF`; only the next call
reports the lexical error. -/
theorem number_before_byte_255 :
    (json_consume_token (json_doc.init (fmemopen [49, 255]))).1 = 0 ∧
    (json_consume_token (json_doc.init (fmemopen [49, 255]))).2.1 = lit_tok (text "1") ∧
    (json_consume_token (json_consume_token (json_doc.init (fmemopen [49, 255]))).2.2).1 =
      EINVAL ∧
    is_number (text "1") = true ∧ isspace 255 = false ∧ ispunct 255 = false ∧
    (fmemopen [49, 255]).data ≠ [49] :=
  ⟨rfl, rfl, rfl, rfl, rfl, rfl, by decide⟩

/-- C8 (as stated, refuted): the numeric literal `1` followed directly by
an underscore is returned as the literal `1` with status 0, and the next
token is the unquoted literal `_`. -/
theorem number_before_underscore :
    (json_consume_token (json_doc.init (fmemopen (text "1_")))).1 = 0 ∧
    (json_consume_token (json_doc.init (fmemopen (text "1_")))).2.1 = lit_tok (text "1") ∧
    (json_consume_token (json_consume_token (json_doc.init (fmemopen (text "1_")))).2.2).2.1 =
      lit_tok (text "_") ∧
    is_number (text "1") = true :=
  ⟨rfl, rfl, rfl, rfl⟩

theorem alpha_not_terminator (f : FILE) (c : Int) (rest : List Int)
    (hc : isalpha c = true) :
    ends_number_run (c :: rest) = true ∧
      ((next_char f (c :: rest)).1 == EOF || (isascii (next_char f (c :: rest)).1 &&
        (isspace (next_char f (c :: rest)).1 || ispunct (next_char f (c :: rest)).1))) = false := by
  have h := hc
  simp only [isalpha, Bool.or_eq_true, Bool.and_eq_true, decide_eq_true_eq] at h
  have hch : char_of_int (c % 256) = c := ascii_char (by omega) (by omega)
  have hnd : isdigit c = false := by
    simp only [isdigit, Bool.and_eq_false_iff, decide_eq_false_iff_not]; omega
  have hsp : isspace c = false := by
    simp only [isspace, Bool.or_eq_false_iff, beq_eq_false_iff_ne, Bool.and_eq_false_iff,
      decide_eq_false_iff_not]
    omega
  have hdot : (c == 46) = false := by simp; omega
  have heof : (c == EOF) = false := by simp [EOF]; omega
  refine ⟨by simp [ends_number_run, hch, hnd, hdot], ?_⟩
  simp [next_char, hch, heof, hsp, ispunct, hc]

/-- C8 (amended): a well-formed numeric literal followed directly by an
ASCII letter is a lexical error, whatever its length; followed directly by
an underscore, which is a punctuation character, a literal of at most 63
characters is returned and the underscore is the next character read. -/
theorem number_before_identifier_char (d : json_doc) (ws s rest : List Int) (c : Int)
    (hws : ws.all isspace = true) (hnum : is_number s = true) :
    (isalpha c = true → Pending d (ws ++ s ++ c :: rest) →
      (json_consume_token d).1 = EINVAL ∧ (json_consume_token d).2.1 = ⟨JSON_TOK_ERR, none⟩) ∧
    (s.length ≤ 63 → Pending d (ws ++ s ++ 95 :: rest) →
      (json_consume_token d).1 = 0 ∧ (json_consume_token d).2.1 = lit_tok s ∧
      (json_consume_token d).2.2.jdoc_nextc_avail = true ∧
      (json_consume_token d).2.2.jdoc_nextc = 95 ∧
      (json_consume_token d).2.2.jdoc_f.data = rest) := by
  constructor
  · intro hc hp
    exact (consume_number d ws s (c :: rest) hp hws hnum
      (alpha_not_terminator d.jdoc_f c rest hc).1).2.2
      (fun f => (alpha_not_terminator f c rest hc).2)
  · intro hlen hp
    obtain ⟨hne, _, hdig, _⟩ := is_number_state hnum
    cases s with
    | nil => exact absurd rfl hne
    | cons c0 s =>
      simp only [List.headD_cons] at hdig
      have hc' := hdig
      simp only [isdigit, Bool.and_eq_true, decide_eq_true_eq] at hc'
      have hns : isspace c0 = false := by
        simp only [isspace, Bool.or_eq_false_iff, beq_eq_false_iff_ne, Bool.and_eq_false_iff,
          decide_eq_false_iff_not]
        omega
      rw [List.append_assoc, List.cons_append] at hp
      obtain ⟨line, hl⟩ := consume_pending d ws c0 (s ++ 95 :: rest) hp hws (by omega)
        (by omega) hns
      have h95 : ∀ f : FILE, next_char f (95 :: rest) = (95, f.at rest) := fun f => rfl
      rw [hl, token_switch_digit _ c0 hdig,
        consume_literal_number_eq _ c0 s (95 :: rest) rfl hnum
          (by rw [h95]; rfl) (by rw [h95]; exact fun h => absurd (show (95 : Int) = 46 from h) (by decide)) (by omega)]
      simp only [h95]
      have hw := @WRITECHAR_ok (c0 :: s) 0 (by omega)
      have hterm : ((95 : Int) == EOF || (isascii 95 && (isspace 95 || ispunct 95))) = true := by
        decide
      simp only [hterm, hw, Bool.not_true, Bool.false_eq_true, if_false, RETURN_TOKEN_LIT]
      refine ⟨?_, ?_, ?_, ?_, ?_⟩ <;> first | rfl | trivial

/-- Witness for C8: `0b` and `12.5x` are lexical errors, `7_` gives the literal `7`. -/
theorem number_before_identifier_char_witness :
    (isalpha 98 = true ∧ Pending (json_doc.init (fmemopen (text "0b"))) ([] ++ text "0" ++ 98 :: []) ∧
      (json_consume_token (json_doc.init (fmemopen (text "0b")))).1 = EINVAL ∧
      (json_consume_token (json_doc.init (fmemopen (text "0b")))).2.1 = ⟨JSON_TOK_ERR, none⟩) ∧
    ((text "7").length ≤ 63 ∧
      Pending (json_doc.init (fmemopen (text "7_"))) ([] ++ text "7" ++ 95 :: []) ∧
      (json_consume_token (json_doc.init (fmemopen (text "7_")))).1 = 0 ∧
      (json_consume_token (json_doc.init (fmemopen (text "7_")))).2.1 = lit_tok (text "7")) :=
  have h1 : Pending (json_doc.init (fmemopen (text "0b"))) ([] ++ text "0" ++ 98 :: []) :=
    pending_init (fmemopen (text "0b"))
  have h2 : Pending (json_doc.init (fmemopen (text "7_"))) ([] ++ text "7" ++ 95 :: []) :=
    pending_init (fmemopen (text "7_"))
  ⟨⟨rfl, h1,
      (number_before_identifier_char (json_doc.init (fmemopen (text "0b"))) [] (text "0") []
        98 rfl rfl).1 rfl h1⟩,
    ⟨by decide, h2,
      ((number_before_identifier_char (json_doc.init (fmemopen (text "7_"))) [] (text "7") []
        95 rfl rfl).2 (by decide) h2).1,
      ((number_before_identifier_char (json_doc.init (fmemopen (text "7_"))) [] (text "7") []
        95 rfl rfl).2 (by decide) h2).2.1⟩⟩

/-- C9: a literal of each of the three kinds is returned as a literal token
with its text when it has at most 63 characters of content, and is the
lexical error `EINVAL`, with no literal returned, when it has 64 or more.
The literals of 63 characters of the tests parse, those of 64 fail. -/
theorem literal_length_bound :
    (∀ (d : json_doc) (ws : List Int) (c : Int) (cs tail : List Int),
      Pending d (ws ++ (c :: cs) ++ tail) → ws.all isspace = true →
      (isalpha c || c == 95) = true → cs.all _is_literal_char = true →
      ends_literal tail = true →
      ((c :: cs).length ≤ 63 →
        (json_consume_token d).1 = 0 ∧ (json_consume_token d).2.1 = lit_tok (c :: cs)) ∧
      (64 ≤ (c :: cs).length →
        (json_consume_token d).1 = EINVAL ∧
          (json_consume_token d).2.1 = ⟨JSON_TOK_ERR, none⟩)) ∧
    (∀ (d : json_doc) (ws : List Int) (items : List (Bool × Int)) (rest : List Int),
      Pending d (ws ++ 34 :: (quoted_body items ++ 34 :: rest)) → ws.all isspace = true →
      items.all quoted_item_ok = true →
      (items.length ≤ 63 →
        (json_consume_token d).1 = 0 ∧
          (json_consume_token d).2.1 = lit_tok (items.map Prod.snd)) ∧
      (64 ≤ items.length →
        (json_consume_token d).1 = EINVAL ∧
          (json_consume_token d).2.1 = ⟨JSON_TOK_ERR, none⟩)) ∧
    (∀ (d : json_doc) (ws s tail : List Int),
      Pending d (ws ++ s ++ tail) → ws.all isspace = true → is_number s = true →
      terminates_number tail = true →
      (s.length ≤ 63 →
        (json_consume_token d).1 = 0 ∧ (json_consume_token d).2.1 = lit_tok s) ∧
      (64 ≤ s.length →
        (json_consume_token d).1 = EINVAL ∧
          (json_consume_token d).2.1 = ⟨JSON_TOK_ERR, none⟩)) ∧
    (json_parse_string (text
        "\x7b foo: \"012345678901234567890123456789012345678901234567890123456789012\" \x7d")).map
        (fun r => (r.1, r.2.map json_doc_object)) =
      some (0, some (some [(text "foo", JSON_VAL_LITERAL (text
        "012345678901234567890123456789012345678901234567890123456789012"))])) ∧
    (json_parse_string (text
        "\x7b foo: a12345678901234567890123456789012345678901234567890123456789012 \x7d")).map
        (fun r => (r.1, r.2.map json_doc_object)) =
      some (0, some (some [(text "foo", JSON_VAL_LITERAL (text
        "a12345678901234567890123456789012345678901234567890123456789012"))])) ∧
    json_parse_string (text
        "\x7b foo: \"0123456789012345678901234567890123456789012345678901234567890123\" \x7d") =
      some (EINVAL, none) ∧
    json_parse_string (text
        "\x7b foo: a123456789012345678901234567890123456789012345678901234567890123 \x7d") =
      some (EINVAL, none) := by
  refine ⟨?_, ?_, ?_, rfl, rfl, rfl, rfl⟩
  · intro d ws c cs tail hp hws hc hcs ht
    exact ⟨fun hlen => (consume_unquoted d ws c cs tail hp hws hc hcs).1 hlen ht,
      (consume_unquoted d ws c cs tail hp hws hc hcs).2⟩
  · intro d ws items rest hp hws hok
    exact consume_quoted d ws items rest hp hws hok
  · intro d ws s tail hp hws hnum ht
    have hrun := (terminates_number_facts d.jdoc_f tail ht).1
    exact ⟨fun hlen => (consume_number d ws s tail hp hws hnum hrun).1 hlen ht,
      (consume_number d ws s tail hp hws hnum hrun).2.1⟩

/-- Witness for C9: the unquoted literal `abc0` before a space, the quoted
literal `"a\"b"` and the number `12.5` before a comma are within the bound;
the bounds of 64 characters are met by 70 letters, 64 kept characters and
64 digits. -/
theorem literal_length_bound_witness :
    ((json_consume_token (json_doc.init (fmemopen (text " abc0 :")))).1 = 0 ∧
      (json_consume_token (json_doc.init (fmemopen (text " abc0 :")))).2.1 =
        lit_tok (text "abc0")) ∧
    ((json_consume_token (json_doc.init (fmemopen (97 :: List.replicate 69 98)))).1 = EINVAL ∧
      (json_consume_token (json_doc.init (fmemopen (97 :: List.replicate 69 98)))).2.1 =
        ⟨JSON_TOK_ERR, none⟩) ∧
    ((json_consume_token (json_doc.init (fmemopen (text "\"a\\\"b\"")))).1 = 0 ∧
      (json_consume_token (json_doc.init (fmemopen (text "\"a\\\"b\"")))).2.1 =
        lit_tok (text "a\"b")) ∧
    ((json_consume_token (json_doc.init (fmemopen
        (34 :: (quoted_body (List.replicate 64 (false, 97)) ++ 34 :: []))))).1 = EINVAL ∧
      (json_consume_token (json_doc.init (fmemopen
        (34 :: (quoted_body (List.replicate 64 (false, 97)) ++ 34 :: []))))).2.1 =
        ⟨JSON_TOK_ERR, none⟩) ∧
    ((json_consume_token (json_doc.init (fmemopen (text "12.5,")))).1 = 0 ∧
      (json_consume_token (json_doc.init (fmemopen (text "12.5,")))).2.1 =
        lit_tok (text "12.5")) ∧
    ((json_consume_token (json_doc.init (fmemopen (List.replicate 64 49 ++ [44])))).1 = EINVAL ∧
      (json_consume_token (json_doc.init (fmemopen (List.replicate 64 49 ++ [44])))).2.1 =
        ⟨JSON_TOK_ERR, none⟩) :=
  ⟨(literal_length_bound.1 (json_doc.init (fmemopen (text " abc0 :"))) [32] 97 (text "bc0")
      (text " :") (pending_init _) rfl rfl rfl rfl).1 (by decide),
    (literal_length_bound.1 (json_doc.init (fmemopen (97 :: List.replicate 69 98))) [] 97
      (List.replicate 69 98) [] (pending_init _) rfl rfl rfl rfl).2 (by decide),
    (literal_length_bound.2.1 (json_doc.init (fmemopen (text "\"a\\\"b\""))) []
      [(false, 97), (true, 34), (false, 98)] [] (pending_init _) rfl rfl).1 (by decide),
    (literal_length_bound.2.1 (json_doc.init (fmemopen
        (34 :: (quoted_body (List.replicate 64 (false, 97)) ++ 34 :: [])))) []
      (List.replicate 64 (false, 97)) [] (pending_init _) rfl rfl).2 (by decide),
    (literal_length_bound.2.2.1 (json_doc.init (fmemopen (text "12.5,"))) [] (text "12.5")
      (text ",") (pending_init _) rfl rfl rfl).1 (by decide),
    (literal_length_bound.2.2.1 (json_doc.init (fmemopen (List.replicate 64 49 ++ [44]))) []
      (List.replicate 64 49) [44] (pending_init _) rfl rfl rfl).2 (by decide)⟩

/-- C10 (as stated, refuted): from the state that reads `#` then `{`, the
first peek returns the error token with `EINVAL` and keeps no look-ahead; a
second peek reads on and returns the object-begin token with status 0, and
so does a consume after the first peek. -/
theorem peek_error_not_cached :
    (json_peek_token (json_doc.init (fmemopen (text "#\x7b")))).1 = EINVAL ∧
    (json_peek_token (json_doc.init (fmemopen (text "#\x7b")))).2.1 = ⟨JSON_TOK_ERR, none⟩ ∧
    (json_peek_token (json_peek_token (json_doc.init (fmemopen (text "#\x7b")))).2.2).1 = 0 ∧
    (json_peek_token (json_peek_token (json_doc.init (fmemopen (text "#\x7b")))).2.2).2.1 =
      punct_tok JSON_TOK_OBJECT_BEGIN ∧
    (json_consume_token (json_peek_token (json_doc.init (fmemopen (text "#\x7b")))).2.2).2.1 =
      punct_tok JSON_TOK_OBJECT_BEGIN ∧
    (json_peek_token (json_doc.init (fmemopen (text "#\x7b")))).2.2.jdoc_f.data = text "\x7b" ∧
    (json_peek_token (json_peek_token (json_doc.init (fmemopen (text "#\x7b")))).2.2).2.2.jdoc_f.data
      = [] :=
  ⟨rfl, rfl, rfl, rfl, rfl, rfl, rfl⟩

/-- C10 (amended): for every tokenizer state, `json_peek_token` returns the
status and token that `json_consume_token` would return; when that status
is 0, a second peek returns the same token and leaves the same state (it
reads nothing), a consume after the peek returns that token and leaves the
state of a lone consume up to the stored copy of the look-ahead token,
which is not available, and the results of all later calls are the same. -/
theorem peek_then_consume (d : json_doc) :
    (json_peek_token d).1 = (json_consume_token d).1 ∧
    (json_peek_token d).2.1 = (json_consume_token d).2.1 ∧
    ((json_peek_token d).1 = 0 →
      json_peek_token (json_peek_token d).2.2 = json_peek_token d ∧
      json_consume_token (json_peek_token d).2.2 =
        (0, (json_consume_token d).2.1,
          { (json_consume_token d).2.2 with jdoc_lookahead := (json_consume_token d).2.1 }) ∧
      (json_consume_token (json_peek_token d).2.2).2.2.jdoc_lookahead_avail = false ∧
      ∀ n, token_stream n (json_consume_token (json_peek_token d).2.2).2.2 =
        token_stream n (json_consume_token d).2.2) := by
  have hla := consume_lookahead_avail d
  have hc := consume_after_peek (json_consume_token d).2.2 (json_consume_token d).2.1 hla
  by_cases h0 : (json_consume_token d).1 = 0
  · have hp := peek_eq d h0
    refine ⟨by rw [hp, h0], by rw [hp], fun _ => ?_⟩
    rw [hp]
    simp only
    refine ⟨?_, hc, ?_, fun n => ?_⟩
    · unfold json_peek_token
      rw [hc]
      rfl
    · rw [hc]; exact hla
    · rw [hc]
      exact token_stream_stale n _ _ hla
  · have hp : json_peek_token d = json_consume_token d := by
      unfold json_peek_token
      simp [h0]
    refine ⟨by rw [hp], by rw [hp], fun h => ?_⟩
    rw [hp] at h
    exact absurd h h0

/-- Witness for C10: peeking at `{x` succeeds. -/
theorem peek_then_consume_witness :
    (json_peek_token (json_doc.init (fmemopen (text "\x7bx")))).1 = 0 ∧
    json_peek_token (json_peek_token (json_doc.init (fmemopen (text "\x7bx")))).2.2 =
      json_peek_token (json_doc.init (fmemopen (text "\x7bx"))) ∧
    (json_consume_token (json_peek_token (json_doc.init (fmemopen (text "\x7bx")))).2.2).2.1 =
      punct_tok JSON_TOK_OBJECT_BEGIN :=
  ⟨rfl, ((peek_then_consume (json_doc.init (fmemopen (text "\x7bx")))).2.2 rfl).1,
    by rw [((peek_then_consume (json_doc.init (fmemopen (text "\x7bx")))).2.2 rfl).2.1]; rfl⟩

/-! ### Integer conversions -/

theorem isdigit_facts {c : Int} (h : isdigit c = true) :
    48 ≤ c ∧ c ≤ 57 ∧ isspace c = false := by
  simp only [isdigit, Bool.and_eq_true, decide_eq_true_eq] at h
  refine ⟨h.1, h.2, ?_⟩
  simp only [isspace, Bool.or_eq_false_iff, beq_eq_false_iff_ne, Bool.and_eq_false_iff,
    decide_eq_false_iff_not]
  omega

theorem take_sign_minus (rest : List Int) : take_sign (45 :: rest) = (true, 1, rest) := rfl

theorem take_sign_digit (c : Int) (rest : List Int) (h : isdigit c = true) :
    take_sign (c :: rest) = (false, 0, c :: rest) := by
  obtain ⟨h1, h2, _⟩ := isdigit_facts h
  unfold take_sign
  split
  · next heq => simp only [List.cons.injEq] at heq; omega
  · next heq => simp only [List.cons.injEq] at heq; omega
  · rfl

theorem takeWhile_digits (ds tail : List Int) (hds : ds.all isdigit = true)
    (ht : ends_digits tail = true) : (ds ++ tail).takeWhile isdigit = ds := by
  induction ds with
  | nil =>
    cases tail with
    | nil => rfl
    | cons c t =>
      simp only [ends_digits, Bool.not_eq_true'] at ht
      simp [List.takeWhile, ht]
  | cons d ds ih =>
    simp only [List.all_cons, Bool.and_eq_true] at hds
    simp [List.takeWhile, hds.1, ih hds.2]

/-- The subject sequence of a decimal text that is not continued by a digit. -/
theorem subject_of_decimal (minus : Bool) (ds tail : List Int) (hne : ds ≠ [])
    (hds : ds.all isdigit = true) (ht : ends_digits tail = true) :
    subject_of (decimal_text minus ds ++ tail) = ⟨if minus then 1 else 0, minus, ds⟩ := by
  have htw := takeWhile_digits ds tail hds ht
  cases ds with
  | nil => exact absurd rfl hne
  | cons d ds' =>
    have hd : isdigit d = true := by
      simp only [List.all_cons, Bool.and_eq_true] at hds; exact hds.1
    have hsp := (isdigit_facts hd).2.2
    cases minus with
    | true =>
      have h45 : ¬ (isspace 45 = true) := by decide
      simp only [decimal_text, if_true, subject_of, List.cons_append]
      rw [List.takeWhile_cons_of_neg h45, List.dropWhile_cons_of_neg h45, take_sign_minus]
      simp only [List.length_nil, Nat.zero_add]
      rw [← List.cons_append, htw]
    | false =>
      have hsp2 : ¬ (isspace d = true) := by simp [hsp]
      simp only [decimal_text, Bool.false_eq_true, if_false, subject_of, List.cons_append]
      rw [List.takeWhile_cons_of_neg hsp2, List.dropWhile_cons_of_neg hsp2,
        take_sign_digit d _ hd]
      simp only [List.length_nil, Nat.zero_add]
      rw [← List.cons_append, htw]

theorem decimal_text_length (minus : Bool) (ds : List Int) :
    (decimal_text minus ds).length = (if minus then 1 else 0) + ds.length := by
  cases minus <;> simp [decimal_text, Nat.add_comm]

/-- What `strtoll` does with a decimal text that is not continued by a digit. -/
theorem strtoll_decimal (minus : Bool) (ds tail : List Int) (hne : ds ≠ [])
    (hds : ds.all isdigit = true) (ht : ends_digits tail = true) :
    strtoll (decimal_text minus ds ++ tail) =
      if decimal_value minus ds > LLONG_MAX then
        ⟨LLONG_MAX, (decimal_text minus ds).length, ERANGE⟩
      else if decimal_value minus ds < LLONG_MIN then
        ⟨LLONG_MIN, (decimal_text minus ds).length, ERANGE⟩
      else ⟨decimal_value minus ds, (decimal_text minus ds).length, 0⟩ := by
  have hemp : ds.isEmpty = false := by cases ds <;> simp_all
  simp only [strtoll, subject_of_decimal minus ds tail hne hds ht, hemp, Bool.false_eq_true,
    if_false, decimal_value, decimal_text_length]

/-- The function `str2int64` on a decimal text: the value when it is a
`long long`, the format failure otherwise. -/
theorem str2int64_decimal (minus : Bool) (ds : List Int) (hne : ds ≠ [])
    (hds : ds.all isdigit = true) :
    str2int64 (decimal_text minus ds) =
      if LLONG_MIN ≤ decimal_value minus ds ∧ decimal_value minus ds ≤ LLONG_MAX then
        (0, decimal_value minus ds)
      else (EINVAL, 0) := by
  have hemp : (decimal_text minus ds).isEmpty = false := by
    cases minus <;> cases ds <;> simp_all [decimal_text]
  have h := strtoll_decimal minus ds [] hne hds rfl
  rw [List.append_nil] at h
  unfold str2int64
  simp only [hemp, Bool.false_eq_true, if_false, h]
  by_cases h1 : decimal_value minus ds > LLONG_MAX
  · have hn : ¬ (LLONG_MIN ≤ decimal_value minus ds ∧ decimal_value minus ds ≤ LLONG_MAX) := by
      omega
    rw [if_pos h1, if_neg hn]
    simp [ERANGE]
  · rw [if_neg h1]
    by_cases h2 : decimal_value minus ds < LLONG_MIN
    · have hn : ¬ (LLONG_MIN ≤ decimal_value minus ds ∧
          decimal_value minus ds ≤ LLONG_MAX) := by omega
      rw [if_pos h2, if_neg hn]
      simp [ERANGE]
    · have hy : LLONG_MIN ≤ decimal_value minus ds ∧ decimal_value minus ds ≤ LLONG_MAX := by
        omega
      rw [if_neg h2, if_pos hy]
      simp

/-- A decimal text followed by a character that is not a digit is a format
failure of `str2int64`. -/
theorem str2int64_trailing (minus : Bool) (ds : List Int) (c : Int) (tail : List Int)
    (hne : ds ≠ []) (hds : ds.all isdigit = true) (hc : isdigit c = false) :
    str2int64 (decimal_text minus ds ++ c :: tail) = (EINVAL, 0) := by
  have hemp : (decimal_text minus ds ++ c :: tail).isEmpty = false := by
    cases h : decimal_text minus ds <;> simp
  have h := strtoll_decimal minus ds (c :: tail) hne hds (by simp [ends_digits, hc])
  have hlt : (decimal_text minus ds).length < (decimal_text minus ds ++ c :: tail).length := by
    simp
  have hend : (strtoll (decimal_text minus ds ++ c :: tail)).endptr =
      (decimal_text minus ds).length := by
    rw [h]; split_ifs <;> rfl
  unfold str2int64
  simp only [hemp, Bool.false_eq_true, if_false, hend, hlt, decide_True, Bool.true_or, if_true]

/-! ### Vector extraction -/

/-- What `strtoull` does with a run of digits that is not continued by one. -/
theorem strtoull_digits (ds tail : List Int) (hne : ds ≠ [])
    (hds : ds.all isdigit = true) (ht : ends_digits tail = true) :
    strtoull (ds ++ tail) =
      if (digits_value 0 ds : Int) > ULLONG_MAX then ⟨ULLONG_MAX, ds.length, ERANGE⟩
      else ⟨(digits_value 0 ds : Int), ds.length, 0⟩ := by
  have hemp : ds.isEmpty = false := by cases ds <;> simp_all
  have hs := subject_of_decimal false ds tail hne hds ht
  simp only [decimal_text, Bool.false_eq_true, if_false] at hs
  simp only [strtoull, hs, hemp, Bool.false_eq_true, if_false, Nat.zero_add]

/-- The function `str2uint64` on a run of digits. -/
theorem str2uint64_digits (ds : List Int) (hne : ds ≠ []) (hds : ds.all isdigit = true) :
    str2uint64 ds =
      if (digits_value 0 ds : Int) ≤ ULLONG_MAX then (0, some (digits_value 0 ds : Int))
      else (EINVAL, none) := by
  have hemp : ds.isEmpty = false := by cases ds <;> simp_all
  have h := strtoull_digits ds [] hne hds rfl
  rw [List.append_nil] at h
  unfold str2uint64
  simp only [hemp, Bool.false_eq_true, if_false, h]
  by_cases h1 : (digits_value 0 ds : Int) > ULLONG_MAX
  · have hn : ¬ ((digits_value 0 ds : Int) ≤ ULLONG_MAX) := by omega
    rw [if_pos h1, if_neg hn]
    simp [ERANGE]
  · have hy : (digits_value 0 ds : Int) ≤ ULLONG_MAX := by omega
    rw [if_neg h1, if_pos hy]
    simp

/-- The function `str2uint32` on a run of digits: the value when it is at
most `UINT32_MAX`, the failure `EINVAL` otherwise. -/
theorem str2uint32_digits (ds : List Int) (hne : ds ≠ []) (hds : ds.all isdigit = true) :
    str2uint32 ds =
      if (digits_value 0 ds : Int) ≤ UINT32_MAX then (0, some (digits_value 0 ds : Int))
      else (EINVAL, none) := by
  have h := str2uint64_digits ds hne hds
  unfold str2uint32
  by_cases h1 : (digits_value 0 ds : Int) ≤ ULLONG_MAX
  · rw [if_pos h1] at h
    rw [h]
    by_cases h2 : (digits_value 0 ds : Int) ≤ UINT32_MAX
    · have hn : ¬ ((digits_value 0 ds : Int) > UINT32_MAX) := by omega
      simp only [if_neg hn, if_pos h2]
    · have hy : (digits_value 0 ds : Int) > UINT32_MAX := by omega
      simp only [if_pos hy, if_neg h2]
  · rw [if_neg h1] at h
    have h2 : ¬ ((digits_value 0 ds : Int) ≤ UINT32_MAX) := by
      simp only [ULLONG_MAX, UINT32_MAX] at *; omega
    rw [h, if_neg h2]
    rfl

/-- A successful `str2uint64` stores a value. -/
theorem str2uint64_stores (s : List Int) (h : (str2uint64 s).1 = 0) :
    ∃ u, (str2uint64 s).2 = some u := by
  unfold str2uint64 at h ⊢
  dsimp only at h ⊢
  by_cases h1 : s.isEmpty = true
  · rw [if_pos h1] at h; exact absurd h (by decide)
  · rw [if_neg h1] at h ⊢
    by_cases h2 : (decide ((strtoull s).endptr < s.length) || (strtoull s).errno != 0) = true
    · rw [if_pos h2] at h; exact absurd h (by decide)
    · rw [if_neg h2]; exact ⟨_, rfl⟩

/-- A successful `str2uint32` stores a value. -/
theorem str2uint32_stores (s : List Int) (h : (str2uint32 s).1 = 0) :
    ∃ u, (str2uint32 s).2 = some u := by
  have h64 := str2uint64_stores s
  unfold str2uint32 at h ⊢
  rcases hr : str2uint64 s with ⟨e, w⟩
  rw [hr] at h h64
  cases e with
  | zero =>
    obtain ⟨u, hu⟩ := h64 rfl
    simp only at hu
    subst hu
    simp only at h ⊢
    by_cases h3 : u > UINT32_MAX
    · rw [if_pos h3] at h; exact absurd h (by decide)
    · rw [if_neg h3]; exact ⟨_, rfl⟩
  | succ n => simp at h

theorem uint32_of_isSome_iff (v : json_value) :
    (uint32_of v).isSome = true ↔ ∃ lit, v = JSON_VAL_LITERAL lit ∧ (str2uint32 lit).1 = 0 := by
  cases v with
  | JSON_VAL_LITERAL lit =>
    by_cases h : (str2uint32 lit).1 = 0
    · obtain ⟨u, hu⟩ := str2uint32_stores lit h
      simp [uint32_of, h, hu]
    · simp [uint32_of, h]
  | JSON_VAL_OBJECT o => simp [uint32_of]
  | JSON_VAL_ARRAY a => simp [uint32_of]

theorem set_append_length {α : Type} (pre : List α) (x v : α) (tl : List α) :
    (pre ++ x :: tl).set pre.length v = pre ++ v :: tl := by
  induction pre with
  | nil => rfl
  | cons p pre ih => simp [ih]

/-- The loop of `json_get_array_of_uint32` fills the vector from index `i`
on with the conversions of the elements, or stops at the first element
that does not convert. -/
theorem uint32_loop_spec (rest : List json_value) :
    ∀ (pre tl : List Int), tl.length = rest.length →
      json_get_array_of_uint32_loop rest pre.length (pre ++ tl) =
        if rest.all (fun v => (uint32_of v).isSome) then
          some (pre ++ rest.map fun v => (uint32_of v).getD 0)
        else none := by
  induction rest with
  | nil =>
    intro pre tl hlen
    have : tl = [] := List.length_eq_zero.1 hlen
    subst this
    simp [json_get_array_of_uint32_loop]
  | cons v rest ih =>
    intro pre tl hlen
    cases tl with
    | nil => simp at hlen
    | cons x tl =>
      simp only [List.length_cons, Nat.add_right_cancel_iff] at hlen
      cases v with
      | JSON_VAL_LITERAL lit =>
        by_cases h : (str2uint32 lit).1 = 0
        · obtain ⟨u, hu⟩ := str2uint32_stores lit h
          have hstep := ih (pre ++ [u]) tl hlen
          simp only [List.length_append, List.length_singleton, List.append_assoc,
            List.singleton_append] at hstep
          simp only [json_get_array_of_uint32_loop, h, bne_self_eq_false, Bool.false_eq_true,
            if_false, hu, stored, Option.getD_some, set_append_length, hstep, List.all_cons,
            uint32_of, if_true, Option.isSome_some, Bool.true_and, List.map_cons]
        · simp [json_get_array_of_uint32_loop, h, uint32_of]
      | JSON_VAL_OBJECT o => simp [json_get_array_of_uint32_loop, uint32_of]
      | JSON_VAL_ARRAY a => simp [json_get_array_of_uint32_loop, uint32_of]

/-- The function `json_get_array_of_uint32` by what its elements convert to. -/
theorem json_get_array_of_uint32_eq (jarr : json_array) :
    json_get_array_of_uint32 jarr =
      if jarr.all (fun v => (uint32_of v).isSome) then
        (0, some (jarr.map fun v => (uint32_of v).getD 0), jarr.length)
      else (EINVAL, none, 0) := by
  have h := uint32_loop_spec jarr [] (List.replicate jarr.length 0) (by simp)
  simp only [List.length_nil, List.nil_append] at h
  unfold json_get_array_of_uint32
  simp only [h]
  split_ifs <;> rfl

/-! ### The diagnostic buffer -/

theorem poke_length (xs : List Int) : ∀ buf : List Int, (poke buf xs).length = buf.length := by
  induction xs with
  | nil => intro buf; cases buf <;> rfl
  | cons x xs ih =>
    intro buf
    cases buf with
    | nil => rfl
    | cons b buf => simp [poke, ih]

theorem poke_eq_append (xs : List Int) :
    ∀ buf : List Int, xs.length ≤ buf.length → poke buf xs = xs ++ buf.drop xs.length := by
  induction xs with
  | nil => intro buf _; cases buf <;> rfl
  | cons x xs ih =>
    intro buf h
    cases buf with
    | nil => simp at h
    | cons b buf =>
      simp only [List.length_cons, Nat.add_le_add_iff_right] at h
      simp [poke, ih buf h]

theorem snprintf_length (buf : List Int) (size : Nat) (msg : List Int) :
    (snprintf buf size msg).1.length = buf.length := by
  unfold snprintf
  split_ifs
  · rfl
  · exact poke_length _ _

theorem c_string_append (p s : List Int) (hp : (0 : Int) ∉ p) :
    c_string (p ++ s) = p ++ c_string s := by
  induction p with
  | nil => rfl
  | cons x p ih =>
    simp only [List.mem_cons, not_or] at hp
    have hx : (x != 0) = true := by simpa using fun h => hp.1 h.symm
    simp only [c_string, List.cons_append, List.takeWhile_cons, hx, if_true, List.cons.injEq,
      true_and]
    exact ih hp.2

theorem c_string_terminated (p s : List Int) (hp : (0 : Int) ∉ p) :
    c_string (p ++ 0 :: s) = p := by
  rw [c_string_append p _ hp]
  simp [c_string]

/-- The text that `snprintf` leaves in a buffer of at least `size`
characters, `size` not 0: the first `size - 1` characters of the message. -/
theorem c_string_snprintf (buf : List Int) (size : Nat) (msg : List Int)
    (hmsg : (0 : Int) ∉ msg) (h0 : 0 < size) (hsize : size ≤ buf.length) :
    c_string (snprintf buf size msg).1 = msg.take (size - 1) := by
  have hlen : (msg.take (size - 1) ++ [0]).length ≤ buf.length := by
    simp only [List.length_append, List.length_take, List.length_singleton]
    omega
  simp only [snprintf, if_neg (Nat.pos_iff_ne_zero.1 h0)]
  rw [poke_eq_append _ _ hlen, List.append_assoc, List.singleton_append]
  exact c_string_terminated _ _ fun h => hmsg (List.mem_of_mem_take h)

theorem text_no_nul_append {a b : List Int} (ha : (0 : Int) ∉ a) (hb : (0 : Int) ∉ b) :
    (0 : Int) ∉ a ++ b := by
  simp only [List.mem_append, not_or]; exact ⟨ha, hb⟩

/-- A formatted text has no NUL when the key has none and the format has none. -/
theorem format_key_no_nul (before after : String) (key : List Int)
    (hb : (0 : Int) ∉ text before) (ha : (0 : Int) ∉ text after) (hk : (0 : Int) ∉ key) :
    (0 : Int) ∉ format_key before key after :=
  text_no_nul_append (text_no_nul_append hb hk) ha

/-! ### Status and output slots do not depend on the buffer -/

theorem define_status (strtod : List Int → conversion double) (obj : json_object)
    (key : List Int) (ty : Nat) (req : Bool) (vp lp : Option Nat) (b1 b2 : List Int)
    (s1 s2 : Nat) (mem : Nat → cell) :
    (_define strtod obj key ty req vp lp b1 s1 mem).err =
      (_define strtod obj key ty req vp lp b2 s2 mem).err ∧
    (_define strtod obj key ty req vp lp b1 s1 mem).mem =
      (_define strtod obj key ty req vp lp b2 s2 mem).mem := by
  unfold _define
  dsimp only
  split_ifs <;> exact ⟨rfl, rfl⟩

mutual

theorem recursive_status (strtod : List Int → conversion double) (obj : json_object)
    (key : List Int) :
    ∀ (sub : Option (List json_schema)) (b1 b2 : List Int) (s1 s2 : Nat) (mem : Nat → cell),
      (_recursive strtod obj key sub b1 s1 mem).err =
        (_recursive strtod obj key sub b2 s2 mem).err ∧
      (_recursive strtod obj key sub b1 s1 mem).mem =
        (_recursive strtod obj key sub b2 s2 mem).mem
  | none, _, _, _, _, _ => ⟨rfl, rfl⟩
  | some schema, b1, b2, s1, s2, mem => by
    simp only [_recursive]
    cases h : json_get_value obj key with
    | none => exact ⟨rfl, rfl⟩
    | some v =>
      cases v with
      | JSON_VAL_OBJECT subobj => exact validate_status strtod subobj schema _ _ _ _ mem
      | JSON_VAL_LITERAL l => exact ⟨rfl, rfl⟩
      | JSON_VAL_ARRAY a => exact ⟨rfl, rfl⟩
termination_by structural x => x

theorem ifeq_status (strtod : List Int → conversion double) (obj : json_object)
    (key exp : List Int) :
    ∀ (sub : Option (List json_schema)) (b1 b2 : List Int) (s1 s2 : Nat) (mem : Nat → cell),
      (_ifeq strtod obj key exp sub b1 s1 mem).err =
        (_ifeq strtod obj key exp sub b2 s2 mem).err ∧
      (_ifeq strtod obj key exp sub b1 s1 mem).mem =
        (_ifeq strtod obj key exp sub b2 s2 mem).mem
  | none, _, _, _, _, _ => ⟨rfl, rfl⟩
  | some schema, b1, b2, s1, s2, mem => by
    simp only [_ifeq]
    cases json_get_literal obj key with
    | none => exact ⟨rfl, rfl⟩
    | some jval =>
      dsimp only
      split_ifs
      · exact validate_status strtod obj schema _ _ _ _ mem
      · exact ⟨rfl, rfl⟩
termination_by structural x => x

theorem switch_status (strtod : List Int → conversion double) (obj : json_object) :
    ∀ (it : json_schema) (b1 b2 : List Int) (s1 s2 : Nat) (mem : Nat → cell),
      (json_validate_switch strtod obj it b1 s1 mem).err =
        (json_validate_switch strtod obj it b2 s2 mem).err ∧
      (json_validate_switch strtod obj it b1 s1 mem).mem =
        (json_validate_switch strtod obj it b2 s2 mem).mem
  | JSON_SCHEMA_OP_RECURSIVE key sub, b1, b2, s1, s2, mem => by
    simp only [json_validate_switch]
    exact recursive_status strtod obj key sub b1 b2 s1 s2 mem
  | JSON_SCHEMA_OP_DEFINE key ty req vp lp, b1, b2, s1, s2, mem => by
    simp only [json_validate_switch]
    exact define_status strtod obj key ty req vp lp b1 b2 s1 s2 mem
  | JSON_SCHEMA_OP_IFEQ key exp sub, b1, b2, s1, s2, mem => by
    simp only [json_validate_switch]
    exact ifeq_status strtod obj key exp sub b1 b2 s1 s2 mem
  | other _, _, _, _, _, _ => ⟨rfl, rfl⟩
termination_by structural x => x

/-- The status of a validation and the memory of the output pointers
after it are the same for every buffer and size. -/
theorem validate_status (strtod : List Int → conversion double) (obj : json_object) :
    ∀ (schema : List json_schema) (b1 b2 : List Int) (s1 s2 : Nat) (mem : Nat → cell),
      (json_validate strtod obj schema b1 s1 mem).err =
        (json_validate strtod obj schema b2 s2 mem).err ∧
      (json_validate strtod obj schema b1 s1 mem).mem =
        (json_validate strtod obj schema b2 s2 mem).mem
  | [], _, _, _, _, _ => ⟨rfl, rfl⟩
  | it :: rest, b1, b2, s1, s2, mem => by
    have hs := switch_status strtod obj it b1 b2 s1 s2 mem
    simp only [json_validate]
    rw [hs.1]
    split_ifs
    · exact hs
    · rw [hs.2]
      exact validate_status strtod obj rest _ _ _ _ _
termination_by structural x => x

end

/-! ### Single rules -/

/-- A schema of one rule is validated by the `switch` on that rule. -/
theorem validate_single (strtod : List Int → conversion double) (obj : json_object)
    (it : json_schema) (buf : List Int) (size : Nat) (mem : Nat → cell) :
    json_validate strtod obj [it] buf size mem =
      json_validate_switch strtod obj it buf size mem := by
  simp only [json_validate]
  split_ifs with h
  · rfl
  · have h0 : (json_validate_switch strtod obj it buf size mem).err = 0 := by simpa using h
    rcases hr : json_validate_switch strtod obj it buf size mem with ⟨e, b, m⟩
    rw [hr] at h0
    simp only at h0
    subst h0
    rfl

theorem tolower_eq_zero {c : Int} : tolower c = 0 ↔ c = 0 := by
  unfold tolower
  split_ifs with h <;> omega

/-- On texts without NUL, `strcasecmp` is 0 exactly when the texts are
equal after `tolower`. -/
theorem strcasecmp_eq_zero (a : List Int) :
    ∀ b : List Int, (0 : Int) ∉ a → (0 : Int) ∉ b →
      (strcasecmp a b = 0 ↔ a.map tolower = b.map tolower) := by
  induction a with
  | nil =>
    intro b _ hb
    cases b with
    | nil => simp [strcasecmp]
    | cons c2 b =>
      simp only [List.mem_cons, not_or] at hb
      have : tolower c2 ≠ 0 := fun h => hb.1 (tolower_eq_zero.1 h).symm
      simp only [strcasecmp, List.map_nil, List.map_cons]
      constructor
      · intro h; omega
      · intro h; exact absurd h (by simp)
  | cons c1 a ih =>
    intro b ha hb
    simp only [List.mem_cons, not_or] at ha
    cases b with
    | nil =>
      have : tolower c1 ≠ 0 := fun h => ha.1 (tolower_eq_zero.1 h).symm
      simp only [strcasecmp, List.map_nil, List.map_cons]
      constructor
      · intro h; omega
      · intro h; exact absurd h (by simp)
    | cons c2 b =>
      simp only [List.mem_cons, not_or] at hb
      simp only [strcasecmp, List.map_cons, List.cons.injEq]
      by_cases h : tolower c1 = tolower c2
      · simp only [h, bne_self_eq_false, Bool.false_eq_true, if_false, true_and]
        exact ih b ha.2 hb.2
      · have hne : (tolower c1 != tolower c2) = true := by simpa using h
        simp only [hne, if_true, h, false_and, iff_false]
        omega

/-- The `switch` on a Define rule is `_define`, which formats the text of
the label it reaches. -/
theorem define_rule_eq (strtod : List Int → conversion double) (obj : json_object)
    (key : List Int) (ty : Nat) (req : Bool) (vp lp : Option Nat) (buf : List Int)
    (size : Nat) (mem : Nat → cell) :
    json_validate strtod obj [JSON_SCHEMA_OP_DEFINE key ty req vp lp] buf size mem =
      if (_define_body strtod obj key ty req vp lp mem).1 = define_exit.return_0 then
        ⟨0, buf, (_define_body strtod obj key ty req vp lp mem).2⟩
      else
        fail_with (define_label key (_define_body strtod obj key ty req vp lp mem).1).1
          (define_label key (_define_body strtod obj key ty req vp lp mem).1).2 buf size
          (_define_body strtod obj key ty req vp lp mem).2 := by
  rw [validate_single]
  simp only [json_validate_switch, _define]

/-- The buffer after `snprintf` of a text that fits with its NUL. -/
theorem snprintf_fits (buf : List Int) (size : Nat) (msg : List Int)
    (hlen : msg.length < size) (hsize : size ≤ buf.length) :
    (snprintf buf size msg).1 = msg ++ 0 :: buf.drop (msg.length + 1) := by
  have h0 : size ≠ 0 := by omega
  simp only [snprintf, if_neg h0]
  rw [List.take_of_length_le (by omega), poke_eq_append _ _ (by simp; omega)]
  simp

/-- The `switch` on a Descend rule whose key resolves to an Object. -/
theorem descend_rule_eq (strtod : List Int → conversion double) (obj : json_object)
    (key : List Int) (schema : List json_schema) (buf : List Int) (size : Nat)
    (mem : Nat → cell) (subobj : json_object)
    (hv : json_get_value obj key = some (JSON_VAL_OBJECT subobj)) :
    json_validate strtod obj [JSON_SCHEMA_OP_RECURSIVE key (some schema)] buf size mem =
      ⟨(json_validate strtod subobj schema
          ((snprintf buf size (format_key "in \x60" key "\x27: ")).1.drop
            (format_key "in \x60" key "\x27: ").length)
          (if (format_key "in \x60" key "\x27: ").length < size
            then size - (format_key "in \x60" key "\x27: ").length else 0) mem).err,
        (snprintf buf size (format_key "in \x60" key "\x27: ")).1.take
            (format_key "in \x60" key "\x27: ").length ++
          (json_validate strtod subobj schema
            ((snprintf buf size (format_key "in \x60" key "\x27: ")).1.drop
              (format_key "in \x60" key "\x27: ").length)
            (if (format_key "in \x60" key "\x27: ").length < size
              then size - (format_key "in \x60" key "\x27: ").length else 0) mem).buf,
        (json_validate strtod subobj schema
          ((snprintf buf size (format_key "in \x60" key "\x27: ")).1.drop
            (format_key "in \x60" key "\x27: ").length)
          (if (format_key "in \x60" key "\x27: ").length < size
            then size - (format_key "in \x60" key "\x27: ").length else 0) mem).mem⟩ := by
  rw [validate_single]
  simp only [json_validate_switch, _recursive, hv]
  rfl

/-- Validating a concatenation: the first list, then the second if the
first succeeded. -/
theorem validate_append (strtod : List Int → conversion double) (obj : json_object)
    (s1 s2 : List json_schema) :
    ∀ (buf : List Int) (size : Nat) (mem : Nat → cell),
      json_validate strtod obj (s1 ++ s2) buf size mem =
        if (json_validate strtod obj s1 buf size mem).err != 0 then
          json_validate strtod obj s1 buf size mem
        else
          json_validate strtod obj s2 (json_validate strtod obj s1 buf size mem).buf size
            (json_validate strtod obj s1 buf size mem).mem := by
  induction s1 with
  | nil => intro buf size mem; simp [json_validate]
  | cons it s1 ih =>
    intro buf size mem
    simp only [List.cons_append, json_validate]
    by_cases h : ((json_validate_switch strtod obj it buf size mem).err != 0) = true
    · simp only [h, if_true]
    · simp only [h, Bool.false_eq_true, if_false]
      exact ih _ _ _

theorem array_of_text_status (jarr : json_array) :
    (json_get_array_of_text jarr).1 = 0 ∨ (json_get_array_of_text jarr).1 = EINVAL := by
  unfold json_get_array_of_text
  dsimp only
  split
  · exact Or.inl rfl
  · exact Or.inr rfl

theorem array_of_uint32_status (jarr : json_array) :
    (json_get_array_of_uint32 jarr).1 = 0 ∨ (json_get_array_of_uint32 jarr).1 = EINVAL := by
  unfold json_get_array_of_uint32
  dsimp only
  split
  · exact Or.inl rfl
  · exact Or.inr rfl

theorem array_of_uint64_status (jarr : json_array) :
    (json_get_array_of_uint64 jarr).1 = 0 ∨ (json_get_array_of_uint64 jarr).1 = EINVAL := by
  unfold json_get_array_of_uint64
  dsimp only
  split
  · exact Or.inl rfl
  · exact Or.inr rfl

/-! ## Claims on quoted literals -/

/-- The source bytes of a body without backslashes are the body. -/
theorem quoted_body_plain (body : List Int) :
    quoted_body (body.map fun c => (false, c)) = body := by
  induction body with
  | nil => rfl
  | cons c cs ih => simp only [List.map_cons, quoted_body, ih]

/-- What the tokenizer does with a quoted literal that keeps at most 63
characters: the kept characters are the text, nothing is pushed back and
the bytes after the closing quote are the unread input. -/
theorem consume_quoted_rest (d : json_doc) (ws : List Int) (items : List (Bool × Int))
    (rest : List Int) (hp : Pending d (ws ++ 34 :: (quoted_body items ++ 34 :: rest)))
    (hws : ws.all isspace = true) (hok : items.all quoted_item_ok = true)
    (hlen : items.length ≤ 63) :
    ∃ d', json_consume_token d = (0, lit_tok (items.map Prod.snd), d') ∧
      d'.jdoc_lookahead_avail = false ∧ d'.jdoc_nextc_avail = false ∧
      d'.jdoc_f.data = rest := by
  obtain ⟨line, hl⟩ := consume_pending d ws 34 _ hp hws (by omega) (by omega) (by decide)
  rw [hl, token_switch_quote, consume_literal_string_ok _ 34 items rest rfl hok hlen]
  exact ⟨_, rfl, hp.1, rfl, rfl⟩

/-- C11: a quoted literal whose body is at most 63 printable ASCII
characters other than the double quote and the backslash, read after any
whitespace from any state of the handle without a look-ahead token, is
returned with status 0 as the literal token whose text is the body; after
the call no character is pushed back and the unread input starts right
after the closing quote, so that byte is the first one of the next token. -/
theorem quoted_literal_text (d : json_doc) (ws body rest : List Int)
    (hp : Pending d (ws ++ 34 :: (body ++ 34 :: rest)))
    (hws : ws.all isspace = true)
    (hbody : ∀ c ∈ body, (isascii c && isprint c) = true ∧ c ≠ 34 ∧ c ≠ 92)
    (hlen : body.length ≤ 63) :
    ∃ d', json_consume_token d = (0, ⟨JSON_TOK_LIT, some body⟩, d') ∧
      d'.jdoc_lookahead_avail = false ∧ d'.jdoc_nextc_avail = false ∧
      d'.jdoc_f.data = rest := by
  have hok : (body.map fun c => (false, c)).all quoted_item_ok = true := by
    rw [List.all_eq_true]
    intro it hit
    obtain ⟨c, hc, rfl⟩ := List.mem_map.1 hit
    obtain ⟨h1, h2, h3⟩ := hbody c hc
    simp [quoted_item_ok, _is_literal_string_char, h1, h2, h3]
  have h := consume_quoted_rest d ws (body.map fun c => (false, c)) rest
    (by rw [quoted_body_plain]; exact hp) hws hok (by simpa using hlen)
  simpa [List.map_map, Function.comp_def, lit_tok] using h

theorem quoted_literal_text_witness :
    ∃ d', json_consume_token (json_doc.init (fmemopen (text "  \x22hello world\x22: x"))) =
        (0, ⟨JSON_TOK_LIT, some (text "hello world")⟩, d') ∧
      d'.jdoc_lookahead_avail = false ∧ d'.jdoc_nextc_avail = false ∧
      d'.jdoc_f.data = text ": x" :=
  quoted_literal_text (json_doc.init (fmemopen (text "  \x22hello world\x22: x")))
    (text "  ") (text "hello world") (text ": x") ⟨rfl, Or.inl ⟨rfl, rfl⟩⟩ (by decide)
    (by decide) (by decide)

/-- C12: in the body of a quoted literal every character written after a
backslash is kept as it is and the backslash is not kept: when the body is
a sequence of items, each one printable ASCII character that is either
written alone (then not a double quote or backslash) or after a backslash
(then any printable character, so also a double quote, a backslash or the
letter n), and at most 63 characters are kept, the token is the literal
whose text is the kept characters in order, and the literal ends at the
first double quote that is not written after a backslash. -/
theorem quoted_literal_escape (d : json_doc) (ws : List Int) (items : List (Bool × Int))
    (rest : List Int) (hp : Pending d (ws ++ 34 :: (quoted_body items ++ 34 :: rest)))
    (hws : ws.all isspace = true) (hok : items.all quoted_item_ok = true)
    (hlen : items.length ≤ 63) :
    ∃ d', json_consume_token d = (0, ⟨JSON_TOK_LIT, some (items.map Prod.snd)⟩, d') ∧
      d'.jdoc_lookahead_avail = false ∧ d'.jdoc_nextc_avail = false ∧
      d'.jdoc_f.data = rest :=
  consume_quoted_rest d ws items rest hp hws hok hlen

theorem quoted_literal_escape_witness :
    (∃ d', json_consume_token (json_doc.init (fmemopen (text "\x22foo \x5c\x22bar\x22 \x7d"))) =
        (0, ⟨JSON_TOK_LIT, some (text "foo \x22bar")⟩, d') ∧
      d'.jdoc_lookahead_avail = false ∧ d'.jdoc_nextc_avail = false ∧
      d'.jdoc_f.data = text " \x7d") ∧
    (∃ d', json_consume_token (json_doc.init (fmemopen (text "\x22\x5cn\x22"))) =
        (0, ⟨JSON_TOK_LIT, some (text "n")⟩, d') ∧
      d'.jdoc_lookahead_avail = false ∧ d'.jdoc_nextc_avail = false ∧
      d'.jdoc_f.data = []) :=
  ⟨quoted_literal_escape (json_doc.init (fmemopen (text "\x22foo \x5c\x22bar\x22 \x7d"))) []
      (plain "foo " ++ (true, 34) :: plain "bar") (text " \x7d")
      ⟨rfl, Or.inl ⟨rfl, rfl⟩⟩ (by decide) (by decide) (by decide),
   quoted_literal_escape (json_doc.init (fmemopen (text "\x22\x5cn\x22"))) []
      [(true, 110)] [] ⟨rfl, Or.inl ⟨rfl, rfl⟩⟩ (by decide) (by decide) (by decide)⟩

/-! ## Claims on typed extraction -/

/-- C13: `json_get_literal`, `json_get_object` and `json_get_array` return
the payload exactly when `json_get_value` finds a value with the tag
Literal, Object or Array, and `NULL` otherwise; when a value is found
exactly one of the three is not `NULL`, and when none is found (or,
for each wrapper, when the tag is another one) the result is `NULL`. -/
theorem json_get_wrappers (obj : json_object) (path : List Int) :
    (∀ lit, json_get_literal obj path = some lit ↔
      json_get_value obj path = some (JSON_VAL_LITERAL lit)) ∧
    (∀ o, json_get_object obj path = some o ↔
      json_get_value obj path = some (JSON_VAL_OBJECT o)) ∧
    (∀ a, json_get_array obj path = some a ↔
      json_get_value obj path = some (JSON_VAL_ARRAY a)) ∧
    (json_get_value obj path = none →
      json_get_literal obj path = none ∧ json_get_object obj path = none ∧
        json_get_array obj path = none) ∧
    ((json_get_value obj path).isSome = true →
      (json_get_literal obj path).isSome.toNat + (json_get_object obj path).isSome.toNat +
        (json_get_array obj path).isSome.toNat = 1) := by
  unfold json_get_literal json_get_object json_get_array
  cases h : json_get_value obj path with
  | none => simp
  | some v => cases v <;> simp

theorem json_get_wrappers_witness :
    json_get_value [(text "x", JSON_VAL_ARRAY [])] (text "x") = some (JSON_VAL_ARRAY []) ∧
    json_get_literal [(text "x", JSON_VAL_ARRAY [])] (text "x") = none ∧
    json_get_object [(text "x", JSON_VAL_ARRAY [])] (text "x") = none ∧
    json_get_array [(text "x", JSON_VAL_ARRAY [])] (text "x") = some [] ∧
    json_get_literal [(text "x", JSON_VAL_ARRAY [])] (text "y") = none ∧
    json_get_object [(text "x", JSON_VAL_ARRAY [])] (text "y") = none ∧
    json_get_array [(text "x", JSON_VAL_ARRAY [])] (text "y") = none :=
  have h1 := json_get_wrappers [(text "x", JSON_VAL_ARRAY [])] (text "x")
  have h2 := json_get_wrappers [(text "x", JSON_VAL_ARRAY [])] (text "y")
  ⟨rfl, rfl, rfl, (h1.2.2.1 []).2 rfl, (h2.2.2.2.1 rfl).1, (h2.2.2.2.1 rfl).2.1,
    (h2.2.2.2.1 rfl).2.2⟩

/-! ## Claims on scalar conversion -/

/-- C14 (as stated, refuted): the literal `9223372036854775808` is a
well-formed decimal integer above `INT_MAX` and above `UINT_MAX`, and
`json_get_int` and `json_get_uint` both report `EINVAL`, the format
failure, not `ERANGE`: the value is outside `long long`, so `strtoll` sets
`errno` and `str2int64` fails before the range test of `str2int`. -/
theorem json_get_int_beyond_int64 :
    json_get_literal [(text "x", JSON_VAL_LITERAL (text "9223372036854775808"))] (text "x") =
      some (decimal_text false (text "9223372036854775808")) ∧
    (text "9223372036854775808").all isdigit = true ∧
    decimal_value false (text "9223372036854775808") > INT_MAX ∧
    decimal_value false (text "9223372036854775808") > UINT_MAX ∧
    json_get_int [(text "x", JSON_VAL_LITERAL (text "9223372036854775808"))] (text "x") =
      (EINVAL, none) ∧
    json_get_uint [(text "x", JSON_VAL_LITERAL (text "9223372036854775808"))] (text "x") =
      (EINVAL, none) ∧
    EINVAL ≠ ERANGE := by
  decide

/-- C14 (amended): let the literal at `path` be a decimal integer, a minus
sign or none followed by one or more digits, of value `v`. When `v` is a
`long long`, `json_get_int` reports `ERANGE` if `v` is below `INT_MIN` or
above `INT_MAX` and stores `v` otherwise, and `json_get_uint` reports
`ERANGE` if `v` is negative or above `UINT_MAX` and stores `v` otherwise;
when `v` is outside `long long` both report `EINVAL`. Both report `EINVAL`
for the empty text and for a decimal integer followed by a character that
is not a digit, and `ENOENT` when there is no literal at `path`; `ERANGE`
differs from `EINVAL`, from `ENOENT` and from 0. -/
theorem json_get_int_range (obj : json_object) (path : List Int) (minus : Bool)
    (ds : List Int) (hne : ds ≠ []) (hds : ds.all isdigit = true) :
    (json_get_literal obj path = some (decimal_text minus ds) →
      (LLONG_MIN ≤ decimal_value minus ds ∧ decimal_value minus ds ≤ LLONG_MAX →
        json_get_int obj path =
          (if decimal_value minus ds < INT_MIN ∨ INT_MAX < decimal_value minus ds
            then (ERANGE, none) else (0, some (decimal_value minus ds))) ∧
        json_get_uint obj path =
          (if decimal_value minus ds < 0 ∨ UINT_MAX < decimal_value minus ds
            then (ERANGE, none) else (0, some (decimal_value minus ds)))) ∧
      (decimal_value minus ds < LLONG_MIN ∨ LLONG_MAX < decimal_value minus ds →
        json_get_int obj path = (EINVAL, none) ∧ json_get_uint obj path = (EINVAL, none))) ∧
    (json_get_literal obj path = some [] →
      json_get_int obj path = (EINVAL, none) ∧ json_get_uint obj path = (EINVAL, none)) ∧
    (∀ c tail, isdigit c = false →
      json_get_literal obj path = some (decimal_text minus ds ++ c :: tail) →
      json_get_int obj path = (EINVAL, none) ∧ json_get_uint obj path = (EINVAL, none)) ∧
    (json_get_literal obj path = none →
      json_get_int obj path = (ENOENT, none) ∧ json_get_uint obj path = (ENOENT, none)) ∧
    ERANGE ≠ EINVAL ∧ ERANGE ≠ ENOENT ∧ ERANGE ≠ 0 := by
  refine ⟨fun hlit => ⟨fun hin => ?_, fun hout => ?_⟩, fun hlit => ?_, fun c tail hc hlit => ?_,
    fun hlit => ?_, by decide, by decide, by decide⟩
  · have h64 := str2int64_decimal minus ds hne hds
    rw [if_pos hin] at h64
    simp only [json_get_int, json_get_uint, hlit, str2int, str2uint, h64]
    constructor
    · by_cases h : decimal_value minus ds < INT_MIN ∨ INT_MAX < decimal_value minus ds
      · rw [if_pos h]
        rcases h with h | h <;> simp [h]
      · rw [if_neg h]
        have h1 : ¬ decimal_value minus ds < INT_MIN := fun x => h (Or.inl x)
        have h2 : ¬ decimal_value minus ds > INT_MAX := fun x => h (Or.inr x)
        simp [h1, h2]
    · by_cases h : decimal_value minus ds < 0 ∨ UINT_MAX < decimal_value minus ds
      · rw [if_pos h]
        rcases h with h | h <;> simp [h]
      · rw [if_neg h]
        have h1 : ¬ decimal_value minus ds < 0 := fun x => h (Or.inl x)
        have h2 : ¬ decimal_value minus ds > UINT_MAX := fun x => h (Or.inr x)
        simp [h1, h2]
  · have h64 := str2int64_decimal minus ds hne hds
    have hn : ¬ (LLONG_MIN ≤ decimal_value minus ds ∧ decimal_value minus ds ≤ LLONG_MAX) := by
      omega
    rw [if_neg hn] at h64
    simp [json_get_int, json_get_uint, hlit, str2int, str2uint, h64, EINVAL]
  · simp [json_get_int, json_get_uint, hlit, str2int, str2uint, str2int64, EINVAL]
  · have h64 := str2int64_trailing minus ds c tail hne hds hc
    simp [json_get_int, json_get_uint, hlit, str2int, str2uint, h64, EINVAL]
  · simp [json_get_int, json_get_uint, hlit]

theorem json_get_int_range_witness :
    json_get_int [(text "x", JSON_VAL_LITERAL (text "-2147483649"))] (text "x") =
      (ERANGE, none) ∧
    json_get_uint [(text "x", JSON_VAL_LITERAL (text "-2147483649"))] (text "x") =
      (ERANGE, none) :=
  ((json_get_int_range [(text "x", JSON_VAL_LITERAL (text "-2147483649"))] (text "x") true
    (text "2147483649") (by decide) (by decide)).1 rfl).1 (by decide)

/-! ## Claims on vector extraction -/

/-- C15: `json_get_array_of_uint32` is all-or-nothing. It returns 0 exactly
when every element of the array is a Literal on whose text `str2uint32`
succeeds (for a run of digits: when its value is at most `UINT32_MAX`, and
the conversion is then that value); on success the output vector has the
length of the array, the output length is that length, and the entry at
each index is the conversion of the element at that index; on failure the
status is `EINVAL`, the output vector is `NULL` and the output length is 0. -/
theorem json_get_array_of_uint32_all_or_nothing (jarr : json_array) :
    ((json_get_array_of_uint32 jarr).1 = 0 ↔
      ∀ v ∈ jarr, ∃ lit, v = JSON_VAL_LITERAL lit ∧ (str2uint32 lit).1 = 0) ∧
    ((json_get_array_of_uint32 jarr).1 = 0 →
      ∃ vec, json_get_array_of_uint32 jarr = (0, some vec, jarr.length) ∧
        vec.length = jarr.length ∧ jarr.map uint32_of = vec.map some) ∧
    ((json_get_array_of_uint32 jarr).1 ≠ 0 →
      json_get_array_of_uint32 jarr = (EINVAL, none, 0)) ∧
    (∀ ds : List Int, ds ≠ [] → ds.all isdigit = true →
      uint32_of (JSON_VAL_LITERAL ds) =
        if (digits_value 0 ds : Int) ≤ UINT32_MAX then some (digits_value 0 ds : Int)
        else none) := by
  have heq := json_get_array_of_uint32_eq jarr
  have hall : (jarr.all fun v => (uint32_of v).isSome) = true ↔
      ∀ v ∈ jarr, ∃ lit, v = JSON_VAL_LITERAL lit ∧ (str2uint32 lit).1 = 0 := by
    rw [List.all_eq_true]
    exact forall_congr' fun v => imp_congr_right fun _ => uint32_of_isSome_iff v
  refine ⟨?_, ?_, ?_, ?_⟩
  · rw [← hall, heq]
    split_ifs with h
    · simp [h]
    · simp [h, EINVAL]
  · intro h0
    rw [heq] at h0 ⊢
    split_ifs at h0 ⊢ with h
    · refine ⟨_, rfl, by simp, ?_⟩
      rw [List.all_eq_true] at h
      rw [List.map_map]
      apply List.map_congr_left
      intro v hv
      obtain ⟨u, hu⟩ := Option.isSome_iff_exists.1 (h v hv)
      simp [hu]
    · exact absurd h0 (by decide)
  · intro h0
    rw [heq] at h0 ⊢
    split_ifs at h0 ⊢ with h
    · exact absurd rfl h0
    · rfl
  · intro ds hne hds
    simp only [uint32_of, str2uint32_digits ds hne hds]
    split_ifs <;> simp_all [EINVAL]

theorem json_get_array_of_uint32_all_or_nothing_witness :
    json_get_array_of_uint32 [JSON_VAL_LITERAL (text "1"), JSON_VAL_LITERAL (text "2"),
      JSON_VAL_LITERAL (text "x")] = (EINVAL, none, 0) :=
  (json_get_array_of_uint32_all_or_nothing [JSON_VAL_LITERAL (text "1"),
    JSON_VAL_LITERAL (text "2"), JSON_VAL_LITERAL (text "x")]).2.2.1 (by decide)

/-! ## Claims on schema validation -/

/-- C16: for a Define rule whose key is not found in the object
(`json_get_value` gives `NULL`), whatever its type and output pointers:
when the rule is required, `json_validate` returns `EINVAL`, no output slot
is written and the message formatted into the buffer is `missing required
key` followed by the key between a backquote and a quote, so that a
buffer of `size` characters holds its first `size - 1` characters; when
the rule is optional, `json_validate` returns 0 and leaves the buffer and
every output slot as the caller set them. -/
theorem define_absent_key (strtod : List Int → conversion double) (obj : json_object)
    (key : List Int) (ty : Nat) (vp lp : Option Nat) (buf : List Int) (size : Nat)
    (mem : Nat → cell) (habs : json_get_value obj key = none) :
    json_validate strtod obj [JSON_SCHEMA_OP_DEFINE key ty true vp lp] buf size mem =
      ⟨EINVAL, (snprintf buf size (text "missing required key \x60" ++ key ++ text "\x27")).1,
        mem⟩ ∧
    ((0 : Int) ∉ key → 0 < size → size ≤ buf.length →
      c_string (json_validate strtod obj [JSON_SCHEMA_OP_DEFINE key ty true vp lp]
          buf size mem).buf =
        (text "missing required key \x60" ++ key ++ text "\x27").take (size - 1)) ∧
    json_validate strtod obj [JSON_SCHEMA_OP_DEFINE key ty false vp lp] buf size mem =
      ⟨0, buf, mem⟩ := by
  have h1 : json_validate strtod obj [JSON_SCHEMA_OP_DEFINE key ty true vp lp] buf size mem =
      ⟨EINVAL, (snprintf buf size (text "missing required key \x60" ++ key ++ text "\x27")).1,
        mem⟩ := by
    rw [define_rule_eq]
    simp only [_define_body, habs, if_true]
    rfl
  refine ⟨h1, ?_, ?_⟩
  · intro hk h0 hsize
    rw [h1]
    exact c_string_snprintf buf size _
      (format_key_no_nul "missing required key \x60" "\x27" key (by decide) (by decide) hk)
      h0 hsize
  · rw [define_rule_eq]
    simp only [_define_body, habs, Bool.false_eq_true, if_false, if_true]

theorem define_absent_key_witness :
    (json_validate strtod_digits [(text "x", JSON_VAL_LITERAL (text "1"))]
      [JSON_SCHEMA_OP_DEFINE (text "k") JSON_SCHEMA_TYPE_INT true (some 0) none]
      (List.replicate 40 1) 40 fun _ => cell.int 7).err = EINVAL ∧
    c_string (json_validate strtod_digits [(text "x", JSON_VAL_LITERAL (text "1"))]
      [JSON_SCHEMA_OP_DEFINE (text "k") JSON_SCHEMA_TYPE_INT true (some 0) none]
      (List.replicate 40 1) 40 fun _ => cell.int 7).buf = text "missing required key \x60k\x27" ∧
    json_validate strtod_digits [(text "x", JSON_VAL_LITERAL (text "1"))]
      [JSON_SCHEMA_OP_DEFINE (text "k") JSON_SCHEMA_TYPE_INT false (some 0) none]
      (List.replicate 40 1) 40 (fun _ => cell.int 7) =
        ⟨0, List.replicate 40 1, fun _ => cell.int 7⟩ :=
  have h := define_absent_key strtod_digits [(text "x", JSON_VAL_LITERAL (text "1"))]
    (text "k") JSON_SCHEMA_TYPE_INT (some 0) none (List.replicate 40 1) 40
    (fun _ => cell.int 7) rfl
  ⟨congrArg validation.err h.1, h.2.1 (by decide) (by decide) (by decide), h.2.2⟩

/-- C17: for an IfEq rule with a sub-schema, texts being without NUL: when
the key resolves to a Literal whose text equals the expected text after
`tolower` of every character, the rule gives what `json_validate` gives on
the same object, buffer and memory with the sub-schema (status,
diagnostic and output slots); when the key is not found, resolves to an
Object or Array, or resolves to a Literal whose text differs, the rule
returns 0 and leaves the buffer and every output slot as they were,
whatever the sub-schema is. -/
theorem ifeq_rule (strtod : List Int → conversion double) (obj : json_object)
    (key exp : List Int) (schema : List json_schema) (buf : List Int) (size : Nat)
    (mem : Nat → cell) (hexp : (0 : Int) ∉ exp) :
    (∀ lit, json_get_value obj key = some (JSON_VAL_LITERAL lit) → (0 : Int) ∉ lit →
      lit.map tolower = exp.map tolower →
      json_validate strtod obj [JSON_SCHEMA_OP_IFEQ key exp (some schema)] buf size mem =
        json_validate strtod obj schema buf size mem) ∧
    (∀ lit, json_get_value obj key = some (JSON_VAL_LITERAL lit) → (0 : Int) ∉ lit →
      lit.map tolower ≠ exp.map tolower →
      json_validate strtod obj [JSON_SCHEMA_OP_IFEQ key exp (some schema)] buf size mem =
        ⟨0, buf, mem⟩) ∧
    (json_get_value obj key = none →
      json_validate strtod obj [JSON_SCHEMA_OP_IFEQ key exp (some schema)] buf size mem =
        ⟨0, buf, mem⟩) ∧
    (∀ o, json_get_value obj key = some (JSON_VAL_OBJECT o) →
      json_validate strtod obj [JSON_SCHEMA_OP_IFEQ key exp (some schema)] buf size mem =
        ⟨0, buf, mem⟩) ∧
    (∀ a, json_get_value obj key = some (JSON_VAL_ARRAY a) →
      json_validate strtod obj [JSON_SCHEMA_OP_IFEQ key exp (some schema)] buf size mem =
        ⟨0, buf, mem⟩) := by
  rw [validate_single]
  simp only [json_validate_switch, _ifeq, json_get_literal]
  refine ⟨fun lit hv hlit heq => ?_, fun lit hv hlit hne => ?_, fun hv => ?_, fun o hv => ?_,
    fun a hv => ?_⟩
  · have h0 := (strcasecmp_eq_zero lit exp hlit hexp).2 heq
    simp only [hv, h0, beq_self_eq_true, if_true]
  · have h0 : ¬ strcasecmp lit exp = 0 := fun h => hne ((strcasecmp_eq_zero lit exp hlit hexp).1 h)
    simp [hv, h0]
  · simp only [hv]
  · simp only [hv]
  · simp only [hv]

theorem ifeq_rule_witness :
    json_validate strtod_digits [(text "kind", JSON_VAL_LITERAL (text "Disk"))]
        [JSON_SCHEMA_OP_IFEQ (text "kind") (text "DISK")
          (some [JSON_SCHEMA_OP_DEFINE (text "size") JSON_SCHEMA_TYPE_UINT true (some 0) none])]
        (List.replicate 40 1) 40 (fun _ => cell.null) =
      json_validate strtod_digits [(text "kind", JSON_VAL_LITERAL (text "Disk"))]
        [JSON_SCHEMA_OP_DEFINE (text "size") JSON_SCHEMA_TYPE_UINT true (some 0) none]
        (List.replicate 40 1) 40 (fun _ => cell.null) ∧
    json_validate strtod_digits [(text "kind", JSON_VAL_LITERAL (text "Disk"))]
        [JSON_SCHEMA_OP_IFEQ (text "kind") (text "tape")
          (some [JSON_SCHEMA_OP_DEFINE (text "size") JSON_SCHEMA_TYPE_UINT true (some 0) none])]
        (List.replicate 40 1) 40 (fun _ => cell.null) =
      ⟨0, List.replicate 40 1, fun _ => cell.null⟩ :=
  ⟨(ifeq_rule strtod_digits [(text "kind", JSON_VAL_LITERAL (text "Disk"))] (text "kind")
      (text "DISK")
      [JSON_SCHEMA_OP_DEFINE (text "size") JSON_SCHEMA_TYPE_UINT true (some 0) none]
      (List.replicate 40 1) 40 (fun _ => cell.null) (by decide)).1 (text "Disk") rfl
      (by decide) (by decide),
   (ifeq_rule strtod_digits [(text "kind", JSON_VAL_LITERAL (text "Disk"))] (text "kind")
      (text "tape")
      [JSON_SCHEMA_OP_DEFINE (text "size") JSON_SCHEMA_TYPE_UINT true (some 0) none]
      (List.replicate 40 1) 40 (fun _ => cell.null) (by decide)).2.1 (text "Disk") rfl
      (by decide) (by decide)⟩


/-- C18: for a Descend rule with a sub-schema. When the key is not found
the rule fails with `EINVAL` and the message `missing required object`
with the key; when the key resolves to a Literal or an Array it fails with
`EINVAL` and the message `expected OBJECT value for key` with the key; the
two messages differ. When the key resolves to an Object, the status and
the output slots are those of validating the sub-schema against that
sub-object (with any buffer), and the buffer is the prefix written by
`snprintf`, then what the sub-validation leaves in the rest of the buffer;
so when the prefix and a NUL fit, the text in the buffer is the key
between `in`, a backquote and a quote, colon, space, followed by the
text of the sub-validation, the outermost key first. -/
theorem descend_rule (strtod : List Int → conversion double) (obj : json_object)
    (key : List Int) (schema : List json_schema) (buf : List Int) (size : Nat)
    (mem : Nat → cell) :
    (json_get_value obj key = none →
      json_validate strtod obj [JSON_SCHEMA_OP_RECURSIVE key (some schema)] buf size mem =
        fail_with EINVAL (text "missing required object \x60" ++ key ++ text "\x27")
          buf size mem) ∧
    (∀ v, json_get_value obj key = some v → (∀ o, v ≠ JSON_VAL_OBJECT o) →
      json_validate strtod obj [JSON_SCHEMA_OP_RECURSIVE key (some schema)] buf size mem =
        fail_with EINVAL (text "expected OBJECT value for key \x60" ++ key ++ text "\x27")
          buf size mem) ∧
    text "missing required object \x60" ++ key ++ text "\x27" ≠
      text "expected OBJECT value for key \x60" ++ key ++ text "\x27" ∧
    (∀ subobj, json_get_value obj key = some (JSON_VAL_OBJECT subobj) →
      (∀ (b : List Int) (s : Nat),
        (json_validate strtod obj [JSON_SCHEMA_OP_RECURSIVE key (some schema)]
            buf size mem).err = (json_validate strtod subobj schema b s mem).err ∧
        (json_validate strtod obj [JSON_SCHEMA_OP_RECURSIVE key (some schema)]
            buf size mem).mem = (json_validate strtod subobj schema b s mem).mem) ∧
      ((0 : Int) ∉ key → key.length + 7 < size → size ≤ buf.length →
        c_string (json_validate strtod obj [JSON_SCHEMA_OP_RECURSIVE key (some schema)]
            buf size mem).buf =
          text "in \x60" ++ key ++ text "\x27: " ++
            c_string (json_validate strtod subobj schema
              (0 :: buf.drop (key.length + 8)) (size - (key.length + 7)) mem).buf)) := by
  refine ⟨fun hv => ?_, fun v hv hno => ?_, ?_, fun subobj hv => ⟨fun b s => ?_, ?_⟩⟩
  · rw [validate_single]
    simp only [json_validate_switch, _recursive, hv]
    rfl
  · rw [validate_single]
    cases v with
    | JSON_VAL_OBJECT o => exact absurd rfl (hno o)
    | JSON_VAL_LITERAL l => simp only [json_validate_switch, _recursive, hv]; rfl
    | JSON_VAL_ARRAY a => simp only [json_validate_switch, _recursive, hv]; rfl
  · intro h
    have := congrArg (fun l => l.head?) h
    simp [text] at this
  · rw [descend_rule_eq strtod obj key schema buf size mem subobj hv]
    exact validate_status strtod subobj schema _ b _ s mem
  · intro hk hfit hsize
    have hlen : (format_key "in \x60" key "\x27: ").length = key.length + 7 := by
      have h1 : (text "in \x60").length = 4 := rfl
      have h2 : (text "\x27: ").length = 3 := rfl
      simp only [format_key, List.length_append, h1, h2]
      omega
    have hnul : (0 : Int) ∉ format_key "in \x60" key "\x27: " :=
      format_key_no_nul "in \x60" "\x27: " key (by decide) (by decide) hk
    rw [descend_rule_eq strtod obj key schema buf size mem subobj hv]
    simp only [hlen, if_pos hfit]
    rw [snprintf_fits buf size _ (by omega) hsize, hlen]
    rw [List.take_left' hlen, List.drop_left' hlen, c_string_append _ _ hnul]
    rfl

theorem descend_rule_witness :
    c_string (json_validate strtod_digits
        [(text "a", JSON_VAL_OBJECT [(text "b", JSON_VAL_OBJECT [])])]
        [JSON_SCHEMA_OP_RECURSIVE (text "a") (some [JSON_SCHEMA_OP_RECURSIVE (text "b")
          (some [JSON_SCHEMA_OP_DEFINE (text "c") JSON_SCHEMA_TYPE_INT true (some 0) none])])]
        (List.replicate 64 1) 64 fun _ => cell.null).buf =
      text "in \x60a\x27: in \x60b\x27: missing required key \x60c\x27" :=
  (((descend_rule strtod_digits
      [(text "a", JSON_VAL_OBJECT [(text "b", JSON_VAL_OBJECT [])])] (text "a")
      [JSON_SCHEMA_OP_RECURSIVE (text "b")
        (some [JSON_SCHEMA_OP_DEFINE (text "c") JSON_SCHEMA_TYPE_INT true (some 0) none])]
      (List.replicate 64 1) 64 fun _ => cell.null).2.2.2
        [(text "b", JSON_VAL_OBJECT [])] rfl).2 (by decide) (by decide) (by decide)).trans
    (by decide)

/-- C19: `json_validate` evaluates the rules in order and stops at the
first one that fails. Validating a concatenation of two rule lists is
validating the first and, only when its status is 0, validating the second
from the buffer and output slots that the first left; and when the rules
before a rule succeed and that rule fails, the result (status, buffer and
output slots) is that of the failing rule, whatever rules follow it. -/
theorem json_validate_in_order (strtod : List Int → conversion double) (obj : json_object)
    (s1 s2 : List json_schema) (buf : List Int) (size : Nat) (mem : Nat → cell) :
    json_validate strtod obj (s1 ++ s2) buf size mem =
      (if (json_validate strtod obj s1 buf size mem).err != 0 then
        json_validate strtod obj s1 buf size mem
      else
        json_validate strtod obj s2 (json_validate strtod obj s1 buf size mem).buf size
          (json_validate strtod obj s1 buf size mem).mem) ∧
    (∀ it : json_schema, (json_validate strtod obj s1 buf size mem).err = 0 →
      (json_validate strtod obj [it] (json_validate strtod obj s1 buf size mem).buf size
        (json_validate strtod obj s1 buf size mem).mem).err ≠ 0 →
      json_validate strtod obj (s1 ++ it :: s2) buf size mem =
        json_validate strtod obj [it] (json_validate strtod obj s1 buf size mem).buf size
          (json_validate strtod obj s1 buf size mem).mem) := by
  refine ⟨validate_append strtod obj s1 s2 buf size mem, fun it h1 h2 => ?_⟩
  rw [validate_append strtod obj s1 (it :: s2) buf size mem]
  have h1b : ((json_validate strtod obj s1 buf size mem).err != 0) = false := by simp [h1]
  rw [h1b]
  simp only [Bool.false_eq_true, if_false]
  have h := validate_append strtod obj [it] s2
    (json_validate strtod obj s1 buf size mem).buf size
    (json_validate strtod obj s1 buf size mem).mem
  rw [List.singleton_append] at h
  rw [h]
  have h2b : ((json_validate strtod obj [it] (json_validate strtod obj s1 buf size mem).buf
      size (json_validate strtod obj s1 buf size mem).mem).err != 0) = true := by simpa using h2
  rw [h2b]
  rfl

theorem json_validate_in_order_witness :
    json_validate strtod_digits [(text "x", JSON_VAL_LITERAL (text "1"))]
        ([JSON_SCHEMA_OP_DEFINE (text "x") JSON_SCHEMA_TYPE_INT true (some 0) none] ++
          JSON_SCHEMA_OP_DEFINE (text "y") JSON_SCHEMA_TYPE_INT true (some 1) none ::
          [JSON_SCHEMA_OP_DEFINE (text "x") JSON_SCHEMA_TYPE_INT true (some 2) none])
        (List.replicate 40 1) 40 (fun _ => cell.null) =
      json_validate strtod_digits [(text "x", JSON_VAL_LITERAL (text "1"))]
        [JSON_SCHEMA_OP_DEFINE (text "y") JSON_SCHEMA_TYPE_INT true (some 1) none]
        (List.replicate 40 1) 40 (store (fun _ => cell.null) 0 (cell.int 1)) :=
  (json_validate_in_order strtod_digits [(text "x", JSON_VAL_LITERAL (text "1"))]
    [JSON_SCHEMA_OP_DEFINE (text "x") JSON_SCHEMA_TYPE_INT true (some 0) none]
    [JSON_SCHEMA_OP_DEFINE (text "x") JSON_SCHEMA_TYPE_INT true (some 2) none]
    (List.replicate 40 1) 40 (fun _ => cell.null)).2
    (JSON_SCHEMA_OP_DEFINE (text "y") JSON_SCHEMA_TYPE_INT true (some 1) none)
    (by decide) (by decide)


/-- C20 (as stated, refuted): the key `x` of the object is present with
the literal `abc`, which `str2int` does not convert, and the `INT` Define
rule for `x` that has no output pointer fails with `ENOTSUP` and the
diagnostic `invalid schema definition`, not with `EINVAL` and the
diagnostic of the type: the test of the output pointers comes before the
conversion. -/
theorem define_unconvertible_without_slot :
    json_get_value [(text "x", JSON_VAL_LITERAL (text "abc"))] (text "x") =
      some (JSON_VAL_LITERAL (text "abc")) ∧
    (str2int (text "abc")).1 ≠ 0 ∧
    (json_validate strtod_digits [(text "x", JSON_VAL_LITERAL (text "abc"))]
      [JSON_SCHEMA_OP_DEFINE (text "x") JSON_SCHEMA_TYPE_INT true none none]
      (List.replicate 64 1) 64 fun _ => cell.null).err = ENOTSUP ∧
    c_string (json_validate strtod_digits [(text "x", JSON_VAL_LITERAL (text "abc"))]
      [JSON_SCHEMA_OP_DEFINE (text "x") JSON_SCHEMA_TYPE_INT true none none]
      (List.replicate 64 1) 64 fun _ => cell.null).buf = text "invalid schema definition" ∧
    ENOTSUP ≠ EINVAL :=
  ⟨rfl, by decide, by decide, by decide, by decide⟩

/-- C20 (amended): for a Define rule of one of the eight types whose key
is present. When the tag of the value is not the one the type asks for,
`json_validate` fails with `EINVAL`, writes no output slot and formats
`expected T value for key` with the key between a backquote and a quote,
`T` being the name of the type, whatever the output pointers of the rule.
When the tag matches and the rule has the output pointers its type needs
(a value pointer, and a length pointer exactly for a vector type) but the
conversion fails (a literal that `str2int`, `str2uint` or `str2double`
rejects, an array with an element that is not a Literal or is not
converted), it fails with `EINVAL` and the same message. When the tag
matches and the rule does not have these output pointers, it fails with
`ENOTSUP` and the message `invalid schema definition`, whether or not the
value converts. -/
theorem define_type_mismatch (strtod : List Int → conversion double) (obj : json_object)
    (key : List Int) (ty : Nat) (req : Bool) (vp lp : Option Nat) (buf : List Int)
    (size : Nat) (mem : Nat → cell) (v : json_value) (hty : ty ≤ 7)
    (hv : json_get_value obj key = some v) :
    (tag_matches ty v = false →
      json_validate strtod obj [JSON_SCHEMA_OP_DEFINE key ty req vp lp] buf size mem =
        fail_with EINVAL (type_diagnostic ty key) buf size mem) ∧
    (tag_matches ty v = true → slots_ok ty vp lp = true → converts strtod ty v = false →
      (json_validate strtod obj [JSON_SCHEMA_OP_DEFINE key ty req vp lp] buf size mem).err =
        EINVAL ∧
      (json_validate strtod obj [JSON_SCHEMA_OP_DEFINE key ty req vp lp] buf size mem).buf =
        (snprintf buf size (type_diagnostic ty key)).1) ∧
    (tag_matches ty v = true → slots_ok ty vp lp = false →
      json_validate strtod obj [JSON_SCHEMA_OP_DEFINE key ty req vp lp] buf size mem =
        fail_with ENOTSUP invalid_schema_definition buf size mem) := by
  rw [define_rule_eq]
  refine ⟨fun h1 => ?_, fun h1 h2 h3 => ?_, fun h1 h2 => ?_⟩
  · interval_cases ty <;> cases v <;> cases vp <;> cases lp <;>
      first
      | (simp [tag_matches, is_vector_type, JSON_SCHEMA_TYPE_OBJ, JSON_SCHEMA_TYPE_TEXTV,
          JSON_SCHEMA_TYPE_UINT32V, JSON_SCHEMA_TYPE_UINT64V] at h1; done)
      | (simp [_define_body, hv, JSON_SCHEMA_TYPE_DOUBLE, JSON_SCHEMA_TYPE_INT,
          JSON_SCHEMA_TYPE_OBJ, JSON_SCHEMA_TYPE_TEXT, JSON_SCHEMA_TYPE_TEXTV,
          JSON_SCHEMA_TYPE_UINT, JSON_SCHEMA_TYPE_UINT32V, JSON_SCHEMA_TYPE_UINT64V]; rfl)
  · interval_cases ty <;> cases v <;> cases vp <;> cases lp <;>
      first
      | (simp [tag_matches, is_vector_type, JSON_SCHEMA_TYPE_OBJ, JSON_SCHEMA_TYPE_TEXTV,
          JSON_SCHEMA_TYPE_UINT32V, JSON_SCHEMA_TYPE_UINT64V] at h1; done)
      | (simp [slots_ok, is_vector_type, JSON_SCHEMA_TYPE_TEXTV,
          JSON_SCHEMA_TYPE_UINT32V, JSON_SCHEMA_TYPE_UINT64V] at h2; done)
      | (simp [converts, JSON_SCHEMA_TYPE_DOUBLE, JSON_SCHEMA_TYPE_INT, JSON_SCHEMA_TYPE_TEXTV,
          JSON_SCHEMA_TYPE_UINT, JSON_SCHEMA_TYPE_UINT32V, JSON_SCHEMA_TYPE_UINT64V] at h3; done)
      | (simp [converts, JSON_SCHEMA_TYPE_DOUBLE, JSON_SCHEMA_TYPE_INT, JSON_SCHEMA_TYPE_TEXTV,
          JSON_SCHEMA_TYPE_UINT, JSON_SCHEMA_TYPE_UINT32V, JSON_SCHEMA_TYPE_UINT64V] at h3
         have h4 := fun a => (array_of_text_status a).resolve_left
         have h5 := fun a => (array_of_uint32_status a).resolve_left
         have h6 := fun a => (array_of_uint64_status a).resolve_left
         simp [_define_body, hv, JSON_SCHEMA_TYPE_DOUBLE, JSON_SCHEMA_TYPE_INT,
          JSON_SCHEMA_TYPE_OBJ, JSON_SCHEMA_TYPE_TEXT, JSON_SCHEMA_TYPE_TEXTV,
          JSON_SCHEMA_TYPE_UINT, JSON_SCHEMA_TYPE_UINT32V, JSON_SCHEMA_TYPE_UINT64V, h3,
          h4, h5, h6, EINVAL, ENOMEM]
         exact ⟨rfl, rfl⟩)
  · interval_cases ty <;> cases v <;> cases vp <;> cases lp <;>
      first
      | (simp [tag_matches, is_vector_type, JSON_SCHEMA_TYPE_OBJ, JSON_SCHEMA_TYPE_TEXTV,
          JSON_SCHEMA_TYPE_UINT32V, JSON_SCHEMA_TYPE_UINT64V] at h1; done)
      | (simp [slots_ok, is_vector_type, JSON_SCHEMA_TYPE_TEXTV,
          JSON_SCHEMA_TYPE_UINT32V, JSON_SCHEMA_TYPE_UINT64V] at h2; done)
      | (simp [_define_body, hv, JSON_SCHEMA_TYPE_DOUBLE, JSON_SCHEMA_TYPE_INT,
          JSON_SCHEMA_TYPE_OBJ, JSON_SCHEMA_TYPE_TEXT, JSON_SCHEMA_TYPE_TEXTV,
          JSON_SCHEMA_TYPE_UINT, JSON_SCHEMA_TYPE_UINT32V, JSON_SCHEMA_TYPE_UINT64V]; rfl)

theorem define_type_mismatch_witness :
    (json_validate strtod_digits [(text "x", JSON_VAL_LITERAL (text "abc"))]
      [JSON_SCHEMA_OP_DEFINE (text "x") JSON_SCHEMA_TYPE_INT true (some 0) none]
      (List.replicate 64 1) 64 fun _ => cell.null).err = EINVAL ∧
    c_string (json_validate strtod_digits [(text "x", JSON_VAL_LITERAL (text "abc"))]
      [JSON_SCHEMA_OP_DEFINE (text "x") JSON_SCHEMA_TYPE_INT true (some 0) none]
      (List.replicate 64 1) 64 fun _ => cell.null).buf =
        text "expected INT integer value for key \x60x\x27" ∧
    c_string (json_validate strtod_digits [(text "x", JSON_VAL_LITERAL (text "abc"))]
      [JSON_SCHEMA_OP_DEFINE (text "x") JSON_SCHEMA_TYPE_UINT32V true none none]
      (List.replicate 64 1) 64 fun _ => cell.null).buf =
        text "expected UINT32 array value for key \x60x\x27" :=
  have h := (define_type_mismatch strtod_digits [(text "x", JSON_VAL_LITERAL (text "abc"))]
    (text "x") JSON_SCHEMA_TYPE_INT true (some 0) none (List.replicate 64 1) 64
    (fun _ => cell.null) (JSON_VAL_LITERAL (text "abc")) (by decide) rfl).2.1 rfl rfl
    (by decide)
  have h2 := (define_type_mismatch strtod_digits [(text "x", JSON_VAL_LITERAL (text "abc"))]
    (text "x") JSON_SCHEMA_TYPE_UINT32V true none none (List.replicate 64 1) 64
    (fun _ => cell.null) (JSON_VAL_LITERAL (text "abc")) (by decide) rfl).1 rfl
  ⟨h.1, (congrArg c_string h.2).trans (by decide),
    (congrArg (fun r => c_string r.buf) h2).trans (by decide)⟩

/-! ### The text of a validation -/

theorem poke_drop (xs : List Int) :
    ∀ (buf : List Int) (n : Nat), xs.length ≤ n → (poke buf xs).drop n = buf.drop n := by
  induction xs with
  | nil => intro buf n _; cases buf <;> rfl
  | cons x xs ih =>
    intro buf n h
    cases buf with
    | nil => simp [poke]
    | cons b buf =>
      cases n with
      | zero => simp at h
      | succ n =>
        simp only [List.length_cons, Nat.add_le_add_iff_right] at h
        simp [poke, ih buf n h]

theorem snprintf_drop (buf : List Int) (size : Nat) (msg : List Int) :
    (snprintf buf size msg).1.drop size = buf.drop size := by
  unfold snprintf
  split_ifs with h
  · rfl
  · apply poke_drop
    simp only [List.length_append, List.length_take, List.length_singleton]
    omega

theorem snprintf_zero (buf : List Int) (msg : List Int) : (snprintf buf 0 msg).1 = buf := by
  simp [snprintf]

theorem all_ne_zero_iff (key : List Int) :
    key.all (fun c => c != 0) = true ↔ (0 : Int) ∉ key := by
  rw [List.all_eq_true]
  constructor
  · intro h h0
    have := h 0 h0
    simp at this
  · intro h c hc
    simp only [bne_iff_ne, ne_eq]
    intro hc0
    exact h (hc0 ▸ hc)

/-- A label that formats `msg` and returns `err` writes the text `msg`. -/
theorem writes_text_fail (err : Nat) (msg buf : List Int) (size : Nat) (mem : Nat → cell)
    (hmsg : (0 : Int) ∉ msg) (hne : msg ≠ []) (hsize : size ≤ buf.length)
    (herr : err = EINVAL ∨ err = ENOTSUP ∨ err = ENOMEM) :
    writes_text (fail_with err msg buf size mem) buf size (some msg) := by
  refine ⟨snprintf_length buf size msg, snprintf_drop buf size msg, ?_, ?_, ?_, ?_, Or.inr herr⟩
  · rintro (h | h)
    · cases h
    · subst h; exact snprintf_zero buf msg
  · intro m hm h0
    cases hm
    exact c_string_snprintf buf size msg hmsg h0 hsize
  · intro m hm; cases hm; exact hne
  · intro _ h; cases h

/-- A function that returns 0 without writing. -/
theorem writes_text_none (buf : List Int) (size : Nat) (mem : Nat → cell) :
    writes_text ⟨0, buf, mem⟩ buf size none :=
  ⟨rfl, rfl, fun _ => rfl, fun m h => (by cases h), fun m h => (by cases h),
    fun h => absurd rfl h, Or.inl rfl⟩

theorem define_label_facts (key : List Int) (e : define_exit) (hk : (0 : Int) ∉ key)
    (he : e ≠ return_0) :
    (0 : Int) ∉ (define_label key e).2 ∧ (define_label key e).2 ≠ [] ∧
      ((define_label key e).1 = EINVAL ∨ (define_label key e).1 = ENOTSUP ∨
        (define_label key e).1 = ENOMEM) := by
  have hfmt : ∀ before after : String, (0 : Int) ∉ text before → (0 : Int) ∉ text after →
      text before ≠ [] →
      (0 : Int) ∉ format_key before key after ∧ format_key before key after ≠ [] := by
    intro before after hb ha hn
    refine ⟨format_key_no_nul before after key hb ha hk, ?_⟩
    unfold format_key
    intro h
    simp only [List.append_eq_nil] at h
    exact hn h.1.1
  cases e with
  | return_0 => exact absurd rfl he
  | fail_schema =>
    have h1 : (0 : Int) ∉ invalid_schema_definition := by decide
    have h2 : invalid_schema_definition ≠ [] := by decide
    exact ⟨h1, h2, Or.inr (Or.inl rfl)⟩
  | fail_memory =>
    obtain ⟨h1, h2⟩ := hfmt "cannot allocate memory for key \x60" "\x27" (by decide) (by decide)
      (by decide)
    exact ⟨h1, h2, Or.inr (Or.inr rfl)⟩
  | fail_missing =>
    obtain ⟨h1, h2⟩ := hfmt "missing required key \x60" "\x27" (by decide) (by decide)
      (by decide)
    exact ⟨h1, h2, Or.inl rfl⟩
  | fail_not_text_array =>
    obtain ⟨h1, h2⟩ := hfmt "expected TEXT array value for key \x60" "\x27" (by decide)
      (by decide) (by decide)
    exact ⟨h1, h2, Or.inl rfl⟩
  | fail_not_uint64_array =>
    obtain ⟨h1, h2⟩ := hfmt "expected UINT64 array value for key \x60" "\x27" (by decide)
      (by decide) (by decide)
    exact ⟨h1, h2, Or.inl rfl⟩
  | fail_not_uint32_array =>
    obtain ⟨h1, h2⟩ := hfmt "expected UINT32 array value for key \x60" "\x27" (by decide)
      (by decide) (by decide)
    exact ⟨h1, h2, Or.inl rfl⟩
  | fail_not_double =>
    obtain ⟨h1, h2⟩ := hfmt "expected DOUBLE value for key \x60" "\x27" (by decide)
      (by decide) (by decide)
    exact ⟨h1, h2, Or.inl rfl⟩
  | fail_not_int =>
    obtain ⟨h1, h2⟩ := hfmt "expected INT integer value for key \x60" "\x27" (by decide)
      (by decide) (by decide)
    exact ⟨h1, h2, Or.inl rfl⟩
  | fail_not_uint =>
    obtain ⟨h1, h2⟩ := hfmt "expected UINT integer value for key \x60" "\x27" (by decide)
      (by decide) (by decide)
    exact ⟨h1, h2, Or.inl rfl⟩
  | fail_not_string =>
    obtain ⟨h1, h2⟩ := hfmt "expected TEXT value for key \x60" "\x27" (by decide)
      (by decide) (by decide)
    exact ⟨h1, h2, Or.inl rfl⟩
  | fail_not_object =>
    obtain ⟨h1, h2⟩ := hfmt "expected OBJECT value for key \x60" "\x27" (by decide)
      (by decide) (by decide)
    exact ⟨h1, h2, Or.inl rfl⟩

/-- The exit that `_define_body` takes does not depend on the memory. -/
theorem define_writes_text (strtod : List Int → conversion double) (obj : json_object)
    (key : List Int) (ty : Nat) (req : Bool) (vp lp : Option Nat) (buf : List Int)
    (size : Nat) (mem : Nat → cell) (hk : (0 : Int) ∉ key) (hsize : size ≤ buf.length) :
    writes_text (_define strtod obj key ty req vp lp buf size mem) buf size
      (switch_text strtod obj (JSON_SCHEMA_OP_DEFINE key ty req vp lp) mem) := by
  simp only [_define, switch_text]
  by_cases h : (_define_body strtod obj key ty req vp lp mem).1 = return_0
  · simp only [h, if_true]
    exact writes_text_none buf size _
  · simp only [h, if_false]
    obtain ⟨h1, h2, h3⟩ := define_label_facts key _ hk h
    exact writes_text_fail _ _ buf size _ h1 h2 hsize h3

/-- The buffer after the prefix of a Descend rule and the validation of
its sub-schema in the rest of the buffer. -/
theorem descend_writes_text (pre buf : List Int) (size : Nat)
    (sub : List Int → Nat → validation) (st : Option (List Int))
    (hpre : (0 : Int) ∉ pre) (hne : pre ≠ []) (hsize : size ≤ buf.length)
    (hsub : ∀ (b : List Int) (s : Nat), s ≤ b.length → writes_text (sub b s) b s st) :
    writes_text
      ⟨(sub ((snprintf buf size pre).1.drop pre.length)
          (if pre.length < size then size - pre.length else 0)).err,
        (snprintf buf size pre).1.take pre.length ++
          (sub ((snprintf buf size pre).1.drop pre.length)
            (if pre.length < size then size - pre.length else 0)).buf,
        (sub ((snprintf buf size pre).1.drop pre.length)
          (if pre.length < size then size - pre.length else 0)).mem⟩
      buf size (some (pre ++ st.getD [])) := by
  by_cases hfit : pre.length < size
  · -- the prefix and its NUL fit
    simp only [if_pos hfit]
    rw [snprintf_fits buf size pre hfit hsize, List.take_left' rfl, List.drop_left' rfl]
    have hs := hsub (0 :: buf.drop (pre.length + 1)) (size - pre.length)
      (by simp only [List.length_cons, List.length_drop]; omega)
    obtain ⟨h1, h2, h3, h4, h5, h6, h7⟩ := hs
    refine ⟨?_, ?_, ?_, ?_, ?_, ?_, h7⟩
    · simp only [List.length_append, h1, List.length_cons, List.length_drop]; omega
    · rw [List.drop_append_eq_append_drop,
        List.drop_of_length_le (show pre.length ≤ size by omega), List.nil_append, h2]
      have e2 : size - pre.length = (size - pre.length - 1) + 1 := by omega
      rw [e2, List.drop_succ_cons, List.drop_drop]
      congr 1
      omega
    · rintro (h | h)
      · cases h
      · omega
    · intro m hm _
      cases hm
      rw [c_string_append _ _ hpre]
      cases st with
      | none =>
        rw [h3 (Or.inl rfl)]
        simp only [Option.getD_none, List.append_nil]
        rw [List.take_of_length_le (show pre.length ≤ size - 1 by omega)]
        simp [c_string]
      | some m =>
        rw [h4 m rfl (by omega)]
        simp only [Option.getD_some]
        rw [List.take_append_eq_append_take,
          List.take_of_length_le (show pre.length ≤ size - 1 by omega)]
        congr 2
        omega
    · intro m hm; cases hm
      intro h
      simp only [List.append_eq_nil] at h
      exact hne h.1
    · intro _ h; cases h
  · -- the prefix is cut; the sub-schema is validated with size 0
    simp only [if_neg hfit]
    have hs := hsub ((snprintf buf size pre).1.drop pre.length) 0 (Nat.zero_le _)
    obtain ⟨_, _, h3, _, _, _, h7⟩ := hs
    rw [h3 (Or.inr rfl), List.take_append_drop]
    refine ⟨snprintf_length buf size pre, snprintf_drop buf size pre, ?_, ?_, ?_, ?_, h7⟩
    · rintro (h | h)
      · cases h
      · subst h; exact snprintf_zero buf pre
    · intro m hm h0
      cases hm
      rw [c_string_snprintf buf size pre hpre h0 hsize,
        List.take_append_of_le_length (show size - 1 ≤ pre.length by omega)]
    · intro m hm; cases hm
      intro h
      simp only [List.append_eq_nil] at h
      exact hne h.1
    · intro _ h; cases h

/-! ### Every validation writes its text within the buffer -/

theorem writes_text_congr {r : validation} {buf : List Int} {size : Nat}
    {t t' : Option (List Int)} (h : writes_text r buf size t) (ht : t = t') :
    writes_text r buf size t' := ht ▸ h

/-- A rule that wrote `t1`, followed by a validation from its buffer that
wrote `t2`: the text is `t2` when there is one, `t1` otherwise. -/
theorem writes_text_seq {r1 r2 : validation} {buf : List Int} {size : Nat}
    {t1 t2 : Option (List Int)} (h1 : writes_text r1 buf size t1)
    (h2 : writes_text r2 r1.buf size t2) :
    writes_text r2 buf size (later_text t2 t1) := by
  obtain ⟨a1, a2, a3, a4, a5, _, _⟩ := h1
  obtain ⟨b1, b2, b3, b4, b5, b6, b7⟩ := h2
  refine ⟨b1.trans a1, b2.trans a2, ?_, ?_, ?_, ?_, b7⟩
  · intro h
    cases t2 with
    | none => rw [b3 (Or.inl rfl)]; exact a3 h
    | some m =>
      rcases h with h | h
      · cases h
      · rw [b3 (Or.inr h)]; exact a3 (Or.inr h)
  · intro m hm h0
    cases t2 with
    | none => rw [b3 (Or.inl rfl)]; exact a4 m hm h0
    | some m2 => cases hm; exact b4 m rfl h0
  · intro m hm
    cases t2 with
    | none => exact a5 m hm
    | some m2 => cases hm; exact b5 m rfl
  · intro he
    cases t2 with
    | none => exact absurd rfl (b6 he)
    | some m2 => intro h; cases h

mutual

theorem recursive_writes_text (strtod : List Int → conversion double) (obj : json_object)
    (key : List Int) (hk : (0 : Int) ∉ key) :
    ∀ (sub : Option (List json_schema)) (buf : List Int) (size : Nat) (mem : Nat → cell),
      sub_keys_ok sub = true → size ≤ buf.length →
      writes_text (_recursive strtod obj key sub buf size mem) buf size
        (recursive_text strtod obj key sub mem)
  | none, buf, size, mem, _, hsize => by
    simp only [_recursive, recursive_text]
    exact writes_text_fail _ _ buf size mem (by decide) (by decide) hsize (Or.inr (Or.inl rfl))
  | some schema, buf, size, mem, hok, hsize => by
    simp only [_recursive, recursive_text]
    cases h : json_get_value obj key with
    | none =>
      exact writes_text_fail _ _ buf size mem
        (format_key_no_nul _ _ key (by decide) (by decide) hk)
        (by unfold format_key; simp [text]) hsize (Or.inl rfl)
    | some v =>
      cases v with
      | JSON_VAL_OBJECT subobj =>
        exact descend_writes_text (format_key "in \x60" key "\x27: ") buf size
          (fun b s => json_validate strtod subobj schema b s mem)
          (validate_text strtod subobj schema mem)
          (format_key_no_nul _ _ key (by decide) (by decide) hk)
          (by unfold format_key; simp [text]) hsize
          (fun b s hs => validate_writes_text strtod subobj schema b s mem hok hs)
      | JSON_VAL_LITERAL l =>
        exact writes_text_fail _ _ buf size mem
          (format_key_no_nul _ _ key (by decide) (by decide) hk)
          (by unfold format_key; simp [text]) hsize (Or.inl rfl)
      | JSON_VAL_ARRAY a =>
        exact writes_text_fail _ _ buf size mem
          (format_key_no_nul _ _ key (by decide) (by decide) hk)
          (by unfold format_key; simp [text]) hsize (Or.inl rfl)
termination_by structural x => x

theorem ifeq_writes_text (strtod : List Int → conversion double) (obj : json_object)
    (key exp : List Int) :
    ∀ (sub : Option (List json_schema)) (buf : List Int) (size : Nat) (mem : Nat → cell),
      sub_keys_ok sub = true → size ≤ buf.length →
      writes_text (_ifeq strtod obj key exp sub buf size mem) buf size
        (ifeq_text strtod obj key exp sub mem)
  | none, buf, size, mem, _, hsize => by
    simp only [_ifeq, ifeq_text]
    exact writes_text_fail _ _ buf size mem (by decide) (by decide) hsize (Or.inr (Or.inl rfl))
  | some schema, buf, size, mem, hok, hsize => by
    simp only [_ifeq, ifeq_text]
    cases json_get_literal obj key with
    | none => exact writes_text_none buf size mem
    | some jval =>
      dsimp only
      split_ifs
      · exact validate_writes_text strtod obj schema buf size mem hok hsize
      · exact writes_text_none buf size mem
termination_by structural x => x

theorem switch_writes_text (strtod : List Int → conversion double) (obj : json_object) :
    ∀ (it : json_schema) (buf : List Int) (size : Nat) (mem : Nat → cell),
      rule_keys_ok it = true → size ≤ buf.length →
      writes_text (json_validate_switch strtod obj it buf size mem) buf size
        (switch_text strtod obj it mem)
  | JSON_SCHEMA_OP_RECURSIVE key sub, buf, size, mem, hok, hsize => by
    simp only [rule_keys_ok, Bool.and_eq_true] at hok
    simp only [json_validate_switch, switch_text]
    exact recursive_writes_text strtod obj key ((all_ne_zero_iff key).1 hok.1) sub buf size mem
      hok.2 hsize
  | JSON_SCHEMA_OP_DEFINE key ty req vp lp, buf, size, mem, hok, hsize => by
    simp only [rule_keys_ok] at hok
    simp only [json_validate_switch]
    exact define_writes_text strtod obj key ty req vp lp buf size mem
      ((all_ne_zero_iff key).1 hok) hsize
  | JSON_SCHEMA_OP_IFEQ key exp sub, buf, size, mem, hok, hsize => by
    simp only [rule_keys_ok, Bool.and_eq_true] at hok
    simp only [json_validate_switch, switch_text]
    exact ifeq_writes_text strtod obj key exp sub buf size mem hok.2 hsize
  | other _, buf, size, mem, _, hsize => by
    simp only [json_validate_switch, switch_text]
    exact writes_text_fail _ _ buf size mem (by decide) (by decide) hsize (Or.inr (Or.inl rfl))
termination_by structural x => x

/-- The buffer after `json_validate`, by the text of the validation. -/
theorem validate_writes_text (strtod : List Int → conversion double) (obj : json_object) :
    ∀ (schema : List json_schema) (buf : List Int) (size : Nat) (mem : Nat → cell),
      schema_keys_ok schema = true → size ≤ buf.length →
      writes_text (json_validate strtod obj schema buf size mem) buf size
        (validate_text strtod obj schema mem)
  | [], buf, size, mem, _, _ => by
    simp only [json_validate, validate_text]
    exact writes_text_none buf size mem
  | it :: rest, buf, size, mem, hok, hsize => by
    simp only [schema_keys_ok, Bool.and_eq_true] at hok
    have h1 := switch_writes_text strtod obj it buf size mem hok.1 hsize
    have hs := switch_status strtod obj it buf [] size 0 mem
    simp only [json_validate, validate_text]
    rw [← hs.1, ← hs.2]
    by_cases he : ((json_validate_switch strtod obj it buf size mem).err != 0) = true
    · simp only [he, if_true]
      exact h1
    · simp only [he, Bool.false_eq_true, if_false]
      have h2 := validate_writes_text strtod obj rest
        (json_validate_switch strtod obj it buf size mem).buf size
        (json_validate_switch strtod obj it buf size mem).mem hok.2 (by rw [h1.1]; exact hsize)
      exact writes_text_seq h1 h2
termination_by structural x => x

end

/-! ### Output slots -/

theorem str2int_fail (lit : List Int) (h : (str2int lit).1 ≠ 0) : (str2int lit).2 = none := by
  unfold str2int at h ⊢
  dsimp only at h ⊢
  split_ifs at h ⊢ <;> first | rfl | exact absurd rfl h

theorem str2uint_fail (lit : List Int) (h : (str2uint lit).1 ≠ 0) : (str2uint lit).2 = none := by
  unfold str2uint at h ⊢
  dsimp only at h ⊢
  split_ifs at h ⊢ <;> first | rfl | exact absurd rfl h

theorem str2double_fail (strtod : List Int → conversion double) (lit : List Int)
    (h : (str2double strtod lit).1 ≠ 0) : (str2double strtod lit).2 = none := by
  unfold str2double at h ⊢
  dsimp only at h ⊢
  split_ifs at h ⊢ <;> first | rfl | exact absurd rfl h

theorem array_of_text_fail (jarr : json_array) (h : (json_get_array_of_text jarr).1 ≠ 0) :
    (json_get_array_of_text jarr).2 = (none, 0) := by
  unfold json_get_array_of_text at h ⊢
  dsimp only at h ⊢
  split at h
  · exact absurd rfl h
  · rfl

theorem array_of_uint32_fail (jarr : json_array) (h : (json_get_array_of_uint32 jarr).1 ≠ 0) :
    (json_get_array_of_uint32 jarr).2 = (none, 0) := by
  unfold json_get_array_of_uint32 at h ⊢
  dsimp only at h ⊢
  split at h
  · exact absurd rfl h
  · rfl

theorem array_of_uint64_fail (jarr : json_array) (h : (json_get_array_of_uint64 jarr).1 ≠ 0) :
    (json_get_array_of_uint64 jarr).2 = (none, 0) := by
  unfold json_get_array_of_uint64 at h ⊢
  dsimp only at h ⊢
  split at h
  · exact absurd rfl h
  · rfl

theorem store_other (mem : Nat → cell) (p a : Nat) (v : cell) (h : a ≠ p) :
    store mem p v a = mem a := by
  simp [store, h]

theorem store_opt_other (mem : Nat → cell) (p a : Nat) (w : Option cell) (h : a ≠ p) :
    store_opt mem p w a = mem a := by
  cases w with
  | none => rfl
  | some v => exact store_other mem p a v h

/-- The body of `_define` writes only through the output pointers of the rule. -/
theorem define_body_frame (strtod : List Int → conversion double) (obj : json_object)
    (key : List Int) (ty : Nat) (req : Bool) (vp lp : Option Nat) (mem : Nat → cell)
    (a : Nat) (ha : a ∉ vp.toList ++ lp.toList) :
    (_define_body strtod obj key ty req vp lp mem).2 a = mem a := by
  unfold _define_body
  cases hv : json_get_value obj key with
  | none => dsimp only; split_ifs <;> rfl
  | some v =>
    by_cases hty : ty ≤ 7
    · interval_cases ty <;> cases v <;> cases vp <;> cases lp <;>
        simp only [List.mem_append, Option.toList, List.mem_singleton, List.not_mem_nil,
          not_or, not_false_eq_true, and_true, true_and] at ha <;>
        simp [JSON_SCHEMA_TYPE_DOUBLE, JSON_SCHEMA_TYPE_INT, JSON_SCHEMA_TYPE_OBJ,
          JSON_SCHEMA_TYPE_TEXT, JSON_SCHEMA_TYPE_TEXTV, JSON_SCHEMA_TYPE_UINT,
          JSON_SCHEMA_TYPE_UINT32V, JSON_SCHEMA_TYPE_UINT64V] <;>
        (try split_ifs) <;>
        first
        | rfl
        | exact store_other _ _ _ _ ha
        | exact store_opt_other _ _ _ _ ha
        | exact (store_other _ _ _ _ ha.2).trans (store_other _ _ _ _ ha.1)
    · have h0 : ty ≠ JSON_SCHEMA_TYPE_DOUBLE := by unfold JSON_SCHEMA_TYPE_DOUBLE; omega
      have h1 : ty ≠ JSON_SCHEMA_TYPE_INT := by unfold JSON_SCHEMA_TYPE_INT; omega
      have h2 : ty ≠ JSON_SCHEMA_TYPE_OBJ := by unfold JSON_SCHEMA_TYPE_OBJ; omega
      have h3 : ty ≠ JSON_SCHEMA_TYPE_TEXT := by unfold JSON_SCHEMA_TYPE_TEXT; omega
      have h4 : ty ≠ JSON_SCHEMA_TYPE_TEXTV := by unfold JSON_SCHEMA_TYPE_TEXTV; omega
      have h5 : ty ≠ JSON_SCHEMA_TYPE_UINT := by unfold JSON_SCHEMA_TYPE_UINT; omega
      have h6 : ty ≠ JSON_SCHEMA_TYPE_UINT32V := by unfold JSON_SCHEMA_TYPE_UINT32V; omega
      have h7 : ty ≠ JSON_SCHEMA_TYPE_UINT64V := by unfold JSON_SCHEMA_TYPE_UINT64V; omega
      simp only [h0, h1, h2, h3, h4, h5, h6, h7, if_false]

mutual

theorem recursive_frame (strtod : List Int → conversion double) (obj : json_object)
    (key : List Int) (a : Nat) :
    ∀ (sub : Option (List json_schema)) (buf : List Int) (size : Nat) (mem : Nat → cell),
      a ∉ sub_slots sub → (_recursive strtod obj key sub buf size mem).mem a = mem a
  | none, _, _, _, _ => rfl
  | some schema, buf, size, mem, ha => by
    simp only [_recursive]
    cases h : json_get_value obj key with
    | none => rfl
    | some v =>
      cases v with
      | JSON_VAL_OBJECT subobj => exact validate_frame strtod subobj a schema _ _ mem ha
      | JSON_VAL_LITERAL l => rfl
      | JSON_VAL_ARRAY l => rfl
termination_by structural x => x

theorem ifeq_frame (strtod : List Int → conversion double) (obj : json_object)
    (key exp : List Int) (a : Nat) :
    ∀ (sub : Option (List json_schema)) (buf : List Int) (size : Nat) (mem : Nat → cell),
      a ∉ sub_slots sub → (_ifeq strtod obj key exp sub buf size mem).mem a = mem a
  | none, _, _, _, _ => rfl
  | some schema, buf, size, mem, ha => by
    simp only [_ifeq]
    cases json_get_literal obj key with
    | none => rfl
    | some jval =>
      dsimp only
      split_ifs
      · exact validate_frame strtod obj a schema buf size mem ha
      · rfl
termination_by structural x => x

theorem switch_frame (strtod : List Int → conversion double) (obj : json_object) (a : Nat) :
    ∀ (it : json_schema) (buf : List Int) (size : Nat) (mem : Nat → cell),
      a ∉ rule_slots it → (json_validate_switch strtod obj it buf size mem).mem a = mem a
  | JSON_SCHEMA_OP_RECURSIVE key sub, buf, size, mem, ha => by
    simp only [json_validate_switch]
    exact recursive_frame strtod obj key a sub buf size mem ha
  | JSON_SCHEMA_OP_DEFINE key ty req vp lp, buf, size, mem, ha => by
    simp only [json_validate_switch, _define]
    have := define_body_frame strtod obj key ty req vp lp mem a ha
    split_ifs <;> exact this
  | JSON_SCHEMA_OP_IFEQ key exp sub, buf, size, mem, ha => by
    simp only [json_validate_switch]
    exact ifeq_frame strtod obj key exp a sub buf size mem ha
  | other _, _, _, _, _ => rfl
termination_by structural x => x

/-- A validation leaves every cell that is not an output pointer of a
Define rule of the schema, at any depth, as it was. -/
theorem validate_frame (strtod : List Int → conversion double) (obj : json_object) (a : Nat) :
    ∀ (schema : List json_schema) (buf : List Int) (size : Nat) (mem : Nat → cell),
      a ∉ schema_slots schema → (json_validate strtod obj schema buf size mem).mem a = mem a
  | [], _, _, _, _ => rfl
  | it :: rest, buf, size, mem, ha => by
    simp only [schema_slots, List.mem_append, not_or] at ha
    have h1 := switch_frame strtod obj a it buf size mem ha.1
    simp only [json_validate]
    split_ifs
    · exact h1
    · rw [validate_frame strtod obj a rest _ _ _ ha.2, h1]
termination_by structural x => x

end

/-! ### The first failing rule -/

/-- When the rules before a rule succeed and that rule fails, the
validation is that of the failing rule, from the buffer and memory that
the rules before it left. -/
theorem validate_first_failure (strtod : List Int → conversion double) (obj : json_object)
    (s1 s2 : List json_schema) (it : json_schema) (buf : List Int) (size : Nat)
    (mem : Nat → cell) (h1 : (json_validate strtod obj s1 buf size mem).err = 0)
    (h2 : (json_validate strtod obj [it] (json_validate strtod obj s1 buf size mem).buf size
      (json_validate strtod obj s1 buf size mem).mem).err ≠ 0) :
    json_validate strtod obj (s1 ++ it :: s2) buf size mem =
      json_validate strtod obj [it] (json_validate strtod obj s1 buf size mem).buf size
        (json_validate strtod obj s1 buf size mem).mem := by
  rw [validate_append strtod obj s1 (it :: s2) buf size mem]
  have h1b : ((json_validate strtod obj s1 buf size mem).err != 0) = false := by simp [h1]
  rw [h1b]
  simp only [Bool.false_eq_true, if_false]
  have h := validate_append strtod obj [it] s2
    (json_validate strtod obj s1 buf size mem).buf size
    (json_validate strtod obj s1 buf size mem).mem
  rw [List.singleton_append] at h
  rw [h]
  have h2b : ((json_validate strtod obj [it] (json_validate strtod obj s1 buf size mem).buf
      size (json_validate strtod obj s1 buf size mem).mem).err != 0) = true := by simpa using h2
  rw [h2b]
  rfl

/-- The memory after a Define rule is the memory after its body. -/
theorem define_rule_mem (strtod : List Int → conversion double) (obj : json_object)
    (key : List Int) (ty : Nat) (req : Bool) (vp lp : Option Nat) (buf : List Int)
    (size : Nat) (mem : Nat → cell) :
    (json_validate strtod obj [JSON_SCHEMA_OP_DEFINE key ty req vp lp] buf size mem).mem =
      (_define_body strtod obj key ty req vp lp mem).2 ∧
    (json_validate strtod obj [JSON_SCHEMA_OP_DEFINE key ty req vp lp] buf size mem).err =
      (define_label key (_define_body strtod obj key ty req vp lp mem).1).1 := by
  rw [define_rule_eq]
  split_ifs with h
  · exact ⟨rfl, by rw [h]; rfl⟩
  · exact ⟨rfl, rfl⟩

theorem ty_above (ty : Nat) (h : 7 < ty) :
    ty ≠ JSON_SCHEMA_TYPE_DOUBLE ∧ ty ≠ JSON_SCHEMA_TYPE_INT ∧ ty ≠ JSON_SCHEMA_TYPE_OBJ ∧
    ty ≠ JSON_SCHEMA_TYPE_TEXT ∧ ty ≠ JSON_SCHEMA_TYPE_TEXTV ∧ ty ≠ JSON_SCHEMA_TYPE_UINT ∧
    ty ≠ JSON_SCHEMA_TYPE_UINT32V ∧ ty ≠ JSON_SCHEMA_TYPE_UINT64V := by
  unfold JSON_SCHEMA_TYPE_DOUBLE JSON_SCHEMA_TYPE_INT JSON_SCHEMA_TYPE_OBJ
    JSON_SCHEMA_TYPE_TEXT JSON_SCHEMA_TYPE_TEXTV JSON_SCHEMA_TYPE_UINT
    JSON_SCHEMA_TYPE_UINT32V JSON_SCHEMA_TYPE_UINT64V
  omega

/-- The body of `_define` for a key that is present, by the cases of the
rule: the exit taken and the memory. -/
theorem define_body_present (strtod : List Int → conversion double) (obj : json_object)
    (key : List Int) (ty : Nat) (req : Bool) (vp lp : Option Nat) (mem : Nat → cell)
    (v : json_value) (hv : json_get_value obj key = some v) :
    (7 < ty → _define_body strtod obj key ty req vp lp mem = (fail_schema, mem)) ∧
    (tag_matches ty v = false →
      (_define_body strtod obj key ty req vp lp mem).2 = mem ∧
      (_define_body strtod obj key ty req vp lp mem).1 ≠ return_0) ∧
    (tag_matches ty v = true → slots_ok ty vp lp = false →
      _define_body strtod obj key ty req vp lp mem = (fail_schema, mem)) ∧
    (is_vector_type ty = false → (_define_body strtod obj key ty req vp lp mem).1 ≠ return_0 →
      (_define_body strtod obj key ty req vp lp mem).2 = mem) ∧
    (∀ p q, is_vector_type ty = true → tag_matches ty v = true → vp = some p → lp = some q →
      (_define_body strtod obj key ty req vp lp mem).1 ≠ return_0 →
      (_define_body strtod obj key ty req vp lp mem).2 =
        store (store mem p cell.null) q (cell.length 0)) := by
  by_cases hty : ty ≤ 7
  · have n1 := str2int_fail
    have n2 := str2uint_fail
    have n3 := str2double_fail strtod
    have n4 := array_of_text_fail
    have n5 := array_of_uint32_fail
    have n6 := array_of_uint64_fail
    refine ⟨fun h => absurd hty (by omega), ?_, ?_, ?_, ?_⟩
    · intro h1
      interval_cases ty <;> cases v <;> cases vp <;> cases lp <;>
        first
        | (simp [tag_matches, is_vector_type, JSON_SCHEMA_TYPE_OBJ, JSON_SCHEMA_TYPE_TEXTV,
            JSON_SCHEMA_TYPE_UINT32V, JSON_SCHEMA_TYPE_UINT64V] at h1; done)
        | simp [_define_body, hv, JSON_SCHEMA_TYPE_DOUBLE, JSON_SCHEMA_TYPE_INT,
            JSON_SCHEMA_TYPE_OBJ, JSON_SCHEMA_TYPE_TEXT, JSON_SCHEMA_TYPE_TEXTV,
            JSON_SCHEMA_TYPE_UINT, JSON_SCHEMA_TYPE_UINT32V, JSON_SCHEMA_TYPE_UINT64V]
    · intro h1 h2
      interval_cases ty <;> cases v <;> cases vp <;> cases lp <;>
        first
        | (simp [tag_matches, is_vector_type, JSON_SCHEMA_TYPE_OBJ, JSON_SCHEMA_TYPE_TEXTV,
            JSON_SCHEMA_TYPE_UINT32V, JSON_SCHEMA_TYPE_UINT64V] at h1; done)
        | (simp [slots_ok, is_vector_type, JSON_SCHEMA_TYPE_TEXTV,
            JSON_SCHEMA_TYPE_UINT32V, JSON_SCHEMA_TYPE_UINT64V] at h2; done)
        | simp [_define_body, hv, JSON_SCHEMA_TYPE_DOUBLE, JSON_SCHEMA_TYPE_INT,
            JSON_SCHEMA_TYPE_OBJ, JSON_SCHEMA_TYPE_TEXT, JSON_SCHEMA_TYPE_TEXTV,
            JSON_SCHEMA_TYPE_UINT, JSON_SCHEMA_TYPE_UINT32V, JSON_SCHEMA_TYPE_UINT64V]
    · intro h1 h2
      interval_cases ty <;> cases v <;> cases vp <;> cases lp <;>
        first
        | (simp [is_vector_type, JSON_SCHEMA_TYPE_TEXTV,
            JSON_SCHEMA_TYPE_UINT32V, JSON_SCHEMA_TYPE_UINT64V] at h1; done)
        | (simp [_define_body, hv, JSON_SCHEMA_TYPE_DOUBLE, JSON_SCHEMA_TYPE_INT,
            JSON_SCHEMA_TYPE_OBJ, JSON_SCHEMA_TYPE_TEXT, JSON_SCHEMA_TYPE_TEXTV,
            JSON_SCHEMA_TYPE_UINT, JSON_SCHEMA_TYPE_UINT32V, JSON_SCHEMA_TYPE_UINT64V] at h2; done)
        | (simp [_define_body, hv, JSON_SCHEMA_TYPE_DOUBLE, JSON_SCHEMA_TYPE_INT,
            JSON_SCHEMA_TYPE_OBJ, JSON_SCHEMA_TYPE_TEXT, JSON_SCHEMA_TYPE_TEXTV,
            JSON_SCHEMA_TYPE_UINT, JSON_SCHEMA_TYPE_UINT32V, JSON_SCHEMA_TYPE_UINT64V]; done)
        | (simp [_define_body, hv, JSON_SCHEMA_TYPE_DOUBLE, JSON_SCHEMA_TYPE_INT,
            JSON_SCHEMA_TYPE_OBJ, JSON_SCHEMA_TYPE_TEXT, JSON_SCHEMA_TYPE_TEXTV,
            JSON_SCHEMA_TYPE_UINT, JSON_SCHEMA_TYPE_UINT32V, JSON_SCHEMA_TYPE_UINT64V] at h2 ⊢
           split_ifs at h2 ⊢ with hc <;>
             first
             | exact absurd rfl h2
             | (rw [n1 _ hc]; rfl)
             | (rw [n2 _ hc]; rfl)
             | (rw [n3 _ hc]; rfl))
    · intro p q h1 h2 hp hq h3
      subst hp hq
      interval_cases ty <;> cases v <;>
        first
        | (simp [is_vector_type, JSON_SCHEMA_TYPE_TEXTV,
            JSON_SCHEMA_TYPE_UINT32V, JSON_SCHEMA_TYPE_UINT64V] at h1; done)
        | (simp [tag_matches, is_vector_type, JSON_SCHEMA_TYPE_OBJ, JSON_SCHEMA_TYPE_TEXTV,
            JSON_SCHEMA_TYPE_UINT32V, JSON_SCHEMA_TYPE_UINT64V] at h2; done)
        | (simp [_define_body, hv, JSON_SCHEMA_TYPE_DOUBLE, JSON_SCHEMA_TYPE_INT,
            JSON_SCHEMA_TYPE_OBJ, JSON_SCHEMA_TYPE_TEXT, JSON_SCHEMA_TYPE_TEXTV,
            JSON_SCHEMA_TYPE_UINT, JSON_SCHEMA_TYPE_UINT32V, JSON_SCHEMA_TYPE_UINT64V] at h3 ⊢
           split_ifs at h3 ⊢ with hc hd <;>
             first
             | exact absurd rfl h3
             | (rw [n4 _ hc]; rfl)
             | (rw [n5 _ hc]; rfl)
             | (rw [n6 _ hc]; rfl))
  · obtain ⟨h0, h1, h2, h3, h4, h5, h6, h7⟩ := ty_above ty (by omega)
    have hb : _define_body strtod obj key ty req vp lp mem = (fail_schema, mem) := by
      simp only [_define_body, hv, h0, h1, h2, h3, h4, h5, h6, h7, if_false]
    rw [hb]
    refine ⟨fun _ => rfl, fun _ => ⟨rfl, fun h => by cases h⟩, fun _ _ => rfl, fun _ _ => rfl, ?_⟩
    intro p q hvec
    simp [is_vector_type, h4, h6, h7] at hvec

/-! ## Claims on malformed rules, output slots and the diagnostic buffer -/

/-- The character after the text of a buffer, when there is one, is NUL. -/
theorem c_string_terminator (buf : List Int) (h : (c_string buf).length < buf.length) :
    buf[(c_string buf).length]? = some 0 := by
  induction buf with
  | nil => simp at h
  | cons b buf ih =>
    by_cases hb : b = 0
    · subst hb; simp [c_string]
    · have hb2 : (b != 0) = true := by simpa using hb
      have e : c_string (b :: buf) = b :: c_string buf := by
        simp [c_string, List.takeWhile_cons, hb2]
      rw [e] at h ⊢
      simp only [List.length_cons, Nat.add_lt_add_iff_right] at h
      simpa using ih h

/-- C21 (as stated, refuted): an `INT` Define rule without output pointer
is malformed, and yet: when its key is absent and it is required,
`json_validate` returns `EINVAL` with the diagnostic `missing required
key`; when its key is absent and it is optional, `json_validate` returns 0;
when its key has an Array as value, `json_validate` returns `EINVAL` with
the diagnostic of the type. None of them is `ENOTSUP`. -/
theorem malformed_define_not_reported :
    (json_validate strtod_digits [] [JSON_SCHEMA_OP_DEFINE (text "x") JSON_SCHEMA_TYPE_INT true
      none none] (List.replicate 64 1) 64 fun _ => cell.null).err = EINVAL ∧
    c_string (json_validate strtod_digits [] [JSON_SCHEMA_OP_DEFINE (text "x")
      JSON_SCHEMA_TYPE_INT true none none] (List.replicate 64 1) 64 fun _ => cell.null).buf =
      text "missing required key \x60x\x27" ∧
    (json_validate strtod_digits [] [JSON_SCHEMA_OP_DEFINE (text "x") JSON_SCHEMA_TYPE_INT false
      none none] (List.replicate 64 1) 64 fun _ => cell.null).err = 0 ∧
    (json_validate strtod_digits [(text "x", JSON_VAL_ARRAY [])] [JSON_SCHEMA_OP_DEFINE (text "x")
      JSON_SCHEMA_TYPE_INT true none none] (List.replicate 64 1) 64 fun _ => cell.null).err =
      EINVAL ∧
    c_string (json_validate strtod_digits [(text "x", JSON_VAL_ARRAY [])]
      [JSON_SCHEMA_OP_DEFINE (text "x") JSON_SCHEMA_TYPE_INT true none none]
      (List.replicate 64 1) 64 fun _ => cell.null).buf =
      text "expected INT integer value for key \x60x\x27" ∧
    slots_ok JSON_SCHEMA_TYPE_INT none none = false ∧ EINVAL ≠ ENOTSUP := by
  decide

/-- C21 (amended): a malformed rule that is reached (the rules before it
succeed) makes `json_validate` fail with `ENOTSUP` and the diagnostic
`invalid schema definition`, whatever the object contains, when it is a
Descend or IfEq rule without sub-schema or a rule of unknown kind; a Define
rule that lacks the output pointers its type needs, or whose type is none
of the eight, does so when its key is present and (for one of the eight
types) the value has the tag the type asks for. `ENOTSUP` differs from
`EINVAL`, `ENOMEM` and 0, and no other label formats this diagnostic. -/
theorem malformed_rule (strtod : List Int → conversion double) (obj : json_object)
    (s1 s2 : List json_schema) (buf : List Int) (size : Nat) (mem : Nat → cell)
    (h1 : (json_validate strtod obj s1 buf size mem).err = 0) :
    (∀ key, json_validate strtod obj (s1 ++ JSON_SCHEMA_OP_RECURSIVE key none :: s2)
        buf size mem =
      fail_with ENOTSUP invalid_schema_definition
        (json_validate strtod obj s1 buf size mem).buf size
        (json_validate strtod obj s1 buf size mem).mem) ∧
    (∀ key exp, json_validate strtod obj (s1 ++ JSON_SCHEMA_OP_IFEQ key exp none :: s2)
        buf size mem =
      fail_with ENOTSUP invalid_schema_definition
        (json_validate strtod obj s1 buf size mem).buf size
        (json_validate strtod obj s1 buf size mem).mem) ∧
    (∀ op, json_validate strtod obj (s1 ++ other op :: s2) buf size mem =
      fail_with ENOTSUP invalid_schema_definition
        (json_validate strtod obj s1 buf size mem).buf size
        (json_validate strtod obj s1 buf size mem).mem) ∧
    (∀ key ty req vp lp v, json_get_value obj key = some v →
      (7 < ty ∨ (tag_matches ty v = true ∧ slots_ok ty vp lp = false)) →
      json_validate strtod obj (s1 ++ JSON_SCHEMA_OP_DEFINE key ty req vp lp :: s2)
        buf size mem =
      fail_with ENOTSUP invalid_schema_definition
        (json_validate strtod obj s1 buf size mem).buf size
        (json_validate strtod obj s1 buf size mem).mem) ∧
    ENOTSUP ≠ EINVAL ∧ ENOTSUP ≠ ENOMEM ∧ ENOTSUP ≠ 0 ∧
    (∀ key e, e ≠ fail_schema → e ≠ return_0 →
      (define_label key e).1 ≠ ENOTSUP ∧
      (define_label key e).2.head? ≠ invalid_schema_definition.head?) := by
  have one : ∀ it : json_schema,
      (∀ b m, json_validate strtod obj [it] b size m =
        fail_with ENOTSUP invalid_schema_definition b size m) →
      json_validate strtod obj (s1 ++ it :: s2) buf size mem =
        fail_with ENOTSUP invalid_schema_definition
          (json_validate strtod obj s1 buf size mem).buf size
          (json_validate strtod obj s1 buf size mem).mem := by
    intro it hit
    rw [validate_first_failure strtod obj s1 s2 it buf size mem h1 (by rw [hit]; exact fun h => by cases h), hit]
  refine ⟨fun key => one _ fun b m => ?_, fun key exp => one _ fun b m => ?_,
    fun op => one _ fun b m => ?_, fun key ty req vp lp v hv hbad => one _ fun b m => ?_,
    by decide, by decide, by decide, fun key e he1 he2 => ?_⟩
  · rw [validate_single]; rfl
  · rw [validate_single]; rfl
  · rw [validate_single]; rfl
  · have hb : _define_body strtod obj key ty req vp lp m = (fail_schema, m) := by
      rcases hbad with h | ⟨h, h'⟩
      · exact (define_body_present strtod obj key ty req vp lp m v hv).1 h
      · exact (define_body_present strtod obj key ty req vp lp m v hv).2.2.1 h h'
    rw [define_rule_eq, hb]
    rfl
  · cases e <;> first
      | exact absurd rfl he1
      | exact absurd rfl he2
      | (refine ⟨fun h => ?_, ?_⟩
         · cases h
         · simp [define_label, format_key, text, invalid_schema_definition])

theorem malformed_rule_witness :
    json_validate strtod_digits
      [(text "n", JSON_VAL_LITERAL (text "5")), (text "v", JSON_VAL_ARRAY [])]
      ([JSON_SCHEMA_OP_DEFINE (text "n") JSON_SCHEMA_TYPE_INT true (some 0) none] ++
        JSON_SCHEMA_OP_DEFINE (text "v") JSON_SCHEMA_TYPE_UINT32V true (some 1) none ::
        [JSON_SCHEMA_OP_DEFINE (text "n") JSON_SCHEMA_TYPE_INT true (some 2) none])
      (List.replicate 64 1) 64 (fun _ => cell.null) =
    fail_with ENOTSUP invalid_schema_definition (List.replicate 64 1) 64
      (store (fun _ => cell.null) 0 (cell.int 5)) :=
  (malformed_rule strtod_digits
    [(text "n", JSON_VAL_LITERAL (text "5")), (text "v", JSON_VAL_ARRAY [])]
    [JSON_SCHEMA_OP_DEFINE (text "n") JSON_SCHEMA_TYPE_INT true (some 0) none]
    [JSON_SCHEMA_OP_DEFINE (text "n") JSON_SCHEMA_TYPE_INT true (some 2) none]
    (List.replicate 64 1) 64 (fun _ => cell.null) (by decide)).2.2.2.1 (text "v")
    JSON_SCHEMA_TYPE_UINT32V true (some 1) none (JSON_VAL_ARRAY []) rfl
    (Or.inr ⟨by decide, by decide⟩)

/-! ## The first failing rule of a validation -/

theorem schema_keys_ok_append (s1 s2 : List json_schema) :
    schema_keys_ok (s1 ++ s2) = (schema_keys_ok s1 && schema_keys_ok s2) := by
  induction s1 with
  | nil => simp [schema_keys_ok]
  | cons it s1 ih => simp [schema_keys_ok, ih, Bool.and_assoc]

theorem validate_text_single (strtod : List Int → conversion double) (obj : json_object)
    (it : json_schema) (mem : Nat → cell) :
    validate_text strtod obj [it] mem = switch_text strtod obj it mem := by
  simp only [validate_text, later_text]
  split_ifs <;> rfl

/-- A validation that fails has a first rule that fails: the rules before
it succeed, and the result is that of this rule after them. -/
theorem validate_failure_split (strtod : List Int → conversion double) (obj : json_object)
    (size : Nat) :
    ∀ (schema : List json_schema) (buf : List Int) (mem : Nat → cell),
      (json_validate strtod obj schema buf size mem).err ≠ 0 →
      ∃ s1 it s2, schema = s1 ++ it :: s2 ∧
        (json_validate strtod obj s1 buf size mem).err = 0 ∧
        json_validate strtod obj schema buf size mem =
          json_validate strtod obj [it] (json_validate strtod obj s1 buf size mem).buf size
            (json_validate strtod obj s1 buf size mem).mem ∧
        (json_validate strtod obj [it] (json_validate strtod obj s1 buf size mem).buf size
            (json_validate strtod obj s1 buf size mem).mem).err ≠ 0
  | [], buf, mem, h => absurd rfl h
  | it :: rest, buf, mem, h => by
    by_cases hit : (json_validate strtod obj [it] buf size mem).err = 0
    · have e := validate_append strtod obj [it] rest buf size mem
      have hb : ((json_validate strtod obj [it] buf size mem).err != 0) = false := by
        simp [hit]
      rw [hb] at e
      simp only [Bool.false_eq_true, if_false, List.singleton_append] at e
      rw [e] at h
      obtain ⟨s1, jt, s2, e1, e2, e3, e4⟩ := validate_failure_split strtod obj size rest
        (json_validate strtod obj [it] buf size mem).buf
        (json_validate strtod obj [it] buf size mem).mem h
      have e5 : json_validate strtod obj (it :: s1) buf size mem =
          json_validate strtod obj s1 (json_validate strtod obj [it] buf size mem).buf size
            (json_validate strtod obj [it] buf size mem).mem := by
        have e6 := validate_append strtod obj [it] s1 buf size mem
        rw [hb] at e6
        simpa using e6
      refine ⟨it :: s1, jt, s2, by rw [e1]; rfl, by rw [e5]; exact e2, ?_, ?_⟩
      · rw [e, e5]; exact e3
      · rw [e5]; exact e4
    · refine ⟨[], it, rest, rfl, rfl, ?_, hit⟩
      have e := validate_first_failure strtod obj [] rest it buf size mem rfl hit
      simpa [json_validate] using e

/-- C22 (as stated, refuted): the object is `{ v: [1,2,x] }` and the
schema one required `UINT32V` Define rule for `v` whose value pointer is
the cell 0 and whose length pointer is the cell 1; the caller has set the
first to an array and the second to 1. The rule fails with `EINVAL`, and
the two cells are `NULL` and 0 afterwards: not what the caller put
there. -/
theorem failing_vector_rule_writes_slots :
    (json_validate strtod_digits
      [(text "v", JSON_VAL_ARRAY [JSON_VAL_LITERAL (text "1"), JSON_VAL_LITERAL (text "2"),
        JSON_VAL_LITERAL (text "x")])]
      [JSON_SCHEMA_OP_DEFINE (text "v") JSON_SCHEMA_TYPE_UINT32V true (some 0) (some 1)]
      (List.replicate 64 1) 64
      (fun a => if a = 0 then cell.uint32v [7] else cell.length 1)).err = EINVAL ∧
    (json_validate strtod_digits
      [(text "v", JSON_VAL_ARRAY [JSON_VAL_LITERAL (text "1"), JSON_VAL_LITERAL (text "2"),
        JSON_VAL_LITERAL (text "x")])]
      [JSON_SCHEMA_OP_DEFINE (text "v") JSON_SCHEMA_TYPE_UINT32V true (some 0) (some 1)]
      (List.replicate 64 1) 64
      (fun a => if a = 0 then cell.uint32v [7] else cell.length 1)).mem 0 = cell.null ∧
    (json_validate strtod_digits
      [(text "v", JSON_VAL_ARRAY [JSON_VAL_LITERAL (text "1"), JSON_VAL_LITERAL (text "2"),
        JSON_VAL_LITERAL (text "x")])]
      [JSON_SCHEMA_OP_DEFINE (text "v") JSON_SCHEMA_TYPE_UINT32V true (some 0) (some 1)]
      (List.replicate 64 1) 64
      (fun a => if a = 0 then cell.uint32v [7] else cell.length 1)).mem 1 = cell.length 0 ∧
    cell.null ≠ cell.uint32v [7] ∧ cell.length 0 ≠ cell.length 1 :=
  ⟨by decide, rfl, rfl, fun h => (by cases h), fun h => (by cases h)⟩

/-- C22 (amended): `json_validate` leaves every cell that is not an output
pointer of a Define rule of the schema (at any depth) as the caller set
it. A Define rule whose key is absent writes no cell. A Define rule that
fails on a present key writes no cell when its type is not a vector type,
when the value has not the tag of the type, or when the rule lacks an
output pointer; a vector Define rule with both pointers that fails on an
Array sets the value pointer to `NULL` and the length to 0. The rules after
the first failing rule are not evaluated: the result is that of the
failing rule after the rules before it. -/
theorem validate_output_slots (strtod : List Int → conversion double) (obj : json_object) :
    (∀ schema buf size mem a, a ∉ schema_slots schema →
      (json_validate strtod obj schema buf size mem).mem a = mem a) ∧
    (∀ key ty req vp lp buf size mem, json_get_value obj key = none →
      (json_validate strtod obj [JSON_SCHEMA_OP_DEFINE key ty req vp lp] buf size mem).mem =
        mem) ∧
    (∀ key ty req vp lp buf size mem v, json_get_value obj key = some v →
      (json_validate strtod obj [JSON_SCHEMA_OP_DEFINE key ty req vp lp] buf size mem).err ≠ 0 →
      (is_vector_type ty = false ∨ tag_matches ty v = false ∨ slots_ok ty vp lp = false) →
      (json_validate strtod obj [JSON_SCHEMA_OP_DEFINE key ty req vp lp] buf size mem).mem =
        mem) ∧
    (∀ key ty req p q buf size mem v, json_get_value obj key = some v →
      (json_validate strtod obj [JSON_SCHEMA_OP_DEFINE key ty req (some p) (some q)]
        buf size mem).err ≠ 0 →
      is_vector_type ty = true → tag_matches ty v = true →
      (json_validate strtod obj [JSON_SCHEMA_OP_DEFINE key ty req (some p) (some q)]
        buf size mem).mem = store (store mem p cell.null) q (cell.length 0)) ∧
    (∀ s1 it s2 buf size mem, (json_validate strtod obj s1 buf size mem).err = 0 →
      (json_validate strtod obj [it] (json_validate strtod obj s1 buf size mem).buf size
        (json_validate strtod obj s1 buf size mem).mem).err ≠ 0 →
      json_validate strtod obj (s1 ++ it :: s2) buf size mem =
        json_validate strtod obj [it] (json_validate strtod obj s1 buf size mem).buf size
          (json_validate strtod obj s1 buf size mem).mem) := by
  have hexit : ∀ key ty req vp lp buf size mem,
      (json_validate strtod obj [JSON_SCHEMA_OP_DEFINE key ty req vp lp] buf size mem).err ≠ 0 →
      (_define_body strtod obj key ty req vp lp mem).1 ≠ return_0 := by
    intro key ty req vp lp buf size mem he h0
    rw [(define_rule_mem strtod obj key ty req vp lp buf size mem).2, h0] at he
    exact he rfl
  refine ⟨fun schema buf size mem a ha => validate_frame strtod obj a schema buf size mem ha,
    ?_, ?_, ?_, fun s1 it s2 buf size mem h1 h2 =>
      validate_first_failure strtod obj s1 s2 it buf size mem h1 h2⟩
  · intro key ty req vp lp buf size mem habs
    rw [(define_rule_mem strtod obj key ty req vp lp buf size mem).1]
    simp only [_define_body, habs]
    split_ifs <;> rfl
  · intro key ty req vp lp buf size mem v hv he hcase
    have hx := hexit key ty req vp lp buf size mem he
    have hp := define_body_present strtod obj key ty req vp lp mem v hv
    rw [(define_rule_mem strtod obj key ty req vp lp buf size mem).1]
    rcases hcase with h | h | h
    · exact hp.2.2.2.1 h hx
    · exact (hp.2.1 h).1
    · by_cases ht : tag_matches ty v = true
      · rw [hp.2.2.1 ht h]
      · exact (hp.2.1 (by simpa using ht)).1
  · intro key ty req p q buf size mem v hv he hvec htag
    have hx := hexit key ty req (some p) (some q) buf size mem he
    rw [(define_rule_mem strtod obj key ty req (some p) (some q) buf size mem).1]
    exact (define_body_present strtod obj key ty req (some p) (some q) mem v hv).2.2.2.2
      p q hvec htag rfl rfl hx

theorem validate_output_slots_witness :
    (json_validate strtod_digits
      [(text "n", JSON_VAL_LITERAL (text "x")), (text "v", JSON_VAL_ARRAY [])]
      [JSON_SCHEMA_OP_DEFINE (text "n") JSON_SCHEMA_TYPE_INT true (some 0) none]
      (List.replicate 64 1) 64 (fun _ => cell.int 7)).mem = (fun _ => cell.int 7) ∧
    (json_validate strtod_digits
      [(text "n", JSON_VAL_LITERAL (text "x")), (text "v", JSON_VAL_ARRAY [])]
      [JSON_SCHEMA_OP_DEFINE (text "v") JSON_SCHEMA_TYPE_UINT32V true (some 0) (some 1),
        JSON_SCHEMA_OP_DEFINE (text "n") JSON_SCHEMA_TYPE_INT true (some 2) none]
      (List.replicate 64 1) 64 (fun _ => cell.int 7)).mem 3 = cell.int 7 :=
  have h := validate_output_slots strtod_digits
    [(text "n", JSON_VAL_LITERAL (text "x")), (text "v", JSON_VAL_ARRAY [])]
  ⟨h.2.2.1 (text "n") JSON_SCHEMA_TYPE_INT true (some 0) none (List.replicate 64 1) 64
      (fun _ => cell.int 7) (JSON_VAL_LITERAL (text "x")) rfl (by decide) (Or.inl rfl),
   h.1 _ (List.replicate 64 1) 64 (fun _ => cell.int 7) 3 (by decide)⟩

/-- C23: for every object, every schema whose keys are texts, and every
buffer of `size` characters with `size` at least 2: when `json_validate`
returns a status other than 0, that status is `EINVAL`, `ENOTSUP` or
`ENOMEM`, the text in the buffer is not empty, and it is the diagnostic of
the first rule that fails: the rules before it succeed, the result of the
call is that of this rule, and the buffer holds the first `size - 1`
characters of the (non-empty) message that this rule formats. -/
theorem validate_failure_message (strtod : List Int → conversion double) (obj : json_object)
    (schema : List json_schema) (buf : List Int) (size : Nat) (mem : Nat → cell)
    (hk : schema_keys_ok schema = true) (h2 : 2 ≤ size) (hs : size ≤ buf.length)
    (he : (json_validate strtod obj schema buf size mem).err ≠ 0) :
    c_string (json_validate strtod obj schema buf size mem).buf ≠ [] ∧
    ((json_validate strtod obj schema buf size mem).err = EINVAL ∨
      (json_validate strtod obj schema buf size mem).err = ENOTSUP ∨
      (json_validate strtod obj schema buf size mem).err = ENOMEM) ∧
    ∃ s1 it s2 m, schema = s1 ++ it :: s2 ∧
      (json_validate strtod obj s1 buf size mem).err = 0 ∧
      json_validate strtod obj schema buf size mem =
        json_validate strtod obj [it] (json_validate strtod obj s1 buf size mem).buf size
          (json_validate strtod obj s1 buf size mem).mem ∧
      switch_text strtod obj it (json_validate strtod obj s1 buf size mem).mem = some m ∧
      m ≠ [] ∧
      c_string (json_validate strtod obj schema buf size mem).buf = m.take (size - 1) := by
  obtain ⟨s1, it, s2, e1, e2, e3, e4⟩ := validate_failure_split strtod obj size schema buf mem he
  have hk2 : schema_keys_ok s1 = true ∧ schema_keys_ok [it] = true := by
    rw [e1, schema_keys_ok_append] at hk
    have hk3 : schema_keys_ok (it :: s2) = true := (Bool.and_eq_true _ _ ▸ hk).2
    simp only [schema_keys_ok, Bool.and_eq_true] at hk3 ⊢
    exact ⟨(Bool.and_eq_true _ _ ▸ hk).1, hk3.1, trivial⟩
  have w1 := validate_writes_text strtod obj s1 buf size mem hk2.1 hs
  have w2 := validate_writes_text strtod obj [it]
    (json_validate strtod obj s1 buf size mem).buf size
    (json_validate strtod obj s1 buf size mem).mem hk2.2 (by rw [w1.1]; exact hs)
  rw [validate_text_single] at w2
  obtain ⟨_, _, _, w4, w5, w6, w7⟩ := w2
  rcases ht : switch_text strtod obj it (json_validate strtod obj s1 buf size mem).mem with
    _ | m
  · exact absurd ht (w6 e4)
  · have hm := w5 m ht
    have ec := w4 m ht (by omega)
    have hne : m.take (size - 1) ≠ [] := by
      cases m with
      | nil => exact absurd rfl hm
      | cons c m =>
        obtain ⟨k, hk⟩ : ∃ k, size - 1 = k + 1 := ⟨size - 2, by omega⟩
        rw [hk]; simp
    refine ⟨by rw [e3, ec]; exact hne, ?_, s1, it, s2, m, e1, e2, e3, ht, hm,
      by rw [e3, ec]⟩
    rw [e3]
    rcases w7 with h | h
    · exact absurd h e4
    · exact h

theorem validate_failure_message_witness :
    c_string (json_validate strtod_digits [(text "n", JSON_VAL_LITERAL (text "x"))]
      [JSON_SCHEMA_OP_DEFINE (text "n") JSON_SCHEMA_TYPE_INT true (some 0) none]
      (List.replicate 12 1) 12 (fun _ => cell.null)).buf ≠ [] ∧
    c_string (json_validate strtod_digits [(text "n", JSON_VAL_LITERAL (text "x"))]
      [JSON_SCHEMA_OP_DEFINE (text "n") JSON_SCHEMA_TYPE_INT true (some 0) none]
      (List.replicate 12 1) 12 (fun _ => cell.null)).buf = text "expected IN" :=
  have h := validate_failure_message strtod_digits [(text "n", JSON_VAL_LITERAL (text "x"))]
    [JSON_SCHEMA_OP_DEFINE (text "n") JSON_SCHEMA_TYPE_INT true (some 0) none]
    (List.replicate 12 1) 12 (fun _ => cell.null) (by decide) (by decide) (by decide)
    (by decide)
  ⟨h.1, by decide⟩

/-- C24: for every object, every schema whose keys are texts (with any
nesting of Descend and IfEq rules), and every buffer of `size` characters
with `size` at least 1: `json_validate` changes no character at an index
from `size` on; when the call formats no message the buffer is as it was;
when it formats one, the buffer holds a text of at most `size - 1`
characters followed by NUL, this text is the first `size - 1` characters
of the message `m`, hence a prefix of it and the whole of it when `m` is
shorter than `size`; and `m` is the text that the same call leaves in any
buffer with more characters than `m` has. -/
theorem validate_truncates (strtod : List Int → conversion double) (obj : json_object)
    (schema : List json_schema) (buf : List Int) (size : Nat) (mem : Nat → cell)
    (hk : schema_keys_ok schema = true) (h1 : 1 ≤ size) (hs : size ≤ buf.length) :
    (json_validate strtod obj schema buf size mem).buf.length = buf.length ∧
    (∀ i, size ≤ i → (json_validate strtod obj schema buf size mem).buf[i]? = buf[i]?) ∧
    (validate_text strtod obj schema mem = none →
      (json_validate strtod obj schema buf size mem).buf = buf) ∧
    ((json_validate strtod obj schema buf size mem).err ≠ 0 →
      validate_text strtod obj schema mem ≠ none) ∧
    ∀ m, validate_text strtod obj schema mem = some m →
      (c_string (json_validate strtod obj schema buf size mem).buf).length ≤ size - 1 ∧
      (json_validate strtod obj schema buf size mem).buf[
        (c_string (json_validate strtod obj schema buf size mem).buf).length]? = some 0 ∧
      c_string (json_validate strtod obj schema buf size mem).buf = m.take (size - 1) ∧
      c_string (json_validate strtod obj schema buf size mem).buf <+: m ∧
      (m.length < size → c_string (json_validate strtod obj schema buf size mem).buf = m) ∧
      ∀ (big : List Int) (n : Nat), m.length < n → n ≤ big.length →
        c_string (json_validate strtod obj schema big n mem).buf = m := by
  obtain ⟨w1, w2, w3, w4, _, w6, _⟩ := validate_writes_text strtod obj schema buf size mem hk hs
  refine ⟨w1, fun i hi => ?_, fun h => w3 (Or.inl h), w6, fun m hm => ?_⟩
  · have e : i = size + (i - size) := by omega
    rw [e, ← List.getElem?_drop, ← List.getElem?_drop, w2]
  · have ec := w4 m hm (by omega)
    have hl : (c_string (json_validate strtod obj schema buf size mem).buf).length ≤ size - 1 := by
      rw [ec, List.length_take]; exact Nat.min_le_left _ _
    refine ⟨hl, c_string_terminator _ (by omega), ec, by rw [ec]; exact List.take_prefix _ _,
      fun hlt => by rw [ec]; exact List.take_of_length_le (show m.length ≤ size - 1 by omega),
      fun big n hn hb => ?_⟩
    have w := (validate_writes_text strtod obj schema big n mem hk hb).2.2.2.1 m hm (by omega)
    rw [w]
    exact List.take_of_length_le (show m.length ≤ n - 1 by omega)

theorem validate_truncates_witness :
    c_string (json_validate strtod_digits
      [(text "a", JSON_VAL_OBJECT [(text "n", JSON_VAL_LITERAL (text "x"))])]
      [JSON_SCHEMA_OP_RECURSIVE (text "a")
        (some [JSON_SCHEMA_OP_DEFINE (text "n") JSON_SCHEMA_TYPE_INT true (some 0) none])]
      (List.replicate 20 1) 12 (fun _ => cell.null)).buf = text "in \x60a\x27: exp" ∧
    (json_validate strtod_digits
      [(text "a", JSON_VAL_OBJECT [(text "n", JSON_VAL_LITERAL (text "x"))])]
      [JSON_SCHEMA_OP_RECURSIVE (text "a")
        (some [JSON_SCHEMA_OP_DEFINE (text "n") JSON_SCHEMA_TYPE_INT true (some 0) none])]
      (List.replicate 20 1) 12 (fun _ => cell.null)).buf = 
      text "in \x60a\x27: exp" ++ 0 :: List.replicate 8 1 ∧
    c_string (json_validate strtod_digits
      [(text "a", JSON_VAL_OBJECT [(text "n", JSON_VAL_LITERAL (text "x"))])]
      [JSON_SCHEMA_OP_RECURSIVE (text "a")
        (some [JSON_SCHEMA_OP_DEFINE (text "n") JSON_SCHEMA_TYPE_INT true (some 0) none])]
      (List.replicate 64 1) 64 (fun _ => cell.null)).buf =
      text "in \x60a\x27: expected INT integer value for key \x60n\x27" :=
  have h := validate_truncates strtod_digits
    [(text "a", JSON_VAL_OBJECT [(text "n", JSON_VAL_LITERAL (text "x"))])]
    [JSON_SCHEMA_OP_RECURSIVE (text "a")
      (some [JSON_SCHEMA_OP_DEFINE (text "n") JSON_SCHEMA_TYPE_INT true (some 0) none])]
    (List.replicate 20 1) 12 (fun _ => cell.null) (by decide) (by decide) (by decide)
  ⟨(h.2.2.2.2 (text "in \x60a\x27: expected INT integer value for key \x60n\x27")
      (by decide)).2.2.1.trans (by decide), by decide,
    (h.2.2.2.2 (text "in \x60a\x27: expected INT integer value for key \x60n\x27")
      (by decide)).2.2.2.2.2 (List.replicate 64 1) 64 (by decide) (by decide)⟩

/-! ## The scan of an unquoted literal -/

theorem char_of_byte_literal {b : Int} (h : _is_literal_char (char_of_byte b) = true) :
    (char_of_byte b != EOF) = true ∧ b % 256 = char_of_byte b := by
  have h1 := literal_char_ascii h
  unfold char_of_byte char_of_int at *
  split_ifs at h1 ⊢ with h2
  · omega
  · refine ⟨?_, rfl⟩
    simp only [EOF, bne_iff_ne, ne_eq]
    omega

theorem char_of_byte_of_byte {b : Int} (h0 : 0 ≤ b) (h1 : b ≤ 255) : b % 256 = b := by omega

theorem is_bytes_cons (b : Int) (data : List Int) :
    is_bytes (b :: data) = true ↔ (0 ≤ b ∧ b ≤ 255) ∧ is_bytes data = true := by
  simp [is_bytes]

theorem is_bytes_append (a b : List Int) :
    is_bytes (a ++ b) = true ↔ is_bytes a = true ∧ is_bytes b = true := by
  simp [is_bytes, List.all_append]

/-- The loop of `_consume_literal` stores the longest run of literal
characters and stops at the character after it, when the buffer has room. -/
theorem literal_loop_scan (f : FILE) :
    ∀ (data buf : List Int),
      buf.length + ((data.map char_of_byte).takeWhile _is_literal_char).length ≤ 64 →
      _consume_literal_loop f data buf =
        ((next_char f (data.drop ((data.map char_of_byte).takeWhile _is_literal_char).length)).1,
          (next_char f (data.drop ((data.map char_of_byte).takeWhile _is_literal_char).length)).2,
          buf ++ (data.map char_of_byte).takeWhile _is_literal_char)
  | [], buf, _ => by simp [_consume_literal_loop, next_char]
  | b :: rest, buf, h => by
    by_cases hl : _is_literal_char (char_of_byte b) = true
    · have h1 := char_of_byte_literal hl
      have e : ((b :: rest).map char_of_byte).takeWhile _is_literal_char =
          char_of_byte b :: (rest.map char_of_byte).takeWhile _is_literal_char := by
        simp [List.takeWhile_cons, hl]
      rw [e] at h ⊢
      simp only [List.length_cons] at h
      have hw : WRITECHAR buf (char_of_byte b) = (true, buf ++ [char_of_byte b]) :=
        WRITECHAR_ok _ (by omega)
      have ih := literal_loop_scan f rest (buf ++ [char_of_byte b])
        (by simp only [List.length_append, List.length_singleton]; omega)
      have hl2 : _is_literal_char (char_of_int (b % 256)) = true := hl
      have h12 : (char_of_int (b % 256) != EOF) = true := h1.1
      have hw2 : WRITECHAR buf (char_of_int (b % 256)) = (true, buf ++ [char_of_byte b]) := hw
      simp only [_consume_literal_loop, hl2, h12, hw2, Bool.and_self, if_true,
        List.length_cons, List.drop_succ_cons]
      rw [ih]
      simp
    · have hl2 : _is_literal_char (char_of_int (b % 256)) = false := by
        simpa [char_of_byte] using hl
      have e : ((b :: rest).map char_of_byte).takeWhile _is_literal_char = [] := by
        simp [List.takeWhile_cons, hl]
      rw [e]
      simp [_consume_literal_loop, hl2, next_char]

/-- The bytes of a run of literal characters are the characters. -/
theorem literal_run_bytes :
    ∀ (data : List Int), is_bytes data = true →
      (data.map char_of_byte).takeWhile _is_literal_char =
        data.take ((data.map char_of_byte).takeWhile _is_literal_char).length
  | [], _ => rfl
  | b :: rest, h => by
    rw [is_bytes_cons] at h
    by_cases hl : _is_literal_char (char_of_byte b) = true
    · have h1 := char_of_byte_literal hl
      have e : ((b :: rest).map char_of_byte).takeWhile _is_literal_char =
          char_of_byte b :: (rest.map char_of_byte).takeWhile _is_literal_char := by
        simp [List.takeWhile_cons, hl]
      rw [e]
      simp only [List.length_cons, List.take_succ_cons]
      rw [← literal_run_bytes rest h.2, ← h1.2, char_of_byte_of_byte h.1.1 h.1.2]
    · have e : ((b :: rest).map char_of_byte).takeWhile _is_literal_char = [] := by
        simp [List.takeWhile_cons, hl]
      rw [e]; rfl

theorem literal_first_facts {c : Int} (hc : (isalpha c || c == 95) = true) :
    0 ≤ c ∧ c ≤ 127 ∧ isspace c = false ∧ _is_literal_char c = true := by
  simp only [isalpha, isspace, _is_literal_char, isascii, isdigit, Bool.or_eq_true,
    Bool.and_eq_true, decide_eq_true_eq, beq_iff_eq] at hc ⊢
  refine ⟨by omega, by omega, ?_, ?_⟩
  · simp only [Bool.or_eq_false_iff, beq_eq_false_iff_ne, ne_eq, Bool.and_eq_false_iff,
      decide_eq_false_iff_not, not_le]
    omega
  · rcases hc with (⟨h1, h2⟩ | ⟨h1, h2⟩) | h
    · exact ⟨⟨by omega, by omega⟩, Or.inl (Or.inl (Or.inl ⟨h1, h2⟩))⟩
    · exact ⟨⟨by omega, by omega⟩, Or.inl (Or.inl (Or.inr ⟨h1, h2⟩))⟩
    · exact ⟨⟨by omega, by omega⟩, Or.inr h⟩

/-- The token and the handle that `json_consume_token` gives at an unquoted
literal. -/
theorem consume_unquoted_scan (d : json_doc) (ws : List Int) (c : Int) (more : List Int)
    (hp : Pending d (ws ++ c :: more)) (hws : ws.all isspace = true)
    (hc : (isalpha c || c == 95) = true)
    (hlen : ((more.map char_of_byte).takeWhile _is_literal_char).length ≤ 62) :
    ∃ line, json_consume_token d =
      (0, lit_tok (c :: (more.map char_of_byte).takeWhile _is_literal_char),
        { d with
          jdoc_lineno := line
          jdoc_f := (next_char d.jdoc_f
            (more.drop ((more.map char_of_byte).takeWhile _is_literal_char).length)).2
          jdoc_nextc := (next_char d.jdoc_f
            (more.drop ((more.map char_of_byte).takeWhile _is_literal_char).length)).1
          jdoc_nextc_avail := true }) := by
  obtain ⟨h0, h1, hns, _⟩ := literal_first_facts hc
  obtain ⟨line, e⟩ := consume_pending d ws c more hp hws h0 h1 hns
  refine ⟨line, ?_⟩
  rw [e, token_switch_literal _ _ hc]
  have hw : WRITECHAR [] c = (true, [c]) := WRITECHAR_ok c (by simp)
  have hs := literal_loop_scan (d.jdoc_f.at more) more [c]
    (by simp only [List.length_singleton]; omega)
  have hw0 : (WRITECHAR ([c] ++ (more.map char_of_byte).takeWhile _is_literal_char) 0).1 =
      true := by
    rw [WRITECHAR_ok]
    simp only [List.length_append, List.length_singleton]; omega
  simp only [_consume_literal, hw, FILE.data_at, hs, hw0, Bool.not_true, Bool.false_eq_true,
    if_false, RETURN_TOKEN_LIT, lit_tok, List.singleton_append]
  have e1 : ∀ t, (next_char (d.jdoc_f.at more) t) = next_char d.jdoc_f t := by
    intro t; cases t <;> simp [next_char, FILE.atEnd_at, FILE.at_at]
  simp only [e1]
  rw [List.singleton_append] at hw0
  simp [hw0]

/-! ## Quoted literals: what the loop accepts -/

theorem char_of_byte_eq {b : Int} (h0 : 0 ≤ b) (h1 : b ≤ 255) :
    char_of_int (b % 256) = if 128 ≤ b then b - 256 else b := by
  rw [char_of_byte_of_byte h0 h1]; rfl

theorem string_char_byte {b : Int} (h0 : 0 ≤ b) (h1 : b ≤ 255)
    (h : _is_literal_string_char (char_of_int (b % 256)) = true) :
    char_of_int (b % 256) = b ∧ 32 ≤ b ∧ b ≤ 126 := by
  rw [char_of_byte_eq h0 h1] at h ⊢
  simp only [_is_literal_string_char, isascii, isprint, Bool.and_eq_true,
    decide_eq_true_eq] at h
  split_ifs at h ⊢ <;> omega

/-- A byte that is read as `EOF` ends the loop. -/
theorem string_loop_eof_byte (f : FILE) (b : Int) (rest buf : List Int)
    (h : char_of_int (b % 256) = EOF) :
    _consume_literal_string_loop f (b :: rest) buf = .out EOF (f.at rest) buf := by
  cases rest <;> simp [_consume_literal_string_loop, h]

/-- A character that is not printable ASCII, outside an escape, is the
lexical error. -/
theorem string_loop_bad_plain (f : FILE) (b : Int) (rest buf : List Int)
    (h1 : char_of_int (b % 256) ≠ EOF) (h2 : char_of_int (b % 256) ≠ 34)
    (h3 : _is_literal_string_char (char_of_int (b % 256)) = false) :
    _consume_literal_string_loop f (b :: rest) buf = .ret EINVAL (f.at rest) := by
  have h4 : char_of_int (b % 256) ≠ 92 := by
    intro h; rw [h] at h3; exact absurd h3 (by decide)
  cases rest <;> simp [_consume_literal_string_loop, h1, h2, h3, h4]

/-- End of input directly after a backslash ends the loop with `EOF`. -/
theorem string_loop_escape_end (f : FILE) (buf : List Int) :
    _consume_literal_string_loop f [92] buf = .out (char_of_int EOF) f.atEnd buf := by
  simp [_consume_literal_string_loop, char_of_int, EOF]

/-- A byte read as `EOF` after a backslash ends the loop. -/
theorem string_loop_escape_eof (f : FILE) (b : Int) (rest buf : List Int)
    (h : char_of_int (b % 256) = EOF) :
    _consume_literal_string_loop f (92 :: b :: rest) buf = .out EOF (f.at rest) buf := by
  have h92 : char_of_int 92 = 92 := by decide
  simp [_consume_literal_string_loop, h, h92, EOF]

/-- A character that is not printable ASCII after a backslash is the
lexical error. -/
theorem string_loop_escape_bad (f : FILE) (b : Int) (rest buf : List Int)
    (h1 : char_of_int (b % 256) ≠ EOF)
    (h3 : _is_literal_string_char (char_of_int (b % 256)) = false) :
    _consume_literal_string_loop f (92 :: b :: rest) buf = .ret EINVAL (f.at rest) := by
  have h92 : char_of_int 92 = 92 := by decide
  have e1 : ¬ ((92 : Int) = EOF) := by decide
  simp [_consume_literal_string_loop, h1, h3, h92, e1]

/-- When the loop of `_consume_literal_string` is left at a character other
than `EOF`, the bytes read are the body of a quoted literal and the closing
quote. -/
theorem string_loop_inv (f : FILE) (n : Nat) :
    ∀ (data buf : List Int), data.length ≤ n → is_bytes data = true →
      ∀ c f' buf', _consume_literal_string_loop f data buf = .out c f' buf' → c ≠ EOF →
      ∃ items rest, data = quoted_body items ++ 34 :: rest ∧
        items.all quoted_item_ok = true ∧ buf' = buf ++ items.map Prod.snd ∧
        f' = f.at rest ∧ c = 34 := by
  have heof : char_of_int EOF = EOF := by decide
  induction n with
  | zero =>
    intro data buf hn _ c f' buf' h hc
    have : data = [] := List.length_eq_zero.mp (by omega)
    subst this
    simp only [_consume_literal_string_loop, string_exit.out.injEq] at h
    exact absurd (h.1.symm.trans heof) hc
  | succ n ih =>
    intro data buf hn hb c f' buf' h hc
    cases data with
    | nil =>
      simp only [_consume_literal_string_loop, string_exit.out.injEq] at h
      exact absurd (h.1.symm.trans heof) hc
    | cons b rest =>
      rw [is_bytes_cons] at hb
      obtain ⟨⟨b0, b1⟩, hbr⟩ := hb
      simp only [List.length_cons] at hn
      by_cases h34 : b = 34
      · subst h34
        rw [string_loop_close] at h
        simp only [string_exit.out.injEq] at h
        exact ⟨[], rest, by simp [quoted_body], by simp, by simp [h.2.2], h.2.1.symm,
          h.1.symm⟩
      · by_cases he : char_of_int (b % 256) = EOF
        · rw [string_loop_eof_byte f b rest buf he] at h
          simp only [string_exit.out.injEq] at h
          exact absurd h.1.symm hc
        · by_cases h92 : b = 92
          · subst h92
            cases rest with
            | nil =>
              rw [string_loop_escape_end] at h
              simp only [string_exit.out.injEq] at h
              exact absurd (h.1.symm.trans heof) hc
            | cons b2 rest2 =>
              rw [is_bytes_cons] at hbr
              obtain ⟨⟨c0, c1⟩, hbr2⟩ := hbr
              simp only [List.length_cons] at hn
              by_cases he2 : char_of_int (b2 % 256) = EOF
              · rw [string_loop_escape_eof f b2 rest2 buf he2] at h
                simp only [string_exit.out.injEq] at h
                exact absurd h.1.symm hc
              · by_cases hp : _is_literal_string_char (char_of_int (b2 % 256)) = true
                · obtain ⟨e1, e2, e3⟩ := string_char_byte c0 c1 hp
                  rw [string_loop_escape f b2 rest2 buf e2 e3] at h
                  split_ifs at h with hlen
                  obtain ⟨items, rest', i1, i2, i3, i4, i5⟩ :=
                    ih rest2 (buf ++ [b2]) (by omega) hbr2 c f' buf' h hc
                  refine ⟨(true, b2) :: items, rest', by simp [quoted_body, i1], ?_,
                    by simp [i3], i4, i5⟩
                  simp only [List.all_cons, i2, Bool.and_true]
                  rw [e1] at hp
                  simp [quoted_item_ok, hp]
                · rw [string_loop_escape_bad f b2 rest2 buf he2 (by simpa using hp)] at h
                  cases h
          · by_cases hp : _is_literal_string_char (char_of_int (b % 256)) = true
            · obtain ⟨e1, e2, e3⟩ := string_char_byte b0 b1 hp
              rw [string_loop_plain f b rest buf e2 e3 h34 h92] at h
              split_ifs at h with hlen
              obtain ⟨items, rest', i1, i2, i3, i4, i5⟩ :=
                ih rest (buf ++ [b]) (by omega) hbr c f' buf' h hc
              refine ⟨(false, b) :: items, rest', by simp [quoted_body, i1], ?_,
                by simp [i3], i4, i5⟩
              simp only [List.all_cons, i2, Bool.and_true]
              rw [e1] at hp
              simp [quoted_item_ok, hp, h34, h92]
            · have hne : char_of_int (b % 256) ≠ 34 := by
                rw [char_of_byte_eq b0 b1]
                split_ifs <;> omega
              rw [string_loop_bad_plain f b rest buf he hne (by simpa using hp)] at h
              cases h

/-! ## Quoted literals: the token -/

/-- The only status that the loop of `_consume_literal_string` returns is
`EINVAL`. -/
theorem string_loop_ret (f : FILE) (n : Nat) :
    ∀ (data buf : List Int), data.length ≤ n →
      ∀ err f', _consume_literal_string_loop f data buf = .ret err f' → err = EINVAL := by
  induction n with
  | zero =>
    intro data buf hn err f' h
    have : data = [] := List.length_eq_zero.mp (by omega)
    subst this
    simp [_consume_literal_string_loop] at h
  | succ n ih =>
    intro data buf hn err f' h
    cases data with
    | nil => simp [_consume_literal_string_loop] at h
    | cons b rest =>
      cases rest with
      | nil =>
        simp only [_consume_literal_string_loop] at h
        split_ifs at h <;> first
          | (cases h; done)
          | (cases h; rfl)
      | cons b2 rest =>
        simp only [List.length_cons] at hn
        simp only [_consume_literal_string_loop] at h
        split_ifs at h <;> first
          | (cases h; done)
          | (cases h; rfl)
          | exact ih _ _ (by simp only [List.length_cons]; omega) err f' h
          | exact ih _ _ (by omega) err f' h

/-- The status of `_consume_literal_string` from the way its loop is left. -/
theorem consume_literal_string_status (doc : json_doc) (c : Int) :
    (∀ err f', _consume_literal_string_loop doc.jdoc_f doc.jdoc_f.data [] = .ret err f' →
      _consume_literal_string doc c = (EINVAL, ⟨JSON_TOK_ERR, none⟩, { doc with jdoc_f := f' })) ∧
    (∀ f' buf, _consume_literal_string_loop doc.jdoc_f doc.jdoc_f.data [] = .out EOF f' buf →
      _consume_literal_string doc c =
        (if feof f' then EINVAL else EIO, ⟨JSON_TOK_ERR, none⟩, { doc with jdoc_f := f' })) ∧
    (∀ x f' buf, _consume_literal_string_loop doc.jdoc_f doc.jdoc_f.data [] = .out x f' buf →
      x ≠ EOF →
      _consume_literal_string doc c =
        if buf.length < 64 then (0, lit_tok buf, { doc with jdoc_f := f' })
        else (EINVAL, ⟨JSON_TOK_ERR, none⟩, { doc with jdoc_f := f' })) := by
  refine ⟨fun err f' h => ?_, fun f' buf h => ?_, fun x f' buf h hx => ?_⟩
  · have e := string_loop_ret doc.jdoc_f _ _ _ (le_refl _) err f' h
    subst e
    simp [_consume_literal_string, h, RETURN_TOKEN_ERROR]
  · simp [_consume_literal_string, h, RETURN_TOKEN_ERROR]
  · have hx2 : (x == EOF) = false := by simpa using hx
    by_cases hb : buf.length < 64
    · simp [_consume_literal_string, h, hx2, WRITECHAR_ok (0 : Int) hb, hb, RETURN_TOKEN_LIT,
        lit_tok]
    · simp [_consume_literal_string, h, hx2,
        WRITECHAR_full (0 : Int) (show 64 ≤ buf.length by omega), hb, RETURN_TOKEN_ERROR]

/-- A success of `_consume_literal_string` read the body of a quoted
literal that keeps at most 63 characters, and the closing quote. -/
theorem consume_literal_string_inv (doc : json_doc) (c : Int)
    (hb : is_bytes doc.jdoc_f.data = true) (h : (_consume_literal_string doc c).1 = 0) :
    ∃ items rest, doc.jdoc_f.data = quoted_body items ++ 34 :: rest ∧
      items.all quoted_item_ok = true ∧ items.length ≤ 63 := by
  obtain ⟨s1, s2, s3⟩ := consume_literal_string_status doc c
  rcases hl : _consume_literal_string_loop doc.jdoc_f doc.jdoc_f.data [] with
    ⟨err, f'⟩ | ⟨x, f', buf⟩
  · rw [s1 err f' hl] at h; cases h
  · by_cases hx : x = EOF
    · subst hx
      rw [s2 f' buf hl] at h
      split_ifs at h <;> cases h
    · rw [s3 x f' buf hl hx] at h
      split_ifs at h with hlen
      · obtain ⟨items, rest, i1, i2, i3, _, _⟩ :=
          string_loop_inv doc.jdoc_f _ _ [] (le_refl _) hb x f' buf hl hx
        refine ⟨items, rest, i1, i2, ?_⟩
        rw [i3] at hlen
        simp only [List.nil_append, List.length_map] at hlen
        omega
      · cases h

theorem drop_takeWhile_head (p : Int → Bool) (g : Int → Int) :
    ∀ (l : List Int) (b : Int) (rest : List Int),
      l.drop ((l.map g).takeWhile p).length = b :: rest → p (g b) = false
  | [], b, rest, h => by simp at h
  | a :: l, b, rest, h => by
    by_cases hp : p (g a) = true
    · have e : ((a :: l).map g).takeWhile p = g a :: (l.map g).takeWhile p := by
        simp [List.takeWhile_cons, hp]
      rw [e] at h
      simp only [List.length_cons, List.drop_succ_cons] at h
      exact drop_takeWhile_head p g l b rest h
    · have e : ((a :: l).map g).takeWhile p = [] := by
        simp [List.takeWhile_cons, hp]
      rw [e] at h
      simp only [List.length_nil, List.drop_zero, List.cons.injEq] at h
      rw [← h.1]; simpa using hp

/-- C29: at a lexeme that starts with an ASCII letter or an underscore
(after optional whitespace), when the first character and the longest run
of ASCII letters, digits and underscores after it count at most 63
characters, `json_consume_token` returns status 0 and the literal token
whose text is that prefix of the lexeme; the character after it is not a
literal character (or the input ends). The character that ended the scan
is kept in `jdoc_nextc`: the next call takes it as its first character
instead of reading one, so that a punctuation character that ends the
literal is the next token. `test`, `_test`, `__test_1` and `abc0` are
accepted as keys. -/
theorem unquoted_literal_longest_run (d : json_doc) (ws : List Int) (c : Int)
    (more : List Int) (hp : Pending d (ws ++ c :: more)) (hws : ws.all isspace = true)
    (hc : (isalpha c || c == 95) = true)
    (hlen : (c :: (more.map char_of_byte).takeWhile _is_literal_char).length ≤ 63) :
    (json_consume_token d).1 = 0 ∧
    (json_consume_token d).2.1 =
      lit_tok (c :: (more.map char_of_byte).takeWhile _is_literal_char) ∧
    ((more.map char_of_byte).takeWhile _is_literal_char).all _is_literal_char = true ∧
    (is_bytes more = true →
      c :: (more.map char_of_byte).takeWhile _is_literal_char =
        (c :: more).take (c :: (more.map char_of_byte).takeWhile _is_literal_char).length) ∧
    (∀ b rest, more.drop ((more.map char_of_byte).takeWhile _is_literal_char).length = b :: rest →
      _is_literal_char (char_of_byte b) = false ∧
      (json_consume_token d).2.2.jdoc_nextc = char_of_byte b ∧
      (json_consume_token d).2.2.jdoc_f.data = rest) ∧
    (more.drop ((more.map char_of_byte).takeWhile _is_literal_char).length = [] →
      (json_consume_token d).2.2.jdoc_nextc = char_of_int EOF) ∧
    (json_consume_token d).2.2.jdoc_nextc_avail = true ∧
    (json_consume_token d).2.2.jdoc_lookahead_avail = false ∧
    json_consume_token (json_consume_token d).2.2 =
      token_switch
        { (json_consume_token d).2.2 with
          jdoc_nextc_avail := false
          jdoc_f := (skip_space (json_consume_token d).2.2.jdoc_f
            (json_consume_token d).2.2.jdoc_f.data (json_consume_token d).2.2.jdoc_nextc
            (json_consume_token d).2.2.jdoc_lineno).2.1
          jdoc_lineno := (skip_space (json_consume_token d).2.2.jdoc_f
            (json_consume_token d).2.2.jdoc_f.data (json_consume_token d).2.2.jdoc_nextc
            (json_consume_token d).2.2.jdoc_lineno).2.2 }
        (skip_space (json_consume_token d).2.2.jdoc_f
          (json_consume_token d).2.2.jdoc_f.data (json_consume_token d).2.2.jdoc_nextc
          (json_consume_token d).2.2.jdoc_lineno).1 ∧
    (∀ id b rest, more.drop ((more.map char_of_byte).takeWhile _is_literal_char).length =
        b :: rest → punct_char id = some b →
      (json_consume_token (json_consume_token d).2.2).1 = 0 ∧
      (json_consume_token (json_consume_token d).2.2).2.1 = punct_tok id) ∧
    (json_parse_string (text "\x7b test: x \x7d")).map
        (fun r => (r.1, r.2.map json_doc_object)) =
      some (0, some (some [(text "test", JSON_VAL_LITERAL (text "x"))])) ∧
    (json_parse_string (text "\x7b _test: x \x7d")).map
        (fun r => (r.1, r.2.map json_doc_object)) =
      some (0, some (some [(text "_test", JSON_VAL_LITERAL (text "x"))])) ∧
    (json_parse_string (text "\x7b __test_1: x \x7d")).map
        (fun r => (r.1, r.2.map json_doc_object)) =
      some (0, some (some [(text "__test_1", JSON_VAL_LITERAL (text "x"))])) ∧
    (json_parse_string (text "\x7b abc0: x \x7d")).map
        (fun r => (r.1, r.2.map json_doc_object)) =
      some (0, some (some [(text "abc0", JSON_VAL_LITERAL (text "x"))])) := by
  simp only [List.length_cons] at hlen
  obtain ⟨line, e⟩ := consume_unquoted_scan d ws c more hp hws hc (by omega)
  have hla : d.jdoc_lookahead_avail = false := hp.1
  rw [e]
  refine ⟨rfl, rfl, ?_, fun hb => ?_, fun b rest ht => ?_, fun ht => ?_, rfl, hla, ?_,
    fun id b rest ht hid => ?_, rfl, rfl, rfl, rfl⟩
  · exact List.all_eq_true.mpr fun x hx => (List.mem_takeWhile_imp hx)
  · rw [List.length_cons, List.take_succ_cons, ← literal_run_bytes more hb]
  · refine ⟨drop_takeWhile_head _ _ more b rest ht, ?_, ?_⟩
    · simp only [ht, next_char]; rfl
    · simp only [ht, next_char]; rfl
  · simp only [ht, next_char]
  · simp only [json_consume_token, hla, Bool.false_eq_true, if_false, if_true]
  · obtain ⟨b0, b1, _, _⟩ := punct_char_facts hid
    have hb : char_of_int (b % 256) = b := ascii_char b0 b1
    obtain ⟨d', e2, _⟩ := consume_punct
      { d with
        jdoc_lineno := line
        jdoc_f := (next_char d.jdoc_f
          (more.drop ((more.map char_of_byte).takeWhile _is_literal_char).length)).2
        jdoc_nextc := (next_char d.jdoc_f
          (more.drop ((more.map char_of_byte).takeWhile _is_literal_char).length)).1
        jdoc_nextc_avail := true } [] id b rest
      ⟨hla, Or.inr ⟨rfl, by simp only [ht, next_char, hb]; rfl⟩⟩ rfl hid
    rw [e2]
    exact ⟨rfl, rfl⟩

theorem unquoted_literal_longest_run_witness :
    (json_consume_token (json_doc.init (fmemopen (text " __test_1: x")))).1 = 0 ∧
    (json_consume_token (json_doc.init (fmemopen (text " __test_1: x")))).2.1 =
      lit_tok (text "__test_1") ∧
    (json_consume_token
      (json_consume_token (json_doc.init (fmemopen (text " __test_1: x")))).2.2).2.1 =
      punct_tok JSON_TOK_COLON :=
  have h := unquoted_literal_longest_run (json_doc.init (fmemopen (text " __test_1: x")))
    [32] 95 (text "_test_1: x") (pending_init _) rfl rfl (by decide)
  ⟨h.1, h.2.1.trans (by decide),
    (h.2.2.2.2.2.2.2.2.2.1 JSON_TOK_COLON 58 (text " x") (by decide) rfl).2⟩

theorem number_loop_bad (f : FILE) (data : List Int) (y : Nat) (c : Int) (buf : List Int)
    (hc : isdigit c = true ∨ c = 46) (hy : st y (number_column c) = XX) :
    _consume_literal_number_loop f data y c buf = .ret EINVAL (f.at data) := by
  have hyb : (st y (number_column c) == XX) = true := by simpa using hy
  rw [_consume_literal_number_loop]
  rcases hc with hc | hc
  · have hd := hc
    simp only [isdigit, Bool.and_eq_true, decide_eq_true_eq] at hd
    have ha : (isascii c && isdigit c) = true := by
      simp [hc, isascii_iff.2 (show 0 ≤ c ∧ c ≤ 127 by omega)]
    have hcol : number_column c = (c - 48).toNat := by
      have : (c == 46) = false := by simp; omega
      simp [number_column, this]
    rw [hcol] at hyb
    simp only [ha, if_true, hyb]
  · subst hc
    have ha : (isascii (46 : Int) && isdigit 46) = false := by decide
    have hcol : number_column 46 = 10 := by decide
    rw [hcol] at hyb
    simp only [ha, Bool.false_eq_true, if_false, beq_self_eq_true, if_true, hyb]

theorem digit_or_dot_dec (c : Int) :
    (isdigit c = true ∨ c = 46) ∨ ((isascii c && isdigit c) = false ∧ c ≠ 46) := by
  by_cases h1 : isdigit c = true
  · exact Or.inl (Or.inl h1)
  · by_cases h2 : c = 46
    · exact Or.inl (Or.inr h2)
    · exact Or.inr ⟨by simp [h1], h2⟩

theorem next_char_stops (b : Int)
    (h : (char_of_int (b % 256) != EOF) = false) :
    ((isascii (char_of_int (b % 256)) && isdigit (char_of_int (b % 256))) = false ∧
      char_of_int (b % 256) ≠ 46) := by
  have e : char_of_int (b % 256) = EOF := by simpa using h
  rw [e]; decide

/-- When the loop of `_consume_literal_number` is left at its end, it
stored the character it started with and the run of digits and dots read
after it, and stopped at the character after them. -/
theorem number_loop_inv (f : FILE) :
    ∀ (data : List Int) (y : Nat) (c : Int) (buf : List Int) (y' : Nat) (c' : Int) (f' : FILE)
      (buf' : List Int),
      _consume_literal_number_loop f data y c buf = .out y' c' f' buf' →
      ((isascii c && isdigit c) = false ∧ c ≠ 46 ∧ y' = y ∧ c' = c ∧ f' = f.at data ∧
        buf' = buf) ∨
      (∃ pre tail, data = pre ++ tail ∧ (isdigit c = true ∨ c = 46) ∧
        (∀ x ∈ pre, isdigit (char_of_byte x) = true ∨ char_of_byte x = 46) ∧
        buf' = buf ++ c :: pre.map char_of_byte ∧
        y' = number_state y (c :: pre.map char_of_byte) ∧ y' ≠ XX ∧
        c' = (next_char f tail).1 ∧ f' = (next_char f tail).2 ∧
        (isascii c' && isdigit c') = false ∧ c' ≠ 46 ∧ buf'.length ≤ 64) := by
  intro data
  induction data with
  | nil =>
    intro y c buf y' c' f' buf' h
    rcases digit_or_dot_dec c with hc | hc
    · by_cases hy : st y (number_column c) = XX
      · rw [number_loop_bad f _ y c buf hc hy] at h; cases h
      · rw [number_loop_step f _ y c buf hc hy] at h
        by_cases hb : buf.length < 64
        · rw [if_pos hb] at h
          simp only [number_exit.out.injEq] at h
          obtain ⟨h1, h2, h3, h4⟩ := h
          refine Or.inr ⟨[], [], rfl, hc, by simp, by simp [h4], by rw [← h1]; rfl,
            by rw [← h1]; exact hy, by rw [← h2]; rfl, by rw [← h3]; rfl,
            by rw [← h2]; decide, by rw [← h2]; decide, ?_⟩
          rw [← h4]; simp only [List.length_append, List.length_singleton]; omega
        · rw [if_neg hb] at h; cases h
    · rw [number_loop_stop f _ y c buf hc.1 hc.2] at h
      simp only [number_exit.out.injEq] at h
      exact Or.inl ⟨hc.1, hc.2, h.1.symm, h.2.1.symm, h.2.2.1.symm, h.2.2.2.symm⟩
  | cons b rest ih =>
    intro y c buf y' c' f' buf' h
    rcases digit_or_dot_dec c with hc | hc
    · by_cases hy : st y (number_column c) = XX
      · rw [number_loop_bad f _ y c buf hc hy] at h; cases h
      · rw [number_loop_step f _ y c buf hc hy] at h
        by_cases hb : buf.length < 64
        swap
        · rw [if_neg hb] at h; cases h
        rw [if_pos hb] at h
        dsimp only at h
        by_cases he : (char_of_int (b % 256) != EOF) = true
        · rw [if_pos he] at h
          rcases ih _ _ _ _ _ _ _ h with ⟨s1, s2, s3, s4, s5, s6⟩ | ⟨pre, tail, p1, p2, p3, p4,
              p5, p6, p7, p8, p9, p10, p11⟩
          · refine Or.inr ⟨[], b :: rest, rfl, hc, by simp, by simp [s6], by rw [s3]; rfl,
              by rw [s3]; exact hy, by rw [s4]; rfl, by rw [s5]; rfl, by rw [s4]; exact s1,
              by rw [s4]; exact s2, ?_⟩
            rw [s6]; simp only [List.length_append, List.length_singleton]; omega
          · refine Or.inr ⟨b :: pre, tail, by simp [p1], hc, ?_, by simp [p4, char_of_byte],
              by rw [p5]; rfl, p6, p7, p8, p9, p10, p11⟩
            intro x hx
            simp only [List.mem_cons] at hx
            rcases hx with hx | hx
            · subst hx; exact p2
            · exact p3 x hx
        · rw [if_neg he] at h
          simp only [number_exit.out.injEq] at h
          obtain ⟨h1, h2, h3, h4⟩ := h
          have hs := next_char_stops b (by simpa using he)
          refine Or.inr ⟨[], b :: rest, rfl, hc, by simp, by simp [h4], by rw [← h1]; rfl,
            by rw [← h1]; exact hy, by rw [← h2]; rfl, by rw [← h3]; rfl,
            by rw [← h2]; exact hs.1, by rw [← h2]; exact hs.2, ?_⟩
          rw [← h4]; simp only [List.length_append, List.length_singleton]; omega
    · rw [number_loop_stop f _ y c buf hc.1 hc.2] at h
      simp only [number_exit.out.injEq] at h
      exact Or.inl ⟨hc.1, hc.2, h.1.symm, h.2.1.symm, h.2.2.1.symm, h.2.2.2.symm⟩

/-! ## The language of the number automaton -/

theorem number_state_snoc (y : Nat) (s : List Int) (c : Int) :
    number_state y (s ++ [c]) = st (number_state y s) (number_column c) := by
  simp [number_state, List.foldl_append]

theorem int_part_digits {d : Int} {ds : List Int} (h1 : 49 ≤ d) (h2 : d ≤ 57)
    (h3 : ds.all isdigit = true) :
    is_int_part (d :: ds) = true ∧ (d :: ds).all isdigit = true := by
  have hd : isdigit d = true := by
    simp only [isdigit, Bool.and_eq_true, decide_eq_true_eq]; omega
  constructor
  · simp only [is_int_part, Bool.or_eq_true, Bool.and_eq_true, beq_iff_eq, List.isEmpty_iff,
      decide_eq_true_eq]
    exact Or.inr ⟨⟨h1, h2⟩, h3⟩
  · simp [hd, h3]

theorem state_lang_step (y : Nat) (s : List Int) (c : Int) (h : state_lang y s)
    (hc : isdigit c = true ∨ c = 46) :
    state_lang (st y (number_column c)) (s ++ [c]) := by
  obtain ⟨l0, l2, l1, l3, l4⟩ := h
  have hdot : number_column 46 = 10 := by decide
  have hy : y = 0 ∨ y = 1 ∨ y = 2 ∨ y = 3 ∨ y = 4 ∨ 5 ≤ y := by omega
  rcases hy with hy | hy | hy | hy | hy | hy
  · -- ST
    subst hy
    have e := l0 rfl
    subst e
    rcases hc with hc | hc
    · rw [show (0 : Nat) = ST from rfl, (st_digit hc).2.2.2.2]
      have hd := hc
      simp only [isdigit, Bool.and_eq_true, decide_eq_true_eq] at hd
      split_ifs with h48
      · subst h48
        exact ⟨fun h => absurd h (by decide), fun _ => rfl, fun h => absurd h (by decide),
          fun h => absurd h (by decide), fun h => absurd h (by decide)⟩
      · exact ⟨fun h => absurd h (by decide), fun h => absurd h (by decide),
          fun _ => ⟨c, [], rfl, by omega, by omega, rfl⟩,
          fun h => absurd h (by decide), fun h => absurd h (by decide)⟩
    · subst hc
      rw [hdot]
      exact ⟨fun h => absurd h (by decide), fun h => absurd h (by decide),
        fun h => absurd h (by decide), fun h => absurd h (by decide),
        fun h => absurd h (by decide)⟩
  · -- IN
    subst hy
    obtain ⟨d, ds, e, d1, d2, d3⟩ := l1 rfl
    subst e
    rcases hc with hc | hc
    · rw [show (1 : Nat) = IN from rfl, (st_digit hc).1]
      exact ⟨fun h => absurd h (by decide), fun h => absurd h (by decide),
        fun _ => ⟨d, ds ++ [c], rfl, d1, d2, by simp [d3, hc]⟩,
        fun h => absurd h (by decide), fun h => absurd h (by decide)⟩
    · subst hc
      rw [hdot]
      exact ⟨fun h => absurd h (by decide), fun h => absurd h (by decide),
        fun h => absurd h (by decide),
        fun _ => ⟨d :: ds, rfl, (int_part_digits d1 d2 d3).1, (int_part_digits d1 d2 d3).2⟩,
        fun h => absurd h (by decide)⟩
  · -- ZR
    subst hy
    have e := l2 rfl
    subst e
    rcases hc with hc | hc
    · rw [show (2 : Nat) = ZR from rfl, (st_digit hc).2.2.2.1]
      exact ⟨fun h => absurd h (by decide), fun h => absurd h (by decide),
        fun h => absurd h (by decide), fun h => absurd h (by decide),
        fun h => absurd h (by decide)⟩
    · subst hc
      rw [hdot]
      exact ⟨fun h => absurd h (by decide), fun h => absurd h (by decide),
        fun h => absurd h (by decide), fun _ => ⟨[48], rfl, by decide, by decide⟩,
        fun h => absurd h (by decide)⟩
  · -- DO
    subst hy
    obtain ⟨ip, e, i1, i2⟩ := l3 rfl
    subst e
    rcases hc with hc | hc
    · rw [show (3 : Nat) = DO from rfl, (st_digit hc).2.2.1]
      exact ⟨fun h => absurd h (by decide), fun h => absurd h (by decide),
        fun h => absurd h (by decide), fun h => absurd h (by decide),
        fun _ => ⟨ip, [c], by simp, i1, i2, by simp, by simp [hc]⟩⟩
    · subst hc
      rw [hdot]
      exact ⟨fun h => absurd h (by decide), fun h => absurd h (by decide),
        fun h => absurd h (by decide), fun h => absurd h (by decide),
        fun h => absurd h (by decide)⟩
  · -- FR
    subst hy
    obtain ⟨ip, fr, e, i1, i2, i3, i4⟩ := l4 rfl
    subst e
    rcases hc with hc | hc
    · rw [show (4 : Nat) = FR from rfl, (st_digit hc).2.1]
      exact ⟨fun h => absurd h (by decide), fun h => absurd h (by decide),
        fun h => absurd h (by decide), fun h => absurd h (by decide),
        fun _ => ⟨ip, fr ++ [c], by simp, i1, i2, by simp, by simp [i4, hc]⟩⟩
    · subst hc
      rw [hdot]
      exact ⟨fun h => absurd h (by decide), fun h => absurd h (by decide),
        fun h => absurd h (by decide), fun h => absurd h (by decide),
        fun h => absurd h (by decide)⟩
  · have e : st y (number_column c) = XX := by
      obtain ⟨k, rfl⟩ : ∃ k, y = k + 5 := ⟨y - 5, by omega⟩
      rfl
    rw [e]
    exact ⟨fun h => absurd h (by decide), fun h => absurd h (by decide),
      fun h => absurd h (by decide), fun h => absurd h (by decide),
      fun h => absurd h (by decide)⟩

/-- The state of the automaton tells the form of the text read. -/
theorem number_state_lang (s : List Int) :
    (∀ x ∈ s, isdigit x = true ∨ x = 46) → state_lang (number_state ST s) s := by
  induction s using List.reverseRecOn with
  | nil =>
    intro _
    exact ⟨fun _ => rfl, fun h => absurd h (by decide), fun h => absurd h (by decide),
      fun h => absurd h (by decide), fun h => absurd h (by decide)⟩
  | append_singleton s c ih =>
    intro h
    rw [number_state_snoc]
    exact state_lang_step _ s c (ih fun x hx => h x (List.mem_append_left _ hx))
      (h c (by simp))

theorem digit_not_dot : isdigit 46 = false := by decide

/-- A text that leaves the automaton in one of its three end states is in
the number language. -/
theorem is_number_of_state (s : List Int) (hs : ∀ x ∈ s, isdigit x = true ∨ x = 46)
    (h : number_state ST s = IN ∨ number_state ST s = ZR ∨ number_state ST s = FR) :
    is_number s = true := by
  obtain ⟨_, l2, l1, _, l4⟩ := number_state_lang s hs
  rcases h with h | h | h
  · obtain ⟨d, ds, e, d1, d2, d3⟩ := l1 h
    obtain ⟨i1, i2⟩ := int_part_digits d1 d2 d3
    rw [← e] at i1 i2
    have e1 : s.takeWhile isdigit = s :=
      List.takeWhile_eq_self_iff.mpr (List.all_eq_true.mp i2)
    have e2 : s.dropWhile isdigit = [] :=
      List.dropWhile_eq_nil_iff.mpr (List.all_eq_true.mp i2)
    simp only [is_number, e1, e2, i1, is_frac_part, Bool.and_self]
  · rw [l2 h]; decide
  · obtain ⟨ip, fr, e, i1, i2, i3, i4⟩ := l4 h
    have e1 : s.takeWhile isdigit = ip := by
      rw [e, List.takeWhile_append_of_pos (List.all_eq_true.mp i2)]
      simp [List.takeWhile_cons, digit_not_dot]
    have e2 : s.dropWhile isdigit = 46 :: fr := by
      rw [e, List.dropWhile_append_of_pos (List.all_eq_true.mp i2)]
      simp [List.dropWhile_cons, digit_not_dot]
    simp only [is_number, e1, e2, i1, is_frac_part, Bool.true_and, beq_self_eq_true, i4,
      Bool.and_true, Bool.not_eq_true', List.isEmpty_eq_false]
    exact i3

/-! ## What a successful call of the tokenizer has read -/

theorem is_bytes_mem {data : List Int} (h : is_bytes data = true) {x : Int} (hx : x ∈ data) :
    0 ≤ x ∧ x ≤ 255 := by
  have := List.all_eq_true.mp h x hx
  simpa using this

/-- The whitespace loop stops at the first character that is not
whitespace, or reads to the end of the input. -/
theorem skip_space_inv (f : FILE) :
    ∀ (data : List Int) (c : Int) (line : Nat), is_bytes data = true →
      (∃ ws x rest line', c :: data = ws ++ x :: rest ∧ ws.all isspace = true ∧
        (isascii x && isspace x) = false ∧ skip_space f data c line = (x, f.at rest, line')) ∨
      (∃ line', skip_space f data c line = (EOF, f.atEnd, line')) := by
  intro data
  induction data with
  | nil =>
    intro c line _
    by_cases hc : (isascii c && isspace c) = true
    · exact Or.inr ⟨_, skip_space_nil f c line hc⟩
    · exact Or.inl ⟨[], c, [], line, rfl, rfl, by simpa using hc,
        skip_space_stop f [] c line (by simpa using hc)⟩
  | cons b rest ih =>
    intro c line hb
    rw [is_bytes_cons] at hb
    by_cases hc : (isascii c && isspace c) = true
    · rw [skip_space_cons f b rest c line hc, char_of_byte_of_byte hb.1.1 hb.1.2]
      have hsp : isspace c = true := by
        simp only [Bool.and_eq_true] at hc; exact hc.2
      rcases ih b _ hb.2 with ⟨ws, x, rest', line', e1, e2, e3, e4⟩ | ⟨line', e⟩
      · exact Or.inl ⟨c :: ws, x, rest', line', by rw [e1]; rfl, by simp [hsp, e2], e3, e4⟩
      · exact Or.inr ⟨line', e⟩
    · exact Or.inl ⟨[], c, b :: rest, line, rfl, rfl, by simpa using hc,
        skip_space_stop f _ c line (by simpa using hc)⟩

/-- From a pending input of bytes, the tokenizer reaches its `switch` with
the first byte that is not whitespace, the rest unread, or with `EOF`. -/
theorem after_space_inv (d : json_doc) (bs : List Int) (hp : Pending d bs)
    (hb : is_bytes bs = true) :
    (∃ ws x rest line, bs = ws ++ x :: rest ∧ ws.all isspace = true ∧
      (isascii x && isspace x) = false ∧
      after_space d = ({ d with jdoc_nextc_avail := false, jdoc_f := d.jdoc_f.at rest,
                                jdoc_lineno := line }, x)) ∨
    (after_space d).2 = EOF := by
  obtain ⟨_, hp⟩ := hp
  rcases hp with ⟨hn, hd⟩ | ⟨hn, hd⟩
  · -- a character is read
    cases bs with
    | nil =>
      right
      simp only [after_space, hn, Bool.false_eq_true, if_false, getc, hd]
      rw [skip_space_stop _ _ _ _ (by decide)]
    | cons b rest =>
      rw [is_bytes_cons] at hb
      have e0 : getc d.jdoc_f = (b, d.jdoc_f.at rest) := by
        simp only [getc, hd, char_of_byte_of_byte hb.1.1 hb.1.2]
      rcases skip_space_inv (d.jdoc_f.at rest) rest b d.jdoc_lineno hb.2 with
        ⟨ws, x, rest', line', e1, e2, e3, e4⟩ | ⟨line', e⟩
      · left
        refine ⟨ws, x, rest', line', e1, e2, e3, ?_⟩
        simp only [after_space, hn, Bool.false_eq_true, if_false, e0, FILE.data_at, e4,
          FILE.at_at]
      · right
        simp only [after_space, hn, Bool.false_eq_true, if_false, e0, FILE.data_at, e]
  · -- the pushed-back character is taken
    subst hd
    rw [is_bytes_cons] at hb
    rcases skip_space_inv d.jdoc_f d.jdoc_f.data d.jdoc_nextc d.jdoc_lineno hb.2 with
      ⟨ws, x, rest', line', e1, e2, e3, e4⟩ | ⟨line', e⟩
    · left
      refine ⟨ws, x, rest', line', e1, e2, e3, ?_⟩
      simp only [after_space, hn, if_true, e4]
    · right
      simp only [after_space, hn, if_true, e]

/-- The `switch` of `json_consume_token`, when the call succeeds. -/
theorem token_switch_cases (doc : json_doc) (c : Int) :
    (token_switch doc c).1 = 0 →
    (token_switch doc c).2.1.tok_id = JSON_TOK_EOF ∨
    (∃ id, punct_char id = some c ∧ token_switch doc c = (0, punct_tok id, doc)) ∨
    ((isalpha c || c == 95) = true ∧ token_switch doc c = _consume_literal doc c) ∨
    (c = 34 ∧ token_switch doc c = _consume_literal_string doc c) ∨
    (isdigit c = true ∧ token_switch doc c = _consume_literal_number doc c) := by
  unfold token_switch RETURN_TOKEN_ERROR RETURN_TOKEN
  simp only
  by_cases h0 : (c == EOF && feof doc.jdoc_f) = true
  · simp only [if_pos h0]; intro _; exact Or.inl trivial
  simp only [if_neg h0]
  by_cases h1 : (c == EOF && ferror doc.jdoc_f) = true
  · simp only [if_pos h1]; intro he; exact absurd he (by decide)
  simp only [if_neg h1]
  by_cases h2 : (!isascii c) = true
  · simp only [if_pos h2]; intro he; exact absurd he (by decide)
  simp only [if_neg h2]
  by_cases h3 : (c == 123) = true
  · simp only [if_pos h3]; intro _
    exact Or.inr (Or.inl ⟨JSON_TOK_OBJECT_BEGIN, by simp at h3; simp [punct_char, h3], rfl⟩)
  simp only [if_neg h3]
  by_cases h4 : (c == 125) = true
  · simp only [if_pos h4]; intro _
    exact Or.inr (Or.inl ⟨JSON_TOK_OBJECT_END, by simp at h4; simp [punct_char, h4], rfl⟩)
  simp only [if_neg h4]
  by_cases h5 : (c == 58) = true
  · simp only [if_pos h5]; intro _
    exact Or.inr (Or.inl ⟨JSON_TOK_COLON, by simp at h5; simp [punct_char, h5], rfl⟩)
  simp only [if_neg h5]
  by_cases h6 : (c == 91) = true
  · simp only [if_pos h6]; intro _
    exact Or.inr (Or.inl ⟨JSON_TOK_ARRAY_BEGIN, by simp at h6; simp [punct_char, h6], rfl⟩)
  simp only [if_neg h6]
  by_cases h7 : (c == 93) = true
  · simp only [if_pos h7]; intro _
    exact Or.inr (Or.inl ⟨JSON_TOK_ARRAY_END, by simp at h7; simp [punct_char, h7], rfl⟩)
  simp only [if_neg h7]
  by_cases h8 : (c == 44) = true
  · simp only [if_pos h8]; intro _
    exact Or.inr (Or.inl ⟨JSON_TOK_COMMA, by simp at h8; simp [punct_char, h8], rfl⟩)
  simp only [if_neg h8]
  by_cases h9 : ((decide (97 ≤ c) && decide (c ≤ 122)) || (decide (65 ≤ c) && decide (c ≤ 90)) || c == 95) = true
  · simp only [if_pos h9]; intro _
    refine Or.inr (Or.inr (Or.inl ⟨?_, trivial⟩))
    simp only [isalpha, Bool.or_eq_true, Bool.and_eq_true, decide_eq_true_eq, beq_iff_eq]
      at h9 ⊢
    tauto
  simp only [if_neg h9]
  by_cases h10 : (c == 34) = true
  · simp only [if_pos h10]; intro _
    exact Or.inr (Or.inr (Or.inr (Or.inl ⟨by simpa using h10, trivial⟩)))
  simp only [if_neg h10]
  by_cases h11 : (decide (48 ≤ c) && decide (c ≤ 57)) = true
  · simp only [if_pos h11]; intro _
    exact Or.inr (Or.inr (Or.inr (Or.inr ⟨by simpa [isdigit] using h11, trivial⟩)))
  simp only [if_neg h11]
  intro he; exact absurd he (by decide)

/-- With a character that is not ASCII the `switch` fails or returns the
end-of-input token. -/
theorem token_switch_nonascii (doc : json_doc) (c : Int) (hc : isascii c = false) :
    (token_switch doc c).1 ≠ 0 ∨ (token_switch doc c).2.1.tok_id = JSON_TOK_EOF := by
  unfold token_switch RETURN_TOKEN_ERROR RETURN_TOKEN
  simp only
  by_cases h0 : (c == EOF && feof doc.jdoc_f) = true
  · simp only [if_pos h0]; exact Or.inr trivial
  simp only [if_neg h0]
  by_cases h1 : (c == EOF && ferror doc.jdoc_f) = true
  · simp only [if_pos h1]; exact Or.inl (by decide)
  simp only [if_neg h1]
  have h2 : (!isascii c) = true := by simp [hc]
  simp only [if_pos h2]; exact Or.inl (by decide)

/-! ## What a literal token has read -/

theorem next_char_after_run (f : FILE) (data : List Int) :
    (((next_char f
        (data.drop ((data.map char_of_byte).takeWhile _is_literal_char).length)).1 != EOF) &&
      _is_literal_char (next_char f
        (data.drop ((data.map char_of_byte).takeWhile _is_literal_char).length)).1) = false := by
  rcases ht : data.drop ((data.map char_of_byte).takeWhile _is_literal_char).length with
    _ | ⟨b, rest⟩
  · simp [next_char, char_of_int, EOF]
  · have := drop_takeWhile_head _is_literal_char char_of_byte data b rest ht
    simp only [next_char, Bool.and_eq_false_iff]
    exact Or.inr this

/-- A success of `_consume_literal` stored the first character and the
run of literal characters after it, at most 63 in all, and pushed back the
character after them. -/
theorem consume_literal_inv (doc : json_doc) (c : Int)
    (hb : is_bytes doc.jdoc_f.data = true) (h : (_consume_literal doc c).1 = 0) :
    ∃ cs tail, doc.jdoc_f.data = cs ++ tail ∧ cs.all _is_literal_char = true ∧
      (c :: cs).length ≤ 63 ∧
      _consume_literal doc c =
        (0, lit_tok (c :: cs),
          { doc with jdoc_f := (next_char doc.jdoc_f tail).2,
                     jdoc_nextc := (next_char doc.jdoc_f tail).1, jdoc_nextc_avail := true }) := by
  have e1 := literal_run_bytes doc.jdoc_f.data hb
  have hall : ((doc.jdoc_f.data.map char_of_byte).takeWhile _is_literal_char).all
      _is_literal_char = true :=
    List.all_eq_true.mpr fun x hx => List.mem_takeWhile_imp hx
  have hd : doc.jdoc_f.data =
      (doc.jdoc_f.data.map char_of_byte).takeWhile _is_literal_char ++
        doc.jdoc_f.data.drop
          ((doc.jdoc_f.data.map char_of_byte).takeWhile _is_literal_char).length := by
    conv_lhs => rw [← List.take_append_drop
      ((doc.jdoc_f.data.map char_of_byte).takeWhile _is_literal_char).length doc.jdoc_f.data]
    rw [← e1]
  by_cases hlen : (c :: (doc.jdoc_f.data.map char_of_byte).takeWhile _is_literal_char).length
      ≤ 63
  · exact ⟨_, _, hd, hall, hlen,
      consume_literal_ok doc c _ _ hd hall hlen (next_char_after_run doc.jdoc_f _)⟩
  · have := (consume_literal_long doc c _ _ hd hall (by omega)).1
    rw [this] at h
    cases h

/-- A success of `_consume_literal_string` with the token and the handle. -/
theorem consume_literal_string_inv_eq (doc : json_doc) (c : Int)
    (hb : is_bytes doc.jdoc_f.data = true) (h : (_consume_literal_string doc c).1 = 0) :
    ∃ items rest, doc.jdoc_f.data = quoted_body items ++ 34 :: rest ∧
      items.all quoted_item_ok = true ∧ items.length ≤ 63 ∧
      _consume_literal_string doc c =
        (0, lit_tok (items.map Prod.snd), { doc with jdoc_f := doc.jdoc_f.at rest }) := by
  obtain ⟨items, rest, h1, h2, h3⟩ := consume_literal_string_inv doc c hb h
  exact ⟨items, rest, h1, h2, h3, consume_literal_string_ok doc c items rest h1 h2 h3⟩

theorem number_loop_ret (f : FILE) :
    ∀ (data : List Int) (y : Nat) (c : Int) (buf : List Int) (err : Nat) (f' : FILE),
      _consume_literal_number_loop f data y c buf = .ret err f' → err = EINVAL := by
  intro data
  induction data with
  | nil =>
    intro y c buf err f' h
    rcases digit_or_dot_dec c with hc | hc
    · by_cases hy : st y (number_column c) = XX
      · rw [number_loop_bad f _ y c buf hc hy] at h
        simp only [number_exit.ret.injEq] at h; exact h.1.symm
      · rw [number_loop_step f _ y c buf hc hy] at h
        by_cases hb : buf.length < 64
        · rw [if_pos hb] at h; cases h
        · rw [if_neg hb] at h
          simp only [number_exit.ret.injEq] at h; exact h.1.symm
    · rw [number_loop_stop f _ y c buf hc.1 hc.2] at h; cases h
  | cons b rest ih =>
    intro y c buf err f' h
    rcases digit_or_dot_dec c with hc | hc
    · by_cases hy : st y (number_column c) = XX
      · rw [number_loop_bad f _ y c buf hc hy] at h
        simp only [number_exit.ret.injEq] at h; exact h.1.symm
      · rw [number_loop_step f _ y c buf hc hy] at h
        by_cases hb : buf.length < 64
        · rw [if_pos hb] at h
          dsimp only at h
          by_cases he : (char_of_int (b % 256) != EOF) = true
          · rw [if_pos he] at h
            exact ih _ _ _ _ _ h
          · rw [if_neg he] at h; cases h
        · rw [if_neg hb] at h
          simp only [number_exit.ret.injEq] at h; exact h.1.symm
    · rw [number_loop_stop f _ y c buf hc.1 hc.2] at h; cases h

theorem digit_char_byte {x : Int} (h0 : 0 ≤ x) (h1 : x ≤ 255)
    (h : isdigit (char_of_byte x) = true ∨ char_of_byte x = 46) :
    char_of_byte x = x ∧ (isdigit x = true ∨ x = 46) := by
  have e : char_of_byte x = if 128 ≤ x then x - 256 else x := char_of_byte_eq h0 h1
  rw [e] at h ⊢
  simp only [isdigit, Bool.and_eq_true, decide_eq_true_eq] at h ⊢
  split_ifs at h ⊢ with hx
  · omega
  · exact ⟨rfl, h⟩

theorem digit_run_bytes :
    ∀ (pre : List Int), is_bytes pre = true →
      (∀ x ∈ pre, isdigit (char_of_byte x) = true ∨ char_of_byte x = 46) →
      pre.map char_of_byte = pre ∧ ∀ x ∈ pre, isdigit x = true ∨ x = 46
  | [], _, _ => ⟨rfl, by simp⟩
  | x :: pre, hb, h => by
    rw [is_bytes_cons] at hb
    obtain ⟨e1, e2⟩ := digit_char_byte hb.1.1 hb.1.2 (h x (by simp))
    obtain ⟨i1, i2⟩ := digit_run_bytes pre hb.2 fun y hy => h y (by simp [hy])
    refine ⟨by simp [e1, i1], ?_⟩
    intro y hy
    simp only [List.mem_cons] at hy
    rcases hy with hy | hy
    · subst hy; exact e2
    · exact i2 y hy

/-- A success of `_consume_literal_number` stored a text of the number
language of at most 63 characters and pushed back the character after
it. -/
theorem consume_literal_number_inv (doc : json_doc) (c : Int) (hc : isdigit c = true)
    (hb : is_bytes doc.jdoc_f.data = true) (h : (_consume_literal_number doc c).1 = 0) :
    ∃ pre tail, doc.jdoc_f.data = pre ++ tail ∧ is_number (c :: pre) = true ∧
      (c :: pre).length ≤ 63 ∧
      _consume_literal_number doc c =
        (0, lit_tok (c :: pre),
          { doc with jdoc_f := (next_char doc.jdoc_f tail).2,
                     jdoc_nextc := (next_char doc.jdoc_f tail).1, jdoc_nextc_avail := true }) := by
  have hd := hc
  simp only [isdigit, Bool.and_eq_true, decide_eq_true_eq] at hd
  have hasc : (isascii c && isdigit c) = true := by
    simp [hc, isascii_iff.2 (show 0 ≤ c ∧ c ≤ 127 by omega)]
  rcases hl : _consume_literal_number_loop doc.jdoc_f doc.jdoc_f.data ST c [] with
    ⟨err, f'⟩ | ⟨y', c', f', buf'⟩
  · have e := number_loop_ret _ _ _ _ _ _ _ hl
    subst e
    simp only [_consume_literal_number, hl, RETURN_TOKEN_ERROR] at h
    cases h
  · rcases number_loop_inv _ _ _ _ _ _ _ _ _ hl with ⟨s1, _⟩ |
      ⟨pre, tail, p1, _, p3, p4, p5, p6, p7, p8, p9, p10, p11⟩
    · rw [hasc] at s1; cases s1
    · have hbp : is_bytes pre = true := by
        rw [p1, is_bytes_append] at hb; exact hb.1
      obtain ⟨i1, i2⟩ := digit_run_bytes pre hbp p3
      rw [i1] at p4 p5
      simp only [List.nil_append] at p4
      simp only [_consume_literal_number, hl] at h ⊢
      by_cases hy : (y' != IN && y' != ZR && y' != FR) = true
      · rw [if_pos hy] at h; cases h
      · rw [if_neg hy] at h ⊢
        by_cases hterm : (!(c' == EOF || (isascii c' && (isspace c' || ispunct c')))) = true
        · rw [if_pos hterm] at h; cases h
        · rw [if_neg hterm] at h ⊢
          by_cases hw : (!(WRITECHAR buf' 0).1) = true
          · rw [if_pos hw] at h; cases h
          · rw [if_neg hw]
            have hlen : buf'.length < 64 := by
              by_contra hge
              rw [WRITECHAR_full 0 (show 64 ≤ buf'.length by omega)] at hw
              exact hw rfl
            have hst : y' = IN ∨ y' = ZR ∨ y' = FR := by
              simp only [Bool.and_eq_true, bne_iff_ne, ne_eq, not_and, not_not] at hy
              by_cases a : y' = IN
              · exact Or.inl a
              · by_cases b : y' = ZR
                · exact Or.inr (Or.inl b)
                · exact Or.inr (Or.inr (hy ⟨a, b⟩))
            have hnum : is_number (c :: pre) = true := by
              apply is_number_of_state
              · intro x hx
                simp only [List.mem_cons] at hx
                rcases hx with hx | hx
                · subst hx; exact Or.inl hc
                · exact i2 x hx
              · rw [← p5]; exact hst
            refine ⟨pre, tail, p1, hnum, by rw [← p4]; omega, ?_⟩
            simp only [RETURN_TOKEN_LIT, lit_tok, p4, p7, p8]

/-! ## The tokens that the tokenizer returns -/

theorem literal_char_printable {x : Int} (h : _is_literal_char x = true) :
    _is_literal_string_char x = true := by
  simp only [_is_literal_char, _is_literal_string_char, isascii, isalpha, isdigit, isprint,
    Bool.and_eq_true, Bool.or_eq_true, decide_eq_true_eq, beq_iff_eq] at h ⊢
  omega

theorem digit_or_dot_printable {x : Int} (h : isdigit x = true ∨ x = 46) :
    _is_literal_string_char x = true := by
  simp only [_is_literal_string_char, isascii, isdigit, isprint,
    Bool.and_eq_true, decide_eq_true_eq] at h ⊢
  omega

theorem literal_loop_chars (f : FILE) :
    ∀ (data buf : List Int) (x : Int), x ∈ (_consume_literal_loop f data buf).2.2 →
      x ∈ buf ∨ _is_literal_char x = true
  | [], buf, x, h => by simp only [_consume_literal_loop] at h; exact Or.inl h
  | b :: rest, buf, x, h => by
    simp only [_consume_literal_loop] at h
    split_ifs at h with h1 h2
    · have := literal_loop_chars f rest _ x h
      simp only [WRITECHAR] at this h2
      split_ifs at this h2 with h3
      · simp only [List.mem_append, List.mem_singleton] at this
        rcases this with (t | t) | t
        · exact Or.inl t
        · simp only [Bool.and_eq_true] at h1
          exact Or.inr (t ▸ h1.2)
        · exact Or.inr t
    · exact Or.inl h
    · exact Or.inl h

theorem string_loop_chars (f : FILE) (n : Nat) :
    ∀ (data buf : List Int), data.length ≤ n →
      ∀ c f' buf', _consume_literal_string_loop f data buf = .out c f' buf' →
      ∀ x ∈ buf', x ∈ buf ∨ _is_literal_string_char x = true := by
  induction n with
  | zero =>
    intro data buf hn c f' buf' h x hx
    have : data = [] := List.length_eq_zero.mp (by omega)
    subst this
    simp only [_consume_literal_string_loop, string_exit.out.injEq] at h
    exact Or.inl (h.2.2 ▸ hx)
  | succ n ih =>
    intro data buf hn c f' buf' h x hx
    have step : ∀ (rest : List Int) (y : Int), rest.length ≤ n →
        _is_literal_string_char y = true →
        _consume_literal_string_loop f rest (WRITECHAR buf y).2 = .out c f' buf' →
        x ∈ buf ∨ _is_literal_string_char x = true := by
      intro rest y hr hy h2
      rcases ih rest _ hr c f' buf' h2 x hx with t | t
      · simp only [WRITECHAR] at t
        split_ifs at t
        · simp only [List.mem_append, List.mem_singleton] at t
          rcases t with t | t
          · exact Or.inl t
          · exact Or.inr (t ▸ hy)
        · exact Or.inl t
      · exact Or.inr t
    cases data with
    | nil =>
      simp only [_consume_literal_string_loop, string_exit.out.injEq] at h
      exact Or.inl (h.2.2 ▸ hx)
    | cons b rest =>
      cases rest with
      | nil =>
        simp only [_consume_literal_string_loop] at h
        split_ifs at h with h1 h2 h3 h4 <;> first
          | (simp only [string_exit.out.injEq] at h; exact Or.inl (h.2.2 ▸ hx))
          | exact step [] _ (by simp) (by simpa using h3) h
      | cons b2 rest =>
        simp only [List.length_cons] at hn
        simp only [_consume_literal_string_loop] at h
        split_ifs at h with h1 h2 h3 h4 h5 h6 h7 <;> first
          | (simp only [string_exit.out.injEq] at h; exact Or.inl (h.2.2 ▸ hx))
          | exact step _ _ (by simp only [List.length_cons]; omega) (by simpa using h4) h
          | exact step _ _ (by simp only [List.length_cons]; omega) (by simpa using h6) h
          | exact step _ _ (by omega) (by simpa using h4) h

theorem token_ok_lit {s : List Int} (h1 : ∀ x ∈ s, _is_literal_string_char x = true)
    (h2 : s.length < 64) : token_ok ⟨JSON_TOK_LIT, some s⟩ = true := by
  simp only [token_ok, Bool.and_eq_true, decide_eq_true_eq, List.all_eq_true]
  exact ⟨h1, by omega⟩

theorem writechar_ok_length {buf : List Int} {c : Int} (h : ¬ (!(WRITECHAR buf c).1) = true) :
    buf.length < 64 := by
  by_contra hge
  rw [WRITECHAR_full c (show 64 ≤ buf.length by omega)] at h
  exact h rfl

theorem consume_literal_token_ok (doc : json_doc) (c : Int)
    (hc : (isalpha c || c == 95) = true) : token_ok (_consume_literal doc c).2.1 = true := by
  unfold _consume_literal
  simp only
  split_ifs with h
  · rfl
  · apply token_ok_lit _ (writechar_ok_length h)
    intro x hx
    rcases literal_loop_chars _ _ _ x hx with t | t
    · rw [WRITECHAR_ok c (by simp)] at t
      simp only [List.nil_append, List.mem_singleton] at t
      exact t ▸ literal_char_printable (literal_first_facts hc).2.2.2
    · exact literal_char_printable t

theorem consume_literal_string_token_ok (doc : json_doc) (c : Int) :
    token_ok (_consume_literal_string doc c).2.1 = true := by
  unfold _consume_literal_string
  simp only
  rcases hl : _consume_literal_string_loop doc.jdoc_f doc.jdoc_f.data [] with
    ⟨err, f'⟩ | ⟨x, f', buf⟩
  · rfl
  · simp only
    by_cases h1 : (x == EOF) = true
    · rw [if_pos h1]; rfl
    rw [if_neg h1]
    by_cases h2 : (!(WRITECHAR buf 0).1) = true
    · rw [if_pos h2]; rfl
    rw [if_neg h2]
    · apply token_ok_lit _ (writechar_ok_length h2)
      intro y hy
      rcases string_loop_chars _ _ _ _ (le_refl _) _ _ _ hl y hy with t | t
      · simp at t
      · exact t

theorem consume_literal_number_token_ok (doc : json_doc) (c : Int) :
    token_ok (_consume_literal_number doc c).2.1 = true := by
  unfold _consume_literal_number
  simp only
  rcases hl : _consume_literal_number_loop doc.jdoc_f doc.jdoc_f.data ST c [] with
    ⟨err, f'⟩ | ⟨y', c', f', buf'⟩
  · rfl
  · simp only
    by_cases h1 : (y' != IN && y' != ZR && y' != FR) = true
    · rw [if_pos h1]; rfl
    rw [if_neg h1]
    by_cases h2 : (!(c' == EOF || (isascii c' && (isspace c' || ispunct c')))) = true
    · rw [if_pos h2]; rfl
    rw [if_neg h2]
    by_cases h3 : (!(WRITECHAR buf' 0).1) = true
    · rw [if_pos h3]; rfl
    rw [if_neg h3]
    · apply token_ok_lit _ (writechar_ok_length h3)
      intro x hx
      rcases number_loop_inv _ _ _ _ _ _ _ _ _ hl with ⟨_, _, _, _, _, s6⟩ |
        ⟨pre, tail, _, p2, p3, p4, _⟩
      · rw [s6] at hx; simp at hx
      · rw [p4] at hx
        simp only [List.nil_append, List.mem_cons, List.mem_map] at hx
        rcases hx with hx | ⟨b, hb, hx⟩
        · exact hx ▸ digit_or_dot_printable p2
        · exact hx ▸ digit_or_dot_printable (p3 b hb)

theorem token_switch_token_ok (doc : json_doc) (c : Int) :
    token_ok (token_switch doc c).2.1 = true := by
  unfold token_switch RETURN_TOKEN_ERROR RETURN_TOKEN
  simp only
  by_cases h0 : (c == EOF && feof doc.jdoc_f) = true
  · simp only [if_pos h0]; rfl
  simp only [if_neg h0]
  by_cases h1 : (c == EOF && ferror doc.jdoc_f) = true
  · simp only [if_pos h1]; rfl
  simp only [if_neg h1]
  by_cases h2 : (!isascii c) = true
  · simp only [if_pos h2]; rfl
  simp only [if_neg h2]
  by_cases h3 : (c == 123) = true
  · simp only [if_pos h3]; rfl
  simp only [if_neg h3]
  by_cases h4 : (c == 125) = true
  · simp only [if_pos h4]; rfl
  simp only [if_neg h4]
  by_cases h5 : (c == 58) = true
  · simp only [if_pos h5]; rfl
  simp only [if_neg h5]
  by_cases h6 : (c == 91) = true
  · simp only [if_pos h6]; rfl
  simp only [if_neg h6]
  by_cases h7 : (c == 93) = true
  · simp only [if_pos h7]; rfl
  simp only [if_neg h7]
  by_cases h8 : (c == 44) = true
  · simp only [if_pos h8]; rfl
  simp only [if_neg h8]
  by_cases h9 : ((decide (97 ≤ c) && decide (c ≤ 122)) || (decide (65 ≤ c) && decide (c ≤ 90)) || c == 95) = true
  · simp only [if_pos h9]
    apply consume_literal_token_ok
    simp only [isalpha, Bool.or_eq_true, Bool.and_eq_true, decide_eq_true_eq, beq_iff_eq]
      at h9 ⊢
    tauto
  simp only [if_neg h9]
  by_cases h10 : (c == 34) = true
  · simp only [if_pos h10]; exact consume_literal_string_token_ok doc c
  simp only [if_neg h10]
  by_cases h11 : (decide (48 ≤ c) && decide (c ≤ 57)) = true
  · simp only [if_pos h11]; exact consume_literal_number_token_ok doc c
  simp only [if_neg h11]
  rfl

/-- Every token that `json_consume_token` returns is a token as the
tokenizer makes them, when the look-ahead token is one. -/
theorem consume_token_ok (d : json_doc) (h : lookahead_ok d) :
    token_ok (json_consume_token d).2.1 = true := by
  by_cases hla : d.jdoc_lookahead_avail = true
  · simp only [json_consume_token, hla, if_true]
    exact h hla
  · rw [consume_eq_switch d (by simpa using hla)]
    exact token_switch_token_ok _ _

/-- The form of a token as the tokenizer returns them. -/
theorem token_ok_form {t : json_token} (h : token_ok t = true) :
    (∃ s, t = lit_tok s ∧ s.all _is_literal_string_char = true ∧ s.length ≤ 63) ∨
    (t.tok_id ≠ JSON_TOK_LIT ∧ t = punct_tok t.tok_id) := by
  obtain ⟨id, s⟩ := t
  cases id <;> cases s <;> simp [token_ok, lit_tok, punct_tok] at h ⊢
  exact h

/-! ## Runs of tokens -/

theorem run_append {ts1 : List json_token} :
    ∀ {d D1 D2 : json_doc} {ts2 : List json_token},
      Run d ts1 D1 → Run D1 ts2 D2 → Run d (ts1 ++ ts2) D2 := by
  induction ts1 with
  | nil => intro d D1 D2 ts2 h1 h2; simp only [Run] at h1; subst h1; exact h2
  | cons t ts ih =>
    intro d D1 D2 ts2 h1 h2
    exact ⟨h1.1, h1.2.1, ih h1.2.2 h2⟩

theorem run_det {ts : List json_token} :
    ∀ {d D1 D2 : json_doc}, Run d ts D1 → Run d ts D2 → D1 = D2 := by
  induction ts with
  | nil => intro d D1 D2 h1 h2; simp only [Run] at h1 h2; rw [h1, h2]
  | cons t ts ih => intro d D1 D2 h1 h2; exact ih h1.2.2 h2.2.2

theorem run_lookahead_avail {ts : List json_token} :
    ∀ {d D : json_doc}, Run d ts D → d.jdoc_lookahead_avail = false →
      D.jdoc_lookahead_avail = false := by
  induction ts with
  | nil => intro d D h1 h2; simp only [Run] at h1; rw [h1]; exact h2
  | cons t ts ih => intro d D h1 _; exact ih h1.2.2 (consume_lookahead_avail d)

/-- A stale look-ahead token changes nothing in a run but itself. -/
theorem run_stale (ts : List json_token) :
    ∀ (D : json_doc) (x : json_token) (E : json_doc), D.jdoc_lookahead_avail = false →
      Run { D with jdoc_lookahead := x } ts E →
      ∃ E0, Run D ts E0 ∧ E0.jdoc_lookahead_avail = false ∧
        E = { E0 with jdoc_lookahead := x } := by
  induction ts with
  | nil =>
    intro D x E h hr
    simp only [Run] at hr
    exact ⟨D, rfl, h, hr⟩
  | cons t ts ih =>
    intro D x E h hr
    obtain ⟨h1, h2, h3⟩ := hr
    rw [consume_stale D x h] at h1 h2 h3
    obtain ⟨E0, e1, e2, e3⟩ := ih _ x E (consume_lookahead_avail D) h3
    exact ⟨E0, ⟨h1, h2, e1⟩, e2, e3⟩

theorem stale_status (D : json_doc) (x : json_token) (h : D.jdoc_lookahead_avail = false) :
    (json_consume_token { D with jdoc_lookahead := x }).1 = (json_consume_token D).1 := by
  rw [consume_stale D x h]

theorem reach_consume (d : json_doc) (h : (json_consume_token d).1 = 0) :
    Reach d [(json_consume_token d).2.1] (json_consume_token d).2.2 :=
  ⟨(json_consume_token d).2.2, (json_consume_token d).2.2.jdoc_lookahead, ⟨h, rfl, rfl⟩,
    consume_lookahead_avail d, rfl⟩

theorem reach_lookahead {d d' : json_doc} {ts : List json_token} (h : Reach d ts d') :
    d'.jdoc_lookahead_avail = false ∧ lookahead_ok d' := by
  obtain ⟨D, x, _, h2, h3⟩ := h
  have e : d'.jdoc_lookahead_avail = false := by rw [h3]; exact h2
  exact ⟨e, fun h => by rw [e] at h; cases h⟩

theorem reach_trans {d d1 d2 : json_doc} {ts1 ts2 : List json_token}
    (h1 : Reach d ts1 d1) (h2 : Reach d1 ts2 d2) : Reach d (ts1 ++ ts2) d2 := by
  obtain ⟨D1, x1, r1, a1, e1⟩ := h1
  obtain ⟨D2, x2, r2, a2, e2⟩ := h2
  subst e1
  obtain ⟨E0, s1, s2, s3⟩ := run_stale ts2 D1 x1 D2 a1 r2
  refine ⟨E0, x2, run_append r1 s1, s2, ?_⟩
  rw [e2, s3]

theorem token_error_consume (d : json_doc) (e : Nat) (h : (json_consume_token d).1 = e)
    (he : e ≠ 0) : TokenError d e :=
  ⟨[], d, rfl, h, he⟩

theorem token_error_after {d d1 : json_doc} {ts1 : List json_token} {e : Nat}
    (h1 : Reach d ts1 d1) (h2 : TokenError d1 e) : TokenError d e := by
  obtain ⟨D1, x1, r1, a1, e1⟩ := h1
  obtain ⟨ts2, D2, r2, s, he⟩ := h2
  subst e1
  obtain ⟨E0, s1, s2, s3⟩ := run_stale ts2 D1 x1 D2 a1 r2
  refine ⟨ts1 ++ ts2, E0, run_append r1 s1, ?_, he⟩
  rw [← s, s3, stale_status E0 x1 s2]

/-- The handle after a successful peek. -/
theorem peek_state (d : json_doc) (h : (json_consume_token d).1 = 0) :
    token_outcome (json_peek_token d) =
      .ok (json_consume_token d).2.1
        { (json_consume_token d).2.2 with
          jdoc_lookahead_avail := true, jdoc_lookahead := (json_consume_token d).2.1 } := by
  rw [peek_eq d h]
  rfl

theorem peek_error (d : json_doc) (h : (json_consume_token d).1 ≠ 0) :
    token_outcome (json_peek_token d) = .error (json_consume_token d).1 := by
  unfold json_peek_token
  simp [h, token_outcome]

theorem lookahead_ok_peek (d : json_doc) (h : lookahead_ok d) :
    lookahead_ok { (json_consume_token d).2.2 with
      jdoc_lookahead_avail := true, jdoc_lookahead := (json_consume_token d).2.1 } :=
  fun _ => consume_token_ok d h

theorem run_of_peek (d : json_doc) (h : (json_consume_token d).1 = 0) (ts : List json_token)
    (E : json_doc) (hne : ts ≠ [])
    (hr : Run { (json_consume_token d).2.2 with
      jdoc_lookahead_avail := true, jdoc_lookahead := (json_consume_token d).2.1 } ts E) :
    ∃ E0, Run d ts E0 ∧ E0.jdoc_lookahead_avail = false ∧
      E = { E0 with jdoc_lookahead := (json_consume_token d).2.1 } := by
  cases ts with
  | nil => exact absurd rfl hne
  | cons t ts =>
    obtain ⟨h1, h2, h3⟩ := hr
    rw [consume_after_peek _ _ (consume_lookahead_avail d)] at h1 h2 h3
    obtain ⟨E0, e1, e2, e3⟩ := run_stale ts _ _ E (consume_lookahead_avail d) h3
    exact ⟨E0, ⟨h, h2, e1⟩, e2, e3⟩

theorem reach_of_peek (d : json_doc) (h : (json_consume_token d).1 = 0)
    (ts : List json_token) (d' : json_doc)
    (hr : Reach { (json_consume_token d).2.2 with
      jdoc_lookahead_avail := true, jdoc_lookahead := (json_consume_token d).2.1 } ts d') :
    Reach d ts d' := by
  obtain ⟨D, x, r, a, e⟩ := hr
  have hne : ts ≠ [] := by
    rintro rfl
    simp only [Run] at r
    rw [r] at a
    cases a
  obtain ⟨E0, e1, e2, e3⟩ := run_of_peek d h ts D hne r
  exact ⟨E0, x, e1, e2, by rw [e, e3]⟩

theorem token_error_of_peek (d : json_doc) (h : (json_consume_token d).1 = 0) (e : Nat)
    (hr : TokenError { (json_consume_token d).2.2 with
      jdoc_lookahead_avail := true, jdoc_lookahead := (json_consume_token d).2.1 } e) :
    TokenError d e := by
  obtain ⟨ts, D, r, s, he⟩ := hr
  by_cases hne : ts = []
  · subst hne
    simp only [Run] at r
    rw [r, consume_after_peek _ _ (consume_lookahead_avail d)] at s
    exact absurd s.symm he
  · obtain ⟨E0, e1, e2, e3⟩ := run_of_peek d h ts D hne r
    exact ⟨ts, E0, e1, by rw [← s, e3]; exact (stale_status E0 _ e2).symm, he⟩

/-- Every token of a run is a token as the tokenizer returns them. -/
theorem run_tokens_ok {ts : List json_token} :
    ∀ {d D : json_doc}, lookahead_ok d → Run d ts D → ∀ t ∈ ts, token_ok t = true := by
  induction ts with
  | nil => intro d D _ _ t ht; simp at ht
  | cons t ts ih =>
    intro d D hd hr u hu
    simp only [List.mem_cons] at hu
    rcases hu with hu | hu
    · rw [hu, ← hr.2.1]; exact consume_token_ok d hd
    · exact ih (fun h => by rw [consume_lookahead_avail d] at h; cases h) hr.2.2 u hu

/-! ## The tokens that the parser has consumed -/

theorem sound_bind {α β : Type} {d : json_doc} {r : outcome α}
    {k : α → json_doc → outcome β} {P : α → json_doc → Prop} {Q : β → json_doc → Prop}
    (h : sound d P r) (hk : ∀ a d1, P a d1 → sound d Q (k a d1)) : sound d Q (r.bind k) := by
  cases r with
  | ok a d1 => exact hk a d1 h
  | error e => exact h
  | nofuel => trivial

theorem sound_lift {β : Type} {d d1 : json_doc} {ts : List json_token} {r : outcome β}
    {Q1 Q : β → json_doc → Prop} (hr : Reach d ts d1) (h : sound d1 Q1 r)
    (hq : ∀ b d2, Q1 b d2 → Q b d2) : sound d Q r := by
  cases r with
  | ok b d2 => exact hq b d2 h
  | error e =>
    rcases h with h | h
    · exact Or.inl h
    · exact Or.inr (token_error_after hr h)
  | nofuel => trivial

theorem sound_mono {β : Type} {d : json_doc} {r : outcome β}
    {Q1 Q : β → json_doc → Prop} (h : sound d Q1 r)
    (hq : ∀ b d2, Q1 b d2 → Q b d2) : sound d Q r := by
  cases r with
  | ok b d2 => exact hq b d2 h
  | error e => exact h
  | nofuel => trivial

/-- A token taken by the parser. -/
theorem sound_token (d : json_doc) (hd : lookahead_ok d) :
    sound d (fun t D => Reach d [t] D ∧ token_ok t = true)
      (token_outcome (json_consume_token d)) := by
  by_cases h : (json_consume_token d).1 = 0
  · rw [token_outcome_of_zero h]
    exact ⟨reach_consume d h, consume_token_ok d hd⟩
  · have e : token_outcome (json_consume_token d) = .error (json_consume_token d).1 := by
      simp [token_outcome, h]
    rw [e]
    exact Or.inr (token_error_consume d _ rfl h)

/-- A token peeked by the parser: what follows starts from the handle with
the look-ahead token. -/
theorem sound_peek {β : Type} (d : json_doc) (hd : lookahead_ok d)
    (k : json_token → json_doc → outcome β) (Q : β → json_doc → Prop)
    (hk : ∀ t P, t = (json_consume_token d).2.1 →
      P = { (json_consume_token d).2.2 with
        jdoc_lookahead_avail := true, jdoc_lookahead := (json_consume_token d).2.1 } →
      (json_consume_token d).1 = 0 → token_ok t = true → lookahead_ok P →
      sound d Q (k t P)) :
    sound d Q ((token_outcome (json_peek_token d)).bind k) := by
  by_cases h : (json_consume_token d).1 = 0
  · rw [peek_state d h]
    exact hk _ _ rfl rfl h (consume_token_ok d hd) (lookahead_ok_peek d hd)
  · rw [peek_error d h]
    exact Or.inr (token_error_consume d _ rfl h)

/-- What follows a peek, seen from the handle before the peek. -/
theorem sound_after_peek {β : Type} (d : json_doc) (h : (json_consume_token d).1 = 0)
    {r : outcome β} {ts : β → List json_token}
    (hr : sound { (json_consume_token d).2.2 with
        jdoc_lookahead_avail := true, jdoc_lookahead := (json_consume_token d).2.1 }
      (fun b d2 => Reach { (json_consume_token d).2.2 with
        jdoc_lookahead_avail := true, jdoc_lookahead := (json_consume_token d).2.1 }
        (ts b) d2) r) :
    sound d (fun b d2 => Reach d (ts b) d2) r := by
  cases r with
  | ok b d2 => exact reach_of_peek d h _ _ hr
  | error e =>
    rcases hr with hr | hr
    · exact Or.inl hr
    · exact Or.inr (token_error_of_peek d h e hr)
  | nofuel => trivial

theorem sound_match (d : json_doc) (hd : lookahead_ok d) (id : json_token_id) :
    sound d (fun t D => Reach d [t] D ∧ token_ok t = true ∧ t.tok_id = id) (_match d id) := by
  unfold _match
  refine sound_bind (sound_token d hd) fun t D ⟨h1, h2⟩ => ?_
  by_cases hid : t.tok_id = id
  · simp only [hid, bne_self_eq_false, Bool.false_eq_true, if_false]
    exact ⟨h1, h2, hid⟩
  · have : (t.tok_id != id) = true := by simpa using hid
    simp only [this, if_true]
    exact Or.inl rfl

theorem lit_token_form {t : json_token} (h : token_ok t = true) (hid : t.tok_id = JSON_TOK_LIT) :
    t = lit_tok (t.tok_s.getD []) := by
  rcases token_ok_form h with ⟨s, e, _⟩ | ⟨h1, _⟩
  · rw [e]; rfl
  · exact absurd hid h1

theorem punct_token_form {t : json_token} (h : token_ok t = true) {id : json_token_id}
    (hid : t.tok_id = id) (hne : id ≠ JSON_TOK_LIT) : t = punct_tok id := by
  rcases token_ok_form h with ⟨s, e, _⟩ | ⟨_, h2⟩
  · rw [e] at hid; exact absurd hid.symm hne
  · rw [h2, hid]

/-- The parsing functions consume the tokens of what they return, and
return `EINVAL` or the status of the tokenizer. -/
theorem parse_sound (fuel : Nat) :
    (∀ d, lookahead_ok d → sound d (fun v d' => Reach d (value_tokens v) d') (_Value fuel d)) ∧
    (∀ d ix, lookahead_ok d →
      sound d (fun a d' => ∃ v more, a = List.replicate ix uninit_value ++ v :: more ∧
        Reach d (array_tokens (v :: more)) d') (_Array_r fuel d ix)) ∧
    (∀ d, lookahead_ok d → sound d (fun a d' => Reach d (array_tokens a) d') (_Array fuel d)) ∧
    (∀ d ix, lookahead_ok d →
      sound d (fun o d' => ∃ t more, o = List.replicate ix uninit_tuple ++ t :: more ∧
        Reach d (object_tokens (t :: more)) d') (_Object_r fuel d ix)) ∧
    (∀ d, lookahead_ok d →
      sound d (fun o d' => Reach d (object_tokens o) d') (_Object fuel d)) := by
  induction fuel with
  | zero =>
    exact ⟨fun _ _ => trivial, fun _ _ _ => trivial, fun _ _ => trivial, fun _ _ _ => trivial,
      fun _ _ => trivial⟩
  | succ n ih =>
    obtain ⟨ihV, ihAr, ihA, ihOr, ihO⟩ := ih
    refine ⟨?_, ?_, ?_, ?_, ?_⟩
    · -- _Value
      intro d hd
      simp only [_Value]
      refine sound_bind (sound_token d hd) fun t D ⟨h1, h2⟩ => ?_
      have hD := (reach_lookahead h1).2
      rcases hid : t.tok_id with _ | _ | _ | _ | _ | _ | _ | _ | _
      case JSON_TOK_LIT =>
        simp only
        show Reach d (value_tokens (JSON_VAL_LITERAL (t.tok_s.getD []))) D
        simp only [value_tokens]
        rw [← lit_token_form h2 hid]; exact h1
      case JSON_TOK_OBJECT_BEGIN =>
        simp only
        refine sound_bind (sound_lift h1 (ihO D hD) fun o d2 h => reach_trans h1 h)
          fun o d2 h => ?_
        show Reach d (value_tokens (JSON_VAL_OBJECT o)) d2
        simp only [value_tokens]
        rw [← punct_token_form h2 hid (by decide)]; exact h
      case JSON_TOK_ARRAY_BEGIN =>
        simp only
        refine sound_bind (sound_lift h1 (ihA D hD) fun o d2 h => reach_trans h1 h)
          fun o d2 h => ?_
        show Reach d (value_tokens (JSON_VAL_ARRAY o)) d2
        simp only [value_tokens]
        rw [← punct_token_form h2 hid (by decide)]; exact h
      all_goals exact Or.inl rfl
    · -- _Array_r
      intro d ix hd
      simp only [_Array_r]
      refine sound_bind (ihV d hd) fun val d1 hv => ?_
      have hd1 := (reach_lookahead hv).2
      refine sound_bind (sound_lift hv (sound_token d1 hd1)
        fun t D h => (⟨reach_trans hv h.1, h.1, h.2⟩ :
          Reach d (value_tokens val ++ [t]) D ∧ Reach d1 [t] D ∧ token_ok t = true))
        fun t D ⟨h1, h1', h2⟩ => ?_
      have hD := (reach_lookahead h1).2
      rcases hid : t.tok_id with _ | _ | _ | _ | _ | _ | _ | _ | _
      case JSON_TOK_COMMA =>
        simp only
        refine sound_bind (sound_lift h1 (ihAr D (ix + 1) hD)
          fun a d2 h => (h : ∃ v more, a = List.replicate (ix + 1) uninit_value ++ v :: more ∧
            Reach D (array_tokens (v :: more)) d2)) fun a d2 ⟨v, more, e, h⟩ => ?_
        refine ⟨val, v :: more, by rw [e, set_replicate_append], ?_⟩
        have e2 : array_tokens (val :: v :: more) =
            (value_tokens val ++ [t]) ++ array_tokens (v :: more) := by
          rw [punct_token_form h2 hid (by decide)]
          simp [array_tokens, array_tail_tokens]
        rw [e2]
        exact reach_trans h1 h
      case JSON_TOK_ARRAY_END =>
        simp only
        refine ⟨val, [], by rw [set_replicate], ?_⟩
        have e2 : array_tokens [val] = value_tokens val ++ [t] := by
          rw [punct_token_form h2 hid (by decide)]
          simp [array_tokens, array_tail_tokens]
        rw [e2]
        exact h1
      all_goals exact Or.inl rfl
    · -- _Array
      intro d hd
      simp only [_Array]
      refine sound_peek d hd _ _ fun t P ht hP h0 hok hPok => ?_
      by_cases hid : t.tok_id = JSON_TOK_ARRAY_END
      · simp only [hid, beq_self_eq_true, if_true]
        show Reach d (array_tokens []) _
        rw [hP, consume_after_peek _ _ (consume_lookahead_avail d)]
        simp only [array_tokens]
        rw [← punct_token_form hok hid (by decide), ht]
        exact ⟨_, _, ⟨h0, rfl, rfl⟩, consume_lookahead_avail d, rfl⟩
      · have : (t.tok_id == JSON_TOK_ARRAY_END) = false := by simpa using hid
        simp only [this, Bool.false_eq_true, if_false]
        subst hP
        refine sound_after_peek d h0 (sound_mono (ihAr _ 0 hPok) fun a d2 ⟨v, more, e, h⟩ => ?_)
        rw [e]; exact h
    · -- _Object_r
      intro d ix hd
      simp only [_Object_r]
      refine sound_bind (sound_match d hd JSON_TOK_LIT) fun tk d1 ⟨k1, k2, k3⟩ => ?_
      have hd1 := (reach_lookahead k1).2
      refine sound_bind (sound_lift k1 (sound_match d1 hd1 JSON_TOK_COLON)
        fun t D h => (⟨reach_trans k1 h.1, h.2.1, h.2.2⟩ :
          Reach d ([tk] ++ [t]) D ∧ token_ok t = true ∧ t.tok_id = JSON_TOK_COLON))
        fun tc d2 ⟨c1, c2, c3⟩ => ?_
      have hd2 := (reach_lookahead c1).2
      refine sound_bind (sound_lift c1 (ihV d2 hd2)
        fun v D h => (reach_trans c1 h : Reach d ([tk] ++ [tc] ++ value_tokens v) D))
        fun val d3 hv => ?_
      have hd3 := (reach_lookahead hv).2
      refine sound_bind (sound_lift hv (sound_token d3 hd3)
        fun t D h => (⟨reach_trans hv h.1, h.2⟩ :
          Reach d ([tk] ++ [tc] ++ value_tokens val ++ [t]) D ∧ token_ok t = true))
        fun t D ⟨h1, h2⟩ => ?_
      have hD := (reach_lookahead h1).2
      have ek := lit_token_form k2 k3
      have ec := punct_token_form c2 c3 (by decide)
      rcases hid : t.tok_id with _ | _ | _ | _ | _ | _ | _ | _ | _
      case JSON_TOK_COMMA =>
        simp only
        refine sound_bind (sound_lift h1 (ihOr D (ix + 1) hD)
          fun a d2 h => (h : ∃ v more, a = List.replicate (ix + 1) uninit_tuple ++ v :: more ∧
            Reach D (object_tokens (v :: more)) d2)) fun a d4 ⟨v, more, e, h⟩ => ?_
        refine ⟨(tk.tok_s.getD [], val), v :: more, by rw [e, set_replicate_append], ?_⟩
        have e2 : object_tokens ((tk.tok_s.getD [], val) :: v :: more) =
            ([tk] ++ [tc] ++ value_tokens val ++ [t]) ++ object_tokens (v :: more) := by
          rw [punct_token_form h2 hid (by decide), ec]
          conv_rhs => rw [ek]
          obtain ⟨kv, vv⟩ := v
          simp [object_tokens, object_tail_tokens]
        rw [e2]
        exact reach_trans h1 h
      case JSON_TOK_OBJECT_END =>
        simp only
        refine ⟨(tk.tok_s.getD [], val), [], by rw [set_replicate], ?_⟩
        have e2 : object_tokens [(tk.tok_s.getD [], val)] =
            [tk] ++ [tc] ++ value_tokens val ++ [t] := by
          rw [punct_token_form h2 hid (by decide), ec]
          conv_rhs => rw [ek]
          simp [object_tokens, object_tail_tokens]
        rw [e2]
        exact h1
      all_goals exact Or.inl rfl
    · -- _Object
      intro d hd
      simp only [_Object]
      refine sound_peek d hd _ _ fun t P ht hP h0 hok hPok => ?_
      by_cases hid : t.tok_id = JSON_TOK_OBJECT_END
      · simp only [hid, beq_self_eq_true, if_true]
        show Reach d (object_tokens []) _
        rw [hP, consume_after_peek _ _ (consume_lookahead_avail d)]
        simp only [object_tokens]
        rw [← punct_token_form hok hid (by decide), ht]
        exact ⟨_, _, ⟨h0, rfl, rfl⟩, consume_lookahead_avail d, rfl⟩
      · have : (t.tok_id == JSON_TOK_OBJECT_END) = false := by simpa using hid
        simp only [this, Bool.false_eq_true, if_false]
        subst hP
        refine sound_after_peek d h0 (sound_mono (ihOr _ 0 hPok) fun a d2 ⟨v, more, e, h⟩ => ?_)
        rw [e]; exact h

/-! ## `json_parse`: the tokens consumed, the status returned -/

theorem lookahead_ok_init (f : FILE) : lookahead_ok (json_doc.init f) :=
  fun h => by cases h

theorem start_sound (fuel : Nat) (d : json_doc) (hd : lookahead_ok d) :
    sound d (fun o d' => Reach d (value_tokens (JSON_VAL_OBJECT o)) d') (_Start fuel d) := by
  unfold _Start
  refine sound_bind (sound_match d hd JSON_TOK_OBJECT_BEGIN) fun t d1 ⟨h1, h2, h3⟩ => ?_
  refine sound_lift h1 ((parse_sound fuel).2.2.2.2 d1 (reach_lookahead h1).2) fun o d2 h => ?_
  show Reach d (value_tokens (JSON_VAL_OBJECT o)) d2
  simp only [value_tokens]
  rw [← punct_token_form h2 h3 (by decide)]
  exact reach_trans h1 h

/-- A document that `json_parse` returns comes from a successful `_Start`. -/
theorem json_parse_ok {f : FILE} {doc : json_doc} (h : json_parse f = some (0, some doc)) :
    ∃ obj d', _Start (parse_fuel f) (json_doc.init f) = .ok obj d' ∧
      doc = { d' with jdoc_obj := some obj } := by
  unfold json_parse json_parse_fuel at h
  cases hs : _Start (parse_fuel f) (json_doc.init f) with
  | ok obj d' =>
    rw [hs] at h
    simp only [Option.some.injEq, Prod.mk.injEq, true_and] at h
    exact ⟨obj, d', rfl, h.symm⟩
  | error e => rw [hs] at h; simp at h
  | nofuel => rw [hs] at h; cases h

theorem json_parse_error {f : FILE} {e : Nat} (h : json_parse f = some (e, none)) :
    _Start (parse_fuel f) (json_doc.init f) = .error e := by
  unfold json_parse json_parse_fuel at h
  cases hs : _Start (parse_fuel f) (json_doc.init f) with
  | ok obj d' => rw [hs] at h; simp at h
  | error e' =>
    rw [hs] at h
    simp only [Option.some.injEq, Prod.mk.injEq, and_true] at h
    rw [h]
  | nofuel => rw [hs] at h; cases h

/-- The tokens that a successful `json_parse` has consumed are those of
the object it returns. -/
theorem json_parse_run {f : FILE} {doc : json_doc} (h : json_parse f = some (0, some doc)) :
    ∃ obj D, doc.jdoc_obj = some obj ∧
      Run (json_doc.init f) (value_tokens (JSON_VAL_OBJECT obj)) D ∧
      D.jdoc_lookahead_avail = false ∧
      doc = { D with jdoc_lookahead := doc.jdoc_lookahead, jdoc_obj := some obj } := by
  obtain ⟨obj, d', hs, e⟩ := json_parse_ok h
  have hsd := start_sound (parse_fuel f) (json_doc.init f) (lookahead_ok_init f)
  rw [hs] at hsd
  obtain ⟨D, x, r, a, e2⟩ := hsd
  refine ⟨obj, D, by rw [e], r, a, ?_⟩
  rw [e, e2]

theorem token_error_status {r : Nat × json_token × json_doc} {e : Nat} (h : r.1 = e)
    (he : e ≠ 0) : token_outcome r = .error e := by
  subst h
  simp [token_outcome, he]

/-- A failure of the tokenizer at the first token of a parsing function is
what the function returns. -/
theorem first_token_error (d : json_doc) (e : Nat) (h : (json_consume_token d).1 = e)
    (he : e ≠ 0) (n ix : Nat) (id : json_token_id) :
    _match d id = .error e ∧ _Start n d = .error e ∧ _Value (n + 1) d = .error e ∧
    _Array (n + 1) d = .error e ∧ _Array_r (n + 2) d ix = .error e ∧
    _Object (n + 1) d = .error e ∧ _Object_r (n + 1) d ix = .error e := by
  have h1 := token_error_status h he
  have h2 : token_outcome (json_peek_token d) = .error e := by
    rw [peek_error d (by rw [h]; exact he), h]
  have hm : ∀ id, _match d id = .error e := by
    intro id; simp only [_match, h1, outcome.bind_error]
  have hv : ∀ n, _Value (n + 1) d = .error e := by
    intro n; simp only [_Value, h1, outcome.bind_error]
  refine ⟨hm id, ?_, hv n, ?_, ?_, ?_, ?_⟩
  · simp only [_Start, hm, outcome.bind_error]
  · simp only [_Array, h2, outcome.bind_error]
  · simp only [_Array_r, hv, outcome.bind_error]
  · simp only [_Object, h2, outcome.bind_error]
  · simp only [_Object_r, hm, outcome.bind_error]

/-- A failure of the tokenizer at a later token of `_Array_r`, `_Object_r`
and `_Start` is what the function returns. -/
theorem later_token_error (e : Nat) (he : e ≠ 0) :
    (∀ (d d1 : json_doc) (n ix : Nat) (v : json_value), _Value n d = .ok v d1 →
      (json_consume_token d1).1 = e → _Array_r (n + 1) d ix = .error e) ∧
    (∀ (d d1 : json_doc) (n ix : Nat) (k : json_token), _match d JSON_TOK_LIT = .ok k d1 →
      (json_consume_token d1).1 = e → _Object_r (n + 1) d ix = .error e) ∧
    (∀ (d d1 d2 : json_doc) (n ix : Nat) (k c : json_token),
      _match d JSON_TOK_LIT = .ok k d1 → _match d1 JSON_TOK_COLON = .ok c d2 →
      (json_consume_token d2).1 = e → _Object_r (n + 2) d ix = .error e) ∧
    (∀ (d d1 d2 d3 : json_doc) (n ix : Nat) (k c : json_token) (v : json_value),
      _match d JSON_TOK_LIT = .ok k d1 → _match d1 JSON_TOK_COLON = .ok c d2 →
      _Value n d2 = .ok v d3 → (json_consume_token d3).1 = e →
      _Object_r (n + 1) d ix = .error e) ∧
    (∀ (d d1 : json_doc) (n : Nat) (t : json_token),
      _match d JSON_TOK_OBJECT_BEGIN = .ok t d1 → (json_consume_token d1).1 = e →
      _Start (n + 1) d = .error e) := by
  refine ⟨fun d d1 n ix v hv h => ?_, fun d d1 n ix k hk h => ?_,
    fun d d1 d2 n ix k c hk hc h => ?_, fun d d1 d2 d3 n ix k c v hk hc hv h => ?_,
    fun d d1 n t ht h => ?_⟩
  · simp only [_Array_r, hv, outcome.bind_ok, token_error_status h he, outcome.bind_error]
  · simp only [_Object_r, hk, outcome.bind_ok,
      (first_token_error d1 e h he 0 0 JSON_TOK_COLON).1, outcome.bind_error]
  · simp only [_Object_r, hk, hc, outcome.bind_ok,
      (first_token_error d2 e h he n 0 JSON_TOK_COLON).2.2.1, outcome.bind_error]
  · simp only [_Object_r, hk, hc, hv, outcome.bind_ok, token_error_status h he,
      outcome.bind_error]
  · simp only [_Start, ht, outcome.bind_ok,
      (first_token_error d1 e h he n 0 JSON_TOK_COLON).2.2.2.2.2.1, outcome.bind_error]

/-! ## Claims on the parser: what is accepted -/

/-- C26: when `json_parse` succeeds, the tokens it has consumed, from the
first call of `json_consume_token` on, are exactly the tokens of the object
it returns, written as a sentence of `Object = '{' ( Tuple (',' Tuple)* )? '}'`,
`Tuple = Literal ':' Value`, `Array = '[' ( Value (',' Value)* )? ']'`, and
the returned handle is the handle after the last of them. When it fails,
the status is `EINVAL` or the status with which the tokenizer failed after
a run of tokens; and at every place where the parser takes a token, a
failure of the tokenizer is what the parsing function returns. The inputs
`{x:1,}`, `{x:[1,]}`, `{ v: [], {} }`, `{x 1}`, `[1]` and `x` are
rejected with `EINVAL`; a read error of the stream after `{x:` is returned
as `EIO`. -/
theorem parse_consumes_sentence :
    (∀ (f : FILE) (doc : json_doc), json_parse f = some (0, some doc) →
      ∃ obj D, doc.jdoc_obj = some obj ∧
        Run (json_doc.init f) (value_tokens (JSON_VAL_OBJECT obj)) D ∧
        doc = { D with jdoc_lookahead := doc.jdoc_lookahead, jdoc_obj := some obj }) ∧
    (∀ (f : FILE) (e : Nat), json_parse f = some (e, none) →
      e = EINVAL ∨ TokenError (json_doc.init f) e) ∧
    (∀ (d : json_doc) (e n ix : Nat) (id : json_token_id),
      (json_consume_token d).1 = e → e ≠ 0 →
      _match d id = .error e ∧ _Start n d = .error e ∧ _Value (n + 1) d = .error e ∧
      _Array (n + 1) d = .error e ∧ _Array_r (n + 2) d ix = .error e ∧
      _Object (n + 1) d = .error e ∧ _Object_r (n + 1) d ix = .error e) ∧
    (∀ e : Nat, e ≠ 0 →
      (∀ (d d1 : json_doc) (n ix : Nat) (v : json_value), _Value n d = .ok v d1 →
        (json_consume_token d1).1 = e → _Array_r (n + 1) d ix = .error e) ∧
      (∀ (d d1 : json_doc) (n ix : Nat) (k : json_token), _match d JSON_TOK_LIT = .ok k d1 →
        (json_consume_token d1).1 = e → _Object_r (n + 1) d ix = .error e) ∧
      (∀ (d d1 d2 : json_doc) (n ix : Nat) (k c : json_token),
        _match d JSON_TOK_LIT = .ok k d1 → _match d1 JSON_TOK_COLON = .ok c d2 →
        (json_consume_token d2).1 = e → _Object_r (n + 2) d ix = .error e) ∧
      (∀ (d d1 d2 d3 : json_doc) (n ix : Nat) (k c : json_token) (v : json_value),
        _match d JSON_TOK_LIT = .ok k d1 → _match d1 JSON_TOK_COLON = .ok c d2 →
        _Value n d2 = .ok v d3 → (json_consume_token d3).1 = e →
        _Object_r (n + 1) d ix = .error e) ∧
      (∀ (d d1 : json_doc) (n : Nat) (t : json_token),
        _match d JSON_TOK_OBJECT_BEGIN = .ok t d1 → (json_consume_token d1).1 = e →
        _Start (n + 1) d = .error e)) ∧
    json_parse_string (text "\x7bx:1,\x7d") = some (EINVAL, none) ∧
    json_parse_string (text "\x7bx:[1,]\x7d") = some (EINVAL, none) ∧
    json_parse_string (text "\x7b v: [], \x7b\x7d \x7d") = some (EINVAL, none) ∧
    json_parse_string (text "\x7bx 1\x7d") = some (EINVAL, none) ∧
    json_parse_string (text "[1]") = some (EINVAL, none) ∧
    json_parse_string (text "x") = some (EINVAL, none) ∧
    json_parse ⟨text "\x7bx:", true, false, false⟩ = some ( EIO, none) := by
  refine ⟨fun f doc h => ?_, fun f e h => ?_,
    fun d e n ix id h he => first_token_error d e h he n ix id,
    fun e he => later_token_error e he, rfl, rfl, rfl, rfl, rfl, rfl, rfl⟩
  · obtain ⟨obj, D, h1, h2, _, h4⟩ := json_parse_run h
    exact ⟨obj, D, h1, h2, h4⟩
  · have hs := start_sound (parse_fuel f) (json_doc.init f) (lookahead_ok_init f)
    rw [json_parse_error h] at hs
    exact hs

theorem parse_consumes_sentence_witness :
    (∃ obj D,
      (json_doc.mk (fmemopen []) 1 false 58 false ⟨JSON_TOK_ARRAY_END, none⟩
        (some [(text "x", JSON_VAL_ARRAY [])])).jdoc_obj = some obj ∧
      Run (json_doc.init (fmemopen (text "\x7bx:[]\x7d")))
        (value_tokens (JSON_VAL_OBJECT obj)) D ∧
      json_doc.mk (fmemopen []) 1 false 58 false ⟨JSON_TOK_ARRAY_END, none⟩
          (some [(text "x", JSON_VAL_ARRAY [])]) =
        { D with jdoc_lookahead := ⟨JSON_TOK_ARRAY_END, none⟩, jdoc_obj := some obj }) ∧
    _Value (0 + 1) (json_doc.init ⟨[], true, false, false⟩) = .error EIO :=
  ⟨parse_consumes_sentence.1 (fmemopen (text "\x7bx:[]\x7d")) _ rfl,
    (parse_consumes_sentence.2.2.1 (json_doc.init ⟨[], true, false, false⟩) EIO 0 0
      JSON_TOK_COLON rfl (by decide)).2.2.1⟩

/-! ## From a run of tokens back to the bytes -/

theorem punct_tok_not_eof {id : json_token_id} (h : (punct_char id).isSome = true) :
    id ≠ JSON_TOK_EOF ∧ id ≠ JSON_TOK_LIT ∧ id ≠ JSON_TOK_ERR := by
  cases id <;> simp [punct_char] at h ⊢

/-- What a successful call of `json_consume_token` has read from a pending
input of bytes: whitespace and a punctuation character, or whitespace and
the lexeme of a literal; after a literal the next character may have been
pushed back. -/
theorem consume_inv (d : json_doc) (bs : List Int) (hp : Pending d bs)
    (hb : is_bytes bs = true) (h : (json_consume_token d).1 = 0) :
    (json_consume_token d).2.1.tok_id = JSON_TOK_EOF ∨
    (∃ ws id c rest, bs = ws ++ c :: rest ∧ ws.all isspace = true ∧ punct_char id = some c ∧
      (json_consume_token d).2.1 = punct_tok id ∧ Pending (json_consume_token d).2.2 rest ∧
      (json_consume_token d).2.2.jdoc_nextc_avail = false) ∨
    (∃ ws s lx tail f, bs = ws ++ lx ++ tail ∧ ws.all isspace = true ∧ Lexeme s lx ∧
      (json_consume_token d).2.1 = lit_tok s ∧
      (json_consume_token d).2.2.jdoc_lookahead_avail = false ∧
      (Pending (json_consume_token d).2.2 tail ∨
        ((json_consume_token d).2.2.jdoc_nextc_avail = true ∧
         (json_consume_token d).2.2.jdoc_nextc = (next_char f tail).1 ∧
         (json_consume_token d).2.2.jdoc_f = (next_char f tail).2))) := by
  have hla := hp.1
  rw [consume_eq_switch d hla] at h ⊢
  rcases after_space_inv d bs hp hb with ⟨ws, x, rest, line, e1, e2, e3, e4⟩ | e
  · rw [e4] at h ⊢
    simp only at h ⊢
    have hbr : is_bytes rest = true := by
      rw [e1, is_bytes_append, is_bytes_cons] at hb; exact hb.2.2
    rcases token_switch_cases _ x h with c1 | ⟨id, c1, c2⟩ | ⟨c1, c2⟩ | ⟨c1, c2⟩ | ⟨c1, c2⟩
    · exact Or.inl c1
    · refine Or.inr (Or.inl ⟨ws, id, x, rest, e1, e2, c1, ?_, ?_, ?_⟩)
      · rw [c2]
      · rw [c2]; exact pending_rest d rest line hla
      · rw [c2]
    · rw [c2] at h ⊢
      obtain ⟨cs, tail, i1, i2, i3, i4⟩ := consume_literal_inv _ x hbr h
      rw [i4]
      refine Or.inr (Or.inr ⟨ws, x :: cs, x :: cs, tail, d.jdoc_f.at rest, ?_, e2,
        Lexeme.unquoted x cs c1 i2 i3, rfl, hla, Or.inr ⟨rfl, rfl, rfl⟩⟩)
      simp only [FILE.data_at] at i1
      rw [e1, i1]; simp
    · subst c1
      rw [c2] at h ⊢
      obtain ⟨items, rest', i1, i2, i3, i4⟩ := consume_literal_string_inv_eq _ 34 hbr h
      rw [i4]
      refine Or.inr (Or.inr ⟨ws, items.map Prod.snd, 34 :: (quoted_body items ++ [34]), rest',
        d.jdoc_f, ?_, e2, Lexeme.quoted items i2 i3, rfl, hla,
        Or.inl ⟨hla, Or.inl ⟨rfl, rfl⟩⟩⟩)
      simp only [FILE.data_at] at i1
      rw [e1, i1]; simp
    · rw [c2] at h ⊢
      obtain ⟨pre, tail, i1, i2, i3, i4⟩ := consume_literal_number_inv _ x c1 hbr h
      rw [i4]
      refine Or.inr (Or.inr ⟨ws, x :: pre, x :: pre, tail, d.jdoc_f.at rest, ?_, e2,
        Lexeme.number (x :: pre) i2 i3, rfl, hla, Or.inr ⟨rfl, rfl, rfl⟩⟩)
      simp only [FILE.data_at] at i1
      rw [e1, i1]; simp
  · rcases token_switch_nonascii (after_space d).1 (after_space d).2 (by rw [e]; decide) with
      c | c
    · exact absurd h c
    · exact Or.inl c

/-- A pushed-back character that is not ASCII is the character at the
`switch` of the next call. -/
theorem after_space_pushback (d : json_doc) (h1 : d.jdoc_nextc_avail = true)
    (h2 : isascii d.jdoc_nextc = false) : (after_space d).2 = d.jdoc_nextc := by
  simp only [after_space, h1, if_true]
  rw [skip_space_stop _ _ _ _ (by simp [h2])]

/-- After a literal, when the next call returns a token other than
end-of-input, the character pushed back is the next byte. -/
theorem pushback_pending (d1 : json_doc) (f : FILE) (tail : List Int)
    (hb : is_bytes tail = true) (hla : d1.jdoc_lookahead_avail = false)
    (hn : d1.jdoc_nextc_avail = true) (hc : d1.jdoc_nextc = (next_char f tail).1)
    (hf : d1.jdoc_f = (next_char f tail).2) (h0 : (json_consume_token d1).1 = 0)
    (hne : (json_consume_token d1).2.1.tok_id ≠ JSON_TOK_EOF) : Pending d1 tail := by
  have key : isascii d1.jdoc_nextc = true := by
    by_contra hna
    have hna2 : isascii d1.jdoc_nextc = false := by simpa using hna
    rw [consume_eq_switch d1 hla, after_space_pushback d1 hn hna2] at h0 hne
    rcases token_switch_nonascii (after_space d1).1 d1.jdoc_nextc hna2 with c | c
    · exact c h0
    · exact hne c
  cases tail with
  | nil =>
    rw [hc] at key
    simp only [next_char] at key
    exact absurd key (by decide)
  | cons b rest =>
    rw [is_bytes_cons] at hb
    simp only [next_char] at hc hf
    have e : char_of_int (b % 256) = b := by
      rw [hc, char_of_byte_eq hb.1.1 hb.1.2] at key
      rw [char_of_byte_eq hb.1.1 hb.1.2]
      split_ifs at key ⊢ with hx
      · rw [isascii_iff] at key; omega
      · rfl
    refine ⟨hla, Or.inr ⟨hn, ?_⟩⟩
    rw [hc, e, hf]; rfl

theorem lit_tok_inj {s s' : List Int} (h : lit_tok s = lit_tok s') : s = s' := by
  simp only [lit_tok, json_token.mk.injEq, Option.some.injEq, true_and] at h
  exact h

theorem punct_tok_inj {id id' : json_token_id} (h : punct_tok id = punct_tok id') : id = id' := by
  simp only [punct_tok, json_token.mk.injEq, and_true] at h
  exact h

/-- The bytes that a run of tokens has read spell the tokens. -/
theorem spell_of_run {ts : List json_token} (hs : Shaped ts) :
    ∀ (d : json_doc) (bs : List Int) (D : json_doc), Pending d bs → is_bytes bs = true →
      Run d ts D →
      ∃ input rest, bs = input ++ rest ∧ Spelled ts input ∧ Pending D rest ∧
        (ts ≠ [] → D.jdoc_nextc_avail = false) := by
  induction hs with
  | nil =>
    intro d bs D hp _ hr
    simp only [Run] at hr
    subst hr
    exact ⟨[], bs, rfl, Spelled.nil, hp, fun h => absurd rfl h⟩
  | punct id ts hid _ ih =>
    intro d bs D hp hb hr
    obtain ⟨h0, h1, h2⟩ := hr
    obtain ⟨n1, n2, _⟩ := punct_tok_not_eof hid
    rcases consume_inv d bs hp hb h0 with c | ⟨ws, id', c, rest, e1, e2, e3, e4, e5, e6⟩ |
      ⟨ws, s, lx, tail, f, _, _, _, e4, _⟩
    · rw [h1] at c; exact absurd c n1
    · have eid : id' = id := punct_tok_inj (e4.symm.trans h1)
      subst eid
      have hbr : is_bytes rest = true := by
        rw [e1, is_bytes_append, is_bytes_cons] at hb; exact hb.2.2
      obtain ⟨input, rest', i1, i2, i3, i4⟩ := ih _ rest D e5 hbr h2
      refine ⟨ws ++ c :: input, rest', by rw [e1, i1]; simp,
        Spelled.punct ws id' c ts input e2 e3 i2, i3, fun _ => ?_⟩
      by_cases hts : ts = []
      · subst hts
        simp only [Run] at h2
        rw [h2]; exact e6
      · exact i4 hts
    · rw [h1] at e4
      simp only [punct_tok, lit_tok, json_token.mk.injEq] at e4
      exact absurd e4.1 n2
  | lit s id ts hid _ ih =>
    intro d bs D hp hb hr
    obtain ⟨h0, h1, h2⟩ := hr
    obtain ⟨n1, n2, _⟩ := punct_tok_not_eof hid
    rcases consume_inv d bs hp hb h0 with c | ⟨ws, id', c, rest, _, _, e3, e4, _⟩ |
      ⟨ws, s', lx, tail, f, e1, e2, e3, e4, e5, e6⟩
    · rw [h1] at c; cases c
    · rw [h1] at e4
      simp only [punct_tok, lit_tok, json_token.mk.injEq] at e4
      have : (punct_char id').isSome = true := by rw [e3]; rfl
      exact absurd e4.1.symm (punct_tok_not_eof this).2.1
    · have es : s' = s := lit_tok_inj (e4.symm.trans h1)
      subst es
      have hbt : is_bytes tail = true := by
        rw [e1, is_bytes_append] at hb; exact hb.2
      have hpt : Pending (json_consume_token d).2.2 tail := by
        rcases e6 with e6 | ⟨a1, a2, a3⟩
        · exact e6
        · exact pushback_pending _ f tail hbt e5 a1 a2 a3 h2.1 (by rw [h2.2.1]; exact n1)
      obtain ⟨input, rest', i1, i2, i3, i4⟩ := ih _ tail D hpt hbt h2
      exact ⟨ws ++ lx ++ input, rest', by rw [e1, i1]; simp,
        Spelled.lit ws s' lx id ts input e2 e3 hid i2, i3, fun _ => i4 (by simp)⟩

/-! ## The tokens of a value are punctuation and literals in turn -/

theorem object_tail_head (o : List (List Int × json_value)) (rest : List json_token) :
    ∃ id tl, (punct_char id).isSome = true ∧ object_tail_tokens o ++ rest = punct_tok id :: tl := by
  cases o with
  | nil => exact ⟨JSON_TOK_OBJECT_END, rest, rfl, rfl⟩
  | cons t more =>
    obtain ⟨k, v⟩ := t
    exact ⟨JSON_TOK_COMMA, _, rfl, rfl⟩

theorem array_tail_head (a : List json_value) (rest : List json_token) :
    ∃ id tl, (punct_char id).isSome = true ∧ array_tail_tokens a ++ rest = punct_tok id :: tl := by
  cases a with
  | nil => exact ⟨JSON_TOK_ARRAY_END, rest, rfl, rfl⟩
  | cons v more => exact ⟨JSON_TOK_COMMA, _, rfl, rfl⟩

mutual

theorem shaped_value : ∀ (v : json_value) (id : json_token_id) (rest : List json_token),
    (punct_char id).isSome = true → Shaped (punct_tok id :: rest) →
    Shaped (value_tokens v ++ punct_tok id :: rest)
  | JSON_VAL_LITERAL s, id, rest, hid, h => Shaped.lit s id rest hid h
  | JSON_VAL_OBJECT o, id, rest, _, h => by
    simp only [value_tokens, List.cons_append]
    exact Shaped.punct _ _ rfl (shaped_object o _ h)
  | JSON_VAL_ARRAY a, id, rest, _, h => by
    simp only [value_tokens, List.cons_append]
    exact Shaped.punct _ _ rfl (shaped_array a _ h)

theorem shaped_object : ∀ (o : List (List Int × json_value)) (rest : List json_token),
    Shaped rest → Shaped (object_tokens o ++ rest)
  | [], rest, h => Shaped.punct _ _ rfl h
  | (k, v) :: more, rest, h => by
    simp only [object_tokens, List.cons_append, List.append_assoc]
    obtain ⟨id, tl, hid, e⟩ := object_tail_head more rest
    have h2 := shaped_object_tail more rest h
    rw [e] at h2 ⊢
    exact Shaped.lit k _ _ rfl (Shaped.punct _ _ rfl (shaped_value v id tl hid h2))

theorem shaped_object_tail : ∀ (o : List (List Int × json_value)) (rest : List json_token),
    Shaped rest → Shaped (object_tail_tokens o ++ rest)
  | [], rest, h => Shaped.punct _ _ rfl h
  | (k, v) :: more, rest, h => by
    simp only [object_tail_tokens, List.cons_append, List.append_assoc]
    obtain ⟨id, tl, hid, e⟩ := object_tail_head more rest
    have h2 := shaped_object_tail more rest h
    rw [e] at h2 ⊢
    exact Shaped.punct _ _ rfl
      (Shaped.lit k _ _ rfl (Shaped.punct _ _ rfl (shaped_value v id tl hid h2)))

theorem shaped_array : ∀ (a : List json_value) (rest : List json_token),
    Shaped rest → Shaped (array_tokens a ++ rest)
  | [], rest, h => Shaped.punct _ _ rfl h
  | v :: more, rest, h => by
    simp only [array_tokens, List.append_assoc]
    obtain ⟨id, tl, hid, e⟩ := array_tail_head more rest
    have h2 := shaped_array_tail more rest h
    rw [e] at h2 ⊢
    exact shaped_value v id tl hid h2

theorem shaped_array_tail : ∀ (a : List json_value) (rest : List json_token),
    Shaped rest → Shaped (array_tail_tokens a ++ rest)
  | [], rest, h => Shaped.punct _ _ rfl h
  | v :: more, rest, h => by
    simp only [array_tail_tokens, List.cons_append, List.append_assoc]
    obtain ⟨id, tl, hid, e⟩ := array_tail_head more rest
    have h2 := shaped_array_tail more rest h
    rw [e] at h2 ⊢
    exact Shaped.punct _ _ rfl (shaped_value v id tl hid h2)

end

theorem shaped_document (obj : json_object) : Shaped (value_tokens (JSON_VAL_OBJECT obj)) := by
  have := shaped_object obj [] Shaped.nil
  simp only [List.append_nil] at this
  simp only [value_tokens]
  exact Shaped.punct _ _ rfl this

/-- The tokens that spelled bytes give, with the handle after them. -/
theorem run_of_spelled (ts : List json_token) (bs : List Int) (h : Spelled ts bs) :
    ∀ (d : json_doc) (rest : List Int), Pending d (bs ++ rest) →
      ∃ D, Run d ts D ∧ Pending D rest ∧ (ts ≠ [] → D.jdoc_nextc_avail = false) := by
  induction h with
  | nil => intro d rest hp; exact ⟨d, rfl, hp, fun h => absurd rfl h⟩
  | punct ws id c ts bs hws hc _ ih =>
    intro d rest hp
    obtain ⟨h0, h1, hns, _⟩ := punct_char_facts hc
    obtain ⟨line, hl⟩ := consume_pending d ws c (bs ++ rest)
      (by simpa [List.append_assoc] using hp) hws h0 h1 hns
    rw [token_switch_punct _ id c hc] at hl
    have hpd := pending_rest d (bs ++ rest) line hp.1
    obtain ⟨D, r, p, a⟩ := ih _ rest hpd
    refine ⟨D, ⟨by rw [hl], by rw [hl], by rw [hl]; exact r⟩, p, fun _ => ?_⟩
    by_cases hts : ts = []
    · subst hts
      simp only [Run] at r
      rw [r]
    · exact a hts
  | lit ws s lx id ts bs hws hlx hid hsp ih =>
    intro d rest hp
    obtain ⟨t, tl, hbs, ht⟩ := spelled_punct_head id ts bs hsp
    obtain ⟨d', hd', hp'⟩ := consume_lexeme d ws s lx t (tl ++ rest) hlx
      (by rw [hbs] at hp; simpa [List.append_assoc] using hp) hws ht
    obtain ⟨D, r, p, a⟩ := ih d' rest (by rw [hbs]; simpa using hp')
    exact ⟨D, ⟨by rw [hd'], by rw [hd'], by rw [hd']; exact r⟩, p, fun _ => a (by simp)⟩

theorem pending_length {d : json_doc} {bs : List Int} (h : Pending d bs) :
    bs.length = d.jdoc_f.data.length + (if d.jdoc_nextc_avail then 1 else 0) := by
  rcases h.2 with ⟨h1, h2⟩ | ⟨h1, h2⟩
  · simp [h1, h2]
  · simp [h1, h2]

/-- An input of bytes that `json_parse` accepts starts with a sentence for
the object returned, and the handle returned has read just this sentence. -/
theorem parse_inv (f : FILE) (doc : json_doc) (hb : is_bytes f.data = true)
    (h : json_parse f = some (0, some doc)) :
    ∃ obj input, doc.jdoc_obj = some obj ∧ f.data = input ++ doc.jdoc_f.data ∧
      Sentence obj input ∧ doc.jdoc_nextc_avail = false := by
  obtain ⟨obj, D, h1, h2, h3, h4⟩ := json_parse_run h
  obtain ⟨input, rest, i1, i2, i3, i4⟩ := spell_of_run (shaped_document obj)
    (json_doc.init f) f.data D (pending_init f) hb h2
  have hn : D.jdoc_nextc_avail = false := i4 (by simp [value_tokens])
  have hd : D.jdoc_f.data = rest := by
    rcases i3.2 with ⟨_, e⟩ | ⟨e, _⟩
    · exact e
    · rw [hn] at e; cases e
  refine ⟨obj, input, h1, ?_, i2, ?_⟩
  · rw [h4]; simp only; rw [hd]; exact i1
  · rw [h4]; exact hn

/-- A sentence at the start of the input is what `json_parse` reads. -/
theorem parse_sentence_rest (obj : json_object) (input rest : List Int) (f : FILE)
    (hf : f.data = input ++ rest) (h : Sentence obj input) :
    ∃ doc, json_parse f = some (0, some doc) ∧ doc.jdoc_obj = some obj ∧
      doc.jdoc_f.data = rest ∧ doc.jdoc_nextc_avail = false := by
  obtain ⟨doc, h1, h2⟩ := parse_sentence obj input rest f hf h
  obtain ⟨obj', D, j1, j2, j3, j4⟩ := json_parse_run h1
  have eo : obj' = obj := by
    rw [h2] at j1; exact (Option.some.inj j1).symm
  subst eo
  obtain ⟨D2, r, p, a⟩ := run_of_spelled _ input h (json_doc.init f) rest
    (by rw [← hf]; exact pending_init f)
  have eD : D = D2 := run_det j2 r
  subst eD
  have hn : D.jdoc_nextc_avail = false := a (by simp [value_tokens])
  have hd : D.jdoc_f.data = rest := by
    rcases p.2 with ⟨_, e⟩ | ⟨e, _⟩
    · exact e
    · rw [hn] at e; cases e
  refine ⟨doc, h1, h2, ?_, ?_⟩
  · rw [j4]; exact hd
  · rw [j4]; exact hn

/-! ## Sentences: the last byte, proper prefixes, whitespace -/

theorem spelled_nil {bs : List Int} (h : Spelled [] bs) : bs = [] := by
  cases h; rfl

theorem spelled_last {ts : List json_token} {bs : List Int} (h : Spelled ts bs)
    (id : json_token_id) (c : Int) (hc : punct_char id = some c) :
    ∀ pre, ts = pre ++ [punct_tok id] → ∃ bpre, bs = bpre ++ [c] := by
  induction h with
  | nil => intro pre e; simp at e
  | punct ws id' c' ts bs hws hc' hsp ih =>
    intro pre e
    cases pre with
    | nil =>
      simp only [List.nil_append, List.cons.injEq] at e
      obtain ⟨e1, e2⟩ := e
      subst e2
      have := punct_tok_inj e1
      subst this
      rw [hc] at hc'
      simp only [Option.some.injEq] at hc'
      subst hc'
      rw [spelled_nil hsp]
      exact ⟨ws, rfl⟩
    | cons t pre' =>
      simp only [List.cons_append, List.cons.injEq] at e
      obtain ⟨bpre, e3⟩ := ih pre' e.2
      exact ⟨ws ++ c' :: bpre, by rw [e3]; simp⟩
  | lit ws s lx id' ts bs hws hlx hid hsp ih =>
    intro pre e
    cases pre with
    | nil => simp at e
    | cons t pre' =>
      simp only [List.cons_append, List.cons.injEq] at e
      obtain ⟨bpre, e3⟩ := ih pre' e.2
      exact ⟨ws ++ lx ++ bpre, by rw [e3]; simp⟩

theorem object_tail_tokens_last :
    ∀ o : List (List Int × json_value),
      ∃ pre, object_tail_tokens o = pre ++ [punct_tok JSON_TOK_OBJECT_END]
  | [] => ⟨[], rfl⟩
  | (k, v) :: more => by
    obtain ⟨pre, e⟩ := object_tail_tokens_last more
    exact ⟨punct_tok JSON_TOK_COMMA :: lit_tok k :: punct_tok JSON_TOK_COLON ::
      (value_tokens v ++ pre), by simp [object_tail_tokens, e]⟩

theorem document_tokens_last (obj : json_object) :
    ∃ pre, value_tokens (JSON_VAL_OBJECT obj) = pre ++ [punct_tok JSON_TOK_OBJECT_END] := by
  cases obj with
  | nil => exact ⟨[punct_tok JSON_TOK_OBJECT_BEGIN], rfl⟩
  | cons t more =>
    obtain ⟨k, v⟩ := t
    obtain ⟨pre, e⟩ := object_tail_tokens_last more
    exact ⟨punct_tok JSON_TOK_OBJECT_BEGIN :: lit_tok k :: punct_tok JSON_TOK_COLON ::
      (value_tokens v ++ pre), by simp [value_tokens, object_tokens, e]⟩

/-- A sentence ends with the closing brace of the root object. -/
theorem sentence_last {obj : json_object} {input : List Int} (h : Sentence obj input) :
    ∃ pre, input = pre ++ [125] := by
  obtain ⟨pre, e⟩ := document_tokens_last obj
  exact spelled_last h JSON_TOK_OBJECT_END 125 rfl pre e

theorem is_bytes_take {data : List Int} (h : is_bytes data = true) (n : Nat) :
    is_bytes (data.take n) = true := by
  have e := List.take_append_drop n data
  rw [← e, is_bytes_append] at h
  exact h.1

/-- No proper prefix of the sentence that `json_parse` has read from an
input of bytes is accepted. -/
theorem proper_start_rejected (f : FILE) (doc : json_doc) (input : List Int)
    (hb : is_bytes f.data = true) (h : json_parse f = some (0, some doc))
    (hf : f.data = input ++ doc.jdoc_f.data) (n : Nat) (hn : n < input.length) (g : FILE)
    (hg : g.data = input.take n) : ∃ e, e ≠ 0 ∧ json_parse g = some (e, none) := by
  rcases json_parse_cases g with ⟨doc', hd'⟩ | hrej
  · exfalso
    have hbi : is_bytes input = true := by
      rw [hf, is_bytes_append] at hb; exact hb.1
    have hbg : is_bytes g.data = true := by rw [hg]; exact is_bytes_take hbi n
    obtain ⟨obj', input', _, g2, g3, _⟩ := parse_inv g doc' hbg hd'
    have e1 : f.data = input' ++ (doc'.jdoc_f.data ++ input.drop n ++ doc.jdoc_f.data) := by
      conv_lhs => rw [hf, ← List.take_append_drop n input, ← hg, g2]
      simp
    obtain ⟨doc2, p1, _, p3, _⟩ := parse_sentence_rest obj' input' _ f e1 g3
    rw [h] at p1
    simp only [Option.some.injEq, Prod.mk.injEq, true_and] at p1
    subst p1
    have := congrArg List.length p3
    simp only [List.length_append, List.length_drop] at this
    omega
  · exact hrej

theorem respaced_spelled {ts : List json_token} {bs bs' : List Int} (h : Respaced ts bs bs') :
    Spelled ts bs ∧ Spelled ts bs' := by
  induction h with
  | nil => exact ⟨Spelled.nil, Spelled.nil⟩
  | punct ws ws' id c ts bs bs' h1 h2 _ h4 _ ih =>
    exact ⟨Spelled.punct ws id c ts bs h1 h4 ih.1, Spelled.punct ws' id c ts bs' h2 h4 ih.2⟩
  | lit ws ws' s lx id ts bs bs' h1 h2 _ h4 h5 _ ih =>
    exact ⟨Spelled.lit ws s lx id ts bs h1 h4 h5 ih.1,
      Spelled.lit ws' s lx id ts bs' h2 h4 h5 ih.2⟩

theorem respaced_refl {ts : List json_token} {bs : List Int} (h : Spelled ts bs) :
    Respaced ts bs bs := by
  induction h with
  | nil => exact Respaced.nil
  | punct ws id c ts bs h1 h2 _ ih =>
    exact Respaced.punct ws ws id c ts bs bs h1 h1 (List.Sublist.refl _) h2 ih
  | lit ws s lx id ts bs h1 h2 h3 _ ih =>
    exact Respaced.lit ws ws s lx id ts bs bs h1 h1 (List.Sublist.refl _) h2 h3 ih

/-! ## Claims on the parser: prefixes and whitespace -/

/-- C27: for every input of bytes that `json_parse` accepts, the bytes
read are a sentence `input` for the object returned, it ends with the
closing brace of the root object, the rest of the stream is unread, and
`json_parse` rejects, with a status other than 0 and no document, every
stream whose content is a proper prefix of `input`. The truncated inputs
of the tests are rejected. -/
theorem truncated_document_rejected (f : FILE) (doc : json_doc)
    (hb : is_bytes f.data = true) (h : json_parse f = some (0, some doc)) :
    (∃ obj input pre, doc.jdoc_obj = some obj ∧ f.data = input ++ doc.jdoc_f.data ∧
      doc.jdoc_nextc_avail = false ∧ Sentence obj input ∧ input = pre ++ [125] ∧
      ∀ (n : Nat) (g : FILE), n < input.length → g.data = input.take n →
        ∃ e, e ≠ 0 ∧ json_parse g = some (e, none)) ∧
    (∀ (n : Nat) (g : FILE), n < f.data.length - doc.jdoc_f.data.length →
      g.data = f.data.take n → ∃ e, e ≠ 0 ∧ json_parse g = some (e, none)) ∧
    json_parse_string (text "\x7b") = some (EINVAL, none) ∧
    json_parse_string (text "\x7bx:1") = some (EINVAL, none) ∧
    json_parse_string (text "\x7bx:123") = some (EINVAL, none) ∧
    json_parse_string (text "\x7bx:1.23") = some (EINVAL, none) ∧
    json_parse_string (text "\x7bx:1.") = some (EINVAL, none) ∧
    json_parse_string (text "\x7bx:foo") = some (EINVAL, none) ∧
    json_parse_string (text "\x7b \x22hello world\x22: \x22foo") = some (EINVAL, none) ∧
    json_parse_string (text "\x7b \x22hello world\x22: \x22") = some (EINVAL, none) := by
  obtain ⟨obj, input, h1, h2, h3, h4⟩ := parse_inv f doc hb h
  obtain ⟨pre, e⟩ := sentence_last h3
  refine ⟨⟨obj, input, pre, h1, h2, h4, h3, e,
    fun n g hn hg => proper_start_rejected f doc input hb h h2 n hn g hg⟩, fun n g hn hg => ?_,
    rfl, rfl, rfl, rfl, rfl, rfl, rfl, rfl⟩
  have hl : f.data.length = input.length + doc.jdoc_f.data.length := by
    conv_lhs => rw [h2]
    simp
  refine proper_start_rejected f doc input hb h h2 n (by omega) g ?_
  rw [hg]
  conv_lhs => rw [h2]
  exact List.take_append_of_le_length (by omega)

theorem truncated_document_rejected_witness :
    (∃ e, e ≠ 0 ∧ json_parse (fmemopen (text "\x7b x: [1, 2")) = some (e, none)) ∧
    (∃ e, e ≠ 0 ∧ json_parse (fmemopen (text "\x7b x: [1, 2] ")) = some (e, none)) :=
  have h := (truncated_document_rejected (fmemopen (text "\x7b x: [1, 2] \x7d, y"))
    (json_doc.mk (fmemopen (text ", y")) 1 false 93 false ⟨JSON_TOK_LIT, some (text "1")⟩
      (some [(text "x", JSON_VAL_ARRAY [JSON_VAL_LITERAL (text "1"),
        JSON_VAL_LITERAL (text "2")])])) (by decide) rfl).2.1
  ⟨h 10 (fmemopen (text "\x7b x: [1, 2")) (by decide) rfl,
    h 12 (fmemopen (text "\x7b x: [1, 2] ")) (by decide) rfl⟩

/-- C28: for every input of bytes that `json_parse` accepts, the bytes
read spell the tokens of the object returned, and every input in which
whitespace (spaces, tabs, newlines, or other characters of `isspace`) is
inserted before the first token or between two adjacent tokens of this
sentence, whatever follows it, is accepted too and gives the same object:
the same keys, literal texts, lengths and order. `{x:1}`, `{x: 1}` and
`{ x: 1 }` give the same object, as do `{x:1,y:2}` and `{ x: 1, y :2 }`. -/
theorem whitespace_insignificant (f : FILE) (doc : json_doc)
    (hb : is_bytes f.data = true) (h : json_parse f = some (0, some doc)) :
    (∃ obj input, doc.jdoc_obj = some obj ∧ f.data = input ++ doc.jdoc_f.data ∧
      Respaced (value_tokens (JSON_VAL_OBJECT obj)) input input ∧
      ∀ (input' rest' : List Int) (g : FILE),
        Respaced (value_tokens (JSON_VAL_OBJECT obj)) input input' →
        g.data = input' ++ rest' →
        ∃ doc', json_parse g = some (0, some doc') ∧ doc'.jdoc_obj = some obj) ∧
    (isspace 32 = true ∧ isspace 9 = true ∧ isspace 10 = true) ∧
    ((json_parse_string (text "\x7bx:1\x7d")).map (fun r => (r.1, r.2.map json_doc_object)) =
        some (0, some (some [(text "x", JSON_VAL_LITERAL (text "1"))])) ∧
      (json_parse_string (text "\x7bx: 1\x7d")).map (fun r => (r.1, r.2.map json_doc_object)) =
        some (0, some (some [(text "x", JSON_VAL_LITERAL (text "1"))])) ∧
      (json_parse_string (text "\x7b x: 1 \x7d")).map (fun r => (r.1, r.2.map json_doc_object)) =
        some (0, some (some [(text "x", JSON_VAL_LITERAL (text "1"))]))) ∧
    ((json_parse_string (text "\x7bx:1,y:2\x7d")).map
          (fun r => (r.1, r.2.map json_doc_object)) =
        some (0, some (some [(text "x", JSON_VAL_LITERAL (text "1")),
          (text "y", JSON_VAL_LITERAL (text "2"))])) ∧
      (json_parse_string (text "\x7b x: 1, y :2 \x7d")).map
          (fun r => (r.1, r.2.map json_doc_object)) =
        some (0, some (some [(text "x", JSON_VAL_LITERAL (text "1")),
          (text "y", JSON_VAL_LITERAL (text "2"))]))) := by
  obtain ⟨obj, input, h1, h2, h3, _⟩ := parse_inv f doc hb h
  exact ⟨⟨obj, input, h1, h2, respaced_refl h3, fun input' rest' g hr hg =>
    parse_sentence obj input' rest' g hg (respaced_spelled hr).2⟩, by decide,
    ⟨rfl, rfl, rfl⟩, ⟨rfl, rfl⟩⟩

theorem whitespace_insignificant_witness :
    ∃ doc', json_parse (fmemopen (text "\n\x7b\tx :  1 \x7d, z")) = some (0, some doc') ∧
      doc'.jdoc_obj = some [(text "x", JSON_VAL_LITERAL (text "1"))] := by
  obtain ⟨obj, input, h1, h2, _, h4⟩ := (whitespace_insignificant
    (fmemopen (text "\x7bx:1\x7d"))
    (json_doc.mk (fmemopen []) 1 false 125 false ⟨JSON_TOK_LIT, some (text "x")⟩
      (some [(text "x", JSON_VAL_LITERAL (text "1"))])) (by decide) rfl).1
  have e1 : obj = [(text "x", JSON_VAL_LITERAL (text "1"))] := (Option.some.inj h1).symm
  have e2 : input = text "\x7bx:1\x7d" := by
    have : input ++ [] = text "\x7bx:1\x7d" := h2.symm
    simpa using this
  subst e1 e2
  exact h4 (text "\n\x7b\tx :  1 \x7d") (text ", z") _
    (Respaced.punct [] [10] JSON_TOK_OBJECT_BEGIN 123 _ _ _ rfl rfl (by decide) rfl
      (Respaced.lit [] [9] (text "x") (text "x") JSON_TOK_COLON _ _ _ rfl rfl (by decide)
        (Lexeme.unquoted 120 [] rfl rfl (by decide)) rfl
        (Respaced.punct [] [32] JSON_TOK_COLON 58 _ _ _ rfl rfl (by decide) rfl
          (Respaced.lit [] [32, 32] (text "1") (text "1") JSON_TOK_OBJECT_END _ _ _ rfl rfl
            (by decide) (Lexeme.number (text "1") rfl (by decide)) rfl
            (Respaced.punct [] [32] JSON_TOK_OBJECT_END 125 [] [] [] rfl rfl (by decide) rfl
              Respaced.nil))))) rfl

/-! ## The dump of a parsed object is a sentence for it -/

theorem indent_space : ∀ n, (_indent n).all isspace = true
  | 0 => rfl
  | n + 1 => by
    simp only [_indent, List.all_append, indent_space n, Bool.and_true]
    rfl

theorem plain_map_snd :
    ∀ s : List Int, (s.map fun c => ((false, c) : Bool × Int)).map Prod.snd = s
  | [] => rfl
  | c :: s => by simp only [List.map_cons, plain_map_snd s]

/-- A text of the tokenizer without quote and backslash, between quotes, is
a quoted literal for it. -/
theorem lexeme_of_text {s : List Int} (h1 : text_ok s = true) (h2 : text_plain s = true) :
    Lexeme s (34 :: (s ++ [34])) := by
  simp only [text_ok, Bool.and_eq_true, decide_eq_true_eq, List.all_eq_true] at h1
  simp only [text_plain, List.all_eq_true, Bool.and_eq_true, bne_iff_ne, ne_eq] at h2
  have h := Lexeme.quoted (s.map fun c => (false, c))
    (by
      simp only [List.all_eq_true, List.mem_map, forall_exists_index, and_imp]
      intro it c hc e
      subst e
      simp only [quoted_item_ok, h1.1 c hc, Bool.false_or, Bool.true_and, Bool.and_eq_true,
        bne_iff_ne, ne_eq]
      exact h2 c hc)
    (by simpa using h1.2)
  rw [quoted_body_plain s, plain_map_snd s] at h
  exact h

theorem token_ok_lit_tok (s : List Int) : token_ok (lit_tok s) = text_ok s := rfl

mutual

theorem texts_value : ∀ v : json_value, (∀ t ∈ value_tokens v, token_ok t = true) →
    value_texts text_ok v = true
  | JSON_VAL_LITERAL s, h => by
    simp only [value_texts]
    rw [← token_ok_lit_tok]
    exact h _ (by simp [value_tokens])
  | JSON_VAL_OBJECT o, h => by
    simp only [value_texts]
    exact texts_object o fun t ht => h t (by simp [value_tokens, ht])
  | JSON_VAL_ARRAY a, h => by
    simp only [value_texts]
    exact texts_array a fun t ht => h t (by simp [value_tokens, ht])

theorem texts_object : ∀ o : List (List Int × json_value),
    (∀ t ∈ object_tokens o, token_ok t = true) → object_texts text_ok o = true
  | [], _ => rfl
  | (k, v) :: more, h => by
    simp only [object_texts, Bool.and_eq_true]
    refine ⟨⟨?_, ?_⟩, ?_⟩
    · rw [← token_ok_lit_tok]
      exact h _ (by simp [object_tokens])
    · exact texts_value v fun t ht => h t (by simp [object_tokens, ht])
    · exact texts_object_tail more fun t ht => h t (by simp [object_tokens, ht])

theorem texts_object_tail : ∀ o : List (List Int × json_value),
    (∀ t ∈ object_tail_tokens o, token_ok t = true) → object_texts text_ok o = true
  | [], _ => rfl
  | (k, v) :: more, h => by
    simp only [object_texts, Bool.and_eq_true]
    refine ⟨⟨?_, ?_⟩, ?_⟩
    · rw [← token_ok_lit_tok]
      exact h _ (by simp [object_tail_tokens])
    · exact texts_value v fun t ht => h t (by simp [object_tail_tokens, ht])
    · exact texts_object_tail more fun t ht => h t (by simp [object_tail_tokens, ht])

theorem texts_array : ∀ a : List json_value,
    (∀ t ∈ array_tokens a, token_ok t = true) → array_texts text_ok a = true
  | [], _ => rfl
  | v :: more, h => by
    simp only [array_texts, Bool.and_eq_true]
    exact ⟨texts_value v fun t ht => h t (by simp [array_tokens, ht]),
      texts_array_tail more fun t ht => h t (by simp [array_tokens, ht])⟩

theorem texts_array_tail : ∀ a : List json_value,
    (∀ t ∈ array_tail_tokens a, token_ok t = true) → array_texts text_ok a = true
  | [], _ => rfl
  | v :: more, h => by
    simp only [array_texts, Bool.and_eq_true]
    exact ⟨texts_value v fun t ht => h t (by simp [array_tail_tokens, ht]),
      texts_array_tail more fun t ht => h t (by simp [array_tail_tokens, ht])⟩

end

/-- Every key and literal of a document that `json_parse` returns is a
text of at most 63 printable ASCII characters. -/
theorem parsed_texts_ok {f : FILE} {doc : json_doc} (h : json_parse f = some (0, some doc)) :
    ∃ obj, doc.jdoc_obj = some obj ∧ object_texts text_ok obj = true := by
  obtain ⟨obj, D, h1, h2, _, _⟩ := json_parse_run h
  have hok := run_tokens_ok (lookahead_ok_init f) h2
  exact ⟨obj, h1, texts_object obj fun t ht => hok t (by simp [value_tokens, ht])⟩

/-! ## The bytes of a dump spell the tokens of the value -/

theorem ws_newline_indent (n : Nat) : ((10 : Int) :: _indent n).all isspace = true := by
  simp only [List.all_cons, indent_space n, Bool.and_true]
  rfl

theorem separator_nil : (if ([] : List json_value).isEmpty then text "\n" else text ",\n") =
    [10] := rfl

mutual

theorem spelled_dump_value : ∀ (v : json_value) (lev : Nat) (ws bs : List Int)
    (id : json_token_id) (ts : List json_token),
    value_texts text_ok v = true → value_texts text_plain v = true →
    ws.all isspace = true → (punct_char id).isSome = true → Spelled (punct_tok id :: ts) bs →
    Spelled (value_tokens v ++ punct_tok id :: ts) (ws ++ _dump_value lev v ++ bs)
  | JSON_VAL_LITERAL s, lev, ws, bs, id, ts, h1, h2, hws, hid, hsp => by
    simp only [value_texts] at h1 h2
    have h := Spelled.lit ws s _ id ts bs hws (lexeme_of_text h1 h2) hid hsp
    simpa [_dump_value, value_tokens, text] using h
  | JSON_VAL_OBJECT o, lev, ws, bs, id, ts, h1, h2, hws, hid, hsp => by
    simp only [value_texts] at h1 h2
    have h := Spelled.punct ws JSON_TOK_OBJECT_BEGIN 123 _ _ hws rfl
      (spelled_dump_object o lev bs (punct_tok id :: ts) h1 h2 hsp)
    have e : ws ++ _dump_value lev (JSON_VAL_OBJECT o) ++ bs =
        ws ++ 123 :: ([10] ++ _dump_object_loop lev o ++ _indent lev ++ [125] ++ bs) := by
      simp only [_dump_value]
      rw [show text "\x7b\n" = [123, 10] from rfl, show text "\x7d" = [125] from rfl]
      simp
    rw [e]
    simpa [value_tokens] using h
  | JSON_VAL_ARRAY a, lev, ws, bs, id, ts, h1, h2, hws, hid, hsp => by
    simp only [value_texts] at h1 h2
    have h := Spelled.punct ws JSON_TOK_ARRAY_BEGIN 91 _ _ hws rfl
      (spelled_dump_array a lev bs (punct_tok id :: ts) h1 h2 hsp)
    have e : ws ++ _dump_value lev (JSON_VAL_ARRAY a) ++ bs =
        ws ++ 91 :: ([10] ++ _dump_array_loop lev a ++ _indent lev ++ [93] ++ bs) := by
      simp only [_dump_value]
      rw [show text "[\n" = [91, 10] from rfl, show text "]" = [93] from rfl]
      simp
    rw [e]
    simpa [value_tokens] using h

theorem spelled_dump_object : ∀ (o : List (List Int × json_value)) (lev : Nat)
    (bs : List Int) (ts : List json_token),
    object_texts text_ok o = true → object_texts text_plain o = true → Spelled ts bs →
    Spelled (object_tokens o ++ ts)
      ([10] ++ _dump_object_loop lev o ++ _indent lev ++ [125] ++ bs)
  | [], lev, bs, ts, _, _, hsp => by
    have h := Spelled.punct (10 :: _indent lev) JSON_TOK_OBJECT_END 125 ts bs
      (ws_newline_indent lev) rfl hsp
    simpa [_dump_object_loop, object_tokens] using h
  | (k, v) :: more, lev, bs, ts, h1, h2, hsp => by
    simp only [object_texts, Bool.and_eq_true] at h1 h2
    have htail : ∃ id tl, (punct_char id).isSome = true ∧
        object_tail_tokens more ++ ts = punct_tok id :: tl ∧
        Spelled (punct_tok id :: tl)
          ((if more.isEmpty then text "\n" else text ",\n") ++
            _dump_object_loop lev more ++ _indent lev ++ [125] ++ bs) := by
      cases more with
      | nil =>
        refine ⟨JSON_TOK_OBJECT_END, ts, rfl, rfl, ?_⟩
        have h := Spelled.punct (10 :: _indent lev) JSON_TOK_OBJECT_END 125 ts bs
          (ws_newline_indent lev) rfl hsp
        have e : (if ([] : List (List Int × json_value)).isEmpty then text "\n"
            else text ",\n") = [10] := rfl
        rw [e]
        simpa [_dump_object_loop] using h
      | cons t more' =>
        obtain ⟨k', v'⟩ := t
        refine ⟨JSON_TOK_COMMA, object_tokens ((k', v') :: more') ++ ts, rfl, rfl, ?_⟩
        have h := Spelled.punct [] JSON_TOK_COMMA 44 _ _ rfl rfl
          (spelled_dump_object ((k', v') :: more') lev bs ts h1.2 h2.2 hsp)
        have e : (if ((k', v') :: more').isEmpty then text "\n" else text ",\n") =
            [44, 10] := rfl
        rw [e]
        simpa using h
    obtain ⟨id, tl, hid, e1, hcont⟩ := htail
    have hv := spelled_dump_value v ((lev + 1) % 2 ^ 32) [32] _ id tl h1.1.2 h2.1.2 rfl hid
      hcont
    have hc := Spelled.punct [] JSON_TOK_COLON 58 _ _ rfl rfl hv
    have hk := Spelled.lit (10 :: _indent ((lev + 1) % 2 ^ 32)) k _ JSON_TOK_COLON _ _
      (ws_newline_indent _) (lexeme_of_text h1.1.1 h2.1.1) rfl hc
    have e2 : object_tokens ((k, v) :: more) ++ ts =
        lit_tok k :: punct_tok JSON_TOK_COLON :: (value_tokens v ++ punct_tok id :: tl) := by
      simp only [object_tokens, List.cons_append, List.append_assoc, e1]
    rw [e2]
    have e3 : [10] ++ _dump_object_loop lev ((k, v) :: more) ++ _indent lev ++ [125] ++ bs =
        10 :: _indent ((lev + 1) % 2 ^ 32) ++ 34 :: (k ++ [34]) ++
          ([] ++ 58 :: ([32] ++ _dump_value ((lev + 1) % 2 ^ 32) v ++
            ((if more.isEmpty then text "\n" else text ",\n") ++
              _dump_object_loop lev more ++ _indent lev ++ [125] ++ bs))) := by
      simp only [_dump_object_loop]
      rw [show text "\x22" = [34] from rfl, show text "\x22: " = [34, 58, 32] from rfl]
      simp
    rw [e3]
    exact hk

theorem spelled_dump_array : ∀ (a : List json_value) (lev : Nat)
    (bs : List Int) (ts : List json_token),
    array_texts text_ok a = true → array_texts text_plain a = true → Spelled ts bs →
    Spelled (array_tokens a ++ ts)
      ([10] ++ _dump_array_loop lev a ++ _indent lev ++ [93] ++ bs)
  | [], lev, bs, ts, _, _, hsp => by
    have h := Spelled.punct (10 :: _indent lev) JSON_TOK_ARRAY_END 93 ts bs
      (ws_newline_indent lev) rfl hsp
    simpa [_dump_array_loop, array_tokens] using h
  | v :: more, lev, bs, ts, h1, h2, hsp => by
    simp only [array_texts, Bool.and_eq_true] at h1 h2
    have htail : ∃ id tl, (punct_char id).isSome = true ∧
        array_tail_tokens more ++ ts = punct_tok id :: tl ∧
        Spelled (punct_tok id :: tl)
          ((if more.isEmpty then text "\n" else text ",\n") ++
            _dump_array_loop lev more ++ _indent lev ++ [93] ++ bs) := by
      cases more with
      | nil =>
        refine ⟨JSON_TOK_ARRAY_END, ts, rfl, rfl, ?_⟩
        have h := Spelled.punct (10 :: _indent lev) JSON_TOK_ARRAY_END 93 ts bs
          (ws_newline_indent lev) rfl hsp
        rw [separator_nil]
        simpa [_dump_array_loop] using h
      | cons v' more' =>
        refine ⟨JSON_TOK_COMMA, array_tokens (v' :: more') ++ ts, rfl, rfl, ?_⟩
        have h := Spelled.punct [] JSON_TOK_COMMA 44 _ _ rfl rfl
          (spelled_dump_array (v' :: more') lev bs ts h1.2 h2.2 hsp)
        have e : (if (v' :: more').isEmpty then text "\n" else text ",\n") = [44, 10] := rfl
        rw [e]
        simpa using h
    obtain ⟨id, tl, hid, e1, hcont⟩ := htail
    have hv := spelled_dump_value v ((lev + 1) % 2 ^ 32) (10 :: _indent ((lev + 1) % 2 ^ 32))
      _ id tl h1.1 h2.1 (ws_newline_indent _) hid hcont
    have e2 : array_tokens (v :: more) ++ ts = value_tokens v ++ punct_tok id :: tl := by
      simp only [array_tokens, List.append_assoc, e1]
    rw [e2]
    have e3 : [10] ++ _dump_array_loop lev (v :: more) ++ _indent lev ++ [93] ++ bs =
        10 :: _indent ((lev + 1) % 2 ^ 32) ++ _dump_value ((lev + 1) % 2 ^ 32) v ++
          ((if more.isEmpty then text "\n" else text ",\n") ++
            _dump_array_loop lev more ++ _indent lev ++ [93] ++ bs) := by
      simp only [_dump_array_loop]
      simp
    rw [e3]
    exact hv

end

/-- The dump of an object whose texts are texts of the tokenizer without
quote and backslash is a sentence for the object, followed by a newline. -/
theorem dump_sentence (obj : json_object) (h1 : object_texts text_ok obj = true)
    (h2 : object_texts text_plain obj = true) : Sentence obj (_dump_object 0 obj) := by
  have h := Spelled.punct [] JSON_TOK_OBJECT_BEGIN 123 _ _ rfl rfl
    (spelled_dump_object obj 0 [] [] h1 h2 Spelled.nil)
  have e : _dump_object 0 obj =
      [] ++ 123 :: ([10] ++ _dump_object_loop 0 obj ++ _indent 0 ++ [125] ++ []) := by
    simp only [_dump_object]
    rw [show text "\x7b\n" = [123, 10] from rfl, show text "\x7d" = [125] from rfl]
    simp
  unfold Sentence
  rw [e]
  simpa [value_tokens] using h

/-! ## Claims on the dump -/

/-- C25 (as stated, refuted): the document parsed from
`{ "hello world": "foo \"bar" }` has the literal `foo "bar`; `json_dump`
writes it between double quotes as it is, and `json_parse_string` rejects
the text written with `EINVAL`. -/
theorem dump_of_escaped_literal_rejected :
    (json_parse_string (text "\x7b \x22hello world\x22: \x22foo \x5c\x22bar\x22 \x7d")).map
        (fun r => (r.1, r.2.map json_doc_object)) =
      some (0, some (some [(text "hello world", JSON_VAL_LITERAL (text "foo \x22bar"))])) ∧
    (json_parse_string (text "\x7b \x22hello world\x22: \x22foo \x5c\x22bar\x22 \x7d")).map
        (fun r => (r.1, r.2.bind json_dump)) =
      some (0, some (text "\x7b\n    \x22hello world\x22: \x22foo \x22bar\x22\n\x7d\n")) ∧
    json_parse_string (text "\x7b\n    \x22hello world\x22: \x22foo \x22bar\x22\n\x7d\n") =
      some (EINVAL, none) :=
  ⟨rfl, rfl, rfl⟩

/-- C25 (amended): every document that `json_parse` returns has an object
whose keys and literals are texts of at most 63 printable ASCII
characters, and `json_dump` writes the dump of this object and a newline.
When no key and no literal contains a double quote or a backslash, parsing
the text written succeeds and gives the same object, so that dumping the
result writes the same bytes. Neither condition can be dropped, and a
dump with such a character is not always rejected: the document parsed
from `{"k":"a\\b"}` has the literal `a\b`, its dump is accepted and gives
the literal `ab`, whose dump is another text; the document parsed from
`{"k":"a\",\"b\":\"c"}` has one tuple, its dump is accepted and gives the
two tuples `k: a` and `b: c`, whose dump is another text. -/
theorem dump_parse_round_trip (f : FILE) (doc : json_doc)
    (h : json_parse f = some (0, some doc)) :
    (∃ obj, doc.jdoc_obj = some obj ∧ object_texts text_ok obj = true ∧
      json_dump doc = some (_dump_object 0 obj ++ [10]) ∧
      (object_texts text_plain obj = true →
        ∃ doc', json_parse_string (_dump_object 0 obj ++ [10]) = some (0, some doc') ∧
          doc'.jdoc_obj = some obj ∧ json_dump doc' = json_dump doc)) ∧
    ((json_parse_string (text "\x7b\x22k\x22:\x22a\x5c\x5cb\x22\x7d")).map
        (fun r => (r.1, r.2.map json_doc_object, r.2.bind json_dump)) =
      some (0, some (some [(text "k", JSON_VAL_LITERAL (text "a\x5cb"))]),
        some (text "\x7b\n    \x22k\x22: \x22a\x5cb\x22\n\x7d\n")) ∧
      (json_parse_string (text "\x7b\n    \x22k\x22: \x22a\x5cb\x22\n\x7d\n")).map
        (fun r => (r.1, r.2.map json_doc_object, r.2.bind json_dump)) =
      some (0, some (some [(text "k", JSON_VAL_LITERAL (text "ab"))]),
        some (text "\x7b\n    \x22k\x22: \x22ab\x22\n\x7d\n")) ∧
      text "\x7b\n    \x22k\x22: \x22ab\x22\n\x7d\n" ≠
        text "\x7b\n    \x22k\x22: \x22a\x5cb\x22\n\x7d\n") ∧
    ((json_parse_string
          (text "\x7b\x22k\x22:\x22a\x5c\x22,\x5c\x22b\x5c\x22:\x5c\x22c\x22\x7d")).map
        (fun r => (r.1, r.2.map json_doc_object, r.2.bind json_dump)) =
      some (0, some (some [(text "k", JSON_VAL_LITERAL (text "a\x22,\x22b\x22:\x22c"))]),
        some (text "\x7b\n    \x22k\x22: \x22a\x22,\x22b\x22:\x22c\x22\n\x7d\n")) ∧
      (json_parse_string
          (text "\x7b\n    \x22k\x22: \x22a\x22,\x22b\x22:\x22c\x22\n\x7d\n")).map
        (fun r => (r.1, r.2.map json_doc_object, r.2.bind json_dump)) =
      some (0, some (some [(text "k", JSON_VAL_LITERAL (text "a")),
          (text "b", JSON_VAL_LITERAL (text "c"))]),
        some (text "\x7b\n    \x22k\x22: \x22a\x22,\n    \x22b\x22: \x22c\x22\n\x7d\n")) ∧
      text "\x7b\n    \x22k\x22: \x22a\x22,\n    \x22b\x22: \x22c\x22\n\x7d\n" ≠
        text "\x7b\n    \x22k\x22: \x22a\x22,\x22b\x22:\x22c\x22\n\x7d\n") := by
  refine ⟨?_, ⟨rfl, rfl, by decide⟩, ⟨rfl, rfl, by decide⟩⟩
  obtain ⟨obj, h1, h2⟩ := parsed_texts_ok h
  refine ⟨obj, h1, h2, by simp only [json_dump, h1, Option.map_some'], fun hp => ?_⟩
  obtain ⟨doc', d1, d2⟩ := parse_sentence obj (_dump_object 0 obj) [10]
    (fmemopen (_dump_object 0 obj ++ [10])) rfl (dump_sentence obj h2 hp)
  exact ⟨doc', d1, d2, by simp only [json_dump, h1, d2]⟩

theorem dump_parse_round_trip_witness :
    ∃ doc', json_parse_string
        (text "\x7b\n    \x22x\x22: [\n        \x221\x22,\n        \x22a b\x22\n    ]\n\x7d\n") =
        some (0, some doc') ∧
      doc'.jdoc_obj = some [(text "x", JSON_VAL_ARRAY [JSON_VAL_LITERAL (text "1"),
        JSON_VAL_LITERAL (text "a b")])] ∧
      json_dump doc' = some
        (text "\x7b\n    \x22x\x22: [\n        \x221\x22,\n        \x22a b\x22\n    ]\n\x7d\n") := by
  obtain ⟨obj, h1, _, h3, h4⟩ := (dump_parse_round_trip
    (fmemopen (text "\x7bx:[1,\x22a b\x22]\x7d"))
    (json_doc.mk (fmemopen []) 1 false 44 false ⟨JSON_TOK_LIT, some (text "1")⟩
      (some [(text "x", JSON_VAL_ARRAY [JSON_VAL_LITERAL (text "1"),
        JSON_VAL_LITERAL (text "a b")])])) rfl).1
  have e : obj = [(text "x", JSON_VAL_ARRAY [JSON_VAL_LITERAL (text "1"),
      JSON_VAL_LITERAL (text "a b")])] := (Option.some.inj h1).symm
  subst e
  obtain ⟨doc', d1, d2, d3⟩ := h4 rfl
  exact ⟨doc', d1, d2, d3.trans h3⟩

/-! ## The Define rule and the getters -/

theorem str2int_status (lit : List Int) :
    (str2int lit).1 = 0 → ∃ v, str2int lit = (0, some v) := by
  unfold str2int
  dsimp only
  intro h
  by_cases h1 : (str2int64 lit).1 != 0
  · rw [if_pos h1] at h
    exact absurd h (by simpa using h1)
  · rw [if_neg h1] at h ⊢
    split_ifs at h ⊢ with h2
    · cases h
    · exact ⟨_, rfl⟩

theorem str2uint_status (lit : List Int) :
    (str2uint lit).1 = 0 → ∃ v, str2uint lit = (0, some v) := by
  unfold str2uint
  dsimp only
  intro h
  by_cases h1 : (str2int64 lit).1 != 0
  · rw [if_pos h1] at h
    exact absurd h (by simpa using h1)
  · rw [if_neg h1] at h ⊢
    split_ifs at h ⊢ with h2
    · cases h
    · exact ⟨_, rfl⟩

theorem str2double_status (strtod : List Int → conversion double) (lit : List Int) :
    (str2double strtod lit).1 = 0 → ∃ v, str2double strtod lit = (0, some v) := by
  unfold str2double
  dsimp only
  intro h
  split_ifs at h ⊢ with h1 h2
  · exact absurd h (by decide)
  · exact absurd h (by decide)
  · exact ⟨_, rfl⟩

theorem array_of_text_value (jarr : json_array) :
    ((json_get_array_of_text jarr).1 = 0 →
      ∃ v n, json_get_array_of_text jarr = (0, some v, n)) ∧
    ((json_get_array_of_text jarr).1 ≠ 0 → (json_get_array_of_text jarr).2.1 = none) := by
  unfold json_get_array_of_text
  dsimp only
  rcases json_get_array_of_text_loop jarr 0 (List.replicate jarr.length []) with _ | v
  · exact ⟨fun h => absurd (show EINVAL = 0 from h) (by decide), fun _ => rfl⟩
  · exact ⟨fun _ => ⟨_, _, rfl⟩, fun h => absurd rfl h⟩

theorem array_of_uint32_value (jarr : json_array) :
    ((json_get_array_of_uint32 jarr).1 = 0 →
      ∃ v n, json_get_array_of_uint32 jarr = (0, some v, n)) ∧
    ((json_get_array_of_uint32 jarr).1 ≠ 0 → (json_get_array_of_uint32 jarr).2.1 = none) := by
  unfold json_get_array_of_uint32
  dsimp only
  rcases json_get_array_of_uint32_loop jarr 0 (List.replicate jarr.length 0) with _ | v
  · exact ⟨fun h => absurd (show EINVAL = 0 from h) (by decide), fun _ => rfl⟩
  · exact ⟨fun _ => ⟨_, _, rfl⟩, fun h => absurd rfl h⟩

theorem array_of_uint64_value (jarr : json_array) :
    ((json_get_array_of_uint64 jarr).1 = 0 →
      ∃ v n, json_get_array_of_uint64 jarr = (0, some v, n)) ∧
    ((json_get_array_of_uint64 jarr).1 ≠ 0 → (json_get_array_of_uint64 jarr).2.1 = none) := by
  unfold json_get_array_of_uint64
  dsimp only
  rcases json_get_array_of_uint64_loop jarr 0 (List.replicate jarr.length 0) with _ | v
  · exact ⟨fun h => absurd (show EINVAL = 0 from h) (by decide), fun _ => rfl⟩
  · exact ⟨fun _ => ⟨_, _, rfl⟩, fun h => absurd rfl h⟩
/-! ## Claim on the Define rule and the getters -/

/-- A Define rule of a type that is not a vector type, with a value pointer
and no length pointer, and the getter of its type. -/
theorem define_getter_scalar (strtod : List Int → conversion double) (obj : json_object)
    (k : List Int) (ty : Nat) (req : Bool) (p : Nat) (mem : Nat → cell)
    (hty : ty = JSON_SCHEMA_TYPE_DOUBLE ∨ ty = JSON_SCHEMA_TYPE_INT ∨
      ty = JSON_SCHEMA_TYPE_OBJ ∨ ty = JSON_SCHEMA_TYPE_TEXT ∨ ty = JSON_SCHEMA_TYPE_UINT) :
    (∀ r, getter_result strtod ty obj k = some r →
      r.2 = none ∧
      _define_body strtod obj k ty req (some p) none mem = (return_0, store mem p r.1)) ∧
    (getter_result strtod ty obj k = none →
      (_define_body strtod obj k ty req (some p) none mem).1 ≠ return_0 ∨
      (json_get_value obj k = none ∧ req = false ∧
        _define_body strtod obj k ty req (some p) none mem = (return_0, mem))) := by
  rcases hv : json_get_value obj k with _ | v
  · refine ⟨fun r hr => ?_, fun _ => ?_⟩
    · rcases hty with h | h | h | h | h <;> subst h <;>
        simp [getter_result, json_get_literal, json_get_object, json_get_array, json_get_int,
              json_get_uint, json_get_double, hv, ENOENT,
              JSON_SCHEMA_TYPE_DOUBLE, JSON_SCHEMA_TYPE_INT, JSON_SCHEMA_TYPE_OBJ,
              JSON_SCHEMA_TYPE_TEXT, JSON_SCHEMA_TYPE_UINT, JSON_SCHEMA_TYPE_TEXTV,
              JSON_SCHEMA_TYPE_UINT32V, JSON_SCHEMA_TYPE_UINT64V] at hr
    · cases req
      · exact Or.inr ⟨rfl, rfl, by simp [_define_body, hv]⟩
      · exact Or.inl (by simp [_define_body, hv])
  · rcases hty with h | h | h | h | h <;> subst h
    · -- DOUBLE
      cases v with
      | JSON_VAL_LITERAL lit =>
        by_cases hc : (str2double strtod lit).1 = 0
        · obtain ⟨w, hw⟩ := str2double_status strtod lit hc
          refine ⟨fun r hr => ?_, fun hn => ?_⟩
          · simp [getter_result, json_get_literal, json_get_object, json_get_array, json_get_int,
              json_get_uint, json_get_double, hv, ENOENT, hw,
              JSON_SCHEMA_TYPE_DOUBLE, JSON_SCHEMA_TYPE_INT, JSON_SCHEMA_TYPE_OBJ,
              JSON_SCHEMA_TYPE_TEXT, JSON_SCHEMA_TYPE_UINT, JSON_SCHEMA_TYPE_TEXTV,
              JSON_SCHEMA_TYPE_UINT32V, JSON_SCHEMA_TYPE_UINT64V] at hr
            subst hr
            refine ⟨rfl, ?_⟩
            simp [_define_body, hv, hw, store_opt,
              JSON_SCHEMA_TYPE_DOUBLE, JSON_SCHEMA_TYPE_INT, JSON_SCHEMA_TYPE_OBJ,
              JSON_SCHEMA_TYPE_TEXT, JSON_SCHEMA_TYPE_UINT, JSON_SCHEMA_TYPE_TEXTV,
              JSON_SCHEMA_TYPE_UINT32V, JSON_SCHEMA_TYPE_UINT64V]
          · simp [getter_result, json_get_literal, json_get_object, json_get_array, json_get_int,
              json_get_uint, json_get_double, hv, ENOENT, hw,
              JSON_SCHEMA_TYPE_DOUBLE, JSON_SCHEMA_TYPE_INT, JSON_SCHEMA_TYPE_OBJ,
              JSON_SCHEMA_TYPE_TEXT, JSON_SCHEMA_TYPE_UINT, JSON_SCHEMA_TYPE_TEXTV,
              JSON_SCHEMA_TYPE_UINT32V, JSON_SCHEMA_TYPE_UINT64V] at hn
        · refine ⟨fun r hr => ?_, fun _ => Or.inl ?_⟩
          · simp [getter_result, json_get_literal, json_get_object, json_get_array, json_get_int,
              json_get_uint, json_get_double, hv, ENOENT, hc,
              JSON_SCHEMA_TYPE_DOUBLE, JSON_SCHEMA_TYPE_INT, JSON_SCHEMA_TYPE_OBJ,
              JSON_SCHEMA_TYPE_TEXT, JSON_SCHEMA_TYPE_UINT, JSON_SCHEMA_TYPE_TEXTV,
              JSON_SCHEMA_TYPE_UINT32V, JSON_SCHEMA_TYPE_UINT64V] at hr
          · simp [_define_body, hv, hc,
              JSON_SCHEMA_TYPE_DOUBLE, JSON_SCHEMA_TYPE_INT, JSON_SCHEMA_TYPE_OBJ,
              JSON_SCHEMA_TYPE_TEXT, JSON_SCHEMA_TYPE_UINT, JSON_SCHEMA_TYPE_TEXTV,
              JSON_SCHEMA_TYPE_UINT32V, JSON_SCHEMA_TYPE_UINT64V]
      | JSON_VAL_OBJECT o =>
        refine ⟨fun r hr => ?_, fun _ => Or.inl ?_⟩
        · simp [getter_result, json_get_literal, json_get_object, json_get_array, json_get_int,
              json_get_uint, json_get_double, hv, ENOENT,
              JSON_SCHEMA_TYPE_DOUBLE, JSON_SCHEMA_TYPE_INT, JSON_SCHEMA_TYPE_OBJ,
              JSON_SCHEMA_TYPE_TEXT, JSON_SCHEMA_TYPE_UINT, JSON_SCHEMA_TYPE_TEXTV,
              JSON_SCHEMA_TYPE_UINT32V, JSON_SCHEMA_TYPE_UINT64V] at hr
        · simp [_define_body, hv,
              JSON_SCHEMA_TYPE_DOUBLE, JSON_SCHEMA_TYPE_INT, JSON_SCHEMA_TYPE_OBJ,
              JSON_SCHEMA_TYPE_TEXT, JSON_SCHEMA_TYPE_UINT, JSON_SCHEMA_TYPE_TEXTV,
              JSON_SCHEMA_TYPE_UINT32V, JSON_SCHEMA_TYPE_UINT64V]
      | JSON_VAL_ARRAY a =>
        refine ⟨fun r hr => ?_, fun _ => Or.inl ?_⟩
        · simp [getter_result, json_get_literal, json_get_object, json_get_array, json_get_int,
              json_get_uint, json_get_double, hv, ENOENT,
              JSON_SCHEMA_TYPE_DOUBLE, JSON_SCHEMA_TYPE_INT, JSON_SCHEMA_TYPE_OBJ,
              JSON_SCHEMA_TYPE_TEXT, JSON_SCHEMA_TYPE_UINT, JSON_SCHEMA_TYPE_TEXTV,
              JSON_SCHEMA_TYPE_UINT32V, JSON_SCHEMA_TYPE_UINT64V] at hr
        · simp [_define_body, hv,
              JSON_SCHEMA_TYPE_DOUBLE, JSON_SCHEMA_TYPE_INT, JSON_SCHEMA_TYPE_OBJ,
              JSON_SCHEMA_TYPE_TEXT, JSON_SCHEMA_TYPE_UINT, JSON_SCHEMA_TYPE_TEXTV,
              JSON_SCHEMA_TYPE_UINT32V, JSON_SCHEMA_TYPE_UINT64V]
    · -- INT
      cases v with
      | JSON_VAL_LITERAL lit =>
        by_cases hc : (str2int lit).1 = 0
        · obtain ⟨w, hw⟩ := str2int_status lit hc
          refine ⟨fun r hr => ?_, fun hn => ?_⟩
          · simp [getter_result, json_get_literal, json_get_object, json_get_array, json_get_int,
              json_get_uint, json_get_double, hv, ENOENT, hw,
              JSON_SCHEMA_TYPE_DOUBLE, JSON_SCHEMA_TYPE_INT, JSON_SCHEMA_TYPE_OBJ,
              JSON_SCHEMA_TYPE_TEXT, JSON_SCHEMA_TYPE_UINT, JSON_SCHEMA_TYPE_TEXTV,
              JSON_SCHEMA_TYPE_UINT32V, JSON_SCHEMA_TYPE_UINT64V] at hr
            subst hr
            refine ⟨rfl, ?_⟩
            simp [_define_body, hv, hw, store_opt,
              JSON_SCHEMA_TYPE_DOUBLE, JSON_SCHEMA_TYPE_INT, JSON_SCHEMA_TYPE_OBJ,
              JSON_SCHEMA_TYPE_TEXT, JSON_SCHEMA_TYPE_UINT, JSON_SCHEMA_TYPE_TEXTV,
              JSON_SCHEMA_TYPE_UINT32V, JSON_SCHEMA_TYPE_UINT64V]
          · simp [getter_result, json_get_literal, json_get_object, json_get_array, json_get_int,
              json_get_uint, json_get_double, hv, ENOENT, hw,
              JSON_SCHEMA_TYPE_DOUBLE, JSON_SCHEMA_TYPE_INT, JSON_SCHEMA_TYPE_OBJ,
              JSON_SCHEMA_TYPE_TEXT, JSON_SCHEMA_TYPE_UINT, JSON_SCHEMA_TYPE_TEXTV,
              JSON_SCHEMA_TYPE_UINT32V, JSON_SCHEMA_TYPE_UINT64V] at hn
        · refine ⟨fun r hr => ?_, fun _ => Or.inl ?_⟩
          · simp [getter_result, json_get_literal, json_get_object, json_get_array, json_get_int,
              json_get_uint, json_get_double, hv, ENOENT, hc,
              JSON_SCHEMA_TYPE_DOUBLE, JSON_SCHEMA_TYPE_INT, JSON_SCHEMA_TYPE_OBJ,
              JSON_SCHEMA_TYPE_TEXT, JSON_SCHEMA_TYPE_UINT, JSON_SCHEMA_TYPE_TEXTV,
              JSON_SCHEMA_TYPE_UINT32V, JSON_SCHEMA_TYPE_UINT64V] at hr
          · simp [_define_body, hv, hc,
              JSON_SCHEMA_TYPE_DOUBLE, JSON_SCHEMA_TYPE_INT, JSON_SCHEMA_TYPE_OBJ,
              JSON_SCHEMA_TYPE_TEXT, JSON_SCHEMA_TYPE_UINT, JSON_SCHEMA_TYPE_TEXTV,
              JSON_SCHEMA_TYPE_UINT32V, JSON_SCHEMA_TYPE_UINT64V]
      | JSON_VAL_OBJECT o =>
        refine ⟨fun r hr => ?_, fun _ => Or.inl ?_⟩
        · simp [getter_result, json_get_literal, json_get_object, json_get_array, json_get_int,
              json_get_uint, json_get_double, hv, ENOENT,
              JSON_SCHEMA_TYPE_DOUBLE, JSON_SCHEMA_TYPE_INT, JSON_SCHEMA_TYPE_OBJ,
              JSON_SCHEMA_TYPE_TEXT, JSON_SCHEMA_TYPE_UINT, JSON_SCHEMA_TYPE_TEXTV,
              JSON_SCHEMA_TYPE_UINT32V, JSON_SCHEMA_TYPE_UINT64V] at hr
        · simp [_define_body, hv,
              JSON_SCHEMA_TYPE_DOUBLE, JSON_SCHEMA_TYPE_INT, JSON_SCHEMA_TYPE_OBJ,
              JSON_SCHEMA_TYPE_TEXT, JSON_SCHEMA_TYPE_UINT, JSON_SCHEMA_TYPE_TEXTV,
              JSON_SCHEMA_TYPE_UINT32V, JSON_SCHEMA_TYPE_UINT64V]
      | JSON_VAL_ARRAY a =>
        refine ⟨fun r hr => ?_, fun _ => Or.inl ?_⟩
        · simp [getter_result, json_get_literal, json_get_object, json_get_array, json_get_int,
              json_get_uint, json_get_double, hv, ENOENT,
              JSON_SCHEMA_TYPE_DOUBLE, JSON_SCHEMA_TYPE_INT, JSON_SCHEMA_TYPE_OBJ,
              JSON_SCHEMA_TYPE_TEXT, JSON_SCHEMA_TYPE_UINT, JSON_SCHEMA_TYPE_TEXTV,
              JSON_SCHEMA_TYPE_UINT32V, JSON_SCHEMA_TYPE_UINT64V] at hr
        · simp [_define_body, hv,
              JSON_SCHEMA_TYPE_DOUBLE, JSON_SCHEMA_TYPE_INT, JSON_SCHEMA_TYPE_OBJ,
              JSON_SCHEMA_TYPE_TEXT, JSON_SCHEMA_TYPE_UINT, JSON_SCHEMA_TYPE_TEXTV,
              JSON_SCHEMA_TYPE_UINT32V, JSON_SCHEMA_TYPE_UINT64V]
    · -- OBJ
      cases v with
      | JSON_VAL_LITERAL lit =>
        refine ⟨fun r hr => ?_, fun _ => Or.inl ?_⟩
        · simp [getter_result, json_get_literal, json_get_object, json_get_array, json_get_int,
              json_get_uint, json_get_double, hv, ENOENT,
              JSON_SCHEMA_TYPE_DOUBLE, JSON_SCHEMA_TYPE_INT, JSON_SCHEMA_TYPE_OBJ,
              JSON_SCHEMA_TYPE_TEXT, JSON_SCHEMA_TYPE_UINT, JSON_SCHEMA_TYPE_TEXTV,
              JSON_SCHEMA_TYPE_UINT32V, JSON_SCHEMA_TYPE_UINT64V] at hr
        · simp [_define_body, hv,
              JSON_SCHEMA_TYPE_DOUBLE, JSON_SCHEMA_TYPE_INT, JSON_SCHEMA_TYPE_OBJ,
              JSON_SCHEMA_TYPE_TEXT, JSON_SCHEMA_TYPE_UINT, JSON_SCHEMA_TYPE_TEXTV,
              JSON_SCHEMA_TYPE_UINT32V, JSON_SCHEMA_TYPE_UINT64V]
      | JSON_VAL_OBJECT o =>
        refine ⟨fun r hr => ?_, fun hn => ?_⟩
        · simp [getter_result, json_get_literal, json_get_object, json_get_array, json_get_int,
              json_get_uint, json_get_double, hv, ENOENT,
              JSON_SCHEMA_TYPE_DOUBLE, JSON_SCHEMA_TYPE_INT, JSON_SCHEMA_TYPE_OBJ,
              JSON_SCHEMA_TYPE_TEXT, JSON_SCHEMA_TYPE_UINT, JSON_SCHEMA_TYPE_TEXTV,
              JSON_SCHEMA_TYPE_UINT32V, JSON_SCHEMA_TYPE_UINT64V] at hr
          subst hr
          refine ⟨rfl, ?_⟩
          simp [_define_body, hv,
              JSON_SCHEMA_TYPE_DOUBLE, JSON_SCHEMA_TYPE_INT, JSON_SCHEMA_TYPE_OBJ,
              JSON_SCHEMA_TYPE_TEXT, JSON_SCHEMA_TYPE_UINT, JSON_SCHEMA_TYPE_TEXTV,
              JSON_SCHEMA_TYPE_UINT32V, JSON_SCHEMA_TYPE_UINT64V]
        · simp [getter_result, json_get_literal, json_get_object, json_get_array, json_get_int,
              json_get_uint, json_get_double, hv, ENOENT,
              JSON_SCHEMA_TYPE_DOUBLE, JSON_SCHEMA_TYPE_INT, JSON_SCHEMA_TYPE_OBJ,
              JSON_SCHEMA_TYPE_TEXT, JSON_SCHEMA_TYPE_UINT, JSON_SCHEMA_TYPE_TEXTV,
              JSON_SCHEMA_TYPE_UINT32V, JSON_SCHEMA_TYPE_UINT64V] at hn
      | JSON_VAL_ARRAY a =>
        refine ⟨fun r hr => ?_, fun _ => Or.inl ?_⟩
        · simp [getter_result, json_get_literal, json_get_object, json_get_array, json_get_int,
              json_get_uint, json_get_double, hv, ENOENT,
              JSON_SCHEMA_TYPE_DOUBLE, JSON_SCHEMA_TYPE_INT, JSON_SCHEMA_TYPE_OBJ,
              JSON_SCHEMA_TYPE_TEXT, JSON_SCHEMA_TYPE_UINT, JSON_SCHEMA_TYPE_TEXTV,
              JSON_SCHEMA_TYPE_UINT32V, JSON_SCHEMA_TYPE_UINT64V] at hr
        · simp [_define_body, hv,
              JSON_SCHEMA_TYPE_DOUBLE, JSON_SCHEMA_TYPE_INT, JSON_SCHEMA_TYPE_OBJ,
              JSON_SCHEMA_TYPE_TEXT, JSON_SCHEMA_TYPE_UINT, JSON_SCHEMA_TYPE_TEXTV,
              JSON_SCHEMA_TYPE_UINT32V, JSON_SCHEMA_TYPE_UINT64V]
    · -- TEXT
      cases v with
      | JSON_VAL_LITERAL lit =>
        refine ⟨fun r hr => ?_, fun hn => ?_⟩
        · simp [getter_result, json_get_literal, json_get_object, json_get_array, json_get_int,
              json_get_uint, json_get_double, hv, ENOENT,
              JSON_SCHEMA_TYPE_DOUBLE, JSON_SCHEMA_TYPE_INT, JSON_SCHEMA_TYPE_OBJ,
              JSON_SCHEMA_TYPE_TEXT, JSON_SCHEMA_TYPE_UINT, JSON_SCHEMA_TYPE_TEXTV,
              JSON_SCHEMA_TYPE_UINT32V, JSON_SCHEMA_TYPE_UINT64V] at hr
          subst hr
          refine ⟨rfl, ?_⟩
          simp [_define_body, hv,
              JSON_SCHEMA_TYPE_DOUBLE, JSON_SCHEMA_TYPE_INT, JSON_SCHEMA_TYPE_OBJ,
              JSON_SCHEMA_TYPE_TEXT, JSON_SCHEMA_TYPE_UINT, JSON_SCHEMA_TYPE_TEXTV,
              JSON_SCHEMA_TYPE_UINT32V, JSON_SCHEMA_TYPE_UINT64V]
        · simp [getter_result, json_get_literal, json_get_object, json_get_array, json_get_int,
              json_get_uint, json_get_double, hv, ENOENT,
              JSON_SCHEMA_TYPE_DOUBLE, JSON_SCHEMA_TYPE_INT, JSON_SCHEMA_TYPE_OBJ,
              JSON_SCHEMA_TYPE_TEXT, JSON_SCHEMA_TYPE_UINT, JSON_SCHEMA_TYPE_TEXTV,
              JSON_SCHEMA_TYPE_UINT32V, JSON_SCHEMA_TYPE_UINT64V] at hn
      | JSON_VAL_OBJECT o =>
        refine ⟨fun r hr => ?_, fun _ => Or.inl ?_⟩
        · simp [getter_result, json_get_literal, json_get_object, json_get_array, json_get_int,
              json_get_uint, json_get_double, hv, ENOENT,
              JSON_SCHEMA_TYPE_DOUBLE, JSON_SCHEMA_TYPE_INT, JSON_SCHEMA_TYPE_OBJ,
              JSON_SCHEMA_TYPE_TEXT, JSON_SCHEMA_TYPE_UINT, JSON_SCHEMA_TYPE_TEXTV,
              JSON_SCHEMA_TYPE_UINT32V, JSON_SCHEMA_TYPE_UINT64V] at hr
        · simp [_define_body, hv,
              JSON_SCHEMA_TYPE_DOUBLE, JSON_SCHEMA_TYPE_INT, JSON_SCHEMA_TYPE_OBJ,
              JSON_SCHEMA_TYPE_TEXT, JSON_SCHEMA_TYPE_UINT, JSON_SCHEMA_TYPE_TEXTV,
              JSON_SCHEMA_TYPE_UINT32V, JSON_SCHEMA_TYPE_UINT64V]
      | JSON_VAL_ARRAY a =>
        refine ⟨fun r hr => ?_, fun _ => Or.inl ?_⟩
        · simp [getter_result, json_get_literal, json_get_object, json_get_array, json_get_int,
              json_get_uint, json_get_double, hv, ENOENT,
              JSON_SCHEMA_TYPE_DOUBLE, JSON_SCHEMA_TYPE_INT, JSON_SCHEMA_TYPE_OBJ,
              JSON_SCHEMA_TYPE_TEXT, JSON_SCHEMA_TYPE_UINT, JSON_SCHEMA_TYPE_TEXTV,
              JSON_SCHEMA_TYPE_UINT32V, JSON_SCHEMA_TYPE_UINT64V] at hr
        · simp [_define_body, hv,
              JSON_SCHEMA_TYPE_DOUBLE, JSON_SCHEMA_TYPE_INT, JSON_SCHEMA_TYPE_OBJ,
              JSON_SCHEMA_TYPE_TEXT, JSON_SCHEMA_TYPE_UINT, JSON_SCHEMA_TYPE_TEXTV,
              JSON_SCHEMA_TYPE_UINT32V, JSON_SCHEMA_TYPE_UINT64V]
    · -- UINT
      cases v with
      | JSON_VAL_LITERAL lit =>
        by_cases hc : (str2uint lit).1 = 0
        · obtain ⟨w, hw⟩ := str2uint_status lit hc
          refine ⟨fun r hr => ?_, fun hn => ?_⟩
          · simp [getter_result, json_get_literal, json_get_object, json_get_array, json_get_int,
              json_get_uint, json_get_double, hv, ENOENT, hw,
              JSON_SCHEMA_TYPE_DOUBLE, JSON_SCHEMA_TYPE_INT, JSON_SCHEMA_TYPE_OBJ,
              JSON_SCHEMA_TYPE_TEXT, JSON_SCHEMA_TYPE_UINT, JSON_SCHEMA_TYPE_TEXTV,
              JSON_SCHEMA_TYPE_UINT32V, JSON_SCHEMA_TYPE_UINT64V] at hr
            subst hr
            refine ⟨rfl, ?_⟩
            simp [_define_body, hv, hw, store_opt,
              JSON_SCHEMA_TYPE_DOUBLE, JSON_SCHEMA_TYPE_INT, JSON_SCHEMA_TYPE_OBJ,
              JSON_SCHEMA_TYPE_TEXT, JSON_SCHEMA_TYPE_UINT, JSON_SCHEMA_TYPE_TEXTV,
              JSON_SCHEMA_TYPE_UINT32V, JSON_SCHEMA_TYPE_UINT64V]
          · simp [getter_result, json_get_literal, json_get_object, json_get_array, json_get_int,
              json_get_uint, json_get_double, hv, ENOENT, hw,
              JSON_SCHEMA_TYPE_DOUBLE, JSON_SCHEMA_TYPE_INT, JSON_SCHEMA_TYPE_OBJ,
              JSON_SCHEMA_TYPE_TEXT, JSON_SCHEMA_TYPE_UINT, JSON_SCHEMA_TYPE_TEXTV,
              JSON_SCHEMA_TYPE_UINT32V, JSON_SCHEMA_TYPE_UINT64V] at hn
        · refine ⟨fun r hr => ?_, fun _ => Or.inl ?_⟩
          · simp [getter_result, json_get_literal, json_get_object, json_get_array, json_get_int,
              json_get_uint, json_get_double, hv, ENOENT, hc,
              JSON_SCHEMA_TYPE_DOUBLE, JSON_SCHEMA_TYPE_INT, JSON_SCHEMA_TYPE_OBJ,
              JSON_SCHEMA_TYPE_TEXT, JSON_SCHEMA_TYPE_UINT, JSON_SCHEMA_TYPE_TEXTV,
              JSON_SCHEMA_TYPE_UINT32V, JSON_SCHEMA_TYPE_UINT64V] at hr
          · simp [_define_body, hv, hc,
              JSON_SCHEMA_TYPE_DOUBLE, JSON_SCHEMA_TYPE_INT, JSON_SCHEMA_TYPE_OBJ,
              JSON_SCHEMA_TYPE_TEXT, JSON_SCHEMA_TYPE_UINT, JSON_SCHEMA_TYPE_TEXTV,
              JSON_SCHEMA_TYPE_UINT32V, JSON_SCHEMA_TYPE_UINT64V]
      | JSON_VAL_OBJECT o =>
        refine ⟨fun r hr => ?_, fun _ => Or.inl ?_⟩
        · simp [getter_result, json_get_literal, json_get_object, json_get_array, json_get_int,
              json_get_uint, json_get_double, hv, ENOENT,
              JSON_SCHEMA_TYPE_DOUBLE, JSON_SCHEMA_TYPE_INT, JSON_SCHEMA_TYPE_OBJ,
              JSON_SCHEMA_TYPE_TEXT, JSON_SCHEMA_TYPE_UINT, JSON_SCHEMA_TYPE_TEXTV,
              JSON_SCHEMA_TYPE_UINT32V, JSON_SCHEMA_TYPE_UINT64V] at hr
        · simp [_define_body, hv,
              JSON_SCHEMA_TYPE_DOUBLE, JSON_SCHEMA_TYPE_INT, JSON_SCHEMA_TYPE_OBJ,
              JSON_SCHEMA_TYPE_TEXT, JSON_SCHEMA_TYPE_UINT, JSON_SCHEMA_TYPE_TEXTV,
              JSON_SCHEMA_TYPE_UINT32V, JSON_SCHEMA_TYPE_UINT64V]
      | JSON_VAL_ARRAY a =>
        refine ⟨fun r hr => ?_, fun _ => Or.inl ?_⟩
        · simp [getter_result, json_get_literal, json_get_object, json_get_array, json_get_int,
              json_get_uint, json_get_double, hv, ENOENT,
              JSON_SCHEMA_TYPE_DOUBLE, JSON_SCHEMA_TYPE_INT, JSON_SCHEMA_TYPE_OBJ,
              JSON_SCHEMA_TYPE_TEXT, JSON_SCHEMA_TYPE_UINT, JSON_SCHEMA_TYPE_TEXTV,
              JSON_SCHEMA_TYPE_UINT32V, JSON_SCHEMA_TYPE_UINT64V] at hr
        · simp [_define_body, hv,
              JSON_SCHEMA_TYPE_DOUBLE, JSON_SCHEMA_TYPE_INT, JSON_SCHEMA_TYPE_OBJ,
              JSON_SCHEMA_TYPE_TEXT, JSON_SCHEMA_TYPE_UINT, JSON_SCHEMA_TYPE_TEXTV,
              JSON_SCHEMA_TYPE_UINT32V, JSON_SCHEMA_TYPE_UINT64V]

/-- A Define rule of a vector type, with a value pointer and a length
pointer, and the getters of its type. -/
theorem define_getter_vector (strtod : List Int → conversion double) (obj : json_object)
    (k : List Int) (ty : Nat) (req : Bool) (p q : Nat) (mem : Nat → cell)
    (hty : ty = JSON_SCHEMA_TYPE_TEXTV ∨ ty = JSON_SCHEMA_TYPE_UINT32V ∨
      ty = JSON_SCHEMA_TYPE_UINT64V) :
    (∀ r, getter_result strtod ty obj k = some r →
      (∃ n, r.2 = some n ∧
        _define_body strtod obj k ty req (some p) (some q) mem =
          (return_0, store (store mem p r.1) q (cell.length n)))) ∧
    (getter_result strtod ty obj k = none →
      (_define_body strtod obj k ty req (some p) (some q) mem).1 ≠ return_0 ∨
      (json_get_value obj k = none ∧ req = false ∧
        _define_body strtod obj k ty req (some p) (some q) mem = (return_0, mem))) := by
  rcases hv : json_get_value obj k with _ | v
  · refine ⟨fun r hr => ?_, fun _ => ?_⟩
    · rcases hty with h | h | h <;> subst h <;>
        simp [getter_result, json_get_literal, json_get_object, json_get_array, json_get_int,
              json_get_uint, json_get_double, hv, ENOENT,
              JSON_SCHEMA_TYPE_DOUBLE, JSON_SCHEMA_TYPE_INT, JSON_SCHEMA_TYPE_OBJ,
              JSON_SCHEMA_TYPE_TEXT, JSON_SCHEMA_TYPE_UINT, JSON_SCHEMA_TYPE_TEXTV,
              JSON_SCHEMA_TYPE_UINT32V, JSON_SCHEMA_TYPE_UINT64V] at hr
    · cases req
      · exact Or.inr ⟨rfl, rfl, by simp [_define_body, hv]⟩
      · exact Or.inl (by simp [_define_body, hv])
  · rcases hty with h | h | h <;> subst h
    · -- TEXTV
      cases v with
      | JSON_VAL_LITERAL lit =>
        refine ⟨fun r hr => ?_, fun _ => Or.inl ?_⟩
        · simp [getter_result, json_get_literal, json_get_object, json_get_array, json_get_int,
              json_get_uint, json_get_double, hv, ENOENT,
              JSON_SCHEMA_TYPE_DOUBLE, JSON_SCHEMA_TYPE_INT, JSON_SCHEMA_TYPE_OBJ,
              JSON_SCHEMA_TYPE_TEXT, JSON_SCHEMA_TYPE_UINT, JSON_SCHEMA_TYPE_TEXTV,
              JSON_SCHEMA_TYPE_UINT32V, JSON_SCHEMA_TYPE_UINT64V] at hr
        · simp [_define_body, hv,
              JSON_SCHEMA_TYPE_DOUBLE, JSON_SCHEMA_TYPE_INT, JSON_SCHEMA_TYPE_OBJ,
              JSON_SCHEMA_TYPE_TEXT, JSON_SCHEMA_TYPE_UINT, JSON_SCHEMA_TYPE_TEXTV,
              JSON_SCHEMA_TYPE_UINT32V, JSON_SCHEMA_TYPE_UINT64V]
      | JSON_VAL_OBJECT o =>
        refine ⟨fun r hr => ?_, fun _ => Or.inl ?_⟩
        · simp [getter_result, json_get_literal, json_get_object, json_get_array, json_get_int,
              json_get_uint, json_get_double, hv, ENOENT,
              JSON_SCHEMA_TYPE_DOUBLE, JSON_SCHEMA_TYPE_INT, JSON_SCHEMA_TYPE_OBJ,
              JSON_SCHEMA_TYPE_TEXT, JSON_SCHEMA_TYPE_UINT, JSON_SCHEMA_TYPE_TEXTV,
              JSON_SCHEMA_TYPE_UINT32V, JSON_SCHEMA_TYPE_UINT64V] at hr
        · simp [_define_body, hv,
              JSON_SCHEMA_TYPE_DOUBLE, JSON_SCHEMA_TYPE_INT, JSON_SCHEMA_TYPE_OBJ,
              JSON_SCHEMA_TYPE_TEXT, JSON_SCHEMA_TYPE_UINT, JSON_SCHEMA_TYPE_TEXTV,
              JSON_SCHEMA_TYPE_UINT32V, JSON_SCHEMA_TYPE_UINT64V]
      | JSON_VAL_ARRAY a =>
        by_cases hc : (json_get_array_of_text a).1 = 0
        · obtain ⟨w, n, hw⟩ := (array_of_text_value a).1 hc
          refine ⟨fun r hr => ?_, fun hn => ?_⟩
          · simp [getter_result, json_get_literal, json_get_object, json_get_array, json_get_int,
              json_get_uint, json_get_double, hv, ENOENT, hw,
              JSON_SCHEMA_TYPE_DOUBLE, JSON_SCHEMA_TYPE_INT, JSON_SCHEMA_TYPE_OBJ,
              JSON_SCHEMA_TYPE_TEXT, JSON_SCHEMA_TYPE_UINT, JSON_SCHEMA_TYPE_TEXTV,
              JSON_SCHEMA_TYPE_UINT32V, JSON_SCHEMA_TYPE_UINT64V] at hr
            subst hr
            refine ⟨n, rfl, ?_⟩
            simp [_define_body, hv, hw,
              JSON_SCHEMA_TYPE_DOUBLE, JSON_SCHEMA_TYPE_INT, JSON_SCHEMA_TYPE_OBJ,
              JSON_SCHEMA_TYPE_TEXT, JSON_SCHEMA_TYPE_UINT, JSON_SCHEMA_TYPE_TEXTV,
              JSON_SCHEMA_TYPE_UINT32V, JSON_SCHEMA_TYPE_UINT64V]
          · simp [getter_result, json_get_literal, json_get_object, json_get_array, json_get_int,
              json_get_uint, json_get_double, hv, ENOENT, hw,
              JSON_SCHEMA_TYPE_DOUBLE, JSON_SCHEMA_TYPE_INT, JSON_SCHEMA_TYPE_OBJ,
              JSON_SCHEMA_TYPE_TEXT, JSON_SCHEMA_TYPE_UINT, JSON_SCHEMA_TYPE_TEXTV,
              JSON_SCHEMA_TYPE_UINT32V, JSON_SCHEMA_TYPE_UINT64V] at hn
        · refine ⟨fun r hr => ?_, fun _ => Or.inl ?_⟩
          · simp [getter_result, json_get_literal, json_get_object, json_get_array, json_get_int,
              json_get_uint, json_get_double, hv, ENOENT, hc,
              JSON_SCHEMA_TYPE_DOUBLE, JSON_SCHEMA_TYPE_INT, JSON_SCHEMA_TYPE_OBJ,
              JSON_SCHEMA_TYPE_TEXT, JSON_SCHEMA_TYPE_UINT, JSON_SCHEMA_TYPE_TEXTV,
              JSON_SCHEMA_TYPE_UINT32V, JSON_SCHEMA_TYPE_UINT64V] at hr
          · have hs := array_of_text_status a
            simp only [_define_body, hv]
            simp only [JSON_SCHEMA_TYPE_DOUBLE, JSON_SCHEMA_TYPE_INT, JSON_SCHEMA_TYPE_OBJ,
              JSON_SCHEMA_TYPE_TEXT, JSON_SCHEMA_TYPE_UINT, JSON_SCHEMA_TYPE_TEXTV,
              JSON_SCHEMA_TYPE_UINT32V, JSON_SCHEMA_TYPE_UINT64V]
            simp only [Nat.reduceEqDiff, if_false, if_true]
            rw [if_neg hc]
            split_ifs <;> exact fun h => by cases h
    · -- UINT32V
      cases v with
      | JSON_VAL_LITERAL lit =>
        refine ⟨fun r hr => ?_, fun _ => Or.inl ?_⟩
        · simp [getter_result, json_get_literal, json_get_object, json_get_array, json_get_int,
              json_get_uint, json_get_double, hv, ENOENT,
              JSON_SCHEMA_TYPE_DOUBLE, JSON_SCHEMA_TYPE_INT, JSON_SCHEMA_TYPE_OBJ,
              JSON_SCHEMA_TYPE_TEXT, JSON_SCHEMA_TYPE_UINT, JSON_SCHEMA_TYPE_TEXTV,
              JSON_SCHEMA_TYPE_UINT32V, JSON_SCHEMA_TYPE_UINT64V] at hr
        · simp [_define_body, hv,
              JSON_SCHEMA_TYPE_DOUBLE, JSON_SCHEMA_TYPE_INT, JSON_SCHEMA_TYPE_OBJ,
              JSON_SCHEMA_TYPE_TEXT, JSON_SCHEMA_TYPE_UINT, JSON_SCHEMA_TYPE_TEXTV,
              JSON_SCHEMA_TYPE_UINT32V, JSON_SCHEMA_TYPE_UINT64V]
      | JSON_VAL_OBJECT o =>
        refine ⟨fun r hr => ?_, fun _ => Or.inl ?_⟩
        · simp [getter_result, json_get_literal, json_get_object, json_get_array, json_get_int,
              json_get_uint, json_get_double, hv, ENOENT,
              JSON_SCHEMA_TYPE_DOUBLE, JSON_SCHEMA_TYPE_INT, JSON_SCHEMA_TYPE_OBJ,
              JSON_SCHEMA_TYPE_TEXT, JSON_SCHEMA_TYPE_UINT, JSON_SCHEMA_TYPE_TEXTV,
              JSON_SCHEMA_TYPE_UINT32V, JSON_SCHEMA_TYPE_UINT64V] at hr
        · simp [_define_body, hv,
              JSON_SCHEMA_TYPE_DOUBLE, JSON_SCHEMA_TYPE_INT, JSON_SCHEMA_TYPE_OBJ,
              JSON_SCHEMA_TYPE_TEXT, JSON_SCHEMA_TYPE_UINT, JSON_SCHEMA_TYPE_TEXTV,
              JSON_SCHEMA_TYPE_UINT32V, JSON_SCHEMA_TYPE_UINT64V]
      | JSON_VAL_ARRAY a =>
        by_cases hc : (json_get_array_of_uint32 a).1 = 0
        · obtain ⟨w, n, hw⟩ := (array_of_uint32_value a).1 hc
          refine ⟨fun r hr => ?_, fun hn => ?_⟩
          · simp [getter_result, json_get_literal, json_get_object, json_get_array, json_get_int,
              json_get_uint, json_get_double, hv, ENOENT, hw,
              JSON_SCHEMA_TYPE_DOUBLE, JSON_SCHEMA_TYPE_INT, JSON_SCHEMA_TYPE_OBJ,
              JSON_SCHEMA_TYPE_TEXT, JSON_SCHEMA_TYPE_UINT, JSON_SCHEMA_TYPE_TEXTV,
              JSON_SCHEMA_TYPE_UINT32V, JSON_SCHEMA_TYPE_UINT64V] at hr
            subst hr
            refine ⟨n, rfl, ?_⟩
            simp [_define_body, hv, hw,
              JSON_SCHEMA_TYPE_DOUBLE, JSON_SCHEMA_TYPE_INT, JSON_SCHEMA_TYPE_OBJ,
              JSON_SCHEMA_TYPE_TEXT, JSON_SCHEMA_TYPE_UINT, JSON_SCHEMA_TYPE_TEXTV,
              JSON_SCHEMA_TYPE_UINT32V, JSON_SCHEMA_TYPE_UINT64V]
          · simp [getter_result, json_get_literal, json_get_object, json_get_array, json_get_int,
              json_get_uint, json_get_double, hv, ENOENT, hw,
              JSON_SCHEMA_TYPE_DOUBLE, JSON_SCHEMA_TYPE_INT, JSON_SCHEMA_TYPE_OBJ,
              JSON_SCHEMA_TYPE_TEXT, JSON_SCHEMA_TYPE_UINT, JSON_SCHEMA_TYPE_TEXTV,
              JSON_SCHEMA_TYPE_UINT32V, JSON_SCHEMA_TYPE_UINT64V] at hn
        · refine ⟨fun r hr => ?_, fun _ => Or.inl ?_⟩
          · simp [getter_result, json_get_literal, json_get_object, json_get_array, json_get_int,
              json_get_uint, json_get_double, hv, ENOENT, hc,
              JSON_SCHEMA_TYPE_DOUBLE, JSON_SCHEMA_TYPE_INT, JSON_SCHEMA_TYPE_OBJ,
              JSON_SCHEMA_TYPE_TEXT, JSON_SCHEMA_TYPE_UINT, JSON_SCHEMA_TYPE_TEXTV,
              JSON_SCHEMA_TYPE_UINT32V, JSON_SCHEMA_TYPE_UINT64V] at hr
          · have hs := array_of_uint32_status a
            simp only [_define_body, hv]
            simp only [JSON_SCHEMA_TYPE_DOUBLE, JSON_SCHEMA_TYPE_INT, JSON_SCHEMA_TYPE_OBJ,
              JSON_SCHEMA_TYPE_TEXT, JSON_SCHEMA_TYPE_UINT, JSON_SCHEMA_TYPE_TEXTV,
              JSON_SCHEMA_TYPE_UINT32V, JSON_SCHEMA_TYPE_UINT64V]
            simp only [Nat.reduceEqDiff, if_false, if_true]
            rw [if_neg hc]
            split_ifs <;> exact fun h => by cases h
    · -- UINT64V
      cases v with
      | JSON_VAL_LITERAL lit =>
        refine ⟨fun r hr => ?_, fun _ => Or.inl ?_⟩
        · simp [getter_result, json_get_literal, json_get_object, json_get_array, json_get_int,
              json_get_uint, json_get_double, hv, ENOENT,
              JSON_SCHEMA_TYPE_DOUBLE, JSON_SCHEMA_TYPE_INT, JSON_SCHEMA_TYPE_OBJ,
              JSON_SCHEMA_TYPE_TEXT, JSON_SCHEMA_TYPE_UINT, JSON_SCHEMA_TYPE_TEXTV,
              JSON_SCHEMA_TYPE_UINT32V, JSON_SCHEMA_TYPE_UINT64V] at hr
        · simp [_define_body, hv,
              JSON_SCHEMA_TYPE_DOUBLE, JSON_SCHEMA_TYPE_INT, JSON_SCHEMA_TYPE_OBJ,
              JSON_SCHEMA_TYPE_TEXT, JSON_SCHEMA_TYPE_UINT, JSON_SCHEMA_TYPE_TEXTV,
              JSON_SCHEMA_TYPE_UINT32V, JSON_SCHEMA_TYPE_UINT64V]
      | JSON_VAL_OBJECT o =>
        refine ⟨fun r hr => ?_, fun _ => Or.inl ?_⟩
        · simp [getter_result, json_get_literal, json_get_object, json_get_array, json_get_int,
              json_get_uint, json_get_double, hv, ENOENT,
              JSON_SCHEMA_TYPE_DOUBLE, JSON_SCHEMA_TYPE_INT, JSON_SCHEMA_TYPE_OBJ,
              JSON_SCHEMA_TYPE_TEXT, JSON_SCHEMA_TYPE_UINT, JSON_SCHEMA_TYPE_TEXTV,
              JSON_SCHEMA_TYPE_UINT32V, JSON_SCHEMA_TYPE_UINT64V] at hr
        · simp [_define_body, hv,
              JSON_SCHEMA_TYPE_DOUBLE, JSON_SCHEMA_TYPE_INT, JSON_SCHEMA_TYPE_OBJ,
              JSON_SCHEMA_TYPE_TEXT, JSON_SCHEMA_TYPE_UINT, JSON_SCHEMA_TYPE_TEXTV,
              JSON_SCHEMA_TYPE_UINT32V, JSON_SCHEMA_TYPE_UINT64V]
      | JSON_VAL_ARRAY a =>
        by_cases hc : (json_get_array_of_uint64 a).1 = 0
        · obtain ⟨w, n, hw⟩ := (array_of_uint64_value a).1 hc
          refine ⟨fun r hr => ?_, fun hn => ?_⟩
          · simp [getter_result, json_get_literal, json_get_object, json_get_array, json_get_int,
              json_get_uint, json_get_double, hv, ENOENT, hw,
              JSON_SCHEMA_TYPE_DOUBLE, JSON_SCHEMA_TYPE_INT, JSON_SCHEMA_TYPE_OBJ,
              JSON_SCHEMA_TYPE_TEXT, JSON_SCHEMA_TYPE_UINT, JSON_SCHEMA_TYPE_TEXTV,
              JSON_SCHEMA_TYPE_UINT32V, JSON_SCHEMA_TYPE_UINT64V] at hr
            subst hr
            refine ⟨n, rfl, ?_⟩
            simp [_define_body, hv, hw,
              JSON_SCHEMA_TYPE_DOUBLE, JSON_SCHEMA_TYPE_INT, JSON_SCHEMA_TYPE_OBJ,
              JSON_SCHEMA_TYPE_TEXT, JSON_SCHEMA_TYPE_UINT, JSON_SCHEMA_TYPE_TEXTV,
              JSON_SCHEMA_TYPE_UINT32V, JSON_SCHEMA_TYPE_UINT64V]
          · simp [getter_result, json_get_literal, json_get_object, json_get_array, json_get_int,
              json_get_uint, json_get_double, hv, ENOENT, hw,
              JSON_SCHEMA_TYPE_DOUBLE, JSON_SCHEMA_TYPE_INT, JSON_SCHEMA_TYPE_OBJ,
              JSON_SCHEMA_TYPE_TEXT, JSON_SCHEMA_TYPE_UINT, JSON_SCHEMA_TYPE_TEXTV,
              JSON_SCHEMA_TYPE_UINT32V, JSON_SCHEMA_TYPE_UINT64V] at hn
        · refine ⟨fun r hr => ?_, fun _ => Or.inl ?_⟩
          · simp [getter_result, json_get_literal, json_get_object, json_get_array, json_get_int,
              json_get_uint, json_get_double, hv, ENOENT, hc,
              JSON_SCHEMA_TYPE_DOUBLE, JSON_SCHEMA_TYPE_INT, JSON_SCHEMA_TYPE_OBJ,
              JSON_SCHEMA_TYPE_TEXT, JSON_SCHEMA_TYPE_UINT, JSON_SCHEMA_TYPE_TEXTV,
              JSON_SCHEMA_TYPE_UINT32V, JSON_SCHEMA_TYPE_UINT64V] at hr
          · have hs := array_of_uint64_status a
            simp only [_define_body, hv]
            simp only [JSON_SCHEMA_TYPE_DOUBLE, JSON_SCHEMA_TYPE_INT, JSON_SCHEMA_TYPE_OBJ,
              JSON_SCHEMA_TYPE_TEXT, JSON_SCHEMA_TYPE_UINT, JSON_SCHEMA_TYPE_TEXTV,
              JSON_SCHEMA_TYPE_UINT32V, JSON_SCHEMA_TYPE_UINT64V]
            simp only [Nat.reduceEqDiff, if_false, if_true]
            rw [if_neg hc]
            split_ifs <;> exact fun h => by cases h

/-- C31: for every object `obj` and every Define rule of a type `ty` of the
schema language on a key `k` that has the output pointers its type needs (a
value pointer `p`, and a length pointer exactly for a vector type): when the
getter that corresponds to `ty` succeeds on `(obj, k)` with the result `r`,
the rule returns 0, leaves the buffer as it was, and the memory afterwards
is the memory before with the value of `r` stored through the value pointer
and, for a vector type, the length of `r` stored through the length
pointer; when the getter fails, the rule either fails or returns 0 without
any write, the latter exactly when the key is absent and the rule is
optional. -/
theorem define_agrees_with_getter (strtod : List Int → conversion double)
    (obj : json_object) (k : List Int) (ty : Nat) (req : Bool) (vp lp : Option Nat)
    (buf : List Int) (size : Nat) (mem : Nat → cell)
    (hty : ty ≤ JSON_SCHEMA_TYPE_UINT64V) (hs : slots_ok ty vp lp = true) :
    ∃ p, vp = some p ∧
      (∀ r, getter_result strtod ty obj k = some r →
        r.2.isSome = is_vector_type ty ∧
        json_validate strtod obj [JSON_SCHEMA_OP_DEFINE k ty req vp lp] buf size mem =
          ⟨0, buf, write_slots mem p lp r⟩) ∧
      (getter_result strtod ty obj k = none →
        (json_validate strtod obj [JSON_SCHEMA_OP_DEFINE k ty req vp lp] buf size mem).err ≠ 0 ∨
        (json_get_value obj k = none ∧ req = false ∧
          json_validate strtod obj [JSON_SCHEMA_OP_DEFINE k ty req vp lp] buf size mem =
            ⟨0, buf, mem⟩)) := by
  rcases vp with _ | p
  · simp [slots_ok] at hs
  refine ⟨p, rfl, ?_⟩
  have herr : ∀ lp, (_define_body strtod obj k ty req (some p) lp mem).1 ≠ return_0 →
      (json_validate strtod obj [JSON_SCHEMA_OP_DEFINE k ty req (some p) lp] buf size mem).err
        ≠ 0 := by
    intro lp hx
    rw [(define_rule_mem strtod obj k ty req (some p) lp buf size mem).2]
    generalize (_define_body strtod obj k ty req (some p) lp mem).1 = x at hx
    cases x <;> first | exact absurd rfl hx | exact fun h => by cases h
  have hok : ∀ lp m, _define_body strtod obj k ty req (some p) lp mem = (return_0, m) →
      json_validate strtod obj [JSON_SCHEMA_OP_DEFINE k ty req (some p) lp] buf size mem =
        ⟨0, buf, m⟩ := by
    intro lp m hb
    rw [define_rule_eq, hb]
    rfl
  by_cases hvec : is_vector_type ty = true
  · have hty2 : ty = JSON_SCHEMA_TYPE_TEXTV ∨ ty = JSON_SCHEMA_TYPE_UINT32V ∨
        ty = JSON_SCHEMA_TYPE_UINT64V := by
      simpa [is_vector_type, or_assoc] using hvec
    rcases lp with _ | q
    · simp [slots_ok, hvec] at hs
    have h := define_getter_vector strtod obj k ty req p q mem hty2
    refine ⟨fun r hr => ?_, fun hn => ?_⟩
    · obtain ⟨n, hn, hb⟩ := h.1 r hr
      refine ⟨by rw [hn, hvec]; rfl, ?_⟩
      rw [hok _ _ hb]
      simp only [write_slots, hn]
    · rcases h.2 hn with hx | ⟨h1, h2, h3⟩
      · exact Or.inl (herr _ hx)
      · exact Or.inr ⟨h1, h2, hok _ _ h3⟩
  · have hvec2 : is_vector_type ty = false := by simpa using hvec
    have hty2 : ty = JSON_SCHEMA_TYPE_DOUBLE ∨ ty = JSON_SCHEMA_TYPE_INT ∨
        ty = JSON_SCHEMA_TYPE_OBJ ∨ ty = JSON_SCHEMA_TYPE_TEXT ∨
        ty = JSON_SCHEMA_TYPE_UINT := by
      have h7 : ty ≤ 7 := hty
      simp only [is_vector_type, JSON_SCHEMA_TYPE_TEXTV, JSON_SCHEMA_TYPE_UINT32V,
        JSON_SCHEMA_TYPE_UINT64V] at hvec2
      simp only [JSON_SCHEMA_TYPE_DOUBLE, JSON_SCHEMA_TYPE_INT, JSON_SCHEMA_TYPE_OBJ,
        JSON_SCHEMA_TYPE_TEXT, JSON_SCHEMA_TYPE_UINT]
      interval_cases ty <;> simp at hvec2 ⊢
    rcases lp with _ | q
    swap
    · simp [slots_ok, hvec2] at hs
    have h := define_getter_scalar strtod obj k ty req p mem hty2
    refine ⟨fun r hr => ?_, fun hn => ?_⟩
    · obtain ⟨hn, hb⟩ := h.1 r hr
      refine ⟨by rw [hn, hvec2]; rfl, ?_⟩
      rw [hok _ _ hb]
      simp only [write_slots]
    · rcases h.2 hn with hx | ⟨h1, h2, h3⟩
      · exact Or.inl (herr _ hx)
      · exact Or.inr ⟨h1, h2, hok _ _ h3⟩

theorem define_agrees_with_getter_witness :
    JSON_SCHEMA_TYPE_UINT32V ≤ JSON_SCHEMA_TYPE_UINT64V ∧
    slots_ok JSON_SCHEMA_TYPE_UINT32V (some 0) (some 1) = true ∧
    getter_result strtod_digits JSON_SCHEMA_TYPE_UINT32V
      [(text "v", JSON_VAL_ARRAY [JSON_VAL_LITERAL (text "1"), JSON_VAL_LITERAL (text "2")])]
      (text "v") = some (cell.uint32v [1, 2], some 2) ∧
    ∃ p, some 0 = some p ∧
      (∀ r, getter_result strtod_digits JSON_SCHEMA_TYPE_UINT32V
          [(text "v", JSON_VAL_ARRAY [JSON_VAL_LITERAL (text "1"), JSON_VAL_LITERAL (text "2")])]
          (text "v") = some r →
        r.2.isSome = is_vector_type JSON_SCHEMA_TYPE_UINT32V ∧
        json_validate strtod_digits
          [(text "v", JSON_VAL_ARRAY [JSON_VAL_LITERAL (text "1"), JSON_VAL_LITERAL (text "2")])]
          [JSON_SCHEMA_OP_DEFINE (text "v") JSON_SCHEMA_TYPE_UINT32V true (some 0) (some 1)]
          (List.replicate 64 1) 64 (fun _ => cell.null) =
          ⟨0, List.replicate 64 1, write_slots (fun _ => cell.null) p (some 1) r⟩) ∧
      (getter_result strtod_digits JSON_SCHEMA_TYPE_UINT32V
          [(text "v", JSON_VAL_ARRAY [JSON_VAL_LITERAL (text "1"), JSON_VAL_LITERAL (text "2")])]
          (text "v") = none →
        (json_validate strtod_digits
          [(text "v", JSON_VAL_ARRAY [JSON_VAL_LITERAL (text "1"), JSON_VAL_LITERAL (text "2")])]
          [JSON_SCHEMA_OP_DEFINE (text "v") JSON_SCHEMA_TYPE_UINT32V true (some 0) (some 1)]
          (List.replicate 64 1) 64 (fun _ => cell.null)).err ≠ 0 ∨
        (json_get_value
          [(text "v", JSON_VAL_ARRAY [JSON_VAL_LITERAL (text "1"), JSON_VAL_LITERAL (text "2")])]
          (text "v") = none ∧ true = false ∧
          json_validate strtod_digits
            [(text "v", JSON_VAL_ARRAY [JSON_VAL_LITERAL (text "1"), JSON_VAL_LITERAL (text "2")])]
            [JSON_SCHEMA_OP_DEFINE (text "v") JSON_SCHEMA_TYPE_UINT32V true (some 0) (some 1)]
            (List.replicate 64 1) 64 (fun _ => cell.null) =
            ⟨0, List.replicate 64 1, fun _ => cell.null⟩)) :=
  ⟨by decide, by decide, by rfl,
    define_agrees_with_getter strtod_digits
      [(text "v", JSON_VAL_ARRAY [JSON_VAL_LITERAL (text "1"), JSON_VAL_LITERAL (text "2")])]
      (text "v") JSON_SCHEMA_TYPE_UINT32V true (some 0) (some 1) (List.replicate 64 1) 64
      (fun _ => cell.null) (by decide) (by decide)⟩

/-! ## The unread bytes only shrink -/

theorem suffix_tail {a b : List Int} (x : Int) (h : a <:+ b) : a <:+ x :: b :=
  h.trans (List.suffix_cons x b)

theorem literal_loop_suffix (f : FILE) :
    ∀ (data buf : List Int), (_consume_literal_loop f data buf).2.1.data <:+ data := by
  intro data
  induction data with
  | nil =>
    intro buf
    simp only [_consume_literal_loop, FILE.data_atEnd]
    exact List.suffix_refl _
  | cons b rest ih =>
    intro buf
    simp only [_consume_literal_loop]
    split
    · split
      · exact suffix_tail b (ih _)
      · exact List.suffix_cons b rest
    · exact List.suffix_cons b rest

theorem string_loop_suffix (f : FILE) (n : Nat) :
    ∀ (data buf : List Int), data.length ≤ n →
      match _consume_literal_string_loop f data buf with
      | .ret _ f' => f'.data <:+ data
      | .out _ f' _ => f'.data <:+ data := by
  induction n with
  | zero =>
    intro data buf h
    have : data = [] := List.length_eq_zero.1 (by omega)
    subst this
    simp [_consume_literal_string_loop, FILE.data_atEnd]
  | succ n ih =>
    intro data buf h
    cases data with
    | nil => simp [_consume_literal_string_loop, FILE.data_atEnd]
    | cons b rest =>
      simp only [List.length_cons] at h
      cases rest with
      | nil =>
        simp only [_consume_literal_string_loop]
        split_ifs <;> simp [FILE.data_at, FILE.data_atEnd, _consume_literal_string_loop]
      | cons b2 rest2 =>
        simp only [List.length_cons] at h
        simp only [_consume_literal_string_loop]
        split_ifs
        all_goals first
          | exact List.suffix_cons b (b2 :: rest2)
          | exact suffix_tail b (List.suffix_cons b2 rest2)
          | (have hh := ih rest2 (WRITECHAR buf (char_of_int (b2 % 256))).2 (by omega)
             revert hh
             cases _consume_literal_string_loop f rest2 (WRITECHAR buf (char_of_int (b2 % 256))).2 <;>
               intro this <;> exact suffix_tail b (suffix_tail b2 this))
          | (have hh := ih (b2 :: rest2) (WRITECHAR buf (char_of_int (b % 256))).2
               (by simp only [List.length_cons]; omega)
             revert hh
             cases _consume_literal_string_loop f (b2 :: rest2)
               (WRITECHAR buf (char_of_int (b % 256))).2 <;>
               intro this <;> exact suffix_tail b this)

theorem number_loop_suffix (f : FILE) :
    ∀ (data : List Int) (y : Nat) (c : Int) (buf : List Int),
      match _consume_literal_number_loop f data y c buf with
      | .ret _ f' => f'.data <:+ data
      | .out _ _ f' _ => f'.data <:+ data := by
  intro data
  induction data with
  | nil =>
    intro y c buf
    rcases number_loop_cases f [] y c buf with h | ⟨h, _⟩ | ⟨y', buf', _, h⟩ | ⟨_, _, _, _, h, _⟩
    · rw [h]; exact List.suffix_refl _
    · rw [h]; exact List.suffix_refl _
    · rw [h]; simp only [FILE.data_atEnd]; exact List.suffix_refl _
    · cases h
  | cons b rest ih =>
    intro y c buf
    rcases number_loop_cases f (b :: rest) y c buf with
      h | ⟨h, _⟩ | ⟨y', buf', h, _⟩ | ⟨y', buf', b', rest', hd, h | h⟩
    · rw [h]; exact List.suffix_refl _
    · rw [h]; exact List.suffix_refl _
    · cases h
    · simp only [List.cons.injEq] at hd
      obtain ⟨hb', hr⟩ := hd
      subst hb' hr
      rw [h]
      have := ih y' (char_of_int (b % 256)) buf'
      revert this
      cases _consume_literal_number_loop f rest y' (char_of_int (b % 256)) buf' with
      | ret e f' => intro this; exact suffix_tail b this
      | out y2 c2 f2 buf2 => intro this; exact suffix_tail b this
    · simp only [List.cons.injEq] at hd
      obtain ⟨hb', hr⟩ := hd
      subst hb' hr
      rw [h]
      exact List.suffix_cons b rest

theorem skip_space_suffix (f : FILE) :
    ∀ (data : List Int) (c : Int) (line : Nat),
      (skip_space f data c line).2.1.data <:+ data := by
  intro data
  induction data with
  | nil =>
    intro c line
    by_cases h : (isascii c && isspace c) = true
    · rw [skip_space_nil f c line h]
      simp only [FILE.data_atEnd]
      exact List.suffix_refl _
    · simp only [Bool.not_eq_true] at h
      rw [skip_space_stop f _ c line h]
      exact List.suffix_refl _
  | cons b rest ih =>
    intro c line
    by_cases h : (isascii c && isspace c) = true
    · rw [skip_space_cons f b rest c line h]
      exact suffix_tail b (ih _ _)
    · simp only [Bool.not_eq_true] at h
      rw [skip_space_stop f _ c line h]
      exact List.suffix_refl _

theorem getc_suffix (f : FILE) : (getc f).2.data <:+ f.data := by
  unfold getc
  cases h : f.data with
  | nil => simp only [FILE.data_atEnd]; exact List.suffix_refl _
  | cons b rest => exact List.suffix_cons b rest

theorem after_space_suffix (d : json_doc) :
    (after_space d).1.jdoc_f.data <:+ d.jdoc_f.data := by
  unfold after_space
  simp only
  by_cases hn : d.jdoc_nextc_avail = true
  · simp only [hn, if_true]
    exact skip_space_suffix _ _ _ _
  · simp only [hn, Bool.false_eq_true, if_false]
    exact (skip_space_suffix _ _ _ _).trans (getc_suffix d.jdoc_f)

theorem consume_literal_suffix (doc : json_doc) (c : Int) :
    (_consume_literal doc c).2.2.jdoc_f.data <:+ doc.jdoc_f.data := by
  unfold _consume_literal RETURN_TOKEN_ERROR RETURN_TOKEN_LIT
  simp only
  split_ifs <;> exact literal_loop_suffix _ _ _

theorem consume_literal_string_suffix (doc : json_doc) (c : Int) :
    (_consume_literal_string doc c).2.2.jdoc_f.data <:+ doc.jdoc_f.data := by
  unfold _consume_literal_string RETURN_TOKEN_ERROR RETURN_TOKEN_LIT
  simp only
  have h := string_loop_suffix doc.jdoc_f doc.jdoc_f.data.length doc.jdoc_f.data [] (le_refl _)
  revert h
  cases _consume_literal_string_loop doc.jdoc_f doc.jdoc_f.data [] with
  | ret e f' => intro h; exact h
  | out c' f' buf =>
    intro h
    simp only
    split_ifs <;> exact h

theorem consume_literal_number_suffix (doc : json_doc) (c : Int) :
    (_consume_literal_number doc c).2.2.jdoc_f.data <:+ doc.jdoc_f.data := by
  unfold _consume_literal_number RETURN_TOKEN_ERROR RETURN_TOKEN_LIT
  simp only
  have h := number_loop_suffix doc.jdoc_f doc.jdoc_f.data ST c []
  revert h
  cases _consume_literal_number_loop doc.jdoc_f doc.jdoc_f.data ST c [] with
  | ret e f' => intro h; exact h
  | out y c' f' buf =>
    intro h
    simp only
    split_ifs <;> exact h

theorem token_switch_suffix (doc : json_doc) (c : Int) :
    (token_switch doc c).2.2.jdoc_f.data <:+ doc.jdoc_f.data := by
  unfold token_switch RETURN_TOKEN_ERROR RETURN_TOKEN
  simp only
  by_cases h0 : (c == EOF && feof doc.jdoc_f) = true
  · simp only [if_pos h0]; exact List.suffix_refl _
  simp only [if_neg h0]
  by_cases h1 : (c == EOF && ferror doc.jdoc_f) = true
  · simp only [if_pos h1]; exact List.suffix_refl _
  simp only [if_neg h1]
  by_cases h2 : (!isascii c) = true
  · simp only [if_pos h2]; exact List.suffix_refl _
  simp only [if_neg h2]
  by_cases h3 : (c == 123) = true
  · simp only [if_pos h3]; exact List.suffix_refl _
  simp only [if_neg h3]
  by_cases h4 : (c == 125) = true
  · simp only [if_pos h4]; exact List.suffix_refl _
  simp only [if_neg h4]
  by_cases h5 : (c == 58) = true
  · simp only [if_pos h5]; exact List.suffix_refl _
  simp only [if_neg h5]
  by_cases h6 : (c == 91) = true
  · simp only [if_pos h6]; exact List.suffix_refl _
  simp only [if_neg h6]
  by_cases h7 : (c == 93) = true
  · simp only [if_pos h7]; exact List.suffix_refl _
  simp only [if_neg h7]
  by_cases h8 : (c == 44) = true
  · simp only [if_pos h8]; exact List.suffix_refl _
  simp only [if_neg h8]
  by_cases h9 : ((decide (97 ≤ c) && decide (c ≤ 122)) || (decide (65 ≤ c) && decide (c ≤ 90)) || c == 95) = true
  · simp only [if_pos h9]; exact consume_literal_suffix doc c
  simp only [if_neg h9]
  by_cases h10 : (c == 34) = true
  · simp only [if_pos h10]; exact consume_literal_string_suffix doc c
  simp only [if_neg h10]
  by_cases h11 : (decide (48 ≤ c) && decide (c ≤ 57)) = true
  · simp only [if_pos h11]; exact consume_literal_number_suffix doc c
  simp only [if_neg h11]
  exact List.suffix_refl _

/-- A call of `json_consume_token`, successful or not, leaves unread a
final part of the bytes that were unread before it. -/
theorem consume_suffix (d : json_doc) :
    (json_consume_token d).2.2.jdoc_f.data <:+ d.jdoc_f.data := by
  by_cases hla : d.jdoc_lookahead_avail = true
  · unfold json_consume_token
    simp only [hla, if_true]
    exact List.suffix_refl _
  · simp only [Bool.not_eq_true] at hla
    rw [consume_eq_switch d hla]
    exact (token_switch_suffix _ _).trans (after_space_suffix d)

theorem run_suffix {ts : List json_token} :
    ∀ {d D : json_doc}, Run d ts D → D.jdoc_f.data <:+ d.jdoc_f.data := by
  induction ts with
  | nil => intro d D h; simp only [Run] at h; rw [h]
  | cons t ts ih => intro d D h; exact (ih h.2.2).trans (consume_suffix d)

/-- The handle that `json_parse` returns leaves unread a final part of the
input. -/
theorem parse_suffix {f : FILE} {doc : json_doc} (h : json_parse f = some (0, some doc)) :
    doc.jdoc_f.data <:+ f.data := by
  obtain ⟨obj, D, _, h2, _, h4⟩ := json_parse_run h
  rw [h4]
  exact run_suffix h2

/-! ## Budgets -/

theorem start_fuel_mono (n : Nat) (d : json_doc) (h : _Start n d ≠ .nofuel) (k : Nat) :
    _Start (n + k) d = _Start n d := by
  unfold _Start at h ⊢
  cases hm : _match d JSON_TOK_OBJECT_BEGIN with
  | ok t d1 =>
    rw [hm] at h
    simp only [outcome.bind_ok] at h ⊢
    exact object_fuel_mono n d1 h k
  | error e => rfl
  | nofuel => rfl

/-- Every budget from `parse_fuel f` on gives the result of `json_parse`. -/
theorem json_parse_fuel_ge (f : FILE) (n : Nat) (h : parse_fuel f ≤ n) :
    json_parse_fuel n f = json_parse f := by
  obtain ⟨k, rfl⟩ := Nat.exists_eq_add_of_le h
  unfold json_parse json_parse_fuel
  rw [start_fuel_mono _ _ (start_ne_nofuel f) k]

theorem json_parse_ne_none (f : FILE) : json_parse f ≠ none := by
  rcases json_parse_cases f with ⟨doc, h⟩ | ⟨e, _, h⟩ <;> rw [h] <;> exact fun h => by cases h

/-- The loop of `json_get_value` calls `json_get_value` only on a path that
is shorter than its own. -/
theorem value_loop_congr (r1 r2 : json_object → List Int → Option (Option json_value))
    (path : List Int) (tuples : List json_tuple)
    (h : ∀ o p, p.length < path.length → r1 o p = r2 o p) :
    json_get_value_loop r1 path (segment_length path) (path.drop (segment_length path)) tuples =
      json_get_value_loop r2 path (segment_length path) (path.drop (segment_length path))
        tuples := by
  induction tuples with
  | nil => rfl
  | cons t tuples ih =>
    obtain ⟨key, val⟩ := t
    unfold json_get_value_loop
    split_ifs with hc
    · exact ih
    · cases hr : path.drop (segment_length path) with
      | nil => cases val <;> rfl
      | cons c after =>
        have hl : (path.drop (segment_length path)).length = (c :: after).length := by rw [hr]
        simp only [List.length_drop, List.length_cons] at hl
        cases val with
        | JSON_VAL_OBJECT o => exact h o after (by omega)
        | JSON_VAL_LITERAL s => rfl
        | JSON_VAL_ARRAY a => rfl

/-! ## Claim on termination -/

/-- C32: `json_parse` returns on every input: its result is that of the
parsing functions run with any recursion budget from `9 * n + 3` on, `n`
being the number of bytes of the input, and it is a status with or without
a document. A call of `json_consume_token`, successful or not, leaves
unread a final part of the bytes that were unread before it, and so does
`json_parse`: a byte that was read is not read again. A successful token
other than end-of-input decreases the measure of the handle (three per
unread byte, two or one for a pushed-back character, one for a look-ahead
token), and each of `_Value`, `_Array_r`, `_Array`, `_Object_r` and
`_Object`, run with a budget of three times the measure plus three,
returns without using it up and, when it succeeds, leaves a handle of
smaller measure. `json_get_value` returns on every path: every budget
above the length of the path gives its result, and its loop calls it only
on a path that is shorter. -/
theorem parse_and_lookup_terminate :
    (∀ (f : FILE) (n : Nat), parse_fuel f ≤ n →
      json_parse_fuel n f = json_parse f ∧ json_parse f ≠ none ∧
      parse_fuel f = 9 * f.data.length + 3) ∧
    (∀ d : json_doc, (json_consume_token d).2.2.jdoc_f.data <:+ d.jdoc_f.data ∧
      ((json_consume_token d).1 = 0 → (json_consume_token d).2.1.tok_id ≠ JSON_TOK_EOF →
        doc_measure (json_consume_token d).2.2 < doc_measure d)) ∧
    (∀ (f : FILE) (doc : json_doc), json_parse f = some (0, some doc) →
      doc.jdoc_f.data <:+ f.data) ∧
    (∀ (fuel : Nat) (d : json_doc) (ix : Nat), 3 * doc_measure d + 3 ≤ fuel →
      (_Value fuel d).within (doc_measure d) ∧ (_Array_r fuel d ix).within (doc_measure d) ∧
      (_Array fuel d).within (doc_measure d) ∧ (_Object_r fuel d ix).within (doc_measure d) ∧
      (_Object fuel d).within (doc_measure d)) ∧
    (∀ (n : Nat) (obj : json_object) (path : List Int), path.length < n →
      json_get_value_fuel n obj path = some (json_get_value obj path)) ∧
    (∀ (r1 r2 : json_object → List Int → Option (Option json_value)) (path : List Int)
        (tuples : List json_tuple),
      (∀ o p, p.length < path.length → r1 o p = r2 o p) →
      json_get_value_loop r1 path (segment_length path) (path.drop (segment_length path))
          tuples =
        json_get_value_loop r2 path (segment_length path) (path.drop (segment_length path))
          tuples) :=
  ⟨fun f n h => ⟨json_parse_fuel_ge f n h, json_parse_ne_none f, rfl⟩,
    fun d => ⟨consume_suffix d, fun h0 hne => consume_measure d h0 hne⟩,
    fun _ _ h => parse_suffix h,
    fun fuel d ix h =>
      ⟨(parse_total fuel).1 d (by omega), (parse_total fuel).2.1 d ix (by omega),
        (parse_total fuel).2.2.1 d h, (parse_total fuel).2.2.2.1 d ix (by omega),
        (parse_total fuel).2.2.2.2 d h⟩,
    fun n obj path h => json_get_value_fuel_eq n obj path h,
    fun r1 r2 path tuples h => value_loop_congr r1 r2 path tuples h⟩

theorem parse_and_lookup_terminate_witness :
    (json_parse_fuel 100 (fmemopen (text "\x7bx:[1,2]\x7d")) =
        json_parse (fmemopen (text "\x7bx:[1,2]\x7d")) ∧
      json_parse (fmemopen (text "\x7bx:[1,2]\x7d")) ≠ none ∧
      parse_fuel (fmemopen (text "\x7bx:[1,2]\x7d")) =
        9 * (fmemopen (text "\x7bx:[1,2]\x7d")).data.length + 3) ∧
    json_get_value_fuel 9
        [(text "a", JSON_VAL_OBJECT [(text "b", JSON_VAL_LITERAL (text "1"))])] (text "a/b") =
      some (json_get_value
        [(text "a", JSON_VAL_OBJECT [(text "b", JSON_VAL_LITERAL (text "1"))])] (text "a/b")) :=
  ⟨parse_and_lookup_terminate.1 (fmemopen (text "\x7bx:[1,2]\x7d")) 100 (by decide),
    parse_and_lookup_terminate.2.2.2.2.1 9 _ (text "a/b") (by decide)⟩

/-! ## Claim on the input after the root object -/

/-- C33: for every stream `f` of bytes that `json_parse` accepts and every
stream `g` that holds the bytes of `f` followed by any `t`, `json_parse`
accepts `g` and returns the same tree, and the unread bytes of the handle
returned for `g` are the unread bytes of the handle returned for `f`
followed by `t`, no character being pushed back: nothing after the closing
brace of the root object is read. The inputs `{x:1}}`, `{x:1} garbage` and
`{}{}` are accepted, with the trees of `{x:1}`, `{x:1}` and `{}`, and the
bytes after the first closing brace are left unread. -/
theorem trailing_input_not_examined :
    (∀ (f g : FILE) (doc : json_doc) (t : List Int), is_bytes f.data = true →
      g.data = f.data ++ t → json_parse f = some (0, some doc) →
      ∃ doc', json_parse g = some (0, some doc') ∧ doc'.jdoc_obj = doc.jdoc_obj ∧
        doc'.jdoc_f.data = doc.jdoc_f.data ++ t ∧ doc'.jdoc_nextc_avail = false ∧
        doc.jdoc_nextc_avail = false) ∧
    (∃ doc, json_parse_string (text "\x7bx:1\x7d\x7d") = some (0, some doc) ∧
      json_doc_object doc = some [(text "x", JSON_VAL_LITERAL (text "1"))] ∧
      doc.jdoc_f.data = text "\x7d") ∧
    (∃ doc, json_parse_string (text "\x7bx:1\x7d garbage") = some (0, some doc) ∧
      json_doc_object doc = some [(text "x", JSON_VAL_LITERAL (text "1"))] ∧
      doc.jdoc_f.data = text " garbage") ∧
    (∃ doc, json_parse_string (text "\x7b\x7d\x7b\x7d") = some (0, some doc) ∧
      json_doc_object doc = some [] ∧ doc.jdoc_f.data = text "\x7b\x7d") := by
  refine ⟨fun f g doc t hb hg h => ?_, ⟨_, rfl, rfl, rfl⟩, ⟨_, rfl, rfl, rfl⟩,
    ⟨_, rfl, rfl, rfl⟩⟩
  obtain ⟨obj, input, h1, h2, h3, h4⟩ := parse_inv f doc hb h
  obtain ⟨doc', j1, j2, j3, j4⟩ := parse_sentence_rest obj input (doc.jdoc_f.data ++ t) g
    (by rw [hg, h2, List.append_assoc]) h3
  exact ⟨doc', j1, by rw [j2, h1], j3, j4, h4⟩

theorem trailing_input_not_examined_witness :
    ∃ doc', json_parse (fmemopen (text "\x7bx:1\x7d, \x7b\x7d]")) = some (0, some doc') ∧
      doc'.jdoc_obj = some [(text "x", JSON_VAL_LITERAL (text "1"))] ∧
      doc'.jdoc_f.data = [] ++ text ", \x7b\x7d]" ∧ doc'.jdoc_nextc_avail = false ∧
      false = false :=
  trailing_input_not_examined.1 (fmemopen (text "\x7bx:1\x7d"))
    (fmemopen (text "\x7bx:1\x7d, \x7b\x7d]"))
    (json_doc.mk (fmemopen []) 1 false 125 false ⟨JSON_TOK_LIT, some (text "x")⟩
      (some [(text "x", JSON_VAL_LITERAL (text "1"))])) (text ", \x7b\x7d]")
    (by decide) rfl rfl

/-! ## Empty segments, keys that no segment matches -/

theorem get_value_spec_empty_segment (segs : List (List Int)) :
    ∀ obj : json_object, [] ∈ segs → get_value_spec_nonempty obj segs = none := by
  induction segs with
  | nil => intro obj h; cases h
  | cons seg segs ih =>
    intro obj h
    unfold get_value_spec_nonempty
    by_cases hs : seg = []
    · rw [if_pos hs]
    · rw [if_neg hs]
      have hm : [] ∈ segs := by
        rcases List.mem_cons.1 h with h1 | h1
        · exact absurd h1.symm hs
        · exact h1
      have hne : segs ≠ [] := fun e => by rw [e] at hm; cases hm
      cases obj.find? (fun t => key_matches t.1 seg) with
      | none => rfl
      | some t =>
        simp only [if_neg hne]
        cases t.2 with
        | JSON_VAL_OBJECT o => exact ih o hm
        | JSON_VAL_LITERAL s => rfl
        | JSON_VAL_ARRAY a => rfl

theorem split_path_join (pre rest : List Int) :
    split_path (pre ++ 47 :: rest) = split_path pre ++ split_path rest := by
  induction pre with
  | nil => simp [split_path]
  | cons c cs ih =>
    rw [List.cons_append, split_path_cons, split_path_cons, ih]
    by_cases h : (c == 47) = true
    · simp [h]
    · simp only [h, if_false]
      have hne := split_path_ne_nil cs
      cases hc : split_path cs with
      | nil => exact absurd hc hne
      | cons seg segs => simp

theorem segment_no_slash (path : List Int) :
    (47 : Int) ∉ path.takeWhile (fun c => c != 47) := by
  intro h
  have := List.mem_takeWhile_imp h
  simp at this

/-- A key that is empty or contains `/` matches no segment. -/
theorem key_matches_unreachable (key seg : List Int) (hk : key = [] ∨ (47 : Int) ∈ key)
    (hs : seg ≠ []) (h47 : (47 : Int) ∉ seg) : key_matches key seg = false := by
  unfold key_matches
  rcases hk with hk | hk
  · subst hk
    have : seg.length ≠ 0 := fun e => hs (List.length_eq_zero.1 e)
    have h0 : ((0 : Nat) == seg.length) = false := by
      simpa using fun e : 0 = seg.length => this e.symm
    simp [h0]
  · have hne : key.map tolower ≠ seg.map tolower := by
      intro e
      have h1 : tolower 47 ∈ key.map tolower := List.mem_map_of_mem _ hk
      rw [e] at h1
      obtain ⟨c, hc, hc2⟩ := List.mem_map.1 h1
      have h2 : (tolower c == 47) = true := by
        rw [hc2]; decide
      rw [tolower_eq_slash] at h2
      have : c = 47 := by simpa using h2
      rw [this] at hc
      exact h47 hc
    have h3 : (key.map tolower == seg.map tolower) = false := by simpa using hne
    rw [h3, Bool.and_false]

/-- The test of the loop of `json_get_value` skips a tuple whose key is
empty or contains `/`. -/
theorem loop_skips_unreachable (key path : List Int) (hk : key = [] ∨ (47 : Int) ∈ key)
    (hl : segment_length path ≠ 0) :
    (strlen key != segment_length path || strncasecmp key path (segment_length path) != 0)
      = true := by
  rw [loop_test_eq, key_matches_unreachable key _ hk ?_ (segment_no_slash path)]
  · rfl
  · intro e
    apply hl
    unfold segment_length
    rw [e]
    rfl

theorem tuple_loop_value (rt : json_object → List Int → Option (Option json_tuple))
    (rv : json_object → List Int → Option (Option json_value))
    (hr : ∀ o p, (rt o p).map (Option.map Prod.snd) = rv o p)
    (path : List Int) (len : Nat) (rest : List Int) (tuples : List json_tuple) :
    (json_get_value_tuple_loop rt path len rest tuples).map (Option.map Prod.snd) =
      json_get_value_loop rv path len rest tuples := by
  induction tuples with
  | nil => rfl
  | cons t tuples ih =>
    obtain ⟨key, val⟩ := t
    unfold json_get_value_tuple_loop json_get_value_loop
    split_ifs with h
    · exact ih
    · cases rest with
      | nil => cases val <;> rfl
      | cons c after =>
        cases val with
        | JSON_VAL_OBJECT o => exact hr o after
        | JSON_VAL_LITERAL s => rfl
        | JSON_VAL_ARRAY a => rfl

theorem tuple_fuel_value (n : Nat) : ∀ (obj : json_object) (path : List Int),
    (json_get_value_tuple_fuel n obj path).map (Option.map Prod.snd) =
      json_get_value_fuel n obj path := by
  induction n with
  | zero => intro obj path; rfl
  | succ n ih =>
    intro obj path
    unfold json_get_value_tuple_fuel json_get_value_fuel
    dsimp only
    split_ifs with h
    · rfl
    · exact tuple_loop_value _ _ ih path _ _ obj

theorem tuple_loop_congr (r1 r2 : json_object → List Int → Option (Option json_tuple))
    (path : List Int) (len : Nat) (rest : List Int) (tuples : List json_tuple)
    (h : ∀ o c after, rest = c :: after → r1 o after = r2 o after) :
    json_get_value_tuple_loop r1 path len rest tuples =
      json_get_value_tuple_loop r2 path len rest tuples := by
  induction tuples with
  | nil => rfl
  | cons t tuples ih =>
    obtain ⟨key, val⟩ := t
    unfold json_get_value_tuple_loop
    split_ifs with hc
    · exact ih
    · cases rest with
      | nil => cases val <;> rfl
      | cons c after =>
        cases val with
        | JSON_VAL_OBJECT o => exact h o c after rfl
        | JSON_VAL_LITERAL s => rfl
        | JSON_VAL_ARRAY a => rfl

theorem tuple_fuel_congr (n : Nat) : ∀ (m : Nat) (obj : json_object) (path : List Int),
    path.length < n → path.length < m →
    json_get_value_tuple_fuel n obj path = json_get_value_tuple_fuel m obj path := by
  induction n with
  | zero => intro m obj path h; omega
  | succ n ih =>
    intro m obj path hn hm
    cases m with
    | zero => omega
    | succ m =>
      unfold json_get_value_tuple_fuel
      dsimp only
      split_ifs with hz
      · rfl
      · refine tuple_loop_congr _ _ path _ _ obj fun o c after e => ?_
        have hl : (path.drop (segment_length path)).length = (c :: after).length := by rw [e]
        simp only [List.length_drop, List.length_cons] at hl
        exact ih m o after (by omega) (by omega)

/-- The budget of `json_get_value_tuple` is enough. -/
theorem json_get_value_tuple_fuel_eq (n : Nat) (obj : json_object) (path : List Int)
    (h : path.length < n) :
    json_get_value_tuple_fuel n obj path = some (json_get_value_tuple obj path) := by
  have h1 := tuple_fuel_value n obj path
  rw [json_get_value_fuel_eq n obj path h] at h1
  unfold json_get_value_tuple
  rw [← tuple_fuel_congr n (path.length + 1) obj path h (by omega)]
  cases hx : json_get_value_tuple_fuel n obj path with
  | none => rw [hx] at h1; cases h1
  | some x => rfl

theorem json_get_value_tuple_value (obj : json_object) (path : List Int) :
    (json_get_value_tuple obj path).map Prod.snd = json_get_value obj path := by
  have h1 := tuple_fuel_value (path.length + 1) obj path
  rw [json_get_value_fuel_eq _ obj path (by omega)] at h1
  unfold json_get_value_tuple
  cases hx : json_get_value_tuple_fuel (path.length + 1) obj path with
  | none => rw [hx] at h1; cases h1
  | some x =>
    rw [hx] at h1
    exact Option.some.inj h1

/-- The tuple that the loop returns has a key that the test has not
skipped. -/
theorem tuple_loop_key (rt : json_object → List Int → Option (Option json_tuple))
    (path : List Int) (hl : segment_length path ≠ 0) (rest : List Int)
    (hr : ∀ o p t, rt o p = some (some t) → t.1 ≠ [] ∧ (47 : Int) ∉ t.1)
    (tuples : List json_tuple) (t : json_tuple)
    (h : json_get_value_tuple_loop rt path (segment_length path) rest tuples = some (some t)) :
    t.1 ≠ [] ∧ (47 : Int) ∉ t.1 := by
  induction tuples with
  | nil => cases h
  | cons u tuples ih =>
    obtain ⟨key, val⟩ := u
    unfold json_get_value_tuple_loop at h
    by_cases hc : (strlen key != segment_length path ||
        strncasecmp key path (segment_length path) != 0) = true
    · rw [if_pos hc] at h
      exact ih h
    · rw [if_neg hc] at h
      have hk : ¬ (key = [] ∨ (47 : Int) ∈ key) := fun hk =>
        hc (loop_skips_unreachable key path hk hl)
      cases rest with
      | nil =>
        have e : t = (key, val) := by
          cases val <;> exact (Option.some.inj (Option.some.inj h)).symm
        rw [e]
        exact ⟨fun e1 => hk (Or.inl e1), fun e1 => hk (Or.inr e1)⟩
      | cons c after =>
        cases val with
        | JSON_VAL_OBJECT o => exact hr o after t h
        | JSON_VAL_LITERAL s => cases h
        | JSON_VAL_ARRAY a => cases h

theorem tuple_fuel_key (n : Nat) : ∀ (obj : json_object) (path : List Int) (t : json_tuple),
    json_get_value_tuple_fuel n obj path = some (some t) → t.1 ≠ [] ∧ (47 : Int) ∉ t.1 := by
  induction n with
  | zero => intro obj path t h; cases h
  | succ n ih =>
    intro obj path t h
    unfold json_get_value_tuple_fuel at h
    dsimp only at h
    by_cases hz : (segment_length path == 0) = true
    · rw [if_pos hz] at h; cases h
    · rw [if_neg hz] at h
      exact tuple_loop_key _ path (by simpa using hz) _ ih obj t h

/-- The tuple that `json_get_value` returns has a key that is not empty and
has no `/`. -/
theorem json_get_value_tuple_key (obj : json_object) (path : List Int) (t : json_tuple)
    (h : json_get_value_tuple obj path = some t) : t.1 ≠ [] ∧ (47 : Int) ∉ t.1 := by
  refine tuple_fuel_key (path.length + 1) obj path t ?_
  rw [json_get_value_tuple_fuel_eq _ obj path (by omega), h]

/-- A lookup does not see a tuple whose key is empty or contains `/`. -/
theorem json_get_value_skip (pre post : json_object) (key : List Int) (val : json_value)
    (path : List Int) (hk : key = [] ∨ (47 : Int) ∈ key) :
    json_get_value (pre ++ (key, val) :: post) path = json_get_value (pre ++ post) path := by
  rw [json_get_value_eq_spec, json_get_value_eq_spec, split_path_eq]
  unfold get_value_spec_nonempty
  by_cases hs : (path.takeWhile fun c => c != 47) = []
  · rw [if_pos hs, if_pos hs]
  · rw [if_neg hs, if_neg hs]
    have hm := key_matches_unreachable key _ hk hs (segment_no_slash path)
    have hf : (pre ++ (key, val) :: post).find?
          (fun t => key_matches t.1 (path.takeWhile fun c => c != 47)) =
        (pre ++ post).find? (fun t => key_matches t.1 (path.takeWhile fun c => c != 47)) := by
      rw [List.find?_append, List.find?_append, List.find?_cons_of_neg _ (by simp [hm])]
    rw [hf]

/-! ## Claim on empty segments and on keys that no path reaches -/

/-- C34: for every object, `json_get_value` returns `NULL` for every path
one of whose segments is empty: the empty path, a path that starts with
`/`, a path that ends with `/`, a path that contains `//`. The tuple whose
value `json_get_value` returns has a key that is neither empty nor contains
`/`, and a lookup gives the same result when a tuple with such a key is
taken out of the object. The parser accepts `{"":1, "a/b":2}`, whose keys
are the empty text and `a/b`, and every lookup in that object returns
`NULL`. -/
theorem empty_segment_not_found :
    (∀ (obj : json_object) (path : List Int), [] ∈ split_path path →
      json_get_value obj path = none) ∧
    (∀ (obj : json_object) (pre post : List Int),
      json_get_value obj [] = none ∧ json_get_value obj (47 :: post) = none ∧
      json_get_value obj (pre ++ [47]) = none ∧
      json_get_value obj (pre ++ 47 :: 47 :: post) = none) ∧
    (∀ (obj : json_object) (path : List Int),
      (json_get_value_tuple obj path).map Prod.snd = json_get_value obj path ∧
      ∀ t, json_get_value_tuple obj path = some t → t.1 ≠ [] ∧ (47 : Int) ∉ t.1) ∧
    (∀ (pre post : json_object) (key : List Int) (val : json_value) (path : List Int),
      key = [] ∨ (47 : Int) ∈ key →
      json_get_value (pre ++ (key, val) :: post) path = json_get_value (pre ++ post) path) ∧
    ((json_parse_string (text "\x7b\x22\x22:1, \x22a/b\x22:2\x7d")).map
        (fun r => (r.1, r.2.map json_doc_object)) =
      some (0, some (some [([], JSON_VAL_LITERAL (text "1")),
        (text "a/b", JSON_VAL_LITERAL (text "2"))])) ∧
      ∀ path : List Int,
        json_get_value [([], JSON_VAL_LITERAL (text "1")),
          (text "a/b", JSON_VAL_LITERAL (text "2"))] path = none) := by
  have h1 : ∀ (obj : json_object) (path : List Int), [] ∈ split_path path →
      json_get_value obj path = none := by
    intro obj path h
    rw [json_get_value_eq_spec]
    exact get_value_spec_empty_segment _ obj h
  refine ⟨h1, fun obj pre post => ⟨h1 obj [] (by simp [split_path]),
      h1 obj _ (by simp [split_path]), h1 obj _ ?_, h1 obj _ ?_⟩,
    fun obj path => ⟨json_get_value_tuple_value obj path,
      fun t h => json_get_value_tuple_key obj path t h⟩,
    fun pre post key val path hk => json_get_value_skip pre post key val path hk, rfl,
    fun path => ?_⟩
  · rw [split_path_join]
    simp [split_path]
  · rw [split_path_join]
    simp [split_path]
  · have e1 := json_get_value_skip [] [(text "a/b", JSON_VAL_LITERAL (text "2"))] []
      (JSON_VAL_LITERAL (text "1")) path (Or.inl rfl)
    have e2 := json_get_value_skip [] [] (text "a/b") (JSON_VAL_LITERAL (text "2")) path
      (Or.inr (by decide))
    simp only [List.nil_append] at e1 e2
    rw [e1, e2]
    exact json_get_value_no_length [] path fun t ht => by cases ht

theorem empty_segment_not_found_witness :
    [] ∈ split_path (text "a//b") ∧
    json_get_value
      [(text "a", JSON_VAL_OBJECT [([], JSON_VAL_OBJECT [(text "b", JSON_VAL_LITERAL (text "1"))])])]
      (text "a//b") = none ∧
    ((text "a/b" = [] ∨ (47 : Int) ∈ text "a/b") ∧
      json_get_value ([(text "x", JSON_VAL_LITERAL (text "0"))] ++
          (text "a/b", JSON_VAL_LITERAL (text "2")) :: [(text "a", JSON_VAL_ARRAY [])])
          (text "a") =
        json_get_value ([(text "x", JSON_VAL_LITERAL (text "0"))] ++
          [(text "a", JSON_VAL_ARRAY [])]) (text "a")) :=
  ⟨by decide, empty_segment_not_found.1 _ (text "a//b") (by decide),
    Or.inr (by decide),
    empty_segment_not_found.2.2.2.1 [(text "x", JSON_VAL_LITERAL (text "0"))]
      [(text "a", JSON_VAL_ARRAY [])] (text "a/b") (JSON_VAL_LITERAL (text "2")) (text "a")
      (Or.inr (by decide))⟩

/-! ## The buffer after a successful validation -/

theorem fail_with_err (err : Nat) (msg buf : List Int) (size : Nat) (mem : Nat → cell) :
    (fail_with err msg buf size mem).err = err := rfl

mutual

theorem ifeq_no_descend (strtod : List Int → conversion double) (obj : json_object)
    (key exp : List Int) :
    ∀ (sub : Option (List json_schema)) (buf : List Int) (size : Nat) (mem : Nat → cell),
      sub_no_descend sub = true → (_ifeq strtod obj key exp sub buf size mem).err = 0 →
      (_ifeq strtod obj key exp sub buf size mem).buf = buf ∧
        ifeq_text strtod obj key exp sub mem = none
  | none, buf, size, mem, _, he => by
    simp only [_ifeq, fail_with_err] at he
    exact absurd he (by decide)
  | some schema, buf, size, mem, hn, he => by
    simp only [_ifeq, ifeq_text] at he ⊢
    cases h : json_get_literal obj key with
    | none => exact ⟨rfl, rfl⟩
    | some jval =>
      rw [h] at he
      dsimp only at he ⊢
      by_cases hc : (strcasecmp jval exp == 0) = true
      · rw [if_pos hc] at he ⊢
        rw [if_pos hc]
        exact validate_no_descend strtod obj schema buf size mem hn he
      · rw [if_neg hc, if_neg hc]
        exact ⟨rfl, rfl⟩
termination_by structural x => x

theorem switch_no_descend (strtod : List Int → conversion double) (obj : json_object) :
    ∀ (it : json_schema) (buf : List Int) (size : Nat) (mem : Nat → cell),
      rule_no_descend it = true → (json_validate_switch strtod obj it buf size mem).err = 0 →
      (json_validate_switch strtod obj it buf size mem).buf = buf ∧
        switch_text strtod obj it mem = none
  | JSON_SCHEMA_OP_RECURSIVE key sub, buf, size, mem, hn, _ => by
    simp [rule_no_descend] at hn
  | JSON_SCHEMA_OP_DEFINE key ty req vp lp, buf, size, mem, _, he => by
    simp only [json_validate_switch, _define, switch_text] at he ⊢
    by_cases hx : (_define_body strtod obj key ty req vp lp mem).1 = return_0
    · rw [if_pos hx, if_pos hx]
      exact ⟨rfl, rfl⟩
    · rw [if_neg hx, fail_with_err] at he
      generalize (_define_body strtod obj key ty req vp lp mem).1 = x at hx he
      cases x <;> first | exact absurd rfl hx | exact absurd he (fun h => by cases h)
  | JSON_SCHEMA_OP_IFEQ key exp sub, buf, size, mem, hn, he => by
    simp only [json_validate_switch, switch_text] at he ⊢
    exact ifeq_no_descend strtod obj key exp sub buf size mem
      (by simpa [rule_no_descend] using hn) he
  | other _, buf, size, mem, _, he => by
    simp only [json_validate_switch, fail_with_err] at he
    exact absurd he (by decide)
termination_by structural x => x

/-- A successful validation by a schema without a Descend rule leaves the
buffer as it was, and has no text. -/
theorem validate_no_descend (strtod : List Int → conversion double) (obj : json_object) :
    ∀ (schema : List json_schema) (buf : List Int) (size : Nat) (mem : Nat → cell),
      schema_no_descend schema = true → (json_validate strtod obj schema buf size mem).err = 0 →
      (json_validate strtod obj schema buf size mem).buf = buf ∧
        validate_text strtod obj schema mem = none
  | [], _, _, _, _, _ => ⟨rfl, rfl⟩
  | it :: rest, buf, size, mem, hn, he => by
    simp only [schema_no_descend, Bool.and_eq_true] at hn
    have hs := switch_status strtod obj it buf [] size 0 mem
    simp only [json_validate, validate_text] at he ⊢
    rw [← hs.1, ← hs.2]
    by_cases h1 : ((json_validate_switch strtod obj it buf size mem).err != 0) = true
    · rw [if_pos h1] at he
      exact absurd he (by simpa using h1)
    · rw [if_neg h1] at he ⊢
      rw [if_neg h1]
      have h0 : (json_validate_switch strtod obj it buf size mem).err = 0 := by simpa using h1
      have e1 := switch_no_descend strtod obj it buf size mem hn.1 h0
      have e2 := validate_no_descend strtod obj rest
        (json_validate_switch strtod obj it buf size mem).buf size
        (json_validate_switch strtod obj it buf size mem).mem hn.2 he
      refine ⟨e2.1.trans e1.1, ?_⟩
      rw [e2.2, e1.2]
      rfl
termination_by structural x => x

end

/-! ## A Descend rule writes its prefix -/

/-- The text in the buffer after a Descend rule whose key resolves to an
Object. -/
theorem descend_text (strtod : List Int → conversion double) (obj : json_object)
    (key : List Int) (sub : List json_schema) (subobj : json_object) (buf : List Int)
    (size : Nat) (mem : Nat → cell)
    (hv : json_get_value obj key = some (JSON_VAL_OBJECT subobj))
    (hk : schema_keys_ok [JSON_SCHEMA_OP_RECURSIVE key (some sub)] = true)
    (hs : size ≤ buf.length) (h0 : 0 < size) :
    c_string (json_validate strtod obj [JSON_SCHEMA_OP_RECURSIVE key (some sub)] buf size
        mem).buf =
      (format_key "in \x60" key "\x27: " ++
        (validate_text strtod subobj sub mem).getD []).take (size - 1) := by
  obtain ⟨_, _, _, w4, _⟩ := validate_writes_text strtod obj
    [JSON_SCHEMA_OP_RECURSIVE key (some sub)] buf size mem hk hs
  refine w4 _ ?_ h0
  rw [validate_text_single]
  simp only [switch_text, recursive_text, hv]

/-- The buffer after a Descend rule whose key resolves to an Object and
whose prefix fits: the prefix, then what the validation of the sub-schema
leaves of the NUL and of the characters after it. -/
theorem descend_fits (strtod : List Int → conversion double) (obj : json_object)
    (key : List Int) (sub : List json_schema) (subobj : json_object) (buf : List Int)
    (size : Nat) (mem : Nat → cell)
    (hv : json_get_value obj key = some (JSON_VAL_OBJECT subobj))
    (hs : size ≤ buf.length) (hl : (format_key "in \x60" key "\x27: ").length < size) :
    json_validate strtod obj [JSON_SCHEMA_OP_RECURSIVE key (some sub)] buf size mem =
      ⟨(json_validate strtod subobj sub
          (0 :: buf.drop ((format_key "in \x60" key "\x27: ").length + 1))
          (size - (format_key "in \x60" key "\x27: ").length) mem).err,
        format_key "in \x60" key "\x27: " ++
          (json_validate strtod subobj sub
            (0 :: buf.drop ((format_key "in \x60" key "\x27: ").length + 1))
            (size - (format_key "in \x60" key "\x27: ").length) mem).buf,
        (json_validate strtod subobj sub
          (0 :: buf.drop ((format_key "in \x60" key "\x27: ").length + 1))
          (size - (format_key "in \x60" key "\x27: ").length) mem).mem⟩ := by
  rw [descend_rule_eq strtod obj key sub buf size mem subobj hv, snprintf_fits _ _ _ hl hs,
    if_pos hl]
  simp

/-- A validation that succeeds: each part of the schema succeeds. -/
theorem validate_append_ok (strtod : List Int → conversion double) (obj : json_object)
    (s1 s2 : List json_schema) (buf : List Int) (size : Nat) (mem : Nat → cell)
    (he : (json_validate strtod obj (s1 ++ s2) buf size mem).err = 0) :
    (json_validate strtod obj s1 buf size mem).err = 0 ∧
    json_validate strtod obj (s1 ++ s2) buf size mem =
      json_validate strtod obj s2 (json_validate strtod obj s1 buf size mem).buf size
        (json_validate strtod obj s1 buf size mem).mem := by
  rw [validate_append] at he ⊢
  by_cases h1 : ((json_validate strtod obj s1 buf size mem).err != 0) = true
  · rw [if_pos h1] at he
    exact absurd he (by simpa using h1)
  · rw [if_neg h1]
    exact ⟨by simpa using h1, rfl⟩

/-! ## Claim on the buffer after a successful validation -/

/-- C35: for every object, every buffer of at least `size` characters and
every Descend rule whose key (a text without NUL) resolves to an Object:
the rule leaves in the buffer the text of its prefix and of what the
validation of the sub-schema writes after it, cut to `size - 1`
characters, whether that validation succeeds or not; when the prefix is
shorter than `size` the buffer after the rule starts with the prefix, and
the sub-schema is validated on the buffer behind it, which starts with the
NUL that ends the prefix. When `json_validate` returns 0 for a schema in
which the rules after such a rule leave the buffer as that rule left it,
the text in the buffer is that text, and it is the prefix (cut to
`size - 1` characters) when the sub-schema has no Descend rule. A schema
without a Descend rule at any depth leaves the buffer as it was when the
validation succeeds. -/
theorem descend_writes_buffer (strtod : List Int → conversion double) (obj : json_object) :
    (∀ (key : List Int) (sub : List json_schema) (subobj : json_object) (buf : List Int)
        (size : Nat) (mem : Nat → cell),
      json_get_value obj key = some (JSON_VAL_OBJECT subobj) →
      schema_keys_ok [JSON_SCHEMA_OP_RECURSIVE key (some sub)] = true → size ≤ buf.length →
      (0 < size →
        c_string (json_validate strtod obj [JSON_SCHEMA_OP_RECURSIVE key (some sub)] buf size
            mem).buf =
          (format_key "in \x60" key "\x27: " ++
            (validate_text strtod subobj sub mem).getD []).take (size - 1)) ∧
      ((format_key "in \x60" key "\x27: ").length < size →
        (json_validate strtod obj [JSON_SCHEMA_OP_RECURSIVE key (some sub)] buf size
            mem).buf.take (format_key "in \x60" key "\x27: ").length =
          format_key "in \x60" key "\x27: " ∧
        json_validate strtod obj [JSON_SCHEMA_OP_RECURSIVE key (some sub)] buf size mem =
          ⟨(json_validate strtod subobj sub
              (0 :: buf.drop ((format_key "in \x60" key "\x27: ").length + 1))
              (size - (format_key "in \x60" key "\x27: ").length) mem).err,
            format_key "in \x60" key "\x27: " ++
              (json_validate strtod subobj sub
                (0 :: buf.drop ((format_key "in \x60" key "\x27: ").length + 1))
                (size - (format_key "in \x60" key "\x27: ").length) mem).buf,
            (json_validate strtod subobj sub
              (0 :: buf.drop ((format_key "in \x60" key "\x27: ").length + 1))
              (size - (format_key "in \x60" key "\x27: ").length) mem).mem⟩)) ∧
    (∀ (s1 s2 : List json_schema) (key : List Int) (sub : List json_schema)
        (subobj : json_object) (buf : List Int) (size : Nat) (mem : Nat → cell),
      json_get_value obj key = some (JSON_VAL_OBJECT subobj) →
      schema_keys_ok (s1 ++ [JSON_SCHEMA_OP_RECURSIVE key (some sub)]) = true →
      size ≤ buf.length → 0 < size →
      (json_validate strtod obj (s1 ++ JSON_SCHEMA_OP_RECURSIVE key (some sub) :: s2) buf size
        mem).err = 0 →
      (json_validate strtod obj s2
          (json_validate strtod obj (s1 ++ [JSON_SCHEMA_OP_RECURSIVE key (some sub)]) buf size
            mem).buf size
          (json_validate strtod obj (s1 ++ [JSON_SCHEMA_OP_RECURSIVE key (some sub)]) buf size
            mem).mem).buf =
        (json_validate strtod obj (s1 ++ [JSON_SCHEMA_OP_RECURSIVE key (some sub)]) buf size
          mem).buf →
      c_string (json_validate strtod obj (s1 ++ JSON_SCHEMA_OP_RECURSIVE key (some sub) :: s2)
          buf size mem).buf =
        (format_key "in \x60" key "\x27: " ++
          (validate_text strtod subobj sub
            (json_validate strtod obj s1 buf size mem).mem).getD []).take (size - 1) ∧
      (schema_no_descend sub = true →
        c_string (json_validate strtod obj (s1 ++ JSON_SCHEMA_OP_RECURSIVE key (some sub) :: s2)
            buf size mem).buf = (format_key "in \x60" key "\x27: ").take (size - 1))) ∧
    (∀ (schema : List json_schema) (buf : List Int) (size : Nat) (mem : Nat → cell),
      schema_no_descend schema = true →
      (json_validate strtod obj schema buf size mem).err = 0 →
      (json_validate strtod obj schema buf size mem).buf = buf) := by
  refine ⟨fun key sub subobj buf size mem hv hk hs => ⟨fun h0 =>
      descend_text strtod obj key sub subobj buf size mem hv hk hs h0, fun hl => ?_⟩,
    fun s1 s2 key sub subobj buf size mem hv hk hs h0 he hn => ?_,
    fun schema buf size mem hn he => (validate_no_descend strtod obj schema buf size mem hn he).1⟩
  · have e := descend_fits strtod obj key sub subobj buf size mem hv hs hl
    refine ⟨?_, e⟩
    rw [e]
    simp
  · rw [schema_keys_ok_append] at hk
    simp only [Bool.and_eq_true] at hk
    have e0 : s1 ++ JSON_SCHEMA_OP_RECURSIVE key (some sub) :: s2 =
        (s1 ++ [JSON_SCHEMA_OP_RECURSIVE key (some sub)]) ++ s2 := by simp
    rw [e0] at he ⊢
    obtain ⟨e1, e2⟩ := validate_append_ok strtod obj
      (s1 ++ [JSON_SCHEMA_OP_RECURSIVE key (some sub)]) s2 buf size mem he
    rw [e2, hn]
    obtain ⟨_, e4⟩ := validate_append_ok strtod obj s1 [JSON_SCHEMA_OP_RECURSIVE key (some sub)]
      buf size mem e1
    rw [e4] at e1 ⊢
    have hlen : size ≤ (json_validate strtod obj s1 buf size mem).buf.length := by
      rw [(validate_writes_text strtod obj s1 buf size mem hk.1 hs).1]
      exact hs
    have ht := descend_text strtod obj key sub subobj
      (json_validate strtod obj s1 buf size mem).buf size
      (json_validate strtod obj s1 buf size mem).mem hv hk.2 hlen h0
    refine ⟨ht, fun hsub => ?_⟩
    rw [ht]
    rw [descend_rule_eq strtod obj key sub _ size _ subobj hv] at e1
    simp only at e1
    rw [(validate_no_descend strtod subobj sub _ _ _ hsub e1).2]
    simp

theorem descend_writes_buffer_witness :
    c_string (json_validate strtod_digits
        [(text "a", JSON_VAL_OBJECT [(text "b", JSON_VAL_LITERAL (text "1"))])]
        ([] ++ JSON_SCHEMA_OP_RECURSIVE (text "a")
          (some [JSON_SCHEMA_OP_DEFINE (text "b") JSON_SCHEMA_TYPE_INT true (some 0) none]) ::
          [JSON_SCHEMA_OP_DEFINE (text "a") JSON_SCHEMA_TYPE_OBJ true (some 1) none])
        (List.replicate 16 1) 16 (fun _ => cell.null)).buf =
      (format_key "in \x60" (text "a") "\x27: ").take (16 - 1) ∧
    (json_validate strtod_digits
        [(text "a", JSON_VAL_OBJECT [(text "b", JSON_VAL_LITERAL (text "1"))])]
        [JSON_SCHEMA_OP_DEFINE (text "a") JSON_SCHEMA_TYPE_OBJ true (some 0) none]
        (List.replicate 16 1) 16 (fun _ => cell.null)).buf = List.replicate 16 1 :=
  ⟨((descend_writes_buffer strtod_digits
      [(text "a", JSON_VAL_OBJECT [(text "b", JSON_VAL_LITERAL (text "1"))])]).2.1 []
      [JSON_SCHEMA_OP_DEFINE (text "a") JSON_SCHEMA_TYPE_OBJ true (some 1) none]
      (text "a") [JSON_SCHEMA_OP_DEFINE (text "b") JSON_SCHEMA_TYPE_INT true (some 0) none]
      [(text "b", JSON_VAL_LITERAL (text "1"))] (List.replicate 16 1) 16 (fun _ => cell.null)
      rfl (by decide) (by decide) (by decide) rfl rfl).2 rfl,
    (descend_writes_buffer strtod_digits
      [(text "a", JSON_VAL_OBJECT [(text "b", JSON_VAL_LITERAL (text "1"))])]).2.2
      [JSON_SCHEMA_OP_DEFINE (text "a") JSON_SCHEMA_TYPE_OBJ true (some 0) none]
      (List.replicate 16 1) 16 (fun _ => cell.null) rfl rfl⟩

end Json
